import Mathlib

/-!
# State-forking interpreter core: a shallow embedding

The development follows `klee/lib/Core/Executor.cpp`, `TimingSolver.cpp`,
`AddressSpace.h` and `Memory.h`.  A pointer to an execution state is a natural
number, the heap of states is a partial map on them, `assert` failures and
`abort()` are the error side of `Except Fatal`, and the external collaborators
(wrapped solver, random generator, seed assignments) are oracles collected in
`Env`.
-/

namespace Klee

/-! ## Symbolic values -/

/-- Modelled from the spec: the Symbolic Value of section 2 (`klee/Expr.h` is not
among the sources): an expression tree over fixed-width bitvectors whose
constants are a distinguished subtype.  `Constant w v` is the constant of width
`w` with value `v mod 2^w`; `Read a w` is a symbolic input of width `w`. -/
inductive Expr where
  | Constant (width : Nat) (value : Nat)
  | Read (array : Nat) (width : Nat)
  | Eq (l r : Expr)
  | And (l r : Expr)
  | Or (l r : Expr)
  | Concat (l r : Expr)
  | Extract (e : Expr) (offset : Nat) (width : Nat)
  | Sub (l r : Expr)
  | Ult (l r : Expr)
  deriving DecidableEq, Repr

namespace Expr

/-- Modelled from the spec: the width query `Expr::getWidth` of the expression
library. -/
def getWidth : Expr → Nat
  | Constant w _ => w
  | Read _ w => w
  | Eq _ _ => 1
  | And l _ => getWidth l
  | Or l _ => getWidth l
  | Concat l r => getWidth l + getWidth r
  | Extract _ _ w => w
  | Sub l _ => getWidth l
  | Ult _ _ => 1

/-- Modelled from the spec: the constant-fold predicate `isa<ConstantExpr>`. -/
def isConstant : Expr → Bool
  | Constant _ _ => true
  | _ => false

/-- Modelled from the spec: the predicate `ConstantExpr::isTrue`, a Bool-width
constant with value one. -/
def isTrue : Expr → Bool
  | Constant w v => decide (w = 1) && decide (v % 2 = 1)
  | _ => false

/-- Value of an expression under an assignment of the symbolic inputs. -/
def eval (σ : Nat → Nat) : Expr → Nat
  | Constant w v => v % 2 ^ w
  | Read a w => σ a % 2 ^ w
  | Eq l r => if eval σ l = eval σ r then 1 else 0
  | And l r => Nat.land (eval σ l) (eval σ r)
  | Or l r => Nat.lor (eval σ l) (eval σ r)
  | Concat l r => eval σ l * 2 ^ getWidth r + eval σ r
  | Extract e o w => (eval σ e / 2 ^ o) % 2 ^ w
  | Sub l r => (eval σ l + 2 ^ getWidth l - eval σ r % 2 ^ getWidth l) % 2 ^ getWidth l
  | Ult l r => if eval σ l < eval σ r then 1 else 0

/-- A condition holds under an assignment when its value is not zero. -/
def holds (σ : Nat → Nat) (e : Expr) : Prop := eval σ e ≠ 0

/-- Modelled from the spec: `EqExpr::create`, which folds two constants. -/
def EqExpr_create (l r : Expr) : Expr :=
  match l, r with
  | Constant w v, Constant w2 v2 =>
      Constant 1 (if v % 2 ^ w = v2 % 2 ^ w2 then 1 else 0)
  | _, _ => Eq l r

/-- Modelled from the spec: `Expr::createIsZero`, the comparison of the
expression with the zero constant of its width. -/
def createIsZero (e : Expr) : Expr :=
  EqExpr_create (Constant (getWidth e) 0) e

/-- Modelled from the spec: `SubExpr::create`, which folds two constants. -/
def SubExpr_create (l r : Expr) : Expr :=
  match l, r with
  | Constant w v, Constant _ v2 =>
      Constant w ((v % 2 ^ w + 2 ^ w - v2 % 2 ^ w) % 2 ^ w)
  | _, _ => Sub l r

/-- Modelled from the spec: `UltExpr::create`, which folds two constants. -/
def UltExpr_create (l r : Expr) : Expr :=
  match l, r with
  | Constant w v, Constant w2 v2 =>
      Constant 1 (if v % 2 ^ w < v2 % 2 ^ w2 then 1 else 0)
  | _, _ => Ult l r

/-- Modelled from the spec: `AndExpr::create`, which folds two constants. -/
def AndExpr_create (l r : Expr) : Expr :=
  match l, r with
  | Constant w v, Constant w2 v2 => Constant w (Nat.land (v % 2 ^ w) (v2 % 2 ^ w2))
  | _, _ => And l r

/-- Modelled from the spec: `OrExpr::create`, which folds two constants. -/
def OrExpr_create (l r : Expr) : Expr :=
  match l, r with
  | Constant w v, Constant w2 v2 => Constant w (Nat.lor (v % 2 ^ w) (v2 % 2 ^ w2))
  | _, _ => Or l r

/-- Modelled from the spec: `ConstantExpr::getZExtValue`, the value of a
constant (zero for any other expression). -/
def getZExtValue : Expr → Nat
  | Constant w v => v % 2 ^ w
  | _ => 0

end Expr

/-- A conjunction of path constraints is satisfied by an assignment. -/
def satisfies (σ : Nat → Nat) (cs : List Expr) : Prop :=
  ∀ c ∈ cs, Expr.holds σ c

/-! ## Object states and the copy-on-write address space -/

/-- Modelled from the spec: `Expr::getMinBytesForWidth`, the number of bytes
that hold a value of the given bit width. -/
def Expr.getMinBytesForWidth (w : Nat) : Nat := (w + 7) / 8

/-- The members of `MemoryObject` (Memory.h 37-62) the modelled functions read. -/
structure MemoryObject where
  id : Nat := 0
  address : Nat := 0
  size : Nat := 0
  name : String := "unnamed"
  isLocal : Bool := false
  isGlobal : Bool := false
  isFixed : Bool := false
  allocSite : Nat := 0
  deriving DecidableEq, Repr

namespace MemoryObject

/-- The method `MemoryObject::getBaseExpr` (Memory.h 130-132). -/
def getBaseExpr (pointerWidth : Nat) (mo : MemoryObject) : Expr :=
  Expr.Constant pointerWidth mo.address

/-- The method `MemoryObject::getOffsetExpr` (Memory.h 136-138). -/
def getOffsetExpr (pointerWidth : Nat) (mo : MemoryObject) (pointer : Expr) : Expr :=
  Expr.SubExpr_create pointer (mo.getBaseExpr pointerWidth)

/-- The method `MemoryObject::getBoundsCheckOffset(offset, bytes)`
(Memory.h 154-162). The bound `size - bytes + 1` is computed in `unsigned`,
32 bits wide, before it is made a constant of the pointer width. -/
def getBoundsCheckOffset (pointerWidth : Nat) (mo : MemoryObject) (offset : Expr)
    (bytes : Nat) : Expr :=
  if bytes ≤ mo.size then
    Expr.UltExpr_create offset
      (Expr.Constant pointerWidth ((mo.size - bytes + 1) % 2 ^ 32))
  else Expr.Constant 1 0

/-- The method `MemoryObject::getBoundsCheckPointer(pointer, bytes)`
(Memory.h 142-144). -/
def getBoundsCheckPointer (pointerWidth : Nat) (mo : MemoryObject) (pointer : Expr)
    (bytes : Nat) : Expr :=
  mo.getBoundsCheckOffset pointerWidth (mo.getOffsetExpr pointerWidth pointer) bytes

end MemoryObject

/-- The members of `ObjectState` (Memory.h 167-194) behind reads and writes at
concrete offsets: the owner tag, the memory object, the concrete byte buffer,
the per-byte concrete mask and the known symbolic bytes. -/
structure ObjectState where
  copyOnWriteOwner : Nat := 0
  object : Nat := 0
  size : Nat := 0
  concreteStore : List Nat := []
  concreteMask : List Bool := []
  knownSymbolics : List (Option Expr) := []
  readOnly : Bool := false
  isShared : Bool := false
  deriving DecidableEq, Repr

namespace ObjectState

/-- Modelled from the spec: `ObjectState::isByteConcrete`, the per-byte
concrete/symbolic bitmask of section 3. -/
def isByteConcrete (os : ObjectState) (offset : Nat) : Bool :=
  os.concreteMask.getD offset false

/-- Modelled from the spec: `ObjectState::write8(unsigned, uint8_t)`, a
concrete write overwrites the buffer byte and marks the byte concrete
(section 4.2). -/
def write8 (os : ObjectState) (offset : Nat) (value : Nat) : ObjectState :=
  { os with concreteStore := os.concreteStore.set offset (value % 256),
            concreteMask := os.concreteMask.set offset true,
            knownSymbolics := os.knownSymbolics.set offset none }

/-- Modelled from the spec: `ObjectState::write8(unsigned, ref<Expr>)` for a
byte that is not constant: the byte is marked symbolic and remembered. -/
def write8Symbolic (os : ObjectState) (offset : Nat) (value : Expr) : ObjectState :=
  { os with concreteMask := os.concreteMask.set offset false,
            knownSymbolics := os.knownSymbolics.set offset (some value) }

/-- The bytes of a concrete value written one after the other from the lowest. -/
def writeConcrete : ObjectState → Nat → Nat → Nat → ObjectState
  | os, _, 0, _ => os
  | os, offset, n + 1, v => writeConcrete (write8 os offset v) (offset + 1) n (v / 256)

/-- The bytes of a symbolic value written one after the other from the lowest. -/
def writeSymbolic (value : Expr) : ObjectState → Nat → Nat → Nat → ObjectState
  | os, _, 0, _ => os
  | os, offset, n + 1, i =>
    writeSymbolic value (write8Symbolic os offset (Expr.Extract value (8 * i) 8))
      (offset + 1) n (i + 1)

/-- Modelled from the spec: `ObjectState::write(unsigned offset, ref<Expr>
value)` (declared in Memory.h 227; `Memory.cpp` is not among the sources): a
write at a concrete offset overwrites the buffer bytes directly. -/
def write (os : ObjectState) (offset : Nat) (value : Expr) : ObjectState :=
  match value with
  | Expr.Constant w v =>
    writeConcrete os offset (Expr.getMinBytesForWidth w) (v % 2 ^ w)
  | e => writeSymbolic e os offset (Expr.getMinBytesForWidth e.getWidth) 0

/-- All the bytes of a range are concrete. -/
def allConcrete (os : ObjectState) (offset : Nat) : Nat → Bool
  | 0 => true
  | n + 1 => isByteConcrete os offset && allConcrete os (offset + 1) n

/-- The value of the concatenation of the buffer bytes of a range, the lowest
byte first. -/
def concreteValue (os : ObjectState) (offset : Nat) : Nat → Nat
  | 0 => 0
  | n + 1 => os.concreteStore.getD offset 0 + 256 * concreteValue os (offset + 1) n

/-- Modelled from the spec: `ObjectState::read8(unsigned)`. -/
def read8 (os : ObjectState) (offset : Nat) : Expr :=
  if isByteConcrete os offset then Expr.Constant 8 (os.concreteStore.getD offset 0)
  else ((os.knownSymbolics.getD offset none).getD (Expr.Read os.object 8))

/-- The concatenation of the bytes of a range as an expression, the lowest byte
last. -/
def readBytes (os : ObjectState) (offset : Nat) : Nat → Expr
  | 0 => Expr.Constant 0 0
  | n + 1 => Expr.Concat (readBytes os (offset + 1) n) (read8 os offset)

/-- Modelled from the spec: `ObjectState::read(unsigned offset, Expr::Width
width)` (declared in Memory.h 219): when the covered bytes are all concrete the
result is the concatenation of the buffer bytes, a constant; otherwise it is an
expression over the symbolic bytes. -/
def read (os : ObjectState) (offset : Nat) (width : Nat) : Expr :=
  if allConcrete os offset (Expr.getMinBytesForWidth width) then
    Expr.Constant width
      (concreteValue os offset (Expr.getMinBytesForWidth width) % 2 ^ width)
  else Expr.Extract (readBytes os offset (Expr.getMinBytesForWidth width)) 0 width

end ObjectState

/-- The store of object states: the model of the `ObjectState*` heap. -/
structure Memory where
  cells : Nat → Option ObjectState := fun _ => none
  next : Nat := 0

/-- The members of `AddressSpace` (AddressSpace.h 44-82): the epoch counter
and the map from memory objects to object states, here from the identifier of
the memory object to the pointer of its object state. -/
structure AddressSpace where
  cowKey : Nat := 1
  objects : List (Nat × Nat) := []
  mergeDisabledCount : Int := 0
  deriving DecidableEq, Repr

namespace AddressSpace

/-- The copy constructor `AddressSpace(const AddressSpace &b)`
(AddressSpace.h 80-82). -/
def copy (b : AddressSpace) : AddressSpace :=
  { cowKey := b.cowKey, objects := b.objects, mergeDisabledCount := b.mergeDisabledCount }

/-- Modelled from the spec: `AddressSpace::findObject` (section 4.1;
`AddressSpace.cpp` is not among the sources). -/
def findObject (a : AddressSpace) (mo : Nat) : Option Nat :=
  (a.objects.find? (fun e => e.1 == mo)).map (fun e => e.2)

/-- The rebinding `objects = objects.replace(mo, os)`. -/
def rebind (a : AddressSpace) (mo os : Nat) : AddressSpace :=
  { a with objects := a.objects.map (fun e => if e.1 = mo then (mo, os) else e) }

/-- Modelled from the spec: `AddressSpace::getWriteable` (section 4.1): if the
address space owns the object state (its epoch tag matches) it is returned
unchanged; otherwise it is cloned, the clone is rebound and returned. -/
def getWriteable (m : Memory) (a : AddressSpace) (mo os : Nat) :
    Option (Nat × AddressSpace × Memory) :=
  match m.cells os with
  | none => none
  | some o =>
    if a.cowKey = o.copyOnWriteOwner then some (os, a, m)
    else
      let clone : ObjectState := { o with copyOnWriteOwner := a.cowKey }
      some (m.next, a.rebind mo m.next,
        { cells := Function.update m.cells m.next (some clone), next := m.next + 1 })

/-- A read through an address space. -/
def readAt (m : Memory) (a : AddressSpace) (mo offset width : Nat) : Option Expr :=
  match a.findObject mo with
  | none => none
  | some os => (m.cells os).map (fun o => o.read offset width)

end AddressSpace

namespace ObjectState

/-- Modelled from the spec: the constructor `ObjectState(const MemoryObject *mo)`
(Memory.h 200): concrete contents, no owner yet. -/
def create (mo : MemoryObject) : ObjectState :=
  { copyOnWriteOwner := 0, object := mo.id, size := mo.size,
    concreteStore := List.replicate mo.size 0,
    concreteMask := List.replicate mo.size true,
    knownSymbolics := List.replicate mo.size none }

/-- Modelled from the spec: the constructor `ObjectState(const MemoryObject *mo,
const Array *array)` (Memory.h 204): symbolic contents, no owner yet. -/
def createSymbolic (mo : MemoryObject) (_array : Nat) : ObjectState :=
  { copyOnWriteOwner := 0, object := mo.id, size := mo.size,
    concreteStore := List.replicate mo.size 0,
    concreteMask := List.replicate mo.size false,
    knownSymbolics := List.replicate mo.size none }

/-- Modelled from the spec: `ObjectState::initializeToZero` (Memory.h 214),
all bytes concrete and zero. -/
def initializeToZero (os : ObjectState) : ObjectState :=
  { os with concreteStore := List.replicate os.size 0,
            concreteMask := List.replicate os.size true,
            knownSymbolics := List.replicate os.size none }

/-- Modelled from the spec: `ObjectState::initializeToRandom` (Memory.h 216),
all bytes concrete, their values drawn from a generator. -/
def initializeToRandom (random : Nat → Nat) (os : ObjectState) : ObjectState :=
  { os with concreteStore := (List.range os.size).map (fun i => random i % 256),
            concreteMask := List.replicate os.size true,
            knownSymbolics := List.replicate os.size none }

/-- The bytes of a list written one after the other from an offset with
`write8(unsigned, uint8_t)`. -/
def writeBytes : ObjectState → Nat → List Nat → ObjectState
  | os, _, [] => os
  | os, offset, b :: rest => writeBytes (write8 os offset b) (offset + 1) rest

/-- The copy loop of a reallocation (Executor.cpp 4220-4222): the first
`count` bytes of the old object state written into the new one. -/
def copyFrom (src : ObjectState) : ObjectState → Nat → Nat → ObjectState
  | os, _, 0 => os
  | os, i, n + 1 => copyFrom src (os.write i (src.read8 i)) (i + 1) n

end ObjectState

namespace AddressSpace

/-- The map update `objects.replace(std::make_pair(mo, os))`. -/
def replace (a : AddressSpace) (mo os : Nat) : AddressSpace :=
  { a with objects := (mo, os) :: a.objects.filter (fun e => decide (e.1 ≠ mo)) }

/-- Modelled from the spec: `AddressSpace::bindObject` (section 4.1) inserts the
binding of an object state that has no owner yet and tags it with the epoch of
the address space; binding an object state that is already bound is the fatal
programming error, here `none`. -/
def bindObject (m : Memory) (a : AddressSpace) (mo os : Nat) :
    Option (AddressSpace × Memory) :=
  match m.cells os with
  | none => none
  | some o =>
    if o.copyOnWriteOwner = 0 then
      let o1 : ObjectState := { o with copyOnWriteOwner := a.cowKey }
      some (a.replace mo os, { m with cells := Function.update m.cells os (some o1) })
    else none

/-- Modelled from the spec: `AddressSpace::unbindObject` (section 4.1) removes
a binding. -/
def unbindObject (a : AddressSpace) (mo : Nat) : AddressSpace :=
  { a with objects := a.objects.filter (fun e => decide (e.1 ≠ mo)) }

/-- Modelled from the spec: `AddressSpace::resolveOne(const ref<ConstantExpr>&,
ObjectPair&)` (section 4.1), the concrete-address lookup: the bound memory
object whose range holds the address, with its object state.  The memory
objects are the ones of the memory manager. -/
def resolveOne (objs : List MemoryObject) (a : AddressSpace) (address : Nat) :
    Option (MemoryObject × Nat) :=
  match objs.find? (fun mo => (a.findObject mo.id).isSome &&
      (decide (mo.address ≤ address) && decide (address < mo.address + mo.size) ||
        decide (mo.size = 0) && decide (address = mo.address))) with
  | none => none
  | some mo => (a.findObject mo.id).map (fun os => (mo, os))

end AddressSpace

/-! ## The solver and the Timing Solver wrapper -/

/-- The three answers of `Solver::Validity`. -/
inductive Validity where
  | True
  | False
  | Unknown
  deriving DecidableEq, Repr

/-- A query handed to the wrapped solver: the path constraints and an expression. -/
structure Query where
  constraints : List Expr
  expr : Expr
  deriving DecidableEq, Repr

/-- The wrapped solver, an external collaborator.  Each entry point is an oracle
of the number of queries made before it and of the query; `none` is the
failure (timeout) return. -/
structure Solver where
  evaluate : Nat → Query → Option Validity
  mustBeTrue : Nat → Query → Option Bool
  getValue : Nat → Query → Option (Nat × Nat)
  getInitialValues : Nat → Query → List Nat → Option (List (List Nat)) :=
    fun _ _ _ => none
  getRange : Nat → Query → Expr × Expr := fun _ q => (q.expr, q.expr)

/-- One recorded input object of a test (`KTestObject`): its name and bytes;
`numBytes` is the length of `bytes`. -/
structure KTestObject where
  name : String := ""
  bytes : List Nat := []
  deriving DecidableEq, Repr

/-- The field `KTestObject::numBytes`. -/
def KTestObject.numBytes (o : KTestObject) : Nat := o.bytes.length

/-- A recorded test (`KTest`), the replay buffer: its input objects;
`numObjects` is their number. -/
structure KTest where
  objects : List KTestObject := []
  deriving DecidableEq, Repr

/-- The field `KTest::numObjects`. -/
def KTest.numObjects (t : KTest) : Nat := t.objects.length

/-- A seed (`SeedInfo`); its assignment is an oracle of `Env`. -/
structure SeedInfo where
  id : Nat
  deriving DecidableEq, Repr

/-- The command-line options read by the modelled functions. -/
structure Options where
  RandomizeFork : Bool := false
  OnlyOutputStatesCoveringNew : Bool := false
  AlwaysOutputSeeds : Bool := true
  OnlyReplaySeeds : Bool := false
  MaxForks : Nat := 4294967295
  MaxDepth : Nat := 0
  MaxMemoryInhibit : Bool := true
  MaxMemory : Nat := 0
  StopAfterNInstructions : Nat := 0
  KeepMergedDuplicates : Bool := false
  EmitAllErrors : Bool := false
  SimplifySymIndices : Bool := false
  MaxSymArraySize : Nat := 0
  MakeConcreteSymbolic : Nat := 0
  OutputConstraints : Bool := false
  NamedSeedMatching : Bool := false
  ZeroSeedExtension : Bool := false
  AllowSeedExtension : Bool := false
  AllowSeedTruncation : Bool := false
  deriving DecidableEq, Repr

/-- Modelled from the spec: the address pool of section 5, an
address-space-local region reservation that hands out disjoint address ranges
(`AddressPool` is not among the sources); `allocate` answers 0 when the region
is exhausted. -/
structure AddressPool where
  next : Nat := 4096
  limit : Nat := 4294967296
  deriving DecidableEq, Repr

/-- Modelled from the spec: `AddressPool::allocate`. -/
def AddressPool.allocate (pool : AddressPool) (size : Nat) : Nat × AddressPool :=
  if pool.next + size ≤ pool.limit then
    (pool.next, { pool with next := pool.next + (if size = 0 then 1 else size) })
  else (0, pool)

/-- Modelled from the spec: a suspended stack frame of section 3
(`ExecutionState.cpp` is not among the sources): the return address of the
caller, the function, the register table and the varargs object. -/
structure StackFrame where
  caller : Nat := 0
  kf : Nat := 0
  locals : List (Nat × Expr) := []
  varargs : Option MemoryObject := none
  deriving DecidableEq, Repr

/-- A function of the module: the members of `KFunction` (KModule.h 39-62) the
modelled functions read, `instructions` being the program counter of its first
instruction, with the attributes `isVarArg` and `isDeclaration` of the
`llvm::Function` behind it; `numArgs` is `f->arg_size()`. -/
structure KFunction where
  function : Nat := 0
  numArgs : Nat := 0
  instructions : Nat := 0
  isVarArg : Bool := false
  isDeclaration : Bool := false
  deriving DecidableEq, Repr

/-- One execution state, restricted to the members the modelled functions touch.
The members `locals`, `varargs`, `caller` and `kf` are those of the frame on top
of the call stack; `stack` holds the frames below it. -/
structure ExecutionState where
  constraints : List Expr := []
  pc : Nat := 0
  prevPC : Nat := 0
  depth : Nat := 0
  forkDisabled : Bool := false
  coveredNew : Bool := false
  multiplicity : Nat := 1
  multiplicityExact : Nat := 1
  isDuplicate : Bool := false
  ptreeNode : Nat := 0
  pathOS : List Bool := []
  symPathOS : List Bool := []
  addressSpace : AddressSpace := {}
  addressPool : AddressPool := {}
  locals : List (Nat × Expr) := []
  allocas : List Nat := []
  symbolics : List (Nat × Nat) := []
  hasCurrentThread : Bool := true
  lastResolveResult : Option Nat := none
  duplicates : List Nat := []
  stackDepth : Nat := 1
  stack : List StackFrame := []
  caller : Nat := 0
  kf : Nat := 0
  varargs : Option MemoryObject := none
  deriving DecidableEq, Repr

/-- The environment of one run: options and the oracles standing for the
external collaborators. -/
structure Env where
  opts : Options := {}
  solver : Solver
  simplifyExprs : Bool := false
  simplifyExpr : List Expr → Expr → Expr := fun _ e => e
  rngBool : Nat → Bool := fun _ => false
  rngInt32 : Nat → Nat := fun _ => 0
  seedEvaluate : SeedInfo → Expr → Expr := fun _ e => e
  patchSeed : SeedInfo → ExecutionState → Expr → SeedInfo := fun s _ _ => s
  pointerWidth : Nat := 64
  instOf : Nat → Nat := fun ki => ki
  instructionInfo : Nat → String × Nat := fun _ => ("", 0)
  stackTrace : ExecutionState → String := fun _ => ""
  addressInfo : ExecutionState → Expr → Nat → String := fun _ _ _ => ""
  seedNextInput : SeedInfo → MemoryObject → Bool → Option KTestObject := fun _ _ _ => none
  seedBind : SeedInfo → Nat → List Nat → SeedInfo := fun s _ _ => s
  randomByte : Nat → Nat → Nat := fun _ _ => 0
  resolveOneSymbolic : ExecutionState → Expr → Option (Option (MemoryObject × Nat)) :=
    fun _ _ => some none
  resolveSymbolic : ExecutionState → Expr → List (MemoryObject × Nat) × Bool :=
    fun _ _ => ([], false)
  readSymbolicOffset : ObjectState → Expr → Nat → Expr := fun _ e _ => e
  writeSymbolicOffset : ObjectState → Expr → Expr → ObjectState := fun o _ _ => o
  mergeStates : ExecutionState → ExecutionState → ExecutionState := fun a _ => a
  blockEntry : Nat → Nat := fun b => b
  legalFunctions : Nat → Bool := fun _ => false
  functionMap : Nat → KFunction := fun _ => {}
  rand : Nat → Nat := fun _ => 0
  totalMemoryUsage : Nat := 0
  forkClassResolve : Nat → Bool := fun _ => false

namespace TimingSolver

/-- The function `TimingSolver::evaluate` (TimingSolver.cpp 57-89): the answer
and the log of queries made to the wrapped solver. -/
def evaluate (env : Env) (queries : List Query) (state : ExecutionState) (expr : Expr) :
    Option Validity × List Query :=
  if expr.isConstant then
    (some (if expr.isTrue then Validity.True else Validity.False), queries)
  else
    let expr1 := if env.simplifyExprs then env.simplifyExpr state.constraints expr else expr
    let q : Query := ⟨state.constraints, expr1⟩
    (env.solver.evaluate queries.length q, queries ++ [q])

/-- The function `TimingSolver::mustBeTrue` (TimingSolver.cpp 91-123). -/
def mustBeTrue (env : Env) (queries : List Query) (state : ExecutionState) (expr : Expr) :
    Option Bool × List Query :=
  if expr.isConstant then
    (some expr.isTrue, queries)
  else
    let expr1 := if env.simplifyExprs then env.simplifyExpr state.constraints expr else expr
    let q : Query := ⟨state.constraints, expr1⟩
    (env.solver.mustBeTrue queries.length q, queries ++ [q])

/-- The function `TimingSolver::mustBeFalse` (TimingSolver.cpp 125-128). -/
def mustBeFalse (env : Env) (queries : List Query) (state : ExecutionState) (expr : Expr) :
    Option Bool × List Query :=
  mustBeTrue env queries state (Expr.createIsZero expr)

/-- The function `TimingSolver::getValue` (TimingSolver.cpp 148-180). -/
def getValue (env : Env) (queries : List Query) (state : ExecutionState) (expr : Expr) :
    Option Expr × List Query :=
  if expr.isConstant then
    (some expr, queries)
  else
    let expr1 := if env.simplifyExprs then env.simplifyExpr state.constraints expr else expr
    let q : Query := ⟨state.constraints, expr1⟩
    ((env.solver.getValue queries.length q).map (fun c => Expr.Constant c.1 c.2), queries ++ [q])

/-- The function `TimingSolver::mayBeTrue` (TimingSolver.cpp 130-137). -/
def mayBeTrue (env : Env) (queries : List Query) (state : ExecutionState) (expr : Expr) :
    Option Bool × List Query :=
  match mustBeFalse env queries state expr with
  | (none, q) => (none, q)
  | (some res, q) => (some (!res), q)

/-- The function `TimingSolver::mayBeFalse` (TimingSolver.cpp 139-146). -/
def mayBeFalse (env : Env) (queries : List Query) (state : ExecutionState) (expr : Expr) :
    Option Bool × List Query :=
  match mustBeTrue env queries state expr with
  | (none, q) => (none, q)
  | (some res, q) => (some (!res), q)

/-- The function `TimingSolver::getInitialValues` (TimingSolver.cpp 182-214):
it takes a list of arrays and no expression; with no array it returns success
and leaves the result vector, here empty, as it is. -/
def getInitialValues (env : Env) (queries : List Query) (state : ExecutionState)
    (objects : List Nat) : Option (List (List Nat)) × List Query :=
  if objects.isEmpty then (some [], queries)
  else
    let q : Query := ⟨state.constraints, Expr.Constant 1 0⟩
    (env.solver.getInitialValues queries.length q objects, queries ++ [q])

/-- The function `TimingSolver::getRange` (TimingSolver.cpp 216-219). -/
def getRange (env : Env) (queries : List Query) (state : ExecutionState) (expr : Expr) :
    (Expr × Expr) × List Query :=
  let q : Query := ⟨state.constraints, expr⟩
  (env.solver.getRange queries.length q, queries ++ [q])

end TimingSolver

/-! ## The executor -/

/-- Process-level failures: a failed `assert`, `abort()`, and the use of a
pointer to a state that is not live. -/
inductive Fatal where
  | assertion (msg : String)
  | abort
  | invalidPointer
  deriving DecidableEq, Repr

/-- The three states of a process-tree node read by the executor. -/
inductive PTreeNodeState where
  | RUNNING
  | MERGED
  | TERMINATED
  deriving DecidableEq, Repr

/-- A node of the process tree. -/
structure PTreeNode where
  parent : Option Nat := none
  data : Option Nat := none
  state : PTreeNodeState := PTreeNodeState.RUNNING
  active : Bool := true
  mergedFrom : Option (Nat × Nat) := none
  deriving DecidableEq, Repr

/-- Modelled from the spec: the Process Tree of section 2, which records the
ancestry of every fork (`PTree.cpp` is not among the sources). -/
structure PTree where
  nodes : Nat → PTreeNode := fun _ => {}
  next : Nat := 1

namespace PTree

/-- Modelled from the spec: `PTree::split` records a fork as two fresh children
of the split node and returns them. -/
def split (t : PTree) (n : Nat) (leftData rightData : Nat) : (Nat × Nat) × PTree :=
  let left : PTreeNode := { parent := some n, data := some leftData }
  let right : PTreeNode := { parent := some n, data := some rightData }
  ((t.next, t.next + 1),
   { nodes := Function.update (Function.update t.nodes t.next left) (t.next + 1) right,
     next := t.next + 2 })

/-- Modelled from the spec: `PTree::terminate` marks the node of a destroyed state. -/
def terminate (t : PTree) (n : Nat) : PTree :=
  let node : PTreeNode := { (t.nodes n) with state := PTreeNodeState.TERMINATED }
  { t with nodes := Function.update t.nodes n node }

/-- The assignment `node->data = 0`. -/
def clearData (t : PTree) (n : Nat) : PTree :=
  let node : PTreeNode := { (t.nodes n) with data := none }
  { t with nodes := Function.update t.nodes n node }

/-- Modelled from the spec: `PTree::mergeCopy` creates the node of a merged
state and records both original lineages under it (section 4.5). -/
def mergeCopy (t : PTree) (a b : Nat) (data : Nat) : Nat × PTree :=
  let node : PTreeNode := { data := some data, mergedFrom := some (a, b) }
  (t.next, { nodes := Function.update t.nodes t.next node, next := t.next + 1 })

/-- Modelled from the spec: `PTree::merge` records the lineage of the absorbed
state under the node of the state that absorbs it and marks the absorbed node
as merged (section 4.5). -/
def merge (t : PTree) (target other : Nat) : PTree :=
  let tnode : PTreeNode := { (t.nodes target) with mergedFrom := some (target, other) }
  let nodes1 := Function.update t.nodes target tnode
  let onode : PTreeNode := { (nodes1 other) with state := PTreeNodeState.MERGED }
  { t with nodes := Function.update nodes1 other onode }

/-- Modelled from the spec: `PTree::duplicate` creates the node of a duplicate
state under the node of the state it shadows. -/
def duplicate (t : PTree) (n : Nat) (data : Nat) : Nat × PTree :=
  let node : PTreeNode := { parent := some n, data := some data }
  (t.next, { nodes := Function.update t.nodes t.next node, next := t.next + 1 })

/-- The assignment `node->active = false`. -/
def deactivate (t : PTree) (n : Nat) : PTree :=
  let node : PTreeNode := { (t.nodes n) with active := false }
  { t with nodes := Function.update t.nodes n node }

end PTree

/-- A call of `interpreterHandler->processTestCase(state, message, suffix)`. -/
structure TestCase where
  state : Nat
  constraints : List Expr
  message : Option String
  suffix : Option String
  deriving DecidableEq, Repr

/-- The member `objects` of `MemoryManager` (MemoryManager.h 23-25) with the
counter behind `MemoryObject::id`. -/
structure MemoryManager where
  objects : List MemoryObject := []
  counter : Nat := 0
  allocations : Nat := 0
  deriving DecidableEq, Repr

/-- The mutable members of `Executor` together with the global counters and
generators the modelled functions use. -/
structure Executor where
  heap : Nat → Option ExecutionState := fun _ => none
  nextState : Nat := 0
  states : Finset Nat := ∅
  addedStates : Finset Nat := ∅
  removedStates : Finset Nat := ∅
  seedMap : Nat → Option (List SeedInfo) := fun _ => none
  replayOut : Option KTest := none
  replayPath : Option (List Bool) := none
  replayPosition : Nat := 0
  atMemoryLimit : Bool := false
  inhibitForking : Bool := false
  pathWriter : Bool := false
  symPathWriter : Bool := false
  staticLimitsArmed : Bool := false
  staticLimitsExceeded : Bool := false
  forks : Nat := 0
  forksMult : Nat := 0
  paths : Nat := 0
  pathsMult : Nat := 0
  queries : List Query := []
  rngDraws : Nat := 0
  processTree : PTree := {}
  testCases : List TestCase := []
  memory : MemoryManager := {}
  store : Memory := {}
  emittedErrors : Finset (Nat × String) := ∅
  mergesSuccess : Nat := 0
  mergesFail : Nat := 0
  arrayId : Nat := 0
  instructions : Nat := 0
  haltExecution : Bool := false

/-- The pair returned by `fork`: the true child and the false child, each
possibly null. -/
abbrev StatePair := Option Nat × Option Nat

/-- The member `Executor::ivcEnabled`: the constructor sets it to false
(Executor.cpp 402) and nothing assigns it afterwards. -/
def ivcEnabled : Bool := false

namespace Executor

/-- Store a state at a pointer. -/
def setState (x : Executor) (id : Nat) (st : ExecutionState) : Executor :=
  { x with heap := Function.update x.heap id (some st) }

/-- The call `theRNG.getBool()`. -/
def getBool (env : Env) (x : Executor) : Bool × Executor :=
  (env.rngBool x.rngDraws, { x with rngDraws := x.rngDraws + 1 })

/-- The seed loop of `Executor::addConstraint` (Executor.cpp 1135-1146). -/
def addConstraintSeeds (env : Env) (st : ExecutionState) (condition : Expr) :
    List SeedInfo → List Query → Except Fatal (List SeedInfo × List Query)
  | [], q => Except.ok ([], q)
  | s :: rest, q =>
    match TimingSolver.mustBeFalse env q st (env.seedEvaluate s condition) with
    | (none, _) => Except.error (Fatal.assertion "FIXME: Unhandled solver failure")
    | (some res, q1) =>
      match addConstraintSeeds env st condition rest q1 with
      | Except.error e => Except.error e
      | Except.ok (rest1, q2) =>
        Except.ok ((if res then env.patchSeed s st condition else s) :: rest1, q2)

/-- Modelled from the spec: `ExecutionState::addConstraint` extends the
accumulated conjunction of path constraints (`ExecutionState.cpp` is not among
the sources). -/
def stateAddConstraint (st : ExecutionState) (condition : Expr) : ExecutionState :=
  { st with constraints := st.constraints ++ [condition] }

/-- The function `Executor::addConstraint` (Executor.cpp 1124-1155). -/
def addConstraint (env : Env) (x : Executor) (state : Nat) (condition : Expr) :
    Except Fatal Executor :=
  if condition.isConstant then
    if condition.isTrue then Except.ok x
    else Except.error (Fatal.assertion "attempt to add invalid constraint")
  else
    match x.heap state with
    | none => Except.error Fatal.invalidPointer
    | some st =>
      let seeded : Except Fatal Executor :=
        match x.seedMap state with
        | none => Except.ok x
        | some seeds =>
          match addConstraintSeeds env st condition seeds x.queries with
          | Except.error e => Except.error e
          | Except.ok (seeds1, q) =>
            Except.ok { x with seedMap := Function.update x.seedMap state (some seeds1),
                               queries := q }
      match seeded with
      | Except.error e => Except.error e
      | Except.ok x1 =>
        if ivcEnabled then Except.error Fatal.abort
        else Except.ok (x1.setState state (stateAddConstraint st condition))

/-- The function `Executor::terminateState` (Executor.cpp 3932-3986). -/
def terminateState (x : Executor) (state : Nat) (_silenced : Bool) :
    Except Fatal Executor :=
  match x.heap state with
  | none => Except.error Fatal.invalidPointer
  | some st =>
    let merged : Bool := decide ((x.processTree.nodes st.ptreeNode).state = PTreeNodeState.MERGED)
    let x1 : Executor :=
      if !merged && !st.isDuplicate then
        { x with paths := x.paths + 1, pathsMult := x.pathsMult + st.multiplicity }
      else x
    if state ∉ x1.addedStates then
      let st1 : ExecutionState := { st with pc := st.prevPC }
      Except.ok { x1 with heap := Function.update x1.heap state (some st1),
                          removedStates := insert state x1.removedStates }
    else
      let tree : PTree :=
        if !merged then (x1.processTree.clearData st.ptreeNode).terminate st.ptreeNode
        else x1.processTree
      Except.ok { x1 with seedMap := Function.update x1.seedMap state none,
                          addedStates := x1.addedStates.erase state,
                          processTree := tree,
                          heap := Function.update x1.heap state none }

/-- The function `Executor::terminateStateEarly` (Executor.cpp 3988-3998). -/
def terminateStateEarly (env : Env) (x : Executor) (state : Nat) (message : String) :
    Except Fatal Executor :=
  match x.heap state with
  | none => Except.error Fatal.invalidPointer
  | some st =>
    if !env.opts.OnlyOutputStatesCoveringNew || st.coveredNew ||
        (env.opts.AlwaysOutputSeeds && (x.seedMap state).isSome) then
      let tc : TestCase :=
        { state := state, constraints := st.constraints,
          message := some (message ++ "\n"), suffix := some "early" }
      terminateState { x with testCases := x.testCases ++ [tc] } state false
    else
      terminateState x state true

/-- Modelled from the spec: `ExecutionState::branch` clones the state
(`ExecutionState.cpp` is not among the sources); the clone is stored at a
fresh pointer, which is returned. -/
def branchState (x : Executor) (st : ExecutionState) : Nat × Executor :=
  (x.nextState, { x with heap := Function.update x.heap x.nextState (some st),
                         nextState := x.nextState + 1 })

/-- The static fork-limit block of `fork` (Executor.cpp 791-817).  The two
floating-point tests on the options and the statistics are the flags
`staticLimitsArmed` (792-794) and `staticLimitsExceeded` (797-808). -/
def forkStaticLimit (env : Env) (x : Executor) (current : Nat) (st : ExecutionState)
    (condition : Expr) (isSeeding : Bool) : Except Fatal (Expr × Executor) :=
  if !isSeeding && !condition.isConstant && x.staticLimitsArmed then
    if x.staticLimitsExceeded then
      match TimingSolver.getValue env x.queries st condition with
      | (none, _) => Except.error (Fatal.assertion "FIXME: Unhandled solver failure")
      | (some value, q) =>
        match addConstraint env { x with queries := q } current
            (Expr.EqExpr_create value condition) with
        | Except.error e => Except.error e
        | Except.ok x1 => Except.ok (value, x1)
    else Except.ok (condition, x)
  else Except.ok (condition, x)

/-- The first part of `fork` (Executor.cpp 783-824): the static fork-limit
block followed by the call of `solver->evaluate`.  Returns the answer of
evaluate (`none` when it reports failure), the condition it was asked about
and the executor after the call. -/
def forkQuery (env : Env) (x : Executor) (current : Nat) (condition : Expr) :
    Except Fatal (Option Validity × Expr × Executor) :=
  match x.heap current with
  | none => Except.error Fatal.invalidPointer
  | some st =>
    match forkStaticLimit env x current st condition (x.seedMap current).isSome with
    | Except.error e => Except.error e
    | Except.ok (condition1, x1) =>
      match x1.heap current with
      | none => Except.error Fatal.invalidPointer
      | some st1 =>
        let r := TimingSolver.evaluate env x1.queries st1 condition1
        Except.ok (r.1, condition1, { x1 with queries := r.2 })

/-- The replay and fork-inhibition part of `fork` for a state that is not
seeding (Executor.cpp 831-878). -/
def forkReplay (env : Env) (x : Executor) (current : Nat) (st : ExecutionState)
    (condition : Expr) (isInternal : Bool) (res : Validity) :
    Except Fatal (Validity × Executor) :=
  if x.replayPath.isSome && !isInternal then
    let path := x.replayPath.getD []
    if x.replayPosition < path.length then
      let branch := path.getD x.replayPosition false
      let x1 : Executor := { x with replayPosition := x.replayPosition + 1 }
      match res with
      | Validity.True =>
        if branch then Except.ok (res, x1)
        else Except.error (Fatal.assertion "hit invalid branch in replay path mode")
      | Validity.False =>
        if !branch then Except.ok (res, x1)
        else Except.error (Fatal.assertion "hit invalid branch in replay path mode")
      | Validity.Unknown =>
        if branch then
          (addConstraint env x1 current condition).map (fun x2 => (Validity.True, x2))
        else
          (addConstraint env x1 current (Expr.createIsZero condition)).map
            (fun x2 => (Validity.False, x2))
    else Except.error (Fatal.assertion "ran out of branches in replay path mode")
  else if res = Validity.Unknown then
    if x.replayOut.isSome then
      Except.error (Fatal.assertion "in replay mode, only one branch can be true.")
    else if (env.opts.MaxMemoryInhibit && x.atMemoryLimit) || st.forkDisabled ||
        x.inhibitForking ||
        (decide (env.opts.MaxForks ≠ 4294967295) && decide (env.opts.MaxForks ≤ x.forks)) then
      let r := getBool env x
      if r.1 then
        (addConstraint env r.2 current condition).map (fun x2 => (Validity.True, x2))
      else
        (addConstraint env r.2 current (Expr.createIsZero condition)).map
          (fun x2 => (Validity.False, x2))
    else Except.ok (res, x)
  else Except.ok (res, x)

/-- The seed scan of `fork` (Executor.cpp 887-901): which of a true seed and a
false seed exist. -/
def forkSeedScan (env : Env) (st : ExecutionState) (condition : Expr) :
    List SeedInfo → Bool → Bool → List Query → Except Fatal (Bool × Bool × List Query)
  | [], t, f, q => Except.ok (t, f, q)
  | s :: rest, t, f, q =>
    match TimingSolver.getValue env q st (env.seedEvaluate s condition) with
    | (none, _) => Except.error (Fatal.assertion "FIXME: Unhandled solver failure")
    | (some v, q1) =>
      let t1 := t || v.isTrue
      let f1 := f || !v.isTrue
      if t1 && f1 then Except.ok (t1, f1, q1)
      else forkSeedScan env st condition rest t1 f1 q1

/-- The branch fix of `fork` in only-replay-seed mode (Executor.cpp 882-908). -/
def forkSeedFix (env : Env) (x : Executor) (current : Nat) (st : ExecutionState)
    (condition : Expr) (res : Validity) : Except Fatal (Validity × Executor) :=
  match x.seedMap current with
  | none => Except.ok (res, x)
  | some seeds =>
    if (st.forkDisabled || env.opts.OnlyReplaySeeds) && decide (res = Validity.Unknown) then
      match forkSeedScan env st condition seeds false false x.queries with
      | Except.error e => Except.error e
      | Except.ok (trueSeed, falseSeed, q) =>
        let x1 : Executor := { x with queries := q }
        if !(trueSeed && falseSeed) then
          if trueSeed || falseSeed then
            (addConstraint env x1 current
              (if trueSeed then condition else Expr.createIsZero condition)).map
              (fun x2 => (if trueSeed then Validity.True else Validity.False, x2))
          else Except.error (Fatal.assertion "trueSeed || falseSeed")
        else Except.ok (res, x1)
    else Except.ok (res, x)

/-- The seed distribution of `fork` (Executor.cpp 956-968): the seeds that
evaluate the condition to true and the others. -/
def forkSplitSeeds (env : Env) (st : ExecutionState) (condition : Expr) :
    List SeedInfo → List Query → Except Fatal (List SeedInfo × List SeedInfo × List Query)
  | [], q => Except.ok ([], [], q)
  | s :: rest, q =>
    match TimingSolver.getValue env q st (env.seedEvaluate s condition) with
    | (none, _) => Except.error (Fatal.assertion "FIXME: Unhandled solver failure")
    | (some v, q1) =>
      match forkSplitSeeds env st condition rest q1 with
      | Except.error e => Except.error e
      | Except.ok (ts, fs, q2) =>
        if v.isTrue then Except.ok (s :: ts, fs, q2) else Except.ok (ts, s :: fs, q2)

/-- Apply an update to the state stored at a pointer. -/
def modify (x : Executor) (id : Nat) (f : ExecutionState → ExecutionState) : Executor :=
  match x.heap id with
  | none => x
  | some st => x.setState id (f st)

/-- The seed redistribution of `fork` (Executor.cpp 951-983). -/
def forkSeeds (env : Env) (x : Executor) (current : Nat) (st : ExecutionState)
    (condition : Expr) (trueState falseState : Nat) : Except Fatal Executor :=
  match x.seedMap current with
  | none => Except.ok x
  | some seeds =>
    match forkSplitSeeds env st condition seeds x.queries with
    | Except.error e => Except.error e
    | Except.ok (ts, fs, q) =>
      let cleared := Function.update x.seedMap current (some [])
      let trueSeeds := (cleared trueState).getD [] ++ ts
      let falseSeeds := (cleared falseState).getD [] ++ fs
      let m1 := Function.update cleared trueState
        (if trueSeeds.isEmpty then none else some trueSeeds)
      let m2 := Function.update m1 falseState
        (if falseSeeds.isEmpty then none else some falseSeeds)
      let swapInfo : Bool :=
        (trueSeeds.isEmpty && decide (current = trueState)) ||
        (falseSeeds.isEmpty && decide (current = falseState))
      let x1 : Executor := { x with seedMap := m2, queries := q }
      if swapInfo then
        match x1.heap trueState, x1.heap falseState with
        | some tst, some fst =>
          Except.ok ((x1.setState trueState { tst with coveredNew := fst.coveredNew }).setState
            falseState { fst with coveredNew := tst.coveredNew })
        | _, _ => Except.error Fatal.invalidPointer
      else Except.ok x1

/-- The branch-path stream update of `fork` (Executor.cpp 1000-1004). -/
def forkPathOS (x : Executor) (current trueState falseState : Nat) : Executor :=
  ((x.modify falseState (fun st =>
      { st with pathOS := ((x.heap current).map (fun c => c.pathOS)).getD [] })).modify
    trueState (fun st => { st with pathOS := st.pathOS ++ [true] })).modify
    falseState (fun st => { st with pathOS := st.pathOS ++ [false] })

/-- The symbolic-path stream update of `fork` (Executor.cpp 1005-1009). -/
def forkSymPathOS (x : Executor) (current trueState falseState : Nat) : Executor :=
  ((x.modify falseState (fun st =>
      { st with symPathOS := ((x.heap current).map (fun c => c.symPathOS)).getD [] })).modify
    trueState (fun st => { st with symPathOS := st.symPathOS ++ [true] })).modify
    falseState (fun st => { st with symPathOS := st.symPathOS ++ [false] })

/-- The path-stream bookkeeping of `fork` (Executor.cpp 999-1010). -/
def forkPathStreams (x : Executor) (current trueState falseState : Nat)
    (isInternal : Bool) : Executor :=
  if isInternal then x
  else
    let x1 := if x.pathWriter then forkPathOS x current trueState falseState else x
    if x1.symPathWriter then forkSymPathOS x1 current trueState falseState else x1

/-- The creation of the second state in `fork` (Executor.cpp 939-949): count
the fork, clone the current state, insert the clone into `addedStates` and,
under `RandomizeFork`, swap the two roles on a random draw.  Returns the true
state and the false state. -/
def forkNewState (env : Env) (x : Executor) (current : Nat) (st : ExecutionState) :
    (Nat × Nat) × Executor :=
  let x1 : Executor :=
    { x with forks := x.forks + 1, forksMult := x.forksMult + st.multiplicity }
  let b := branchState x1 st
  let x2 : Executor := { b.2 with addedStates := insert b.1 b.2.addedStates }
  let r : Bool × Executor := if env.opts.RandomizeFork then getBool env x2 else (false, x2)
  ((if r.1 then b.1 else current, if r.1 then current else b.1), r.2)

/-- The process-tree bookkeeping of `fork` (Executor.cpp 985-989). -/
def forkLink (x : Executor) (st : ExecutionState) (trueState falseState : Nat) :
    Executor :=
  let sp := (x.processTree.clearData st.ptreeNode).split st.ptreeNode falseState trueState
  ({ x with processTree := sp.2 }.modify falseState
      (fun s => { s with ptreeNode := sp.1.1 })).modify trueState
      (fun s => { s with ptreeNode := sp.1.2 })

/-- The max-depth test at the end of `fork` (Executor.cpp 1016-1022). -/
def forkMaxDepth (env : Env) (x : Executor) (trueState falseState : Nat) :
    Except Fatal (StatePair × Executor) :=
  match x.heap trueState with
  | none => Except.error Fatal.invalidPointer
  | some tst =>
    if decide (env.opts.MaxDepth ≠ 0) && decide (env.opts.MaxDepth ≤ tst.depth) then
      match terminateStateEarly env x trueState "max-depth exceeded" with
      | Except.error e => Except.error e
      | Except.ok x1 =>
        match terminateStateEarly env x1 falseState "max-depth exceeded" with
        | Except.error e => Except.error e
        | Except.ok x2 => Except.ok ((none, none), x2)
    else Except.ok ((some trueState, some falseState), x)

/-- The genuine fork (Executor.cpp 938-1023), taken when the answer is Unknown. -/
def forkSplit (env : Env) (x : Executor) (current : Nat) (st : ExecutionState)
    (condition : Expr) (isInternal : Bool) : Except Fatal (StatePair × Executor) :=
  let n := forkNewState env x current st
  match forkSeeds env n.2 current st condition n.1.1 n.1.2 with
  | Except.error e => Except.error e
  | Except.ok x3 =>
    match addConstraint env
        (forkPathStreams (forkLink x3 st n.1.1 n.1.2) current n.1.1 n.1.2 isInternal)
        n.1.1 condition with
    | Except.error e => Except.error e
    | Except.ok x6 =>
      match addConstraint env x6 n.1.2 (Expr.createIsZero condition) with
      | Except.error e => Except.error e
      | Except.ok x7 => forkMaxDepth env x7 n.1.1 n.1.2

/-- The last part of `fork` (Executor.cpp 918-1023): return the surviving state
on the proved side, or create the second state when the answer is Unknown. -/
def forkFinish (env : Env) (x : Executor) (current : Nat) (st : ExecutionState)
    (condition : Expr) (isInternal : Bool) (res : Validity) :
    Except Fatal (StatePair × Executor) :=
  match res with
  | Validity.True =>
    Except.ok ((some current, none),
      if !isInternal && x.pathWriter then
        x.modify current (fun s => { s with pathOS := s.pathOS ++ [true] })
      else x)
  | Validity.False =>
    Except.ok ((none, some current),
      if !isInternal && x.pathWriter then
        x.modify current (fun s => { s with pathOS := s.pathOS ++ [false] })
      else x)
  | Validity.Unknown => forkSplit env x current st condition isInternal

/-- The part of `fork` after the replay and inhibition block (Executor.cpp
880-1023): the seed fix followed by the return or the genuine fork. -/
def forkTail (env : Env) (x : Executor) (current : Nat) (condition : Expr)
    (isInternal : Bool) (res : Validity) : Except Fatal (StatePair × Executor) :=
  match x.heap current with
  | none => Except.error Fatal.invalidPointer
  | some st =>
    match forkSeedFix env x current st condition res with
    | Except.error e => Except.error e
    | Except.ok (res2, x3) =>
      match x3.heap current with
      | none => Except.error Fatal.invalidPointer
      | some st3 => forkFinish env x3 current st3 condition isInternal res2

/-- The function `Executor::fork` (Executor.cpp 779-1024). -/
def fork (env : Env) (x : Executor) (current : Nat) (condition : Expr)
    (isInternal : Bool) : Except Fatal (StatePair × Executor) :=
  let isSeeding := (x.seedMap current).isSome
  match forkQuery env x current condition with
  | Except.error e => Except.error e
  | Except.ok (none, _, x1) =>
    match terminateStateEarly env (x1.modify current (fun s => { s with pc := s.prevPC }))
        current "query timed out" with
    | Except.error e => Except.error e
    | Except.ok x2 => Except.ok ((none, none), x2)
  | Except.ok (some res, condition1, x1) =>
    match x1.heap current with
    | none => Except.error Fatal.invalidPointer
    | some st =>
      let replayed : Except Fatal (Validity × Executor) :=
        if !isSeeding then forkReplay env x1 current st condition1 isInternal res
        else Except.ok (res, x1)
      match replayed with
      | Except.error e => Except.error e
      | Except.ok (res1, x2) => forkTail env x2 current condition1 isInternal res1

/-- The clone of a state as `fork` and `branch` create it: allocate the copy
and insert its pointer into `addedStates` (Executor.cpp 713-715). -/
def cloneState (x : Executor) (st : ExecutionState) : Nat × Executor :=
  let b := branchState x st
  (b.1, { b.2 with addedStates := insert b.1 b.2.addedStates })

/-- The process-tree bookkeeping of one iteration of `branch`
(Executor.cpp 717-721). -/
def branchLink (x : Executor) (es : ExecutionState) (ns state : Nat) : Executor :=
  let sp := (x.processTree.clearData es.ptreeNode).split es.ptreeNode ns state
  ({ x with processTree := sp.2 }.modify ns
      (fun s => { s with ptreeNode := sp.1.1 })).modify state
      (fun s => { s with ptreeNode := sp.1.2 })

/-- One iteration of the creation loop of `branch` (Executor.cpp 711-724):
clone the input state, insert the clone into `addedStates` and record the
split in the process tree. -/
def branchStep (x : Executor) (state : Nat) : Except Fatal (Nat × Executor) :=
  match x.heap state with
  | none => Except.error Fatal.invalidPointer
  | some es =>
    Except.ok ((cloneState x es).1, branchLink (cloneState x es).2 es (cloneState x es).1 state)

/-- The creation loop of `branch` (Executor.cpp 711-724) run for the given
number of iterations; returns the new states in creation order. -/
def branchLoop (x : Executor) (state : Nat) :
    Nat → Except Fatal (List Nat × Executor)
  | 0 => Except.ok ([], x)
  | k + 1 =>
    match branchStep x state with
    | Except.error e => Except.error e
    | Except.ok (ns, x1) =>
      match branchLoop x1 state k with
      | Except.error e => Except.error e
      | Except.ok (rest, x2) => Except.ok (ns :: rest, x2)

/-- The search of `branch` for the first condition a seed satisfies
(Executor.cpp 745-754); the result is the number of conditions when there is
none. -/
def branchSeedIndex (env : Env) (st : ExecutionState) (seed : SeedInfo) :
    List Expr → Nat → List Query → Except Fatal (Nat × List Query)
  | [], i, q => Except.ok (i, q)
  | c :: rest, i, q =>
    match TimingSolver.getValue env q st (env.seedEvaluate seed c) with
    | (none, _) => Except.error (Fatal.assertion "FIXME: Unhandled solver failure")
    | (some v, q1) =>
      if v.isTrue then Except.ok (i, q1) else branchSeedIndex env st seed rest (i + 1) q1

/-- The seed redistribution loop of `branch` (Executor.cpp 742-762). -/
def branchSeeds (env : Env) (st : ExecutionState) (conditions : List Expr)
    (result : List (Option Nat)) : Executor → List SeedInfo → Except Fatal Executor
  | x, [] => Except.ok x
  | x, seed :: rest =>
    match branchSeedIndex env st seed conditions 0 x.queries with
    | Except.error e => Except.error e
    | Except.ok (i, q) =>
      let random : Bool := decide (i = conditions.length)
      let idx : Nat := if random then env.rngInt32 x.rngDraws % conditions.length else i
      match result.getD idx none with
      | none => Except.error Fatal.invalidPointer
      | some target =>
        branchSeeds env st conditions result
          { x with queries := q,
                   rngDraws := if random then x.rngDraws + 1 else x.rngDraws,
                   seedMap := Function.update x.seedMap target
                     (some ((x.seedMap target).getD [] ++ [seed])) }
          rest

/-- The pruning loop of `branch` under OnlyReplaySeeds (Executor.cpp 764-771). -/
def branchPrune : Executor → List (Option Nat) →
    Except Fatal (List (Option Nat) × Executor)
  | x, [] => Except.ok ([], x)
  | x, none :: rest =>
    match branchPrune x rest with
    | Except.error e => Except.error e
    | Except.ok (rest1, x1) => Except.ok (none :: rest1, x1)
  | x, some s :: rest =>
    if (x.seedMap s).isSome then
      match branchPrune x rest with
      | Except.error e => Except.error e
      | Except.ok (rest1, x1) => Except.ok (some s :: rest1, x1)
    else
      match terminateState x s true with
      | Except.error e => Except.error e
      | Except.ok x0 =>
        match branchPrune x0 rest with
        | Except.error e => Except.error e
        | Except.ok (rest1, x1) => Except.ok (none :: rest1, x1)

/-- The final loop of `branch` (Executor.cpp 774-776): add each condition to
the result state of the same index. -/
def branchConstrain (env : Env) : Executor → List (Option Nat) → List Expr →
    Except Fatal Executor
  | x, some s :: rs, c :: cs =>
    match addConstraint env x s c with
    | Except.error e => Except.error e
    | Except.ok x1 => branchConstrain env x1 rs cs
  | x, none :: rs, _ :: cs => branchConstrain env x rs cs
  | x, _, _ => Except.ok x

/-- The seed part of `branch` (Executor.cpp 733-772). -/
def branchSeeded (env : Env) (x : Executor) (state : Nat) (conditions : List Expr)
    (result : List (Option Nat)) : Except Fatal (List (Option Nat) × Executor) :=
  match x.seedMap state with
  | none => Except.ok (result, x)
  | some seeds =>
    match x.heap state with
    | none => Except.error Fatal.invalidPointer
    | some st =>
      match branchSeeds env st conditions result
          { x with seedMap := Function.update x.seedMap state none } seeds with
      | Except.error e => Except.error e
      | Except.ok x1 =>
        if env.opts.OnlyReplaySeeds then branchPrune x1 result
        else Except.ok (result, x1)

/-- The function `Executor::branch` (Executor.cpp 697-777): the result vector
and the executor afterwards. -/
def branch (env : Env) (x : Executor) (state : Nat) (conditions : List Expr) :
    Except Fatal (List (Option Nat) × Executor) :=
  if conditions.length = 0 then Except.error (Fatal.assertion "N")
  else
    match x.heap state with
    | none => Except.error Fatal.invalidPointer
    | some st =>
      let x0 : Executor :=
        { x with forks := x.forks + (conditions.length - 1),
                 forksMult := x.forksMult + (conditions.length - 1) * st.multiplicity }
      match branchLoop x0 state (conditions.length - 1) with
      | Except.error e => Except.error e
      | Except.ok (news, x1) =>
        match branchSeeded env x1 state conditions (some state :: news.map some) with
        | Except.error e => Except.error e
        | Except.ok (result, x2) =>
          match branchConstrain env x2 result conditions with
          | Except.error e => Except.error e
          | Except.ok x3 => Except.ok (result, x3)

/-- The constraints of a state after `Executor::addConstraint` succeeds on it:
a constant condition adds nothing. -/
def constraintsAfter (cs : List Expr) (c : Expr) : List Expr :=
  if c.isConstant then cs else cs ++ [c]

/-- The removal loop of `updateStates` (Executor.cpp 3377-3394), over the
removed states in the iteration order of the set. -/
def updateStatesLoop : Executor → List Nat → Except Fatal Executor
  | x, [] => Except.ok x
  | x, es :: rest =>
    if es ∈ x.states then
      match x.heap es with
      | none => Except.error Fatal.invalidPointer
      | some st =>
        let merged : Bool :=
          decide ((x.processTree.nodes st.ptreeNode).state = PTreeNodeState.MERGED)
        let tree : PTree :=
          if !merged then (x.processTree.clearData st.ptreeNode).terminate st.ptreeNode
          else x.processTree
        updateStatesLoop
          { x with states := x.states.erase es,
                   seedMap := Function.update x.seedMap es none,
                   processTree := tree,
                   heap := Function.update x.heap es none }
          rest
    else Except.error (Fatal.assertion "it2!=states.end()")

/-- The elements of a set of state pointers in increasing order, the iteration
order of `std::set`; every pointer in use is below the allocation mark. -/
def iterationOrder (x : Executor) (s : Finset Nat) : List Nat :=
  (List.range x.nextState).filter (fun i => decide (i ∈ s))

/-- The function `Executor::updateStates` (Executor.cpp 3366-3398); the call of
the searcher is external and leaves the executor as it is. -/
def updateStates (x : Executor) : Except Fatal Executor :=
  match updateStatesLoop { x with states := x.states ∪ x.addedStates, addedStates := ∅ }
      (iterationOrder x x.removedStates) with
  | Except.error e => Except.error e
  | Except.ok x1 => Except.ok { x1 with removedStates := ∅ }

/-- The path constraints of the state stored at a pointer. -/
def constraintsOf (x : Executor) (id : Nat) : Option (List Expr) :=
  (x.heap id).map (fun st => st.constraints)

/-- Two executors agree on the state sets, the seed map, the replay members,
the query log and the path constraints of every state. -/
def SameFrame (x y : Executor) : Prop :=
  y.states = x.states ∧ y.addedStates = x.addedStates ∧
    y.removedStates = x.removedStates ∧ y.seedMap = x.seedMap ∧
    y.nextState = x.nextState ∧ y.queries = x.queries ∧
    ∀ j, y.constraintsOf j = x.constraintsOf j

/-- The executor `y` is `x` after `k` clones of a state with constraints `cs`
were allocated and inserted into `addedStates`, nothing else changing in the
state sets, the seed map, the query log and the constraints. -/
def Grown (x y : Executor) (cs : List Expr) (k : Nat) : Prop :=
  y.nextState = x.nextState + k ∧ y.states = x.states ∧
    y.removedStates = x.removedStates ∧ y.seedMap = x.seedMap ∧ y.queries = x.queries ∧
    (∀ j, j ∈ y.addedStates ↔ j ∈ x.addedStates ∨ (x.nextState ≤ j ∧ j < x.nextState + k)) ∧
    ∀ j, y.constraintsOf j =
      if x.nextState ≤ j ∧ j < x.nextState + k then some cs else x.constraintsOf j

/-- Pointers at or above the allocation mark are not in use: they are neither
live, nor seeded, nor members of the three state sets. -/
def WellFormed (x : Executor) : Prop :=
  ∀ i, x.nextState ≤ i →
    x.heap i = none ∧ x.seedMap i = none ∧ i ∉ x.states ∧ i ∉ x.addedStates ∧
      i ∉ x.removedStates

end Executor

/-! ## Concretization and state-level errors -/

namespace Executor

/-- The function `Executor::toUnique` (Executor.cpp 1240-1257): the returned
expression and the executor afterwards. -/
def toUnique (env : Env) (x : Executor) (state : Nat) (e : Expr) :
    Except Fatal (Expr × Executor) :=
  match x.heap state with
  | none => Except.error Fatal.invalidPointer
  | some st =>
    if !e.isConstant then
      match TimingSolver.getValue env x.queries st e with
      | (none, q) => Except.ok (e, { x with queries := q })
      | (some value, q) =>
        match TimingSolver.mustBeTrue env q st (Expr.EqExpr_create e value) with
        | (some true, q1) => Except.ok (value, { x with queries := q1 })
        | (_, q1) => Except.ok (e, { x with queries := q1 })
    else Except.ok (e, x)

/-- The function `Executor::toConstant` (Executor.cpp 1262-1288); the warning
it prints is not part of the state. -/
def toConstant (env : Env) (x : Executor) (state : Nat) (e : Expr) (_reason : String) :
    Except Fatal (Expr × Executor) :=
  match x.heap state with
  | none => Except.error Fatal.invalidPointer
  | some st =>
    let e1 := env.simplifyExpr st.constraints e
    if e1.isConstant then Except.ok (e1, x)
    else
      match TimingSolver.getValue env x.queries st e1 with
      | (none, _) => Except.error (Fatal.assertion "FIXME: Unhandled solver failure")
      | (some value, q) =>
        match addConstraint env { x with queries := q } state
            (Expr.EqExpr_create e1 value) with
        | Except.error err => Except.error err
        | Except.ok x1 => Except.ok (value, x1)

/-- The text of the test case `terminateStateOnError` builds
(Executor.cpp 4031-4042). -/
def errorMessage (env : Env) (st : ExecutionState) (message info : String) : String :=
  let ii := env.instructionInfo st.prevPC
  "Error: " ++ message ++ "\n" ++
    (if ii.1 ≠ "" then "File: " ++ ii.1 ++ "\n" ++ "Line: " ++ Nat.repr ii.2 ++ "\n" else "") ++
    "Stack: \n" ++ env.stackTrace st ++
    (if info ≠ "" then "Info: \n" ++ info else "")

/-- The function `Executor::terminateStateOnError` (Executor.cpp 4010-4048).
The static set `emittedErrors` is a member of the executor record; the pair
is inserted only when `EmitAllErrors` is off, as the short-circuit `||` of
line 4021 does. -/
def terminateStateOnError (env : Env) (x : Executor) (state : Nat)
    (message suffix info : String) : Except Fatal Executor :=
  match x.heap state with
  | none => Except.error Fatal.invalidPointer
  | some st =>
    if !st.hasCurrentThread then
      Except.error (Fatal.assertion "state.crtThreadIt != state.threads.end()")
    else if env.opts.EmitAllErrors then
      let tc : TestCase :=
        { state := state, constraints := st.constraints,
          message := some (errorMessage env st message info), suffix := some suffix }
      terminateState { x with testCases := x.testCases ++ [tc] } state false
    else if (env.instOf st.prevPC, message) ∉ x.emittedErrors then
      let tc : TestCase :=
        { state := state, constraints := st.constraints,
          message := some (errorMessage env st message info), suffix := some suffix }
      terminateState
        { x with emittedErrors := insert (env.instOf st.prevPC, message) x.emittedErrors,
                 testCases := x.testCases ++ [tc] } state false
    else terminateState x state true

/-- One call of `terminateStateOnError`: the erroring state and the message,
suffix and info it is reported with. -/
structure ErrorReport where
  state : Nat
  message : String
  suffix : String := "err"
  info : String := ""
  deriving DecidableEq, Repr

/-- A run of error reports: `terminateStateOnError` called once for each, in
order. -/
def reportErrors (env : Env) : Executor → List ErrorReport → Except Fatal Executor
  | x, [] => Except.ok x
  | x, r :: rest =>
    match terminateStateOnError env x r.state r.message r.suffix r.info with
    | Except.error e => Except.error e
    | Except.ok x1 => reportErrors env x1 rest

/-- The (instruction, message) pair under which a report is filed: the
instruction is the one at the previous program counter of the erroring state. -/
def errorKey (env : Env) (x : Executor) (r : ErrorReport) : Nat × String :=
  (env.instOf (((x.heap r.state).map (fun st => st.prevPC)).getD 0), r.message)

/-- A state has been terminated: it awaits removal in `removedStates` or it
was deleted at once. -/
def Terminated (x : Executor) (s : Nat) : Prop :=
  s ∈ x.removedStates ∨ x.heap s = none

end Executor

namespace Executor

/-- The test case `terminateStateOnError` emits for a state
(Executor.cpp 4043). -/
def errorTestCase (env : Env) (s : Nat) (st : ExecutionState) (message suffix info : String) :
    TestCase :=
  { state := s, constraints := st.constraints,
    message := some (errorMessage env st message info), suffix := some suffix }

end Executor

/-! ## Objects in a state: binding, symbolic inputs, replay -/

namespace Executor

/-- The function `Executor::bindLocal` (Executor.cpp 1221-1227): the value of
the destination register of the target instruction; the register table is the
list of (register, value) pairs of the state. -/
def bindLocal (x : Executor) (target : Nat) (state : Nat) (value : Expr) : Executor :=
  x.modify state (fun st =>
    { st with locals := (target, value) :: st.locals.filter (fun c => decide (c.1 ≠ target)) })

/-- The function `Executor::bindObjectInState` (Executor.cpp 4180-4195): a new
object state for the memory object, bound in the address space of the state;
returns the pointer of the object state. -/
def bindObjectInState (x : Executor) (state : Nat) (mo : MemoryObject) (isLocal : Bool)
    (array : Option Nat) : Except Fatal (Nat × Executor) :=
  match x.heap state with
  | none => Except.error Fatal.invalidPointer
  | some st =>
    let os : ObjectState :=
      match array with
      | some arr => ObjectState.createSymbolic mo arr
      | none => ObjectState.create mo
    let m1 : Memory :=
      { cells := Function.update x.store.cells x.store.next (some os),
        next := x.store.next + 1 }
    match st.addressSpace.bindObject m1 mo.id x.store.next with
    | none => Except.error (Fatal.assertion "object already has owner")
    | some (a1, m2) =>
      let st1 : ExecutionState :=
        { st with addressSpace := a1,
                  allocas := if isLocal then st.allocas ++ [mo.id] else st.allocas }
      Except.ok (x.store.next, { x with store := m2 }.setState state st1)

/-- Apply an update to the object state stored at a pointer. -/
def modifyObject (x : Executor) (os : Nat) (f : ObjectState → ObjectState) : Executor :=
  match x.store.cells os with
  | none => x
  | some o =>
    { x with store := { x.store with cells := Function.update x.store.cells os (some (f o)) } }

/-- The text of the seed size-mismatch error (Executor.cpp 4819-4823). -/
def sizeMismatchMessage (mo : MemoryObject) (obj : KTestObject) : String :=
  "replace size mismatch: " ++ mo.name ++ "[" ++ Nat.repr mo.size ++ "]" ++ " vs " ++
    obj.name ++ "[" ++ Nat.repr obj.numBytes ++ "]" ++ " in test\n"

/-- The seed loop of `executeMakeSymbolic` (Executor.cpp 4799-4839): the seeds
with the new array bound, and the error message at which the loop broke, if it
did; the seeds after the break are left as they were. -/
def makeSymbolicSeeds (env : Env) (mo : MemoryObject) (array : Nat) :
    List SeedInfo → List SeedInfo × Option String
  | [] => ([], none)
  | si :: rest =>
    match env.seedNextInput si mo env.opts.NamedSeedMatching with
    | none =>
      if env.opts.ZeroSeedExtension then
        let r := makeSymbolicSeeds env mo array rest
        (env.seedBind si array (List.replicate mo.size 0) :: r.1, r.2)
      else if !env.opts.AllowSeedExtension then
        (si :: rest, some "ran out of inputs during seeding")
      else
        let r := makeSymbolicSeeds env mo array rest
        (si :: r.1, r.2)
    | some obj =>
      if decide (obj.numBytes ≠ mo.size) &&
          ((!(env.opts.AllowSeedExtension || env.opts.ZeroSeedExtension) &&
              decide (obj.numBytes < mo.size)) ||
            (!env.opts.AllowSeedTruncation && decide (mo.size < obj.numBytes))) then
        (si :: rest, some (sizeMismatchMessage mo obj))
      else
        let values := obj.bytes.take (min obj.numBytes mo.size) ++
          (if env.opts.ZeroSeedExtension then List.replicate (mo.size - obj.numBytes) 0
           else [])
        let r := makeSymbolicSeeds env mo array rest
        (env.seedBind si array values :: r.1, r.2)

/-- The branch of `executeMakeSymbolic` taken without a replay buffer
(Executor.cpp 4780-4840). -/
def makeSymbolicFresh (env : Env) (x : Executor) (state : Nat) (mo : MemoryObject)
    (shared : Bool) : Except Fatal Executor :=
  if env.opts.OutputConstraints && decide (x.states.card ≠ 1) then
    Except.error (Fatal.assertion "Can't add new symbolics after fork!\n")
  else
    let array := x.arrayId + 1
    match bindObjectInState { x with arrayId := array } state mo false (some array) with
    | Except.error e => Except.error e
    | Except.ok (os, x1) =>
      let x2 := (x1.modifyObject os (fun o => { o with isShared := shared })).modify state
        (fun st => { st with symbolics := st.symbolics ++ [(mo.id, array)] })
      match x2.seedMap state with
      | none => Except.ok x2
      | some seeds =>
        let r := makeSymbolicSeeds env mo array seeds
        let x3 : Executor := { x2 with seedMap := Function.update x2.seedMap state (some r.1) }
        match r.2 with
        | none => Except.ok x3
        | some message => terminateStateOnError env x3 state message "user.err" ""

/-- The branch of `executeMakeSymbolic` taken in replay-buffer mode
(Executor.cpp 4841-4854). -/
def makeSymbolicReplay (env : Env) (x : Executor) (state : Nat) (mo : MemoryObject)
    (out : KTest) : Except Fatal Executor :=
  match bindObjectInState x state mo false none with
  | Except.error e => Except.error e
  | Except.ok (os, x1) =>
    if out.numObjects ≤ x1.replayPosition then
      terminateStateOnError env x1 state "replay count mismatch" "user.err" ""
    else
      let obj := out.objects.getD x1.replayPosition {}
      let x2 : Executor := { x1 with replayPosition := x1.replayPosition + 1 }
      if obj.numBytes ≠ mo.size then
        terminateStateOnError env x2 state "replay size mismatch" "user.err" ""
      else
        Except.ok (x2.modifyObject os (fun o => o.writeBytes 0 (obj.bytes.take mo.size)))

/-- The function `Executor::executeMakeSymbolic` (Executor.cpp 4777-4855). -/
def executeMakeSymbolic (env : Env) (x : Executor) (state : Nat) (mo : MemoryObject)
    (shared : Bool) : Except Fatal Executor :=
  match x.replayOut with
  | none => makeSymbolicFresh env x state mo shared
  | some out => makeSymbolicReplay env x state mo out

end Executor

/-! ## Switch and allocation -/

/-- The function `MemoryManager::allocate` (MemoryManager.cpp 34-50): the new
memory object, or none when the size is above the limit or the address pool
of the state is exhausted; the pool belongs to the state. -/
def MemoryManager.allocate (mm : MemoryManager) (st : ExecutionState) (size : Nat)
    (isLocal isGlobal : Bool) (allocSite : Nat) :
    Option MemoryObject × MemoryManager × ExecutionState :=
  if 10 * 1024 * 1024 < size then (none, mm, st)
  else
    let r := st.addressPool.allocate size
    if r.1 = 0 then (none, mm, { st with addressPool := r.2 })
    else
      let res : MemoryObject :=
        { id := mm.counter, address := r.1, size := size, isLocal := isLocal,
          isGlobal := isGlobal, isFixed := false, allocSite := allocSite }
      (some res,
        { objects := mm.objects ++ [res], counter := mm.counter + 1,
          allocations := mm.allocations + 1 },
        { st with addressPool := r.2 })

namespace Executor

/-- The function `Executor::transferToBasicBlock` (Executor.cpp 1548-1568): the
program counter moves to the entry of the destination block. -/
def transferToBasicBlock (env : Env) (x : Executor) (dst : Nat) (state : Nat) : Executor :=
  x.modify state (fun st => { st with pc := env.blockEntry dst })

/-- The target bookkeeping of the Switch instruction (Executor.cpp 1831-1841
and 1850-1860): the condition is or-ed into the entry of the successor, or a
new entry is appended. -/
def addTarget : List (Nat × Expr) → Nat → Expr → List (Nat × Expr)
  | [], succ, e => [(succ, e)]
  | (s, old) :: rest, succ, e =>
    if s = succ then (s, Expr.OrExpr_create e old) :: rest
    else (s, old) :: addTarget rest succ e

/-- The case loop of the Switch instruction (Executor.cpp 1821-1843) over the
cases after the default one, each a successor and a case value. -/
def switchCases (env : Env) (st : ExecutionState) (cond : Expr) :
    List (Nat × Expr) → Expr → List (Nat × Expr) → List Query →
    Except Fatal (Expr × List (Nat × Expr) × List Query)
  | [], isDefault, targets, q => Except.ok (isDefault, targets, q)
  | (succ, value) :: rest, isDefault, targets, q =>
    match TimingSolver.mayBeTrue env q st (Expr.EqExpr_create cond value) with
    | (none, _) => Except.error (Fatal.assertion "FIXME: Unhandled solver failure")
    | (some result, q1) =>
      switchCases env st cond rest
        (Expr.AndExpr_create isDefault (Expr.createIsZero (Expr.EqExpr_create cond value)))
        (if result then addTarget targets succ (Expr.EqExpr_create cond value) else targets)
        q1

/-- The last loop of the Switch instruction (Executor.cpp 1872-1880): each
non-null branch state moves to its target block. -/
def transferAll (env : Env) : Executor → List (Nat × Expr) → List (Option Nat) → Executor
  | x, (dst, _) :: ts, some es :: bs => transferAll env (transferToBasicBlock env x dst es) ts bs
  | x, _ :: ts, none :: bs => transferAll env x ts bs
  | x, _, _ => x

/-- The Switch instruction (Executor.cpp 1801-1883) on a condition, the default
successor and the other cases. -/
def executeSwitch (env : Env) (x : Executor) (state : Nat) (cond : Expr)
    (defaultSucc : Nat) (cases : List (Nat × Expr)) : Except Fatal Executor :=
  match toUnique env x state cond with
  | Except.error e => Except.error e
  | Except.ok (cond1, x1) =>
    if cond1.isConstant then
      let succ : Nat :=
        match cases.find? (fun c => decide (c.2.getZExtValue = cond1.getZExtValue)) with
        | some c => c.1
        | none => defaultSucc
      Except.ok (transferToBasicBlock env x1 succ state)
    else
      match x1.heap state with
      | none => Except.error Fatal.invalidPointer
      | some st =>
        match switchCases env st cond1 cases (Expr.Constant 1 1) [] x1.queries with
        | Except.error e => Except.error e
        | Except.ok (isDefault, targets, q) =>
          match TimingSolver.mayBeTrue env q st isDefault with
          | (none, _) => Except.error (Fatal.assertion "FIXME: Unhandled solver failure")
          | (some res, q1) =>
            let targets1 := if res then addTarget targets defaultSucc isDefault else targets
            match branch env { x1 with queries := q1 } state (targets1.map (fun t => t.2)) with
            | Except.error e => Except.error e
            | Except.ok (branches, x2) => Except.ok (transferAll env x2 targets1 branches)

/-- The branch of `executeAlloc` for a constant size (Executor.cpp 4204-4226).
`reallocFrom` is the pointer of the object state being reallocated, if any. -/
def executeAllocConcrete (env : Env) (x : Executor) (state : Nat) (size : Nat)
    (isLocal : Bool) (target : Nat) (zeroMemory : Bool) (reallocFrom : Option Nat) :
    Except Fatal Executor :=
  match x.heap state with
  | none => Except.error Fatal.invalidPointer
  | some st =>
    match x.memory.allocate st size isLocal false (env.instOf st.prevPC) with
    | (none, mm, st1) =>
      Except.ok (({ x with memory := mm }.setState state st1).bindLocal target state
        (Expr.Constant env.pointerWidth 0))
    | (some mo, mm, st1) =>
      match bindObjectInState ({ x with memory := mm }.setState state st1) state mo isLocal
          none with
      | Except.error e => Except.error e
      | Except.ok (os, x1) =>
        let x2 :=
          if zeroMemory then x1.modifyObject os ObjectState.initializeToZero
          else
            { x1.modifyObject os (ObjectState.initializeToRandom (env.randomByte x1.rngDraws))
              with rngDraws := x1.rngDraws + 1 }
        let x3 := x2.bindLocal target state (mo.getBaseExpr env.pointerWidth)
        match reallocFrom with
        | none => Except.ok x3
        | some old =>
          match x3.store.cells old with
          | none => Except.error Fatal.invalidPointer
          | some src =>
            let x4 := x3.modifyObject os (fun o => o.copyFrom src 0 (min src.size o.size))
            Except.ok (x4.modify state (fun s =>
              { s with addressSpace := s.addressSpace.unbindObject src.object }))

/-- The loop of `executeAlloc` that looks for a small example size
(Executor.cpp 4246-4255); the first argument bounds the number of halvings and
is never reached when it is the example itself. -/
def allocShrink (env : Env) (st : ExecutionState) (size : Expr) (w : Nat) :
    Nat → Nat → List Query → Except Fatal (Nat × List Query)
  | 0, sample, q => Except.ok (sample, q)
  | fuel + 1, sample, q =>
    if 128 < sample then
      match TimingSolver.mayBeTrue env q st
          (Expr.EqExpr_create (Expr.Constant w (sample / 2)) size) with
      | (none, _) => Except.error (Fatal.assertion "FIXME: Unhandled solver failure")
      | (some res, q1) =>
        if !res then Except.ok (sample, q1)
        else allocShrink env st size w fuel (sample / 2) q1
    else Except.ok (sample, q)

/-- The part of `executeAlloc` on the state where the size differs from the
example (Executor.cpp 4259-4298). The bound of the huge-size test is
`ConstantExpr::alloc(1<<31, W)`: the `int` value `1<<31` is negative and
becomes the 64-bit value 2^64 - 2^31 when passed as `uint64_t`, of which the
constant keeps the low W bits. -/
def executeAllocOther (env : Env) (x : Executor) (second : Nat) (size : Expr) (w : Nat)
    (sample : Nat) (isLocal : Bool) (target : Nat) (zeroMemory : Bool)
    (reallocFrom : Option Nat) : Except Fatal Executor :=
  match x.heap second with
  | none => Except.error Fatal.invalidPointer
  | some st =>
    match TimingSolver.getValue env x.queries st size with
    | (none, _) => Except.error (Fatal.assertion "FIXME: Unhandled solver failure")
    | (some tmp, q) =>
      match TimingSolver.mustBeTrue env q st (Expr.EqExpr_create tmp size) with
      | (none, _) => Except.error (Fatal.assertion "FIXME: Unhandled solver failure")
      | (some res, q1) =>
        if res then
          executeAllocConcrete env { x with queries := q1 } second tmp.getZExtValue isLocal
            target zeroMemory reallocFrom
        else
          match fork env { x with queries := q1 } second
              (Expr.UltExpr_create (Expr.Constant w (2 ^ 64 - 2 ^ 31)) size) true with
          | Except.error e => Except.error e
          | Except.ok (hugeSize, x1) =>
            let x2 :=
              match hugeSize.1 with
              | some first => x1.bindLocal target first (Expr.Constant env.pointerWidth 0)
              | none => x1
            match hugeSize.2 with
            | none => Except.ok x2
            | some s =>
              terminateStateOnError env x2 s "concretized symbolic size" "model.err"
                ("  concretization : " ++ Nat.repr sample ++ "\n" ++
                  "  unbound example: " ++ Nat.repr tmp.getZExtValue ++ "\n")

/-- The branch of `executeAlloc` for a size that is not constant
(Executor.cpp 4227-4303).  The two recursive calls are on constant sizes, for
which `toUnique` returns the size as it is and the constant branch runs. -/
def executeAllocSymbolic (env : Env) (x : Executor) (state : Nat) (size : Expr)
    (isLocal : Bool) (target : Nat) (zeroMemory : Bool) (reallocFrom : Option Nat) :
    Except Fatal Executor :=
  match x.heap state with
  | none => Except.error Fatal.invalidPointer
  | some st =>
    match TimingSolver.getValue env x.queries st size with
    | (none, _) => Except.error (Fatal.assertion "FIXME: Unhandled solver failure")
    | (some ex, q) =>
      match allocShrink env st size ex.getWidth ex.getZExtValue ex.getZExtValue q with
      | Except.error e => Except.error e
      | Except.ok (sample, q1) =>
        match fork env { x with queries := q1 } state
            (Expr.EqExpr_create (Expr.Constant ex.getWidth sample) size) true with
        | Except.error e => Except.error e
        | Except.ok (fixedSize, x1) =>
          let other : Except Fatal Executor :=
            match fixedSize.2 with
            | none => Except.ok x1
            | some second =>
              executeAllocOther env x1 second size ex.getWidth sample isLocal target
                zeroMemory reallocFrom
          match other with
          | Except.error e => Except.error e
          | Except.ok x2 =>
            match fixedSize.1 with
            | none => Except.ok x2
            | some first =>
              executeAllocConcrete env x2 first sample isLocal target zeroMemory reallocFrom

/-- The function `Executor::executeAlloc` (Executor.cpp 4197-4303). -/
def executeAlloc (env : Env) (x : Executor) (state : Nat) (size : Expr) (isLocal : Bool)
    (target : Nat) (zeroMemory : Bool) (reallocFrom : Option Nat) : Except Fatal Executor :=
  match toUnique env x state size with
  | Except.error e => Except.error e
  | Except.ok (size1, x1) =>
    if size1.isConstant then
      executeAllocConcrete env x1 state size1.getZExtValue isLocal target zeroMemory
        reallocFrom
    else executeAllocSymbolic env x1 state size1 isLocal target zeroMemory reallocFrom

end Executor

/-! ## Memory operations -/

namespace Executor

/-- The effect of the temporary `MemoryObject hack((unsigned) example)` of
`getAddressInfo` (Executor.cpp 3901) on the executor: the constructor
`MemoryObject(uint64_t)` (Memory.h 77-84) does `id(counter++)`, so the static
counter behind the object ids advances by one; no object is registered. -/
def hackObject (x : Executor) : Executor :=
  { x with memory := { x.memory with counter := x.memory.counter + 1 } }

/-- The function `Executor::getAddressInfo` (Executor.cpp 3883-3930): for an
address that is not constant it asks the solver for an example and a range;
then it builds the temporary object `hack` for the lookup of the neighbouring
objects, which takes one object id. The text itself is built outside the
model. -/
def getAddressInfo (env : Env) (x : Executor) (state : Nat) (address : Expr) :
    Except Fatal (String × Executor) :=
  match x.heap state with
  | none => Except.error Fatal.invalidPointer
  | some st =>
    if address.isConstant then
      Except.ok (env.addressInfo st address address.getZExtValue, x.hackObject)
    else
      match TimingSolver.getValue env x.queries st address with
      | (none, _) => Except.error (Fatal.assertion "FIXME: Unhandled solver failure")
      | (some value, q) =>
        Except.ok (env.addressInfo st address value.getZExtValue,
          { x with queries := (TimingSolver.getRange env q st address).2 }.hackObject)

/-- Modelled from the spec: `AddressSpace::resolveOne(state, solver, address,
result, success)` (section 4.1): a constant address takes the concrete lookup
and the call succeeds; any other address is resolved with the solver, an
oracle here, and `none` is the failure return. -/
def resolveOneExpr (env : Env) (x : Executor) (st : ExecutionState) (address : Expr) :
    Option (Option (MemoryObject × Nat)) :=
  if address.isConstant then
    some (st.addressSpace.resolveOne x.memory.objects address.getZExtValue)
  else env.resolveOneSymbolic st address

/-- Modelled from the spec: `AddressSpace::resolve` (section 4.1): the objects
the address may point to and the incomplete flag; for a constant address the
list is the result of the concrete lookup and it is complete. -/
def resolveExpr (env : Env) (x : Executor) (st : ExecutionState) (address : Expr) :
    List (MemoryObject × Nat) × Bool :=
  if address.isConstant then
    ((st.addressSpace.resolveOne x.memory.objects address.getZExtValue).toList, false)
  else env.resolveSymbolic st address

/-- Modelled from the spec: `ObjectState::read(ref<Expr> offset, Expr::Width)`
(section 4.2): a constant offset reads the bytes directly, any other offset
builds a read expression, an oracle here. -/
def objectRead (env : Env) (o : ObjectState) (offset : Expr) (width : Nat) : Expr :=
  if offset.isConstant then o.read offset.getZExtValue width
  else env.readSymbolicOffset o offset width

/-- Modelled from the spec: `ObjectState::write(ref<Expr> offset, ref<Expr>
value)` (section 4.2). -/
def objectWrite (env : Env) (o : ObjectState) (offset value : Expr) : ObjectState :=
  if offset.isConstant then o.write offset.getZExtValue value
  else env.writeSymbolicOffset o offset value

/-- The function `Executor::replaceReadWithSymbolic` (Executor.cpp
4153-4178); `NotOptimizedExpr` is the expression it wraps. -/
def replaceReadWithSymbolic (env : Env) (x : Executor) (state : Nat) (e : Expr) :
    Expr × Executor :=
  if decide (env.opts.MakeConcreteSymbolic = 0) || x.replayOut.isSome ||
      x.replayPath.isSome then (e, x)
  else if !e.isConstant then (e, x)
  else if decide (env.opts.MakeConcreteSymbolic ≠ 1) &&
      decide (env.rngInt32 x.rngDraws % env.opts.MakeConcreteSymbolic ≠ 0) then
    (e, { x with rngDraws := x.rngDraws + 1 })
  else
    let x1 : Executor :=
      { x with rngDraws := if env.opts.MakeConcreteSymbolic ≠ 1 then x.rngDraws + 1
                           else x.rngDraws,
               arrayId := x.arrayId + 1 }
    (Expr.Read (x.arrayId + 1) e.getWidth,
      x1.modify state (fun st =>
        stateAddConstraint st (Expr.EqExpr_create e (Expr.Read (x.arrayId + 1) e.getWidth))))

/-- The access of `executeMemoryOperation` to a resolved object
(Executor.cpp 4664-4697 and 4726-4756): a write goes through `getWriteable`
unless the object is read-only, a read binds the destination register. -/
def memoryAccess (env : Env) (x : Executor) (state : Nat) (isWrite : Bool)
    (mo : MemoryObject) (os : Nat) (offset value : Expr) (target : Nat) (type : Nat)
    (replaceRead : Bool) : Except Fatal Executor :=
  match x.heap state, x.store.cells os with
  | some st, some o =>
    if isWrite then
      if o.readOnly then
        terminateStateOnError env x state "memory error: object read only" "readonly.err" ""
      else
        match st.addressSpace.getWriteable x.store mo.id os with
        | none => Except.error Fatal.invalidPointer
        | some (wos, a1, m1) =>
          Except.ok (({ x with store := m1 }.setState state
            { st with addressSpace := a1 }).modifyObject wos
              (fun w => objectWrite env w offset value))
    else
      let r : Expr × Executor :=
        if replaceRead then replaceReadWithSymbolic env x state (objectRead env o offset type)
        else (objectRead env o offset type, x)
      Except.ok (r.2.bindLocal target state r.1)
  | _, _ => Except.error Fatal.invalidPointer

/-- The loop of `executeMemoryOperation` over the resolution list
(Executor.cpp 4715-4762): fork on the bounds check of each object, access it
in the bound state, go on with the unbound one. -/
def memoryResolveLoop (env : Env) (isWrite : Bool) (address value : Expr) (target : Nat)
    (type bytes : Nat) : Executor → Option Nat → List (MemoryObject × Nat) →
    Except Fatal (Option Nat × Executor)
  | x, unbound, [] => Except.ok (unbound, x)
  | x, none, _ :: _ => Except.ok (none, x)
  | x, some u, (mo, os) :: rest =>
    match fork env x u (mo.getBoundsCheckPointer env.pointerWidth address bytes) true with
    | Except.error e => Except.error e
    | Except.ok (branches, x1) =>
      let accessed : Except Fatal Executor :=
        match branches.1 with
        | none => Except.ok x1
        | some bound =>
          memoryAccess env
            (x1.modify bound (fun s => { s with lastResolveResult := some mo.id })) bound
            isWrite mo os (mo.getOffsetExpr env.pointerWidth address) value target type false
      match accessed with
      | Except.error e => Except.error e
      | Except.ok x2 =>
        memoryResolveLoop env isWrite address value target type bytes x2 branches.2 rest

/-- The error path of `executeMemoryOperation` (Executor.cpp 4703-4774): no
resolution, several resolutions, or one resolution out of bounds. -/
def memoryErrorPath (env : Env) (x : Executor) (state : Nat) (isWrite : Bool)
    (address value : Expr) (target : Nat) (type bytes : Nat) : Except Fatal Executor :=
  match x.heap state with
  | none => Except.error Fatal.invalidPointer
  | some st =>
    match memoryResolveLoop env isWrite address value target type bytes x (some state)
        (resolveExpr env x st address).1 with
    | Except.error e => Except.error e
    | Except.ok (none, x1) => Except.ok x1
    | Except.ok (some unbound, x1) =>
      if (resolveExpr env x st address).2 then
        terminateStateEarly env x1 unbound "query timed out (resolve)"
      else
        match getAddressInfo env x1 unbound address with
        | Except.error e => Except.error e
        | Except.ok (info, x2) =>
          terminateStateOnError env x2 unbound "memory error: out of bound pointer" "ptr.err"
            info

/-- The fast path of `executeMemoryOperation` after a single resolution
(Executor.cpp 4641-4701): the bounds check and the access; `none` is the fall
through to the error path, with the address as it is then. -/
def memoryFastPath (env : Env) (x : Executor) (state : Nat) (isWrite : Bool)
    (address value : Expr) (target : Nat) (type bytes : Nat) (mo : MemoryObject) (os : Nat) :
    Except Fatal (Option Executor × Expr × Executor) :=
  let x0 := x.modify state (fun s => { s with lastResolveResult := some mo.id })
  let concretized : Except Fatal (Expr × Executor) :=
    if decide (env.opts.MaxSymArraySize ≠ 0) && decide (env.opts.MaxSymArraySize ≤ mo.size) then
      toConstant env x0 state address "max-sym-array-size"
    else Except.ok (address, x0)
  match concretized with
  | Except.error e => Except.error e
  | Except.ok (address1, x1) =>
    match x1.heap state with
    | none => Except.error Fatal.invalidPointer
    | some st =>
      match TimingSolver.mustBeTrue env x1.queries st
          (mo.getBoundsCheckOffset env.pointerWidth
            (mo.getOffsetExpr env.pointerWidth address1) bytes) with
      | (none, q) =>
        match terminateStateEarly env
            ({ x1 with queries := q }.modify state (fun s => { s with pc := s.prevPC })) state
            "query timed out" with
        | Except.error e => Except.error e
        | Except.ok x2 => Except.ok (some x2, address1, x2)
      | (some inBounds, q) =>
        if inBounds then
          match memoryAccess env { x1 with queries := q } state isWrite mo os
              (mo.getOffsetExpr env.pointerWidth address1) value target type
              (decide (env.opts.MakeConcreteSymbolic ≠ 0)) with
          | Except.error e => Except.error e
          | Except.ok x2 => Except.ok (some x2, address1, x2)
        else Except.ok (none, address1, { x1 with queries := q })

/-- The function `Executor::executeMemoryOperation` (Executor.cpp 4615-4775).
`readWidth` is the width of the type of the target instruction, used by a
read. -/
def executeMemoryOperation (env : Env) (x : Executor) (state : Nat) (isWrite : Bool)
    (address value : Expr) (target : Nat) (readWidth : Nat) : Except Fatal Executor :=
  match x.heap state with
  | none => Except.error Fatal.invalidPointer
  | some st =>
    let type := if isWrite then value.getWidth else readWidth
    let bytes := Expr.getMinBytesForWidth type
    let address1 :=
      if env.opts.SimplifySymIndices && !address.isConstant then
        env.simplifyExpr st.constraints address
      else address
    let value1 :=
      if env.opts.SimplifySymIndices && isWrite && !value.isConstant then
        env.simplifyExpr st.constraints value
      else value
    let resolved : Except Fatal (Option (MemoryObject × Nat) × Expr × Executor) :=
      match resolveOneExpr env x st address1 with
      | some r => Except.ok (r, address1, x)
      | none =>
        match toConstant env x state address1 "resolveOne failure" with
        | Except.error e => Except.error e
        | Except.ok (c, x1) =>
          match x1.heap state with
          | none => Except.error Fatal.invalidPointer
          | some st1 =>
            Except.ok (st1.addressSpace.resolveOne x1.memory.objects c.getZExtValue, c, x1)
    match resolved with
    | Except.error e => Except.error e
    | Except.ok (none, address2, x1) =>
      memoryErrorPath env x1 state isWrite address2 value1 target type bytes
    | Except.ok (some (mo, os), address2, x1) =>
      match memoryFastPath env x1 state isWrite address2 value1 target type bytes mo os with
      | Except.error e => Except.error e
      | Except.ok (some x2, _, _) => Except.ok x2
      | Except.ok (none, address3, x2) =>
        memoryErrorPath env x2 state isWrite address3 value1 target type bytes

end Executor

/-! ## Merge -/

/-- The conjunction of a list of conditions. -/
def conjunction : List Expr → Expr
  | [] => Expr.Constant 1 1
  | c :: cs => Expr.And c (conjunction cs)

/-- Modelled from the spec: `ExecutionState::merge` (section 4.5;
`ExecutionState.cpp` is not among the sources): two states with the same
program counter and call-stack depth whose address spaces bind the same set of
objects are combined into one state whose path constraint is the disjunction
of the constraints of the two and whose values, if-then-else expressions, come
from the oracle; in every other case no merge is possible. -/
def ExecutionState.mergeWith (env : Env) (a b : ExecutionState) : Option ExecutionState :=
  if a.pc = b.pc ∧ a.stackDepth = b.stackDepth ∧
      (∀ e ∈ a.addressSpace.objects, (b.addressSpace.findObject e.1).isSome) ∧
      (∀ e ∈ b.addressSpace.objects, (a.addressSpace.findObject e.1).isSome) then
    some { (env.mergeStates a b) with
      constraints := [Expr.Or (conjunction a.constraints) (conjunction b.constraints)],
      pc := a.pc, prevPC := a.prevPC, ptreeNode := a.ptreeNode,
      isDuplicate := a.isDuplicate, duplicates := a.duplicates,
      hasCurrentThread := a.hasCurrentThread, stackDepth := a.stackDepth }
  else none

namespace Executor

/-- The function `Executor::addDuplicates` (Executor.cpp 1076-1087). -/
def addDuplicates (x : Executor) (main other : Nat) : Except Fatal Executor :=
  match x.heap other with
  | none => Except.error Fatal.invalidPointer
  | some ost =>
    if ost.isDuplicate then Except.error (Fatal.assertion "!other->isDuplicate")
    else if ost.duplicates.isEmpty then
      let b := branchState x ost
      let d := b.2.processTree.duplicate ost.ptreeNode b.1
      let x1 : Executor := { b.2 with processTree := d.2.deactivate d.1 }
      Except.ok ((x1.modify b.1 (fun s => { s with isDuplicate := true, ptreeNode := d.1 })).modify
        main (fun s => { s with duplicates := (s.duplicates ++ [b.1]).dedup }))
    else
      Except.ok (x.modify main
        (fun s => { s with duplicates := (s.duplicates ++ ost.duplicates).dedup }))

/-- The branch of `Executor::merge` that keeps the merged states as
duplicates (Executor.cpp 1095-1103); the state-level merge has made the merged
state a new state, stored here at a fresh pointer. -/
def mergeKeep (x : Executor) (current other : Nat) (cst ost m : ExecutionState) :
    Except Fatal (Nat × Executor) :=
  let c := cloneState x m
  let t1 := (c.2.processTree.clearData cst.ptreeNode).clearData ost.ptreeNode
  let mc := t1.mergeCopy cst.ptreeNode ost.ptreeNode c.1
  let x2 := { c.2 with processTree := mc.2 }.modify c.1 (fun s => { s with ptreeNode := mc.1 })
  match addDuplicates x2 c.1 current with
  | Except.error e => Except.error e
  | Except.ok x3 =>
    match addDuplicates x3 c.1 other with
    | Except.error e => Except.error e
    | Except.ok x4 => Except.ok (c.1, x4)

/-- The function `Executor::merge` (Executor.cpp 1089-1122): the merged state,
or null, and the executor afterwards.  With `KeepMergedDuplicates` the
state-level merge copies, without it the current state itself becomes the
merged state. -/
def merge (env : Env) (x : Executor) (current other : Nat) :
    Except Fatal (Option Nat × Executor) :=
  match x.heap current, x.heap other with
  | some cst, some ost =>
    match cst.mergeWith env ost with
    | none => Except.ok (none, { x with mergesFail := x.mergesFail + 1 })
    | some m =>
      if env.opts.KeepMergedDuplicates then
        match mergeKeep x current other cst ost m with
        | Except.error e => Except.error e
        | Except.ok (merged, x1) =>
          Except.ok (some merged, { x1 with mergesSuccess := x1.mergesSuccess + 1 })
      else
        let x1 := x.setState current m
        let t1 := (x1.processTree.clearData ost.ptreeNode).merge cst.ptreeNode ost.ptreeNode
        Except.ok (some current,
          { x1 with processTree := t1, mergesSuccess := x1.mergesSuccess + 1 })
  | _, _ => Except.error Fatal.invalidPointer

end Executor

/-! ## The state sets during an instruction step -/

namespace Executor

/-- The function `Executor::fork(ExecutionState&, int reason)`
(Executor.cpp 1026-1043): an unconditional fork; returns the new state and the
current one. -/
def forkReason (x : Executor) (current : Nat) : Except Fatal (StatePair × Executor) :=
  match x.heap current with
  | none => Except.error Fatal.invalidPointer
  | some st =>
    let c := cloneState x st
    let sp := (c.2.processTree.clearData st.ptreeNode).split st.ptreeNode c.1 current
    Except.ok ((some c.1, some current),
      ({ c.2 with processTree := sp.2 }.modify c.1
        (fun s => { s with ptreeNode := sp.1.1 })).modify current
        (fun s => { s with ptreeNode := sp.1.2 }))

/-- The calls through which the execution of an instruction reaches the state
sets: the two forks, `branch` and the three ways of terminating a state. -/
inductive InstrOp where
  | fork (current : Nat) (condition : Expr) (isInternal : Bool)
  | forkReason (current : Nat)
  | branch (state : Nat) (conditions : List Expr)
  | terminate (state : Nat) (silenced : Bool)
  | terminateEarly (state : Nat) (message : String)
  | terminateOnError (state : Nat) (message suffix info : String)

/-- One of the calls of an instruction. -/
def runOp (env : Env) (x : Executor) : InstrOp → Except Fatal Executor
  | InstrOp.fork current condition isInternal =>
    (fork env x current condition isInternal).map (fun r => r.2)
  | InstrOp.forkReason current => (forkReason x current).map (fun r => r.2)
  | InstrOp.branch state conditions => (branch env x state conditions).map (fun r => r.2)
  | InstrOp.terminate state silenced => terminateState x state silenced
  | InstrOp.terminateEarly state message => terminateStateEarly env x state message
  | InstrOp.terminateOnError state message suffix info =>
    terminateStateOnError env x state message suffix info

/-- The calls of an instruction run in order. -/
def runInstr (env : Env) : Executor → List InstrOp → Except Fatal Executor
  | x, [] => Except.ok x
  | x, op :: rest =>
    match runOp env x op with
    | Except.error e => Except.error e
    | Except.ok x1 => runInstr env x1 rest

/-- Pointers at or above the allocation mark are neither live nor members of
`addedStates` or `removedStates`. -/
def Fresh (x : Executor) : Prop :=
  ∀ i, x.nextState ≤ i → x.heap i = none ∧ i ∉ x.addedStates ∧ i ∉ x.removedStates

/-- The invariant of Executor.h 126-135 on the two sets, with the freshness of
unallocated pointers it rests on. -/
def SetsInv (x : Executor) : Prop :=
  x.Fresh ∧ Disjoint x.addedStates x.removedStates

/-- The executor `y` differs from `x` in neither the allocation mark nor the
two sets, and no dead pointer of `x` is live in `y`. -/
def Quiet (x y : Executor) : Prop :=
  y.nextState = x.nextState ∧ y.addedStates = x.addedStates ∧
    y.removedStates = x.removedStates ∧ ∀ i, x.heap i = none → y.heap i = none

/-- The executor `y` keeps the invariant, allocates upwards from `x`, and every
member of its `addedStates` was already one in `x` or is a pointer allocated
since, dead in `x`. -/
def Preserves (x y : Executor) : Prop :=
  y.SetsInv ∧ x.nextState ≤ y.nextState ∧
    ∀ i, i ∈ y.addedStates → i ∈ x.addedStates ∨ (x.nextState ≤ i ∧ x.heap i = none)

end Executor

/-! ## Floating-point comparison, aggregate values and reference counts -/

/-- The four outcomes of `APFloat::compare`, the enumeration
`APFloat::cmpResult`. -/
inductive CmpResult where
  | cmpLessThan
  | cmpEqual
  | cmpGreaterThan
  | cmpUnordered
  deriving DecidableEq, Repr

/-- The sixteen predicates of the FCmp instruction, the values
`FCmpInst::getPredicate` returns. -/
inductive FCmpPredicate where
  | FCMP_FALSE
  | FCMP_OEQ
  | FCMP_OGT
  | FCMP_OGE
  | FCMP_OLT
  | FCMP_OLE
  | FCMP_ONE
  | FCMP_ORD
  | FCMP_UNO
  | FCMP_UEQ
  | FCMP_UGT
  | FCMP_UGE
  | FCMP_ULT
  | FCMP_ULE
  | FCMP_UNE
  | FCMP_TRUE
  deriving DecidableEq, Repr

/-- The switch of the FCmp instruction over the predicate
(Executor.cpp 2546-2617): the Boolean `Result` for an outcome `CmpRes` of the
comparison of the two operands.  An unordered predicate answers true on an
unordered outcome and otherwise falls through to the case of the ordered
predicate below it. -/
def fcmpResult (predicate : FCmpPredicate) (CmpRes : CmpResult) : Bool :=
  match predicate with
  | FCmpPredicate.FCMP_ORD => decide (CmpRes ≠ CmpResult.cmpUnordered)
  | FCmpPredicate.FCMP_UNO => decide (CmpRes = CmpResult.cmpUnordered)
  | FCmpPredicate.FCMP_UEQ =>
    if CmpRes = CmpResult.cmpUnordered then true else decide (CmpRes = CmpResult.cmpEqual)
  | FCmpPredicate.FCMP_OEQ => decide (CmpRes = CmpResult.cmpEqual)
  | FCmpPredicate.FCMP_UGT =>
    if CmpRes = CmpResult.cmpUnordered then true
    else decide (CmpRes = CmpResult.cmpGreaterThan)
  | FCmpPredicate.FCMP_OGT => decide (CmpRes = CmpResult.cmpGreaterThan)
  | FCmpPredicate.FCMP_UGE =>
    if CmpRes = CmpResult.cmpUnordered then true
    else decide (CmpRes = CmpResult.cmpGreaterThan) || decide (CmpRes = CmpResult.cmpEqual)
  | FCmpPredicate.FCMP_OGE =>
    decide (CmpRes = CmpResult.cmpGreaterThan) || decide (CmpRes = CmpResult.cmpEqual)
  | FCmpPredicate.FCMP_ULT =>
    if CmpRes = CmpResult.cmpUnordered then true else decide (CmpRes = CmpResult.cmpLessThan)
  | FCmpPredicate.FCMP_OLT => decide (CmpRes = CmpResult.cmpLessThan)
  | FCmpPredicate.FCMP_ULE =>
    if CmpRes = CmpResult.cmpUnordered then true
    else decide (CmpRes = CmpResult.cmpLessThan) || decide (CmpRes = CmpResult.cmpEqual)
  | FCmpPredicate.FCMP_OLE =>
    decide (CmpRes = CmpResult.cmpLessThan) || decide (CmpRes = CmpResult.cmpEqual)
  | FCmpPredicate.FCMP_UNE =>
    decide (CmpRes = CmpResult.cmpUnordered) || decide (CmpRes ≠ CmpResult.cmpEqual)
  | FCmpPredicate.FCMP_ONE =>
    decide (CmpRes ≠ CmpResult.cmpUnordered) && decide (CmpRes ≠ CmpResult.cmpEqual)
  | FCmpPredicate.FCMP_FALSE => false
  | FCmpPredicate.FCMP_TRUE => true

/-- The function `fpWidthToSemantics` (Executor.cpp 1623-1634): whether a width
has floating-point semantics (32, 64 or 80 bits). -/
def fpWidthToSemantics (width : Nat) : Bool :=
  decide (width = 32) || decide (width = 64) || decide (width = 80)

namespace Executor

/-- The FCmp instruction (Executor.cpp 2531-2622): both operands are made
constant, a width without floating-point semantics is an execution error of
the state, and the destination register receives the Boolean constant of the
predicate switch.  `compare` stands for `APFloat::compare` on the two bit
patterns. -/
def executeFCmp (env : Env) (compare : Expr → Expr → CmpResult) (x : Executor) (state : Nat)
    (target : Nat) (predicate : FCmpPredicate) (l r : Expr) : Except Fatal Executor :=
  match toConstant env x state l "floating point" with
  | Except.error e => Except.error e
  | Except.ok (left, x1) =>
    match toConstant env x1 state r "floating point" with
    | Except.error e => Except.error e
    | Except.ok (right, x2) =>
      if !fpWidthToSemantics left.getWidth || !fpWidthToSemantics right.getWidth then
        terminateStateOnError env x2 state "Unsupported FCmp operation" "exec.err" ""
      else
        Except.ok (x2.bindLocal target state
          (Expr.Constant 1 (if fcmpResult predicate (compare left right) then 1 else 0)))

end Executor

namespace Expr

/-- Modelled from the spec: `ExtractExpr::create`, which folds a constant. -/
def ExtractExpr_create (e : Expr) (offset width : Nat) : Expr :=
  match e with
  | Constant w v => Constant width ((v % 2 ^ w) / 2 ^ offset % 2 ^ width)
  | _ => Extract e offset width

/-- Modelled from the spec: `ConcatExpr::create`, which folds two constants;
the left operand holds the high bits. -/
def ConcatExpr_create (l r : Expr) : Expr :=
  match l, r with
  | Constant w v, Constant w2 v2 => Constant (w + w2) ((v % 2 ^ w) * 2 ^ w2 + v2 % 2 ^ w2)
  | _, _ => Concat l r

end Expr

namespace Executor

/-- The value the InsertValue instruction builds (Executor.cpp 2623-2648) from
the aggregate, the inserted value and the byte offset `kgepi->offset`; the two
bit offsets are of type `unsigned`. -/
def insertValue (agg val : Expr) (offset : Nat) : Expr :=
  let lOffset := offset * 8 % 2 ^ 32
  let rOffset := (offset * 8 + val.getWidth) % 2 ^ 32
  let l : Option Expr :=
    if 0 < lOffset then some (Expr.ExtractExpr_create agg 0 lOffset) else none
  let r : Option Expr :=
    if rOffset < agg.getWidth then
      some (Expr.ExtractExpr_create agg rOffset (agg.getWidth - rOffset))
    else none
  match l, r with
  | some l1, some r1 => Expr.ConcatExpr_create r1 (Expr.ConcatExpr_create val l1)
  | some l1, none => Expr.ConcatExpr_create val l1
  | none, some r1 => Expr.ConcatExpr_create r1 val
  | none, none => val

/-- The value the ExtractValue instruction builds (Executor.cpp 2650-2659) from
the aggregate, the byte offset and the width of the result type. -/
def extractValue (agg : Expr) (offset width : Nat) : Expr :=
  Expr.ExtractExpr_create agg (offset * 8 % 2 ^ 32) width

/-- The InsertValue instruction: the built value is bound to the destination
register. -/
def executeInsertValue (x : Executor) (state target : Nat) (agg val : Expr) (offset : Nat) :
    Executor :=
  x.bindLocal target state (insertValue agg val offset)

/-- The ExtractValue instruction: the built value is bound to the destination
register. -/
def executeExtractValue (x : Executor) (state target : Nat) (agg : Expr)
    (offset width : Nat) : Executor :=
  x.bindLocal target state (extractValue agg offset width)

end Executor

/-- The objects and handles of a run of `ref<T>` operations (Ref.h 27-93):
`objects[p]` is the member `refCount` of the object at address `p`, none once
the object is deleted; `refs[h]` is the member `ptr` of the handle `h` (none
for the null pointer), none once the handle is destroyed. -/
structure RefStore where
  objects : List (Option Nat) := []
  refs : List (Option (Option Nat)) := []
  deriving DecidableEq, Repr

namespace RefStore

/-- The method `ref<T>::inc` (Ref.h 36-40): the 32-bit count of the pointee is
incremented; a null handle does nothing, a pointer to a deleted object is a
use after free. -/
def inc (s : RefStore) (ptr : Option Nat) : Except Fatal RefStore :=
  match ptr with
  | none => Except.ok s
  | some p =>
    match s.objects.getD p none with
    | none => Except.error Fatal.invalidPointer
    | some c => Except.ok { s with objects := s.objects.set p (some ((c + 1) % 2 ^ 32)) }

/-- The method `ref<T>::dec` (Ref.h 42-49): the 32-bit count of the pointee is
decremented and the object is deleted when the count read before the
decrement is one. -/
def dec (s : RefStore) (ptr : Option Nat) : Except Fatal RefStore :=
  match ptr with
  | none => Except.ok s
  | some p =>
    match s.objects.getD p none with
    | none => Except.error Fatal.invalidPointer
    | some c =>
      if c = 1 then Except.ok { s with objects := s.objects.set p none }
      else Except.ok { s with objects := s.objects.set p (some ((c + 2 ^ 32 - 1) % 2 ^ 32)) }

/-- The allocation `new T` of an object, whose count starts at zero; the
address of the object is the old length of `objects`. -/
def newObject (s : RefStore) : RefStore :=
  { s with objects := s.objects ++ [some 0] }

/-- The constructor from a pointer (Ref.h 55-57); the new handle is the old
length of `refs`. -/
def fromPointer (s : RefStore) (p : Option Nat) : Except Fatal RefStore :=
  inc { s with refs := s.refs ++ [some p] } p

/-- The copy constructor (Ref.h 60-62). -/
def copy (s : RefStore) (r : Nat) : Except Fatal RefStore :=
  match s.refs.getD r none with
  | none => Except.error Fatal.invalidPointer
  | some p => inc { s with refs := s.refs ++ [some p] } p

/-- The copy assignment operator (Ref.h 79-85): `dec()`, then `ptr = r.ptr`,
then `inc()`. -/
def assign (s : RefStore) (h r : Nat) : Except Fatal RefStore :=
  match s.refs.getD h none with
  | none => Except.error Fatal.invalidPointer
  | some old =>
    match dec s old with
    | Except.error e => Except.error e
    | Except.ok s1 =>
      match s1.refs.getD r none with
      | none => Except.error Fatal.invalidPointer
      | some p => inc { s1 with refs := s1.refs.set h (some p) } p

/-- The destructor (Ref.h 32): `dec()`, after which the handle is gone. -/
def destroy (s : RefStore) (h : Nat) : Except Fatal RefStore :=
  match s.refs.getD h none with
  | none => Except.error Fatal.invalidPointer
  | some old =>
    match dec s old with
    | Except.error e => Except.error e
    | Except.ok s1 => Except.ok { s1 with refs := s1.refs.set h none }

/-- The number of live handles that point to the object at an address. -/
def handleCount (s : RefStore) (p : Nat) : Nat :=
  (s.refs.filter (fun r => decide (r = some (some p)))).length

end RefStore

/-- One operation on `ref<T>` handles. -/
inductive RefOp where
  | newObject
  | fromPointer (p : Option Nat)
  | copy (r : Nat)
  | assign (h r : Nat)
  | destroy (h : Nat)
  deriving DecidableEq, Repr

/-- A sequence of `ref<T>` operations run in order. -/
def runRefOps : RefStore → List RefOp → Except Fatal RefStore
  | s, [] => Except.ok s
  | s, op :: rest =>
    let r : Except Fatal RefStore :=
      match op with
      | RefOp.newObject => Except.ok s.newObject
      | RefOp.fromPointer p => s.fromPointer p
      | RefOp.copy r => s.copy r
      | RefOp.assign h r => s.assign h r
      | RefOp.destroy h => s.destroy h
    match r with
    | Except.error e => Except.error e
    | Except.ok s1 => runRefOps s1 rest

/-! ## Calls -/

/-- Modelled from the spec: `ExecutionState::pushFrame`, which pushes a stack
frame with an empty register table and no varargs object for the function and
remembers the return address of the caller (section 3). -/
def ExecutionState.pushFrame (st : ExecutionState) (caller kf : Nat) : ExecutionState :=
  { st with stack := { caller := st.caller, kf := st.kf, locals := st.locals,
                       varargs := st.varargs } :: st.stack,
            caller := caller, kf := kf, locals := [], varargs := none,
            stackDepth := st.stackDepth + 1 }

/-- The function `llvm::RoundUpToAlignment` of the LLVM support library: the
next multiple of the alignment. -/
def RoundUpToAlignment (value align : Nat) : Nat := (value + align - 1) / align * align

/-- The bytes one extra argument of a variadic call takes in the varargs object
(Executor.cpp 1506-1512 and 1530-1538): the minimum byte count of its width
when the pointer width is 32, its width rounded up to a multiple of the word
size, in bytes, otherwise. -/
def varargsSlot (wordSize : Nat) (argument : Expr) : Nat :=
  if wordSize = 32 then Expr.getMinBytesForWidth argument.getWidth
  else RoundUpToAlignment argument.getWidth wordSize / 8

/-- The size loop of `executeCall` (Executor.cpp 1503-1513) over the extra
arguments; the accumulator is of type `unsigned`. -/
def varargsSize (wordSize : Nat) : List Expr → Nat → Nat
  | [], size => size
  | a :: rest, size => varargsSize wordSize rest ((size + varargsSlot wordSize a) % 2 ^ 32)

/-- The write loop of `executeCall` (Executor.cpp 1526-1539) over the extra
arguments: each is written at the running offset, which is of type `unsigned`;
a word size other than 32 and 64 stops at the assertion of line 1535. -/
def varargsWrite (wordSize : Nat) : ObjectState → Nat → List Expr → Except Fatal ObjectState
  | os, _, [] => Except.ok os
  | os, offset, a :: rest =>
    if wordSize = 32 then
      varargsWrite wordSize (os.write offset a) ((offset + varargsSlot wordSize a) % 2 ^ 32) rest
    else if wordSize = 64 then
      varargsWrite wordSize (os.write offset a) ((offset + varargsSlot wordSize a) % 2 ^ 32) rest
    else Except.error (Fatal.assertion "Unknown word size!")

namespace Executor

/-- The function `Executor::bindArgument` (Executor.cpp 1229-1232): the value of
the register of a formal parameter in the frame on top of the stack;
`getArgRegister` is the identity (KModule.h 61). -/
def bindArgument (x : Executor) (index : Nat) (state : Nat) (value : Expr) : Executor :=
  x.bindLocal index state value

/-- The last loop of `executeCall` (Executor.cpp 1542-1544): the formal
parameters are bound to the first arguments. -/
def bindArguments (x : Executor) (state : Nat) (numFormals : Nat) (arguments : List Expr) :
    Executor :=
  (arguments.take numFormals).enum.foldl (fun y p => y.bindArgument p.1 state p.2) x

/-- The varargs block of `executeCall` (Executor.cpp 1497-1540) for a state
that is already in the new frame: the object is allocated with the size the
first loop computes and remembered in the frame, a failed allocation is an
execution error of the state, otherwise the object is bound and the extra
arguments are written into it.  The flag of the result is false when
`executeCall` returns at once. -/
def callVarargs (env : Env) (x : Executor) (state : Nat) (extras : List Expr) :
    Except Fatal (Bool × Executor) :=
  match x.heap state with
  | none => Except.error Fatal.invalidPointer
  | some st =>
    match x.memory.allocate st (varargsSize env.pointerWidth extras 0) true false
        (env.instOf st.prevPC) with
    | (none, mm, st1) =>
      (terminateStateOnError env
        ({ x with memory := mm }.setState state { st1 with varargs := none }) state
        "out of memory (varargs)" "exec.err" "").map (fun y => (false, y))
    | (some mo, mm, st1) =>
      match bindObjectInState
          ({ x with memory := mm }.setState state { st1 with varargs := some mo })
          state mo true none with
      | Except.error e => Except.error e
      | Except.ok (os, x1) =>
        match x1.store.cells os with
        | none => Except.error Fatal.invalidPointer
        | some o =>
          match varargsWrite env.pointerWidth o 0 extras with
          | Except.error e => Except.error e
          | Except.ok o1 => Except.ok (true, x1.modifyObject os (fun _ => o1))

/-- The function `Executor::executeCall` (Executor.cpp 1394-1546) called for an
instruction.  The branch of a declaration (1407-1463), which dispatches
intrinsics and external functions, is the collaborator `callDeclaration`; for a
function with a body a frame is pushed, the program counter moves to the first
instruction of the function, the number of arguments is checked, the varargs
object of a variadic function is filled and the formal parameters are bound.
The statistics and the control-flow events are not part of the state. -/
def executeCall (env : Env)
    (callDeclaration : Executor → Nat → KFunction → List Expr → Except Fatal Executor)
    (x : Executor) (state : Nat) (f : KFunction) (arguments : List Expr) :
    Except Fatal Executor :=
  if f.isDeclaration then callDeclaration x state f arguments
  else
    match x.heap state with
    | none => Except.error Fatal.invalidPointer
    | some st =>
      let st1 : ExecutionState := { (st.pushFrame st.prevPC f.function) with pc := f.instructions }
      let x1 := x.setState state st1
      if !f.isVarArg then
        if arguments.length < f.numArgs then
          terminateStateOnError env x1 state "calling function with too few arguments"
            "user.err" ""
        else Except.ok (x1.bindArguments state f.numArgs arguments)
      else if arguments.length < f.numArgs then
        terminateStateOnError env x1 state "calling function with too few arguments"
          "user.err" ""
      else
        match callVarargs env x1 state (arguments.drop f.numArgs) with
        | Except.error e => Except.error e
        | Except.ok (false, x2) => Except.ok x2
        | Except.ok (true, x2) => Except.ok (x2.bindArguments state f.numArgs arguments)

/-- One iteration of the resolution loop of a call through a function pointer
(Executor.cpp 1967-1994) after the fork on `v == value`: when there is a true
state and the value is a legal function address the true state calls the
function; when it is not legal and no invalid pointer was reported before, the
error "invalid function pointer" is raised on `state`, the state that executes
the call instruction.  Returns the executor and the flag `hasInvalid`. -/
def resolveCallee (env : Env)
    (callDeclaration : Executor → Nat → KFunction → List Expr → Except Fatal Executor)
    (x : Executor) (state : Nat) (arguments : List Expr) (value : Expr)
    (first : Option Nat) (hasInvalid : Bool) : Except Fatal (Executor × Bool) :=
  match first with
  | none => Except.ok (x, hasInvalid)
  | some t =>
    if env.legalFunctions value.getZExtValue then
      (executeCall env callDeclaration x t (env.functionMap value.getZExtValue)
        arguments).map (fun y => (y, hasInvalid))
    else if !hasInvalid then
      (terminateStateOnError env x state "invalid function pointer" "exec.err" "").map
        (fun y => (y, true))
    else Except.ok (x, hasInvalid)

/-- The resolution loop of a call through a function pointer that is not a
function of the module (Executor.cpp 1958-1995): `free` is the state still to
be resolved; the loop ends when a fork returns no false state.  The result is
none when the given number of iterations does not suffice.  The flag `first`
only selects a warning. -/
def callIndirect (env : Env)
    (callDeclaration : Executor → Nat → KFunction → List Expr → Except Fatal Executor)
    (state : Nat) (v : Expr) (arguments : List Expr) :
    Nat → Executor → Nat → Bool → Option (Except Fatal Executor)
  | 0, _, _, _ => none
  | fuel + 1, x, free, hasInvalid =>
    match x.heap free with
    | none => some (Except.error Fatal.invalidPointer)
    | some fst =>
      match TimingSolver.getValue env x.queries fst v with
      | (none, _) => some (Except.error (Fatal.assertion "FIXME: Unhandled solver failure"))
      | (some value, q) =>
        match fork env { x with queries := q } free (Expr.EqExpr_create v value) true with
        | Except.error e => some (Except.error e)
        | Except.ok (res, x1) =>
          match resolveCallee env callDeclaration x1 state arguments value res.1
              hasInvalid with
          | Except.error e => some (Except.error e)
          | Except.ok (x2, hasInvalid1) =>
            match res.2 with
            | none => some (Except.ok x2)
            | some next =>
              callIndirect env callDeclaration state v arguments fuel x2 next hasInvalid1

end Executor

/-! ## States forked from a common ancestor -/

namespace AddressSpace

/-- Modelled from the spec: what the fork of an execution state does to its
address space (`ExecutionState::branch`; `ExecutionState.cpp` is not among the
sources, and AddressSpace.h 41-47 declares `ExecutionState` a friend and the
epoch counter `mutable unsigned`). The epoch counter only increases
(section 3) and the first write after a fork clones (section 4.1): the epoch of
the forking address space advances by one, in `unsigned`, and the address
space of the new state is copy-constructed from it. The pair is the address
space of the forking state and the one of the new state. -/
def fork (a : AddressSpace) : AddressSpace × AddressSpace :=
  let a1 : AddressSpace := { a with cowKey := (a.cowKey + 1) % 2 ^ 32 }
  (a1, a1.copy)

end AddressSpace

/-- The address spaces of the execution states of a family, in the order in
which the states were created, and the store of the object states they bind. -/
structure Family where
  spaces : List AddressSpace := []
  store : Memory := {}

/-- What a state of a family does to the address spaces: state `i` forks, the
new state being added last; it writes a value at an offset of a memory object;
it binds a new object state to a memory object; it unbinds a memory object. -/
inductive FamilyOp where
  | branch (i : Nat)
  | write (i mo offset : Nat) (value : Expr)
  | bind (i mo : Nat) (os : ObjectState)
  | unbind (i mo : Nat)

namespace FamilyOp

/-- The number of forks in a list of operations. -/
def forks : List FamilyOp → Nat
  | [] => 0
  | branch _ :: rest => forks rest + 1
  | _ :: rest => forks rest

end FamilyOp

namespace Family

/-- The value read through the address space of state `j`. -/
def read (f : Family) (j mo offset width : Nat) : Option Expr :=
  match f.spaces[j]? with
  | none => none
  | some a => AddressSpace.readAt f.store a mo offset width

/-- The invariant of a family: every binding points to an allocated object
state whose owner tag is at most the epoch of the address space, no epoch is
above `K`, an object state bound in two address spaces is owned by neither,
and inside one address space an object state is bound to one memory object. -/
structure Inv (f : Family) (K : Nat) : Prop where
  bound : ∀ (i : Nat) (a : AddressSpace), f.spaces[i]? = some a → ∀ e ∈ a.objects,
    e.2 < f.store.next ∧ ∃ o, f.store.cells e.2 = some o ∧ o.copyOnWriteOwner ≤ a.cowKey
  keys : ∀ (i : Nat) (a : AddressSpace), f.spaces[i]? = some a → a.cowKey ≤ K
  sole : ∀ (i j : Nat) (a b : AddressSpace), i ≠ j → f.spaces[i]? = some a →
    f.spaces[j]? = some b → ∀ e ∈ a.objects, ∀ e2 ∈ b.objects, e.2 = e2.2 →
    ∀ o, f.store.cells e.2 = some o → o.copyOnWriteOwner ≠ a.cowKey
  single : ∀ (i : Nat) (a : AddressSpace), f.spaces[i]? = some a → ∀ e ∈ a.objects,
    ∀ e2 ∈ a.objects, e.2 = e2.2 → e.1 = e2.1

end Family

namespace ObjectState

end ObjectState

/-! ## Concrete inputs -/

/-- A wrapped solver that answers Unknown to every validity query and fails
every other query. -/
def solverUnknown : Solver :=
  { evaluate := fun _ _ => some Validity.Unknown,
    mustBeTrue := fun _ _ => none,
    getValue := fun _ _ => none }

/-- The default options with the Unknown solver. -/
def envUnknown : Env := { solver := solverUnknown }

/-- The initial execution state: every member at its default. -/
def initialState : ExecutionState := {}

/-- An executor whose only state, at pointer 0, is the initial state. -/
def execOne : Executor :=
  { heap := Function.update (fun _ => none) 0 (some initialState), nextState := 1,
    states := {0} }

/-- A symbolic one-bit condition. -/
def condX : Expr := Expr.Read 0 1

/-- The default options with a wrapped solver that proves every condition True. -/
def envTrue : Env :=
  { solver := { solverUnknown with evaluate := fun _ _ => some Validity.True } }

/-- The default options with a wrapped solver whose validity query fails. -/
def envFail : Env :=
  { solver := { solverUnknown with evaluate := fun _ _ => none } }

/-- The single-state executor in replay-buffer mode with forking inhibited. -/
def execReplayOut : Executor :=
  { execOne with replayOut := some { objects := [{ name := "x", bytes := [0] }] },
                 inhibitForking := true }

/-- The single-state executor with forking inhibited. -/
def execInhibit : Executor :=
  { execOne with inhibitForking := true }

/-- The single-state executor replaying an exhausted branch path. -/
def execReplayDone : Executor :=
  { execOne with replayPath := some [] }

/-- The single-state executor replaying the one-branch path "true". -/
def execReplayTrue : Executor :=
  { execOne with replayPath := some [true] }

/-- An object state of four zero bytes owned by epoch 1. -/
def fourZeroBytes : ObjectState :=
  { copyOnWriteOwner := 1, object := 7, size := 4, concreteStore := [0, 0, 0, 0],
    concreteMask := [true, true, true, true], knownSymbolics := [none, none, none, none] }

/-- A store whose only object state, at pointer 0, is `fourZeroBytes`. -/
def memOne : Memory :=
  { cells := Function.update (fun _ => none) 0 (some fourZeroBytes), next := 1 }

/-- An address space of epoch 1 that binds memory object 7 to pointer 0. -/
def spaceA : AddressSpace := { cowKey := 1, objects := [(7, 0)] }

/-- The part of a result of `branch` that is compared on concrete inputs: the
result vector and the path constraints of the states at pointers 0 to 2. -/
def branchOutcome (r : Except Fatal (List (Option Nat) × Executor)) :
    Option (List (Option Nat) × List (Option (List Expr))) :=
  match r with
  | Except.error _ => none
  | Except.ok p => some (p.1, [p.2.constraintsOf 0, p.2.constraintsOf 1, p.2.constraintsOf 2])

/-- The part of a result of `fork` that is compared on concrete inputs: the
returned pair and the path constraints of the state at pointer 0. -/
def forkOutcome (r : Except Fatal (StatePair × Executor)) :
    Option (StatePair × Option (List Expr)) :=
  match r with
  | Except.error _ => none
  | Except.ok p => some (p.1, p.2.constraintsOf 0)

/-- The fatal error of a result, if it is one. -/
def fatalOf {α : Type} (r : Except Fatal α) : Option Fatal :=
  match r with
  | Except.error e => some e
  | Except.ok _ => none

/-- The default options with a wrapped solver that gives every expression the
value one of width one and proves every condition. -/
def envUnique : Env :=
  { solver := { solverUnknown with getValue := fun _ _ => some (1, 1),
                                   mustBeTrue := fun _ _ => some true } }

/-- The expression part of a result of `toUnique` or `toConstant`. -/
def exprOutcome (r : Except Fatal (Expr × Executor)) : Option Expr :=
  match r with
  | Except.error _ => none
  | Except.ok p => some p.1

/-- An executor with two live states, at pointers 0 and 1, both at the
initial program counter. -/
def execTwo : Executor :=
  { heap := Function.update (Function.update (fun _ => none) 0 (some initialState)) 1
      (some initialState),
    nextState := 2, states := {0, 1} }

/-- The states for which a run emitted a test case, in order, and the states
awaiting removal after it, in increasing order. -/
def testCaseOutcome (r : Except Fatal Executor) : Option (List Nat × List Nat) :=
  match r with
  | Except.error _ => none
  | Except.ok x =>
    some (x.testCases.map (fun tc => tc.state), x.iterationOrder x.removedStates)

/-- The single-state executor in replay-buffer mode with an empty buffer. -/
def execReplayEmpty : Executor :=
  { execOne with replayOut := some { objects := [] } }

/-- A memory object of one byte. -/
def moOne : MemoryObject := { id := 1, address := 4096, size := 1 }

/-- The single-state executor with one seed on its state. -/
def execSeeded : Executor :=
  { execOne with seedMap := Function.update (fun _ => none) 0 (some [{ id := 0 }]) }

/-- A symbolic value of eight bits. -/
def valueX : Expr := Expr.Read 1 8

/-- The part of a result of `executeAlloc` that is compared on concrete inputs:
the states awaiting removal, the test cases emitted and the register table of
the state at pointer 0. -/
def allocOutcome (r : Except Fatal Executor) :
    Option (List Nat × Nat × Option (List (Nat × Expr))) :=
  match r with
  | Except.error _ => none
  | Except.ok x =>
    some (x.iterationOrder x.removedStates, x.testCases.length,
      (x.heap 0).map (fun st => st.locals))

/-- A state whose address space binds memory object 7 to the object state at
pointer 0. -/
def stateMem : ExecutionState := { addressSpace := spaceA }

/-- An executor with one state, at pointer 0, whose only memory object, of
four zero bytes, lies at address 4096. -/
def execMem : Executor :=
  { heap := Function.update (fun _ => none) 0 (some stateMem), nextState := 1, states := {0},
    memory := { objects := [{ id := 7, address := 4096, size := 4 }], counter := 8 },
    store := memOne }

/-- An executor with two live states that differ in their program counter. -/
def execTwoApart : Executor :=
  { heap := Function.update (Function.update (fun _ => none) 0 (some initialState)) 1
      (some { initialState with pc := 5 }),
    nextState := 2, states := {0, 1} }

/-- The Unknown solver with `KeepMergedDuplicates` on. -/
def envKeep : Env :=
  { solver := solverUnknown, opts := { KeepMergedDuplicates := true } }

/-- The part of a result of `merge` that is compared on concrete inputs: the
returned state, the two merge counters, the added states in increasing order
and the lineage recorded at the process-tree node of the returned state. -/
structure MergeOutcome where
  merged : Option Nat
  mergesSuccess : Nat
  mergesFail : Nat
  added : List Nat
  lineage : Option (Nat × Nat)
  deriving DecidableEq, Repr

/-- The observed part of a result of `merge`. -/
def mergeOutcome (r : Except Fatal (Option Nat × Executor)) : Option MergeOutcome :=
  match r with
  | Except.error _ => none
  | Except.ok p =>
    some { merged := p.1, mergesSuccess := p.2.mergesSuccess, mergesFail := p.2.mergesFail,
           added := p.2.iterationOrder p.2.addedStates,
           lineage := (p.1.bind p.2.heap).bind
             (fun st => (p.2.processTree.nodes st.ptreeNode).mergedFrom) }

/-- The calls of an instruction that forks the only state on a condition and
then terminates the new state and the old one. -/
def forkThenTerminate : List Executor.InstrOp :=
  [Executor.InstrOp.fork 0 condX false, Executor.InstrOp.terminate 1 false,
    Executor.InstrOp.terminate 0 false]

/-- The part of a run of instruction calls that is compared on concrete
inputs: the added and the removed states, in increasing order. -/
def setsOutcome (r : Except Fatal Executor) : Option (List Nat × List Nat) :=
  match r with
  | Except.error _ => none
  | Except.ok x => some (x.iterationOrder x.addedStates, x.iterationOrder x.removedStates)

/-- A wrapped solver for a function pointer with the two values 100 and 200:
the first value query answers 100, the later ones 200; the validity query
after the first value is Unknown, the later ones are True. -/
def solverPointer : Solver :=
  { evaluate := fun n _ => if n = 1 then some Validity.Unknown else some Validity.True,
    mustBeTrue := fun _ _ => none,
    getValue := fun n _ => if n = 0 then some (64, 100) else some (64, 200) }

/-- The options at their defaults with `solverPointer`; the only legal function
address is 100, the function there starts at program counter 40. -/
def envPointer : Env :=
  { solver := solverPointer, legalFunctions := fun a => decide (a = 100),
    functionMap := fun _ => { function := 7, instructions := 40 } }

/-- A symbolic function pointer. -/
def pointerV : Expr := Expr.Read 2 64

/-- An executor whose only state, at pointer 0, is constrained to a function
pointer that is 100 or 200. -/
def execPointer : Executor :=
  { heap := Function.update (fun _ => none) 0
      (some { initialState with
        constraints := [Expr.Or (Expr.Eq pointerV (Expr.Constant 64 100))
          (Expr.Eq pointerV (Expr.Constant 64 200))] }),
    nextState := 1, states := {0} }

/-- The external-call collaborator that leaves the executor as it is. -/
def noDeclaration : Executor → Nat → KFunction → List Expr → Except Fatal Executor :=
  fun x _ _ _ => Except.ok x

/-- The part of a result of the resolution loop that is compared on concrete
inputs: the states awaiting removal, the added states, the state, suffix and
message of the test cases emitted, and the function, stack depth and last
constraint of the states at pointers 0 and 1. -/
structure CallOutcome where
  removed : List Nat
  added : List Nat
  reported : List (Nat × Option String × Option String)
  entered : List (Option (Nat × Nat × Option Expr))
  deriving DecidableEq, Repr

/-- The observed part of a result of the resolution loop. -/
def callOutcome (r : Option (Except Fatal Executor)) : Option CallOutcome :=
  match r with
  | some (Except.ok x) =>
    some { removed := x.iterationOrder x.removedStates,
           added := x.iterationOrder x.addedStates,
           reported := x.testCases.map (fun tc => (tc.state, tc.suffix, tc.message)),
           entered := [0, 1].map (fun s =>
             (x.heap s).map (fun st => (st.kf, st.stackDepth, st.constraints.getLast?))) }
  | _ => none

/-- The part of an executor that is compared on concrete inputs for the state
sets: the members of `states`, `addedStates` and `removedStates`, each in
increasing order. -/
def liveSetsOutcome (r : Except Fatal Executor) : Option (List Nat × List Nat × List Nat) :=
  match r with
  | Except.error _ => none
  | Except.ok x =>
    some (x.iterationOrder x.states, x.iterationOrder x.addedStates,
      x.iterationOrder x.removedStates)

/-- A variadic function with a body and one formal parameter that starts at
program counter 40. -/
def variadicF : KFunction := { function := 7, numArgs := 1, instructions := 40, isVarArg := true }

/-- The arguments of a call of `variadicF`: the formal one, then a 32-bit and
a 64-bit extra argument. -/
def variadicArgs : List Expr :=
  [Expr.Constant 32 7, Expr.Constant 32 1, Expr.Constant 64 2]

/-- The varargs object the single-state executor allocates for that call on a
64-bit target: sixteen bytes at the first address of the pool. -/
def variadicObject : MemoryObject :=
  { id := 0, address := 4096, size := 16, isLocal := true, allocSite := 0 }

/-- The part of a result of `executeCall` that is compared on concrete inputs:
the varargs object and the register table of the state at pointer 0, and the
bytes of the object state at pointer 0. -/
structure VarargsOutcome where
  varargs : Option MemoryObject
  locals : List (Nat × Expr)
  bytes : Option (List Nat)
  deriving DecidableEq, Repr

/-- The observed part of a result of `executeCall`. -/
def varargsOutcome (r : Except Fatal Executor) : Option VarargsOutcome :=
  match r with
  | Except.error _ => none
  | Except.ok x =>
    (x.heap 0).map (fun st =>
      { varargs := st.varargs, locals := st.locals,
        bytes := (x.store.cells 0).map (fun o => o.concreteStore) })

/-- The cases of a Switch instruction on an 8-bit value: the values 1 and 3 lead
to block 1, the value 2 to block 2. -/
def switchTable : List (Nat × Expr) :=
  [(1, Expr.Constant 8 1), (2, Expr.Constant 8 2), (1, Expr.Constant 8 3)]

/-- A wrapped solver that cannot name a value, proves that `valueX` is not 2
and proves nothing else. -/
def solverSwitch : Solver :=
  { evaluate := fun _ _ => some Validity.Unknown,
    mustBeTrue := fun _ q =>
      some (decide (q.expr = Expr.createIsZero (Expr.Eq valueX (Expr.Constant 8 2)))),
    getValue := fun _ _ => none }

/-- The default options with `solverSwitch`; block b starts at program counter
10 + b. -/
def envSwitch : Env := { solver := solverSwitch, blockEntry := fun b => 10 + b }

/-- The cases the solver of `envSwitch` finds feasible: all but the value 2. -/
def switchFeasible (c : Nat × Expr) : Bool := decide (c.2 ≠ Expr.Constant 8 2)

/-- The part of a result of the Switch instruction that is compared on concrete
inputs: the added states, and the program counter and last constraint of the
states at pointers 0 and 1. -/
structure SwitchOutcome where
  added : List Nat
  arms : List (Option (Nat × Option Expr))
  deriving DecidableEq, Repr

/-- The observed part of a result of the Switch instruction. -/
def switchOutcome (r : Except Fatal Executor) : Option SwitchOutcome :=
  match r with
  | Except.error _ => none
  | Except.ok x =>
    some { added := x.iterationOrder x.addedStates,
           arms := [0, 1].map (fun s =>
             (x.heap s).map (fun st => (st.pc, st.constraints.getLast?))) }

namespace Expr

theorem isConstant_createIsZero (e : Expr) (h : e.isConstant = false) :
    (createIsZero e).isConstant = false := by
  cases e <;> simp_all [createIsZero, EqExpr_create, isConstant]

theorem eval_createIsZero (σ : Nat → Nat) (e : Expr) (h : e.isConstant = false) :
    eval σ (createIsZero e) = if eval σ e = 0 then 1 else 0 := by
  cases e <;> simp_all [createIsZero, EqExpr_create, isConstant, eval, eq_comm]

theorem holds_createIsZero (σ : Nat → Nat) (e : Expr) (h : e.isConstant = false) :
    holds σ (createIsZero e) ↔ ¬ holds σ e := by
  unfold holds
  rw [eval_createIsZero σ e h]
  by_cases h0 : eval σ e = 0 <;> simp [h0]

end Expr

theorem satisfies_append (σ : Nat → Nat) (cs : List Expr) (c : Expr) :
    satisfies σ (cs ++ [c]) ↔ satisfies σ cs ∧ Expr.holds σ c := by
  unfold satisfies
  constructor
  · intro h
    exact ⟨fun d hd => h d (by simp [hd]), h c (by simp)⟩
  · rintro ⟨h1, h2⟩ d hd
    rcases List.mem_append.1 hd with hd | hd
    · exact h1 d hd
    · simp at hd
      subst hd
      exact h2

namespace Executor

theorem modify_of_heap (x : Executor) (id : Nat) (st : ExecutionState)
    (f : ExecutionState → ExecutionState) (h : x.heap id = some st) :
    x.modify id f = x.setState id (f st) := by
  simp [modify, h]

theorem addConstraint_unseeded (env : Env) (x : Executor) (id : Nat)
    (st : ExecutionState) (c : Expr) (hc : c.isConstant = false)
    (h : x.heap id = some st) (hs : x.seedMap id = none) :
    addConstraint env x id c = Except.ok (x.setState id (stateAddConstraint st c)) := by
  simp [addConstraint, hc, h, hs, ivcEnabled]

theorem forkQuery_noStatic (env : Env) (x : Executor) (cur : Nat)
    (st : ExecutionState) (cond : Expr) (h : x.heap cur = some st)
    (hn : (!(x.seedMap cur).isSome && !cond.isConstant && x.staticLimitsArmed &&
      x.staticLimitsExceeded) = false) :
    forkQuery env x cur cond =
      Except.ok ((TimingSolver.evaluate env x.queries st cond).1, cond,
        { x with queries := (TimingSolver.evaluate env x.queries st cond).2 }) := by
  unfold forkQuery forkStaticLimit
  simp only [h]
  by_cases h1 : (!(x.seedMap cur).isSome && !cond.isConstant && x.staticLimitsArmed) = true
  · have h2 : x.staticLimitsExceeded = false := by
      rw [h1] at hn
      simpa using hn
    rw [if_pos h1]
    simp [h2, h]
  · rw [if_neg h1]
    simp [h]

theorem forkQuery_unseeded (env : Env) (x : Executor) (cur : Nat)
    (st : ExecutionState) (cond : Expr)
    (h : x.heap cur = some st) (hs : x.seedMap cur = none)
    (hn : (!cond.isConstant && x.staticLimitsArmed && x.staticLimitsExceeded) = false) :
    forkQuery env x cur cond =
      Except.ok ((TimingSolver.evaluate env x.queries st cond).1, cond,
        { x with queries := (TimingSolver.evaluate env x.queries st cond).2 }) :=
  forkQuery_noStatic env x cur st cond h (by simpa [hs] using hn)

theorem evaluate_constant (env : Env) (q : List Query) (st : ExecutionState) (c : Expr)
    (hc : c.isConstant = true) :
    TimingSolver.evaluate env q st c =
      (some (if c.isTrue then Validity.True else Validity.False), q) := by
  simp [TimingSolver.evaluate, hc]

theorem EqExpr_create_nonconstant (v c : Expr) (hc : c.isConstant = false) :
    (Expr.EqExpr_create v c).isConstant = false := by
  cases v <;> cases c <;> simp_all [Expr.EqExpr_create, Expr.isConstant]

theorem forkQuery_inv (env : Env) (x x1 : Executor) (cur : Nat)
    (st : ExecutionState) (cond cond1 : Expr) (r : Option Validity)
    (h : x.heap cur = some st)
    (hq : forkQuery env x cur cond = Except.ok (r, cond1, x1))
    (hr : cond1.isConstant = false ∨ r = none ∨ r = some Validity.Unknown) :
    cond.isConstant = false ∧ cond1 = cond ∧
      r = (TimingSolver.evaluate env x.queries st cond).1 ∧
      x1 = { x with queries := (TimingSolver.evaluate env x.queries st cond).2 } := by
  by_cases hn : (!(x.seedMap cur).isSome && !cond.isConstant && x.staticLimitsArmed &&
      x.staticLimitsExceeded) = false
  · rw [forkQuery_noStatic env x cur st cond h hn] at hq
    simp only [Except.ok.injEq, Prod.mk.injEq] at hq
    obtain ⟨h1, h2, h3⟩ := hq
    refine ⟨?_, h2.symm, h1.symm, h3.symm⟩
    cases hcc : cond.isConstant
    · rfl
    · rw [evaluate_constant env _ st cond hcc] at h1
      subst h2
      rcases hr with hr | hr | hr
      · rw [hcc] at hr; cases hr
      · rw [hr] at h1; cases h1
      · rw [hr] at h1
        simp at h1
        split at h1 <;> cases h1
  · exfalso
    simp only [Bool.not_eq_false, Bool.and_eq_true, Bool.not_eq_true'] at hn
    obtain ⟨⟨⟨hs0, hc⟩, ha⟩, he⟩ := hn
    have hs : x.seedMap cur = none := by
      cases hsm : x.seedMap cur with
      | none => rfl
      | some l => simp [hsm] at hs0
    unfold forkQuery forkStaticLimit at hq
    simp only [h, hs, Option.isSome_none, Bool.not_false, Bool.true_and, hc, ha, he,
      Bool.and_self, if_true, TimingSolver.getValue, Bool.false_eq_true, if_false] at hq
    cases hg : env.solver.getValue x.queries.length
        ⟨st.constraints, if env.simplifyExprs then env.simplifyExpr st.constraints cond else cond⟩ with
    | none => simp [hg] at hq
    | some c =>
      simp only [hg, Option.map_some'] at hq
      have hcr := EqExpr_create_nonconstant (Expr.Constant c.1 c.2) cond hc
      rw [addConstraint_unseeded env _ cur st _ hcr] at hq
      · simp [setState, evaluate_constant, Expr.isConstant] at hq
        obtain ⟨h1, h2, _⟩ := hq
        subst h2
        rcases hr with hr | hr | hr
        · simp [Expr.isConstant] at hr
        · rw [hr] at h1; cases h1
        · rw [hr] at h1
          simp at h1
          split at h1 <;> cases h1
      · exact h
      · exact hs

theorem SameFrame.frame_refl (x : Executor) : SameFrame x x :=
  ⟨rfl, rfl, rfl, rfl, rfl, rfl, fun _ => rfl⟩

theorem SameFrame.frame_trans {x y z : Executor} (h1 : SameFrame x y) (h2 : SameFrame y z) :
    SameFrame x z := by
  obtain ⟨a1, a2, a3, a4, a5, a6, a7⟩ := h1
  obtain ⟨b1, b2, b3, b4, b5, b6, b7⟩ := h2
  exact ⟨b1.trans a1, b2.trans a2, b3.trans a3, b4.trans a4, b5.trans a5, b6.trans a6,
    fun j => (b7 j).trans (a7 j)⟩

theorem modify_sameFrame (x : Executor) (id : Nat) (f : ExecutionState → ExecutionState)
    (hf : ∀ s, (f s).constraints = s.constraints) : SameFrame x (x.modify id f) := by
  unfold modify
  cases h : x.heap id with
  | none => exact SameFrame.frame_refl x
  | some st =>
    refine ⟨rfl, rfl, rfl, rfl, rfl, rfl, fun j => ?_⟩
    by_cases hj : j = id
    · subst hj
      simp [constraintsOf, setState, h, hf]
    · simp [constraintsOf, setState, Function.update, hj]

theorem SameFrame.frame_modify {x y : Executor} (h : SameFrame x y) (id : Nat)
    (f : ExecutionState → ExecutionState) (hf : ∀ s, (f s).constraints = s.constraints) :
    SameFrame x (y.modify id f) :=
  SameFrame.frame_trans h (modify_sameFrame y id f hf)

theorem forkLink_sameFrame (x : Executor) (st : ExecutionState) (t f : Nat) :
    SameFrame x (forkLink x st t f) := by
  unfold forkLink
  have h0 : ∀ p : PTree, SameFrame x { x with processTree := p } :=
    fun p => ⟨rfl, rfl, rfl, rfl, rfl, rfl, fun _ => rfl⟩
  exact ((h0 _).frame_modify _ _ (by intro s; rfl)).frame_modify _ _ (by intro s; rfl)

theorem forkPathOS_sameFrame (x : Executor) (cur t f : Nat) :
    SameFrame x (forkPathOS x cur t f) := by
  unfold forkPathOS
  exact (((SameFrame.frame_refl x).frame_modify _ _ (by intro s; rfl)).frame_modify _ _
    (by intro s; rfl)).frame_modify _ _ (by intro s; rfl)

theorem forkSymPathOS_sameFrame (x : Executor) (cur t f : Nat) :
    SameFrame x (forkSymPathOS x cur t f) := by
  unfold forkSymPathOS
  exact (((SameFrame.frame_refl x).frame_modify _ _ (by intro s; rfl)).frame_modify _ _
    (by intro s; rfl)).frame_modify _ _ (by intro s; rfl)

theorem forkPathStreams_sameFrame (x : Executor) (cur t f : Nat) (isInternal : Bool) :
    SameFrame x (forkPathStreams x cur t f isInternal) := by
  unfold forkPathStreams
  cases isInternal
  · simp only [Bool.false_eq_true, if_false]
    have h1 : SameFrame x (if x.pathWriter then forkPathOS x cur t f else x) := by
      by_cases hp : x.pathWriter = true
      · rw [if_pos hp]
        exact forkPathOS_sameFrame x cur t f
      · rw [if_neg hp]
        exact SameFrame.frame_refl x
    refine SameFrame.frame_trans h1 ?_
    generalize (if x.pathWriter then forkPathOS x cur t f else x) = y
    by_cases hp : y.symPathWriter = true
    · rw [if_pos hp]
      exact forkSymPathOS_sameFrame y cur t f
    · rw [if_neg hp]
      exact SameFrame.frame_refl y
  · simp only [if_true]
    exact SameFrame.frame_refl x

theorem addConstraint_spec (env : Env) (x : Executor) (id : Nat) (cs : List Expr)
    (c : Expr) (hc : c.isConstant = false) (h : x.constraintsOf id = some cs)
    (hs : x.seedMap id = none) :
    ∃ x1, addConstraint env x id c = Except.ok x1 ∧
      x1.constraintsOf id = some (cs ++ [c]) ∧
      (∀ j, j ≠ id → x1.constraintsOf j = x.constraintsOf j) ∧
      x1.states = x.states ∧ x1.addedStates = x.addedStates ∧
      x1.removedStates = x.removedStates ∧ x1.seedMap = x.seedMap ∧
      x1.nextState = x.nextState ∧ x1.queries = x.queries := by
  unfold constraintsOf at h
  cases hst : x.heap id with
  | none => simp [hst] at h
  | some st =>
    simp only [hst, Option.map_some', Option.some.injEq] at h
    refine ⟨_, addConstraint_unseeded env x id st c hc hst hs, ?_, ?_, rfl, rfl, rfl, rfl, rfl, rfl⟩
    · simp [constraintsOf, setState, stateAddConstraint, h]
    · intro j hj
      simp [constraintsOf, setState, Function.update, hj]

theorem forkNewState_spec (env : Env) (x : Executor) (cur : Nat) (st : ExecutionState)
    (h : x.heap cur = some st) (hh : x.heap x.nextState = none) :
    let n := forkNewState env x cur st
    ((n.1.1 = cur ∧ n.1.2 = x.nextState) ∨ (n.1.1 = x.nextState ∧ n.1.2 = cur)) ∧
      n.2.constraintsOf cur = some st.constraints ∧
      n.2.constraintsOf x.nextState = some st.constraints ∧
      n.2.addedStates = insert x.nextState x.addedStates ∧
      n.2.seedMap = x.seedMap ∧ n.2.states = x.states ∧
      n.2.removedStates = x.removedStates ∧ n.2.queries = x.queries ∧
      n.2.nextState = x.nextState + 1 := by
  have hne : cur ≠ x.nextState := by
    intro he
    rw [he, hh] at h
    cases h
  cases hr : env.opts.RandomizeFork <;> cases hb : env.rngBool x.rngDraws <;>
    simp [forkNewState, branchState, getBool, hr, hb, constraintsOf, Function.update, hne, h]

theorem forkSeeds_unseeded (env : Env) (x : Executor) (cur : Nat) (st : ExecutionState)
    (cond : Expr) (t f : Nat) (hs : x.seedMap cur = none) :
    forkSeeds env x cur st cond t f = Except.ok x := by
  simp [forkSeeds, hs]

theorem forkMaxDepth_off (env : Env) (x : Executor) (t f : Nat) (cs : List Expr)
    (h : x.constraintsOf t = some cs) (hdepth : env.opts.MaxDepth = 0) :
    forkMaxDepth env x t f = Except.ok ((some t, some f), x) := by
  unfold constraintsOf at h
  cases hst : x.heap t with
  | none => simp [hst] at h
  | some tst => simp [forkMaxDepth, hst, hdepth]

theorem forkSplit_spec (env : Env) (x : Executor) (cur : Nat) (st : ExecutionState)
    (cond : Expr) (isInternal : Bool)
    (hwf : x.WellFormed) (h : x.heap cur = some st) (hs : x.seedMap cur = none)
    (hc : cond.isConstant = false) (hdepth : env.opts.MaxDepth = 0) :
    ∃ t f x2,
      forkSplit env x cur st cond isInternal = Except.ok ((some t, some f), x2) ∧
      ((t = cur ∧ f = x.nextState) ∨ (t = x.nextState ∧ f = cur)) ∧
      x2.addedStates = insert x.nextState x.addedStates ∧
      x2.constraintsOf t = some (st.constraints ++ [cond]) ∧
      x2.constraintsOf f = some (st.constraints ++ [Expr.createIsZero cond]) ∧
      x2.states = x.states ∧ x2.removedStates = x.removedStates ∧
      x2.queries = x.queries := by
  obtain ⟨hh, hsm, -, -, -⟩ := hwf x.nextState (le_refl _)
  have hne : cur ≠ x.nextState := by
    intro he
    rw [he, hh] at h
    cases h
  have hcz := Expr.isConstant_createIsZero cond hc
  have hn := forkNewState_spec env x cur st h hh
  unfold forkSplit
  generalize forkNewState env x cur st = n at hn ⊢
  obtain ⟨hpair, hc1, hc2, hadd, hseed, hst, hrem, hq, -⟩ := hn
  simp only []
  rw [forkSeeds_unseeded env n.2 cur st cond _ _ (by rw [hseed]; exact hs)]
  simp only []
  have hfr : SameFrame n.2 (forkPathStreams (forkLink n.2 st n.1.1 n.1.2) cur n.1.1 n.1.2
      isInternal) :=
    SameFrame.frame_trans (forkLink_sameFrame _ _ _ _) (forkPathStreams_sameFrame _ _ _ _ _)
  generalize forkPathStreams (forkLink n.2 st n.1.1 n.1.2) cur n.1.1 n.1.2 isInternal = x5
    at hfr ⊢
  obtain ⟨f1, f2, f3, f4, f5, f6, f7⟩ := hfr
  have htf : n.1.1 ≠ n.1.2 := by
    rcases hpair with ⟨a, b⟩ | ⟨a, b⟩
    · rw [a, b]; exact hne
    · rw [a, b]; exact fun e => hne e.symm
  have hct : x5.constraintsOf n.1.1 = some st.constraints := by
    rw [f7]
    rcases hpair with ⟨a, _⟩ | ⟨a, _⟩ <;> rw [a] <;> assumption
  have hcf : x5.constraintsOf n.1.2 = some st.constraints := by
    rw [f7]
    rcases hpair with ⟨_, b⟩ | ⟨_, b⟩ <;> rw [b] <;> assumption
  have hst5 : ∀ i, i = cur ∨ i = x.nextState → x5.seedMap i = none := by
    intro i hi
    rw [f4, hseed]
    rcases hi with hi | hi <;> rw [hi] <;> assumption
  have hs1 : x5.seedMap n.1.1 = none :=
    hst5 _ (by rcases hpair with ⟨a, _⟩ | ⟨a, _⟩ <;> simp [a])
  have hs2 : x5.seedMap n.1.2 = none :=
    hst5 _ (by rcases hpair with ⟨_, b⟩ | ⟨_, b⟩ <;> simp [b])
  obtain ⟨x6, e6, c6, o6, s6, a6, r6, m6, -, q6⟩ :=
    addConstraint_spec env x5 n.1.1 st.constraints cond hc hct hs1
  rw [e6]
  simp only []
  have hcf6 : x6.constraintsOf n.1.2 = some st.constraints := by
    rw [o6 _ (fun e => htf e.symm)]
    exact hcf
  obtain ⟨x7, e7, c7, o7, s7, a7, r7, m7, -, q7⟩ :=
    addConstraint_spec env x6 n.1.2 st.constraints _ hcz hcf6 (by rw [m6]; exact hs2)
  rw [e7]
  simp only []
  have hct7 : x7.constraintsOf n.1.1 = some (st.constraints ++ [cond]) := by
    rw [o7 _ htf]
    exact c6
  rw [forkMaxDepth_off env x7 _ _ _ hct7 hdepth]
  refine ⟨n.1.1, n.1.2, x7, rfl, hpair, ?_, hct7, c7, ?_, ?_, ?_⟩
  · rw [a7, a6, f2, hadd]
  · rw [s7, s6, f1, hst]
  · rw [r7, r6, f3, hrem]
  · rw [q7, q6, f6, hq]

theorem forkReplay_plain (env : Env) (x : Executor) (cur : Nat) (st : ExecutionState)
    (cond : Expr) (isInternal : Bool)
    (hpath : x.replayPath = none) (hout : x.replayOut = none)
    (hmem : x.atMemoryLimit = false) (hfd : st.forkDisabled = false)
    (hinh : x.inhibitForking = false)
    (hcap : ¬ (env.opts.MaxForks ≠ 4294967295 ∧ env.opts.MaxForks ≤ x.forks)) :
    forkReplay env x cur st cond isInternal Validity.Unknown =
      Except.ok (Validity.Unknown, x) := by
  unfold forkReplay
  have hcap' : (decide (env.opts.MaxForks ≠ 4294967295) &&
      decide (env.opts.MaxForks ≤ x.forks)) = false := by
    simpa using hcap
  simp only [hpath, hout, hmem, hfd, hinh, hcap', Option.isSome_none, Bool.false_and,
    Bool.and_false, Bool.or_false, Bool.false_eq_true, if_false, if_true]

theorem forkSeedFix_unseeded (env : Env) (x : Executor) (cur : Nat)
    (st : ExecutionState) (cond : Expr) (res : Validity) (hs : x.seedMap cur = none) :
    forkSeedFix env x cur st cond res = Except.ok (res, x) := by
  simp [forkSeedFix, hs]

theorem forkTail_unseeded (env : Env) (x : Executor) (cur : Nat)
    (st : ExecutionState) (cond : Expr) (isInternal : Bool) (res : Validity)
    (h : x.heap cur = some st) (hs : x.seedMap cur = none) :
    forkTail env x cur cond isInternal res = forkFinish env x cur st cond isInternal res := by
  unfold forkTail
  simp only [h]
  rw [forkSeedFix_unseeded env x cur st cond res hs]
  simp only [h]

theorem constraintsOf_some {x : Executor} {id : Nat} {cs : List Expr}
    (h : x.constraintsOf id = some cs) : ∃ st, x.heap id = some st ∧ st.constraints = cs := by
  unfold constraintsOf at h
  cases hst : x.heap id with
  | none => simp [hst] at h
  | some st => exact ⟨st, rfl, by simpa [hst] using h⟩

theorem fork_children_partition (σ : Nat → Nat) (cs : List Expr) (cond : Expr)
    (hc : cond.isConstant = false) :
    ¬ (satisfies σ (cs ++ [cond]) ∧ satisfies σ (cs ++ [Expr.createIsZero cond])) ∧
      (satisfies σ cs ↔
        satisfies σ (cs ++ [cond]) ∨ satisfies σ (cs ++ [Expr.createIsZero cond])) := by
  simp only [satisfies_append, Expr.holds_createIsZero σ cond hc]
  by_cases h1 : satisfies σ cs <;> by_cases h2 : Expr.holds σ cond <;> simp [h1, h2]

end Executor

/-- C1: on a state that is not seeded, with no replay path, no replay-out, no
fork-inhibiting policy and max-depth off, when the evaluate call made by fork
answers Unknown, fork returns two distinct non-null states, the current one
and a new one that it inserts into addedStates; the true side carries the
parent constraints plus the condition, the false side the parent constraints
plus its negation, and the two constraint sets are mutually exclusive and
jointly equivalent to the parent constraints. -/
theorem fork_unknown_two_children (env : Env) (x x1 : Executor) (cur : Nat)
    (st : ExecutionState) (cond cond1 : Expr) (isInternal : Bool)
    (hwf : x.WellFormed) (hcur : x.heap cur = some st)
    (hseed : x.seedMap cur = none)
    (hpath : x.replayPath = none) (hout : x.replayOut = none)
    (hmem : x.atMemoryLimit = false) (hfd : st.forkDisabled = false)
    (hinh : x.inhibitForking = false)
    (hcap : ¬ (env.opts.MaxForks ≠ 4294967295 ∧ env.opts.MaxForks ≤ x.forks))
    (hdepth : env.opts.MaxDepth = 0)
    (hq : Executor.forkQuery env x cur cond =
      Except.ok (some Validity.Unknown, cond1, x1)) :
    ∃ t f x2 tst fst,
      Executor.fork env x cur cond isInternal = Except.ok ((some t, some f), x2) ∧
      t ≠ f ∧
      ((t = cur ∧ f = x.nextState) ∨ (t = x.nextState ∧ f = cur)) ∧
      x.heap x.nextState = none ∧ x.nextState ∉ x.addedStates ∧
      x2.addedStates = insert x.nextState x.addedStates ∧
      x2.heap t = some tst ∧ tst.constraints = st.constraints ++ [cond] ∧
      x2.heap f = some fst ∧
      fst.constraints = st.constraints ++ [Expr.createIsZero cond] ∧
      ∀ σ, ¬ (satisfies σ tst.constraints ∧ satisfies σ fst.constraints) ∧
        (satisfies σ st.constraints ↔
          satisfies σ tst.constraints ∨ satisfies σ fst.constraints) := by
  obtain ⟨hc, hc1, -, hx1⟩ :=
    Executor.forkQuery_inv env x x1 cur st cond cond1 _ hcur hq (Or.inr (Or.inr rfl))
  subst hc1
  obtain ⟨hh, -, -, hna, -⟩ := hwf x.nextState (le_refl _)
  have hne : cur ≠ x.nextState := by
    intro he
    rw [he, hh] at hcur
    cases hcur
  have hcur1 : x1.heap cur = some st := by rw [hx1]; exact hcur
  have hseed1 : x1.seedMap cur = none := by rw [hx1]; exact hseed
  have hwf1 : x1.WellFormed := by rw [hx1]; exact hwf
  obtain ⟨t, f, x2, e2, hpair, hadd, hct, hcf, -, -, -⟩ :=
    Executor.forkSplit_spec env x1 cur st cond1 isInternal hwf1 hcur1 hseed1 hc hdepth
  have hnx : x1.nextState = x.nextState := by rw [hx1]
  have hax : x1.addedStates = x.addedStates := by rw [hx1]
  rw [hnx] at hpair hadd
  rw [hax] at hadd
  obtain ⟨tst, ht1, ht2⟩ := Executor.constraintsOf_some hct
  obtain ⟨fst, hf1, hf2⟩ := Executor.constraintsOf_some hcf
  refine ⟨t, f, x2, tst, fst, ?_, ?_, hpair, hh, hna, hadd, ht1, ht2, hf1, hf2, ?_⟩
  · unfold Executor.fork
    rw [hq]
    simp only [hcur1, hseed, Option.isSome_none, Bool.not_false, if_true]
    rw [Executor.forkReplay_plain env x1 cur st cond1 isInternal (by rw [hx1]; exact hpath)
      (by rw [hx1]; exact hout) (by rw [hx1]; exact hmem) hfd (by rw [hx1]; exact hinh)
      (by rw [hx1]; exact hcap)]
    simp only []
    rw [Executor.forkTail_unseeded env x1 cur st cond1 isInternal _ hcur1 hseed1]
    simp only [Executor.forkFinish]
    exact e2
  · rcases hpair with ⟨a, b⟩ | ⟨a, b⟩
    · rw [a, b]; exact hne
    · rw [a, b]; exact fun e => hne e.symm
  · intro σ
    rw [ht2, hf2]
    exact Executor.fork_children_partition σ st.constraints cond1 hc

theorem execOne_wellFormed : execOne.WellFormed := by
  intro i hi
  have h0 : i ≠ 0 := by
    intro h
    subst h
    simp [execOne] at hi
  simp [execOne, Function.update, h0]

/-- C1 witness: the fork of the single initial state on a symbolic bit under a
solver that answers Unknown. -/
theorem fork_unknown_two_children_witness :
    ∃ t f x2 tst fst,
      Executor.fork envUnknown execOne 0 condX false = Except.ok ((some t, some f), x2) ∧
      t ≠ f ∧
      ((t = 0 ∧ f = execOne.nextState) ∨ (t = execOne.nextState ∧ f = 0)) ∧
      execOne.heap execOne.nextState = none ∧ execOne.nextState ∉ execOne.addedStates ∧
      x2.addedStates = insert execOne.nextState execOne.addedStates ∧
      x2.heap t = some tst ∧
      tst.constraints = ({} : ExecutionState).constraints ++ [condX] ∧
      x2.heap f = some fst ∧
      fst.constraints = ({} : ExecutionState).constraints ++ [Expr.createIsZero condX] ∧
      ∀ σ, ¬ (satisfies σ tst.constraints ∧ satisfies σ fst.constraints) ∧
        (satisfies σ ({} : ExecutionState).constraints ↔
          satisfies σ tst.constraints ∨ satisfies σ fst.constraints) :=
  fork_unknown_two_children envUnknown execOne
    { execOne with queries := [⟨[], condX⟩] } 0 {} condX condX false
    execOne_wellFormed rfl rfl rfl rfl rfl rfl rfl (by decide) rfl rfl

namespace Executor

theorem forkReplay_proved (env : Env) (x : Executor) (cur : Nat) (st : ExecutionState)
    (cond : Expr) (isInternal : Bool) (res : Validity)
    (hpath : x.replayPath = none) (hres : res ≠ Validity.Unknown) :
    forkReplay env x cur st cond isInternal res = Except.ok (res, x) := by
  unfold forkReplay
  simp only [hpath, hres, Option.isSome_none, Bool.false_and, Bool.false_eq_true, if_false]

theorem SameFrame.heap_isSome {x y : Executor} (h : SameFrame x y) (i : Nat) :
    (y.heap i).isSome = (x.heap i).isSome := by
  have h7 := h.2.2.2.2.2.2 i
  unfold constraintsOf at h7
  cases hy : y.heap i <;> cases hx : x.heap i <;> simp [hy, hx] at h7 ⊢

theorem forkFinish_proved (env : Env) (x : Executor) (cur : Nat) (st : ExecutionState)
    (cond : Expr) (isInternal : Bool) (res : Validity) (hres : res ≠ Validity.Unknown) :
    ∃ x2, forkFinish env x cur st cond isInternal res =
        Except.ok ((if res = Validity.True then (some cur, none) else (none, some cur)), x2) ∧
      SameFrame x x2 := by
  cases res with
  | Unknown => exact absurd rfl hres
  | True =>
    refine ⟨_, rfl, ?_⟩
    split
    · exact modify_sameFrame _ _ _ (by intro s; rfl)
    · exact SameFrame.frame_refl x
  | False =>
    refine ⟨_, rfl, ?_⟩
    split
    · exact modify_sameFrame _ _ _ (by intro s; rfl)
    · exact SameFrame.frame_refl x

/-- What `fork` does once the query has been answered with a proved result on
a state that is not seeded and with no replay path. -/
theorem fork_proved (env : Env) (x x1 : Executor) (cur : Nat) (st : ExecutionState)
    (cond cond1 : Expr) (isInternal : Bool) (res : Validity)
    (hseed : x.seedMap cur = none)
    (hq : forkQuery env x cur cond = Except.ok (some res, cond1, x1))
    (hcur1 : x1.heap cur = some st) (hseed1 : x1.seedMap cur = none)
    (hpath1 : x1.replayPath = none) (hres : res ≠ Validity.Unknown) :
    ∃ x2, fork env x cur cond isInternal =
        Except.ok ((if res = Validity.True then (some cur, none) else (none, some cur)), x2) ∧
      SameFrame x1 x2 := by
  obtain ⟨x2, e2, f2⟩ := forkFinish_proved env x1 cur st cond1 isInternal res hres
  refine ⟨x2, ?_, f2⟩
  unfold fork
  rw [hq]
  simp only [hcur1, hseed, Option.isSome_none, Bool.not_false, if_true]
  rw [forkReplay_proved env x1 cur st cond1 isInternal res hpath1 hres]
  simp only []
  rw [forkTail_unseeded env x1 cur st cond1 isInternal res hcur1 hseed1]
  exact e2

end Executor

/-- C2: on a state that is not seeded and with no replay path, a fork on a
constant condition is answered by the constant fast path of
TimingSolver::evaluate, leaves the log of queries to the wrapped solver and
addedStates unchanged, creates no state, and returns (state, null) when the
constant is true and (null, state) otherwise. -/
theorem fork_constant_condition (env : Env) (x : Executor) (cur : Nat)
    (st : ExecutionState) (cond : Expr) (isInternal : Bool)
    (hcur : x.heap cur = some st) (hseed : x.seedMap cur = none)
    (hpath : x.replayPath = none) (hc : cond.isConstant = true) :
    TimingSolver.evaluate env x.queries st cond =
        (some (if cond.isTrue then Validity.True else Validity.False), x.queries) ∧
    ∃ x2, Executor.fork env x cur cond isInternal =
        Except.ok ((if cond.isTrue then (some cur, none) else (none, some cur)), x2) ∧
      x2.queries = x.queries ∧ x2.addedStates = x.addedStates ∧
      x2.nextState = x.nextState ∧ ∀ i, (x2.heap i).isSome = (x.heap i).isSome := by
  have hev := Executor.evaluate_constant env x.queries st cond hc
  refine ⟨hev, ?_⟩
  have hq := Executor.forkQuery_unseeded env x cur st cond hcur hseed (by simp [hc])
  rw [hev] at hq
  simp only [] at hq
  obtain ⟨x2, e2, f2⟩ := Executor.fork_proved env x _ cur st cond cond isInternal _ hseed hq
    hcur hseed hpath (by split <;> simp)
  refine ⟨x2, ?_, f2.2.2.2.2.2.1, f2.2.1, f2.2.2.2.2.1, fun i => f2.heap_isSome i⟩
  rw [e2]
  cases cond.isTrue <;> simp

/-- C2 witness: the fork of the single initial state on the true constant. -/
theorem fork_constant_condition_witness :
    TimingSolver.evaluate envUnknown execOne.queries {} (Expr.Constant 1 1) =
        (some (if (Expr.Constant 1 1).isTrue then Validity.True else Validity.False),
          execOne.queries) ∧
    ∃ x2, Executor.fork envUnknown execOne 0 (Expr.Constant 1 1) false =
        Except.ok ((if (Expr.Constant 1 1).isTrue then (some 0, none) else (none, some 0)),
          x2) ∧
      x2.queries = execOne.queries ∧ x2.addedStates = execOne.addedStates ∧
      x2.nextState = execOne.nextState ∧
      ∀ i, (x2.heap i).isSome = (execOne.heap i).isSome :=
  fork_constant_condition envUnknown execOne 0 {} (Expr.Constant 1 1) false rfl rfl rfl rfl

namespace Executor

theorem forkQuery_frame (env : Env) (x x1 : Executor) (cur : Nat)
    (st : ExecutionState) (cond cond1 : Expr) (r : Option Validity)
    (h : x.heap cur = some st)
    (hq : forkQuery env x cur cond = Except.ok (r, cond1, x1))
    (hr : cond1.isConstant = false ∨ r = none ∨ r = some Validity.Unknown) :
    cond.isConstant = false ∧ cond1 = cond ∧ x1.heap = x.heap ∧ x1.seedMap = x.seedMap ∧
      x1.addedStates = x.addedStates ∧ x1.removedStates = x.removedStates ∧
      x1.states = x.states ∧ x1.nextState = x.nextState ∧
      x1.replayPath = x.replayPath ∧ x1.replayOut = x.replayOut ∧
      x1.replayPosition = x.replayPosition ∧
      x1.atMemoryLimit = x.atMemoryLimit ∧ x1.inhibitForking = x.inhibitForking ∧
      x1.forks = x.forks ∧ x1.rngDraws = x.rngDraws ∧ x1.testCases = x.testCases := by
  obtain ⟨hc, hc1, -, hx1⟩ := forkQuery_inv env x x1 cur st cond cond1 r h hq hr
  subst hx1
  exact ⟨hc, hc1, rfl, rfl, rfl, rfl, rfl, rfl, rfl, rfl, rfl, rfl, rfl, rfl, rfl, rfl⟩

end Executor

/-- C3 counterexample: the wrapped solver proves the symbolic condition True,
fork returns the state on the true side, and the path constraints of the state
are still empty: the proved condition has not been added. -/
theorem fork_proved_counterexample :
    execOne.seedMap 0 = none ∧ execOne.replayPath = none ∧ execOne.replayOut = none ∧
      condX.isConstant = false ∧
      (Executor.forkQuery envTrue execOne 0 condX).toOption.map (fun r => (r.1, r.2.1)) =
        some (some Validity.True, condX) ∧
      forkOutcome (Executor.fork envTrue execOne 0 condX false) =
        some ((some 0, none), some []) := by
  decide

/-- C3 (amended): on a state that is not seeded and with no replay path, when
the evaluate call made by fork is about a non-constant condition and the
solver proves it True (respectively False), fork creates no state, returns the
current state alone on the true (respectively false) side, and leaves the path
constraints of that state as they were. -/
theorem fork_proved_keeps_constraints (env : Env) (x x1 : Executor) (cur : Nat)
    (st : ExecutionState) (cond cond1 : Expr) (isInternal : Bool) (res : Validity)
    (hcur : x.heap cur = some st) (hseed : x.seedMap cur = none)
    (hpath : x.replayPath = none)
    (hq : Executor.forkQuery env x cur cond = Except.ok (some res, cond1, x1))
    (hnc : cond1.isConstant = false) (hres : res ≠ Validity.Unknown) :
    ∃ x2, Executor.fork env x cur cond isInternal =
        Except.ok ((if res = Validity.True then (some cur, none) else (none, some cur)), x2) ∧
      x2.addedStates = x.addedStates ∧ x2.nextState = x.nextState ∧
      (∀ i, (x2.heap i).isSome = (x.heap i).isSome) ∧
      x2.constraintsOf cur = some st.constraints := by
  obtain ⟨-, -, hh, hs, ha, -, -, hn, hp, -⟩ :=
    Executor.forkQuery_frame env x x1 cur st cond cond1 _ hcur hq (Or.inl hnc)
  obtain ⟨x2, e2, f2⟩ := Executor.fork_proved env x x1 cur st cond cond1 isInternal res hseed
    hq (by rw [hh]; exact hcur) (by rw [hs]; exact hseed) (by rw [hp]; exact hpath) hres
  refine ⟨x2, e2, ?_, ?_, ?_, ?_⟩
  · rw [f2.2.1, ha]
  · rw [f2.2.2.2.2.1, hn]
  · intro i
    rw [f2.heap_isSome i, hh]
  · rw [f2.2.2.2.2.2.2 cur]
    simp [Executor.constraintsOf, hh, hcur]

/-- C3 witness: the fork of the single initial state on a symbolic bit that the
solver proves True. -/
theorem fork_proved_keeps_constraints_witness :
    ∃ x2, Executor.fork envTrue execOne 0 condX false =
        Except.ok ((if Validity.True = Validity.True then (some 0, none) else (none, some 0)),
          x2) ∧
      x2.addedStates = execOne.addedStates ∧ x2.nextState = execOne.nextState ∧
      (∀ i, (x2.heap i).isSome = (execOne.heap i).isSome) ∧
      x2.constraintsOf 0 = some ({} : ExecutionState).constraints :=
  fork_proved_keeps_constraints envTrue execOne { execOne with queries := [⟨[], condX⟩] } 0 {}
    condX condX false Validity.True rfl rfl rfl rfl rfl (by decide)

namespace Executor

theorem forkReplay_inhibited (env : Env) (x : Executor) (cur : Nat) (st : ExecutionState)
    (cond : Expr) (isInternal : Bool)
    (hcur : x.heap cur = some st) (hseed : x.seedMap cur = none)
    (hc : cond.isConstant = false)
    (hpath : x.replayPath = none) (hout : x.replayOut = none)
    (hinhibit : ((env.opts.MaxMemoryInhibit && x.atMemoryLimit) || st.forkDisabled ||
      x.inhibitForking ||
      (decide (env.opts.MaxForks ≠ 4294967295) && decide (env.opts.MaxForks ≤ x.forks)))
        = true) :
    ∃ x2, forkReplay env x cur st cond isInternal Validity.Unknown =
        Except.ok ((if env.rngBool x.rngDraws then Validity.True else Validity.False), x2) ∧
      x2.constraintsOf cur = some (st.constraints ++
        [if env.rngBool x.rngDraws then cond else Expr.createIsZero cond]) ∧
      x2.addedStates = x.addedStates ∧ x2.nextState = x.nextState ∧
      x2.seedMap = x.seedMap ∧
      (∀ i, (x2.heap i).isSome = (x.heap i).isSome) := by
  unfold forkReplay
  simp only [hpath, hout, Option.isSome_none, Bool.false_and, Bool.false_eq_true, if_false,
    if_true, hinhibit]
  have hcz := Expr.isConstant_createIsZero cond hc
  have key : ∀ c : Expr, c.isConstant = false →
      addConstraint env (getBool env x).2 cur c =
        Except.ok ((getBool env x).2.setState cur (stateAddConstraint st c)) := fun c hcc =>
    addConstraint_unseeded env _ cur st c hcc hcur hseed
  have hsome : ∀ (c : Expr) (i : Nat),
      ((((getBool env x).2.setState cur (stateAddConstraint st c)).heap i).isSome) =
        (x.heap i).isSome := by
    intro c i
    by_cases hi : i = cur
    · subst hi
      simp [setState, getBool, hcur]
    · simp [setState, getBool, Function.update, hi]
  cases hb : env.rngBool x.rngDraws
  · simp only [getBool, hb, Bool.false_eq_true, if_false]
    have k := key _ hcz
    simp only [getBool] at k
    rw [k]
    refine ⟨_, rfl, ?_, rfl, rfl, rfl, ?_⟩
    · simp [constraintsOf, setState, stateAddConstraint]
    · intro i
      have := hsome (Expr.createIsZero cond) i
      simpa [getBool] using this
  · simp only [getBool, hb, if_true]
    have k := key _ hc
    simp only [getBool] at k
    rw [k]
    refine ⟨_, rfl, ?_, rfl, rfl, rfl, ?_⟩
    · simp [constraintsOf, setState, stateAddConstraint]
    · intro i
      have := hsome cond i
      simpa [getBool] using this

end Executor

/-- C4 counterexample: with a replay-out buffer set and forking inhibited, the
fork of a state that is not seeded and has no replay path, on a condition the
solver answers Unknown, stops at the assertion of line 852 and returns no
state. -/
theorem fork_inhibited_counterexample :
    (Executor.forkQuery envUnknown execReplayOut 0 condX).toOption.map
        (fun r => (r.1, r.2.1)) = some (some Validity.Unknown, condX) ∧
      execReplayOut.seedMap 0 = none ∧ execReplayOut.replayPath = none ∧
      execReplayOut.inhibitForking = true ∧
      fatalOf (Executor.fork envUnknown execReplayOut 0 condX false) =
        some (Fatal.assertion "in replay mode, only one branch can be true.") := by
  decide

/-- C4 (amended): on a state that is not seeded, with no replay path and no
replay-out buffer, when the evaluate call made by fork answers Unknown and a
fork-inhibiting policy holds, fork creates no state and returns exactly one
non-null child, the current state: on the true side with the condition added
to its constraints when the random draw is true, on the false side with the
negated condition added otherwise. -/
theorem fork_inhibited_picks_one (env : Env) (x x1 : Executor) (cur : Nat)
    (st : ExecutionState) (cond cond1 : Expr) (isInternal : Bool)
    (hcur : x.heap cur = some st) (hseed : x.seedMap cur = none)
    (hpath : x.replayPath = none) (hout : x.replayOut = none)
    (hinhibit : (env.opts.MaxMemoryInhibit = true ∧ x.atMemoryLimit = true) ∨
      st.forkDisabled = true ∨ x.inhibitForking = true ∨
      (env.opts.MaxForks ≠ 4294967295 ∧ env.opts.MaxForks ≤ x.forks))
    (hq : Executor.forkQuery env x cur cond =
      Except.ok (some Validity.Unknown, cond1, x1)) :
    ∃ x2, Executor.fork env x cur cond isInternal =
        Except.ok ((if env.rngBool x.rngDraws then (some cur, none) else (none, some cur)),
          x2) ∧
      x2.addedStates = x.addedStates ∧ x2.nextState = x.nextState ∧
      (∀ i, (x2.heap i).isSome = (x.heap i).isSome) ∧
      x2.constraintsOf cur = some (st.constraints ++
        [if env.rngBool x.rngDraws then cond else Expr.createIsZero cond]) := by
  obtain ⟨hc, hc1, hh, hs, ha, -, -, hn, hp, ho, -, hm, hi, hf, hr, -⟩ :=
    Executor.forkQuery_frame env x x1 cur st cond cond1 _ hcur hq (Or.inr (Or.inr rfl))
  subst hc1
  have hcur1 : x1.heap cur = some st := by rw [hh]; exact hcur
  have hseed1 : x1.seedMap cur = none := by rw [hs]; exact hseed
  have hinh1 : ((env.opts.MaxMemoryInhibit && x1.atMemoryLimit) || st.forkDisabled ||
      x1.inhibitForking ||
      (decide (env.opts.MaxForks ≠ 4294967295) && decide (env.opts.MaxForks ≤ x1.forks)))
        = true := by
    rw [hm, hi, hf]
    rcases hinhibit with ⟨a, b⟩ | a | a | ⟨a, b⟩
    · simp [a, b]
    · simp [a]
    · simp [a]
    · simp [a, b]
  obtain ⟨x2, e2, c2, a2, n2, s2, d2⟩ :=
    Executor.forkReplay_inhibited env x1 cur st cond1 isInternal hcur1 hseed1 hc
      (by rw [hp]; exact hpath) (by rw [ho]; exact hout) hinh1
  rw [hr] at e2 c2
  obtain ⟨st2, hst2, -⟩ := Executor.constraintsOf_some c2
  obtain ⟨x3, e3, f3⟩ := Executor.forkFinish_proved env x2 cur st2 cond1 isInternal
    (if env.rngBool x.rngDraws then Validity.True else Validity.False)
    (by split <;> simp)
  refine ⟨x3, ?_, ?_, ?_, ?_, ?_⟩
  · unfold Executor.fork
    rw [hq]
    simp only [hcur1, hseed, Option.isSome_none, Bool.not_false, if_true]
    rw [e2]
    simp only []
    rw [Executor.forkTail_unseeded env x2 cur st2 cond1 isInternal _ hst2
      (by rw [s2]; exact hseed1)]
    rw [e3]
    cases env.rngBool x.rngDraws <;> simp
  · rw [f3.2.1, a2, ha]
  · rw [f3.2.2.2.2.1, n2, hn]
  · intro i
    rw [f3.heap_isSome i, d2 i, hh]
  · rw [f3.2.2.2.2.2.2 cur]
    exact c2

/-- C4 witness: the fork of the single initial state with forking inhibited on a
symbolic bit the solver answers Unknown. -/
theorem fork_inhibited_picks_one_witness :
    ∃ x2, Executor.fork envUnknown execInhibit 0 condX false =
        Except.ok ((if envUnknown.rngBool execInhibit.rngDraws then (some 0, none)
          else (none, some 0)), x2) ∧
      x2.addedStates = execInhibit.addedStates ∧ x2.nextState = execInhibit.nextState ∧
      (∀ i, (x2.heap i).isSome = (execInhibit.heap i).isSome) ∧
      x2.constraintsOf 0 = some (({} : ExecutionState).constraints ++
        [if envUnknown.rngBool execInhibit.rngDraws then condX
          else Expr.createIsZero condX]) :=
  fork_inhibited_picks_one envUnknown execInhibit { execInhibit with queries := [⟨[], condX⟩] }
    0 {} condX condX false rfl rfl rfl rfl (Or.inr (Or.inr (Or.inl rfl))) rfl

namespace Executor

theorem terminateState_spec (x : Executor) (s : Nat) (st : ExecutionState)
    (silenced : Bool) (h : x.heap s = some st) :
    ∃ x2, terminateState x s silenced = Except.ok x2 ∧
      x2.nextState = x.nextState ∧ x2.states = x.states ∧
      x2.addedStates = x.addedStates.erase s ∧ x2.queries = x.queries ∧
      x2.testCases = x.testCases ∧
      (∀ i, i ≠ s → x2.heap i = x.heap i) ∧
      (s ∉ x.addedStates → x2.removedStates = insert s x.removedStates ∧
        x2.heap s = some { st with pc := st.prevPC } ∧ x2.seedMap = x.seedMap) ∧
      (s ∈ x.addedStates → x2.removedStates = x.removedStates ∧ x2.heap s = none ∧
        x2.seedMap s = none) := by
  unfold terminateState
  simp only [h]
  by_cases hm : s ∈ x.addedStates
  · split <;> simp [hm, Function.update]
      <;> intro i hi <;> simp [hi]
  · split <;> simp [hm, Function.update, Finset.erase_eq_of_not_mem]
      <;> intro i hi <;> simp [hi]

end Executor

/-- C5: when the evaluate call made by fork reports failure, fork does not
abort: it resets the program counter of the state to its previous program
counter, terminates the state early with the message "query timed out"
(emitting the test case under the usual output filter), creates no state and
returns (null, null).  The state goes to removedStates, or is deleted at once
when it was still in addedStates. -/
theorem fork_query_failure_terminates (env : Env) (x x1 : Executor) (cur : Nat)
    (st : ExecutionState) (cond cond1 : Expr) (isInternal : Bool)
    (hcur : x.heap cur = some st)
    (hq : Executor.forkQuery env x cur cond = Except.ok (none, cond1, x1)) :
    ∃ x2, Executor.fork env x cur cond isInternal = Except.ok ((none, none), x2) ∧
      Executor.terminateStateEarly env
        (x1.modify cur (fun s => { s with pc := s.prevPC })) cur "query timed out" =
          Except.ok x2 ∧
      x2.testCases =
        (if !env.opts.OnlyOutputStatesCoveringNew || st.coveredNew ||
            (env.opts.AlwaysOutputSeeds && (x.seedMap cur).isSome) then
          x.testCases ++
            [{ state := cur, constraints := st.constraints,
               message := some "query timed out\n", suffix := some "early" }]
        else x.testCases) ∧
      x2.nextState = x.nextState ∧ x2.states = x.states ∧
      x2.addedStates = x.addedStates.erase cur ∧
      (∀ i, i ≠ cur → x2.heap i = x.heap i) ∧
      (cur ∉ x.addedStates → x2.removedStates = insert cur x.removedStates ∧
        x2.heap cur = some { st with pc := st.prevPC }) ∧
      (cur ∈ x.addedStates → x2.removedStates = x.removedStates ∧ x2.heap cur = none) := by
  obtain ⟨-, -, -, hx1⟩ :=
    Executor.forkQuery_inv env x x1 cur st cond cond1 _ hcur hq (Or.inr (Or.inl rfl))
  generalize (TimingSolver.evaluate env x.queries st cond).2 = q at hx1
  subst hx1
  have hmod : ({ x with queries := q } : Executor).modify cur
      (fun s => { s with pc := s.prevPC }) =
      ({ x with queries := q } : Executor).setState cur { st with pc := st.prevPC } :=
    Executor.modify_of_heap _ cur st _ hcur
  have hheap : (({ x with queries := q } : Executor).setState cur
      { st with pc := st.prevPC }).heap cur = some { st with pc := st.prevPC } := by
    simp [Executor.setState]
  have hfork : ∀ x2, Executor.terminateStateEarly env
      (({ x with queries := q } : Executor).modify cur (fun s => { s with pc := s.prevPC }))
      cur "query timed out" = Except.ok x2 →
      Executor.fork env x cur cond isInternal = Except.ok ((none, none), x2) := by
    intro x2 h2
    unfold Executor.fork
    rw [hq]
    simp only []
    rw [h2]
  rw [hmod] at hfork ⊢
  unfold Executor.terminateStateEarly at hfork ⊢
  simp only [hheap] at hfork ⊢
  by_cases hout : (!env.opts.OnlyOutputStatesCoveringNew || st.coveredNew ||
      (env.opts.AlwaysOutputSeeds && (x.seedMap cur).isSome)) = true
  · have hout' : (!env.opts.OnlyOutputStatesCoveringNew || st.coveredNew ||
        (env.opts.AlwaysOutputSeeds &&
          ((({ x with queries := q } : Executor).setState cur
            { st with pc := st.prevPC }).seedMap cur).isSome)) = true := hout
    rw [if_pos hout'] at hfork ⊢
    rw [if_pos hout]
    obtain ⟨x2, e2, n2, s2, a2, -, t2, o2, r2, d2⟩ :=
      Executor.terminateState_spec _ cur _ false
        (show ({ (({ x with queries := q } : Executor).setState cur
            { st with pc := st.prevPC }) with testCases := x.testCases ++
              [{ state := cur, constraints := st.constraints,
                 message := some ("query timed out" ++ "\n"), suffix := some "early" }] }
              : Executor).heap cur = some { st with pc := st.prevPC } from hheap)
    refine ⟨x2, hfork x2 e2, e2, t2, n2, s2, a2, ?_, ?_, ?_⟩
    · intro i hi
      rw [o2 i hi]
      simp [Executor.setState, Function.update, hi]
    · intro hm
      exact ⟨(r2 hm).1, (r2 hm).2.1⟩
    · intro hm
      exact ⟨(d2 hm).1, (d2 hm).2.1⟩
  · have hout' : ¬ (!env.opts.OnlyOutputStatesCoveringNew || st.coveredNew ||
        (env.opts.AlwaysOutputSeeds &&
          ((({ x with queries := q } : Executor).setState cur
            { st with pc := st.prevPC }).seedMap cur).isSome)) = true := hout
    rw [if_neg hout'] at hfork ⊢
    rw [if_neg hout]
    obtain ⟨x2, e2, n2, s2, a2, -, t2, o2, r2, d2⟩ :=
      Executor.terminateState_spec _ cur _ true hheap
    refine ⟨x2, hfork x2 e2, e2, t2, n2, s2, a2, ?_, ?_, ?_⟩
    · intro i hi
      rw [o2 i hi]
      simp [Executor.setState, Function.update, hi]
    · intro hm
      exact ⟨(r2 hm).1, (r2 hm).2.1⟩
    · intro hm
      exact ⟨(d2 hm).1, (d2 hm).2.1⟩

/-- C5 witness: the fork of the single initial state on a symbolic bit under a
solver whose validity query fails. -/
theorem fork_query_failure_terminates_witness :
    ∃ x2, Executor.fork envFail execOne 0 condX false = Except.ok ((none, none), x2) ∧
      Executor.terminateStateEarly envFail
        (({ execOne with queries := [⟨[], condX⟩] } : Executor).modify 0
          (fun s => { s with pc := s.prevPC })) 0 "query timed out" = Except.ok x2 ∧
      x2.testCases =
        (if !envFail.opts.OnlyOutputStatesCoveringNew || initialState.coveredNew ||
            (envFail.opts.AlwaysOutputSeeds && (execOne.seedMap 0).isSome) then
          execOne.testCases ++
            [{ state := 0, constraints := initialState.constraints,
               message := some "query timed out\n", suffix := some "early" }]
        else execOne.testCases) ∧
      x2.nextState = execOne.nextState ∧ x2.states = execOne.states ∧
      x2.addedStates = execOne.addedStates.erase 0 ∧
      (∀ i, i ≠ 0 → x2.heap i = execOne.heap i) ∧
      (0 ∉ execOne.addedStates → x2.removedStates = insert 0 execOne.removedStates ∧
        x2.heap 0 = some { initialState with pc := initialState.prevPC }) ∧
      (0 ∈ execOne.addedStates → x2.removedStates = execOne.removedStates ∧
        x2.heap 0 = none) :=
  fork_query_failure_terminates envFail execOne { execOne with queries := [⟨[], condX⟩] } 0 initialState
    condX condX false rfl rfl

namespace Executor

theorem forkQuery_replay (env : Env) (x x1 : Executor) (cur : Nat)
    (st : ExecutionState) (cond cond1 : Expr) (r : Option Validity)
    (h : x.heap cur = some st)
    (hq : forkQuery env x cur cond = Except.ok (r, cond1, x1)) :
    x1.replayPath = x.replayPath ∧ x1.replayPosition = x.replayPosition ∧
      x1.seedMap = x.seedMap ∧ x1.addedStates = x.addedStates ∧
      x1.nextState = x.nextState ∧ ∃ st1, x1.heap cur = some st1 := by
  by_cases hn : (!(x.seedMap cur).isSome && !cond.isConstant && x.staticLimitsArmed &&
      x.staticLimitsExceeded) = false
  · rw [forkQuery_noStatic env x cur st cond h hn] at hq
    simp only [Except.ok.injEq, Prod.mk.injEq] at hq
    obtain ⟨-, -, h3⟩ := hq
    subst h3
    exact ⟨rfl, rfl, rfl, rfl, rfl, st, h⟩
  · simp only [Bool.not_eq_false, Bool.and_eq_true, Bool.not_eq_true'] at hn
    obtain ⟨⟨⟨hs0, hc⟩, ha⟩, he⟩ := hn
    have hs : x.seedMap cur = none := by
      cases hsm : x.seedMap cur with
      | none => rfl
      | some l => simp [hsm] at hs0
    unfold forkQuery forkStaticLimit at hq
    simp only [h, hs, Option.isSome_none, Bool.not_false, Bool.true_and, hc, ha, he,
      Bool.and_self, if_true, TimingSolver.getValue, Bool.false_eq_true, if_false] at hq
    cases hg : env.solver.getValue x.queries.length
        ⟨st.constraints, if env.simplifyExprs then env.simplifyExpr st.constraints cond else cond⟩ with
    | none => simp [hg] at hq
    | some c =>
      simp only [hg, Option.map_some'] at hq
      have hcr := EqExpr_create_nonconstant (Expr.Constant c.1 c.2) cond hc
      rw [addConstraint_unseeded env _ cur st _ hcr] at hq
      · simp [setState, evaluate_constant, Expr.isConstant] at hq
        obtain ⟨-, -, h3⟩ := hq
        subst h3
        exact ⟨rfl, rfl, rfl, rfl, rfl,
          stateAddConstraint st ((Expr.Constant c.1 c.2).EqExpr_create cond), by simp⟩
      · exact h
      · exact hs

theorem forkReplay_path (env : Env) (x : Executor) (cur : Nat) (st : ExecutionState)
    (cond : Expr) (res : Validity) (path : List Bool) (hpath : x.replayPath = some path) :
    forkReplay env x cur st cond false res =
      if x.replayPosition < path.length then
        match res with
        | Validity.True =>
          if path.getD x.replayPosition false then
            Except.ok (res, { x with replayPosition := x.replayPosition + 1 })
          else Except.error (Fatal.assertion "hit invalid branch in replay path mode")
        | Validity.False =>
          if !path.getD x.replayPosition false then
            Except.ok (res, { x with replayPosition := x.replayPosition + 1 })
          else Except.error (Fatal.assertion "hit invalid branch in replay path mode")
        | Validity.Unknown =>
          if path.getD x.replayPosition false then
            (addConstraint env { x with replayPosition := x.replayPosition + 1 } cur cond).map
              (fun x2 => (Validity.True, x2))
          else
            (addConstraint env { x with replayPosition := x.replayPosition + 1 } cur
              (Expr.createIsZero cond)).map (fun x2 => (Validity.False, x2))
      else Except.error (Fatal.assertion "ran out of branches in replay path mode") := by
  unfold forkReplay
  simp [hpath]

theorem fork_after_query (env : Env) (x x1 : Executor) (cur : Nat)
    (st1 : ExecutionState) (cond cond1 : Expr) (isInternal : Bool) (res : Validity)
    (hseed : x.seedMap cur = none)
    (hq : forkQuery env x cur cond = Except.ok (some res, cond1, x1))
    (hcur1 : x1.heap cur = some st1) :
    fork env x cur cond isInternal =
      match forkReplay env x1 cur st1 cond1 isInternal res with
      | Except.error e => Except.error e
      | Except.ok (res1, x2) => forkTail env x2 cur cond1 isInternal res1 := by
  unfold fork
  rw [hq]
  simp only [hcur1, hseed, Option.isSome_none, Bool.not_false, if_true]

end Executor

/-- C10 counterexample: in replay-path mode with the recorded path exhausted, a
non-internal fork on a state that is not seeded whose solver query fails does
not stop at a fatal assertion: it returns (null, null) after terminating the
state early. -/
theorem fork_replay_counterexample :
    execReplayDone.replayPath = some [] ∧ execReplayDone.replayPosition = 0 ∧
      execReplayDone.seedMap 0 = none ∧
      fatalOf (Executor.fork envFail execReplayDone 0 condX false) = none ∧
      forkOutcome (Executor.fork envFail execReplayDone 0 condX false) =
        some ((none, none), some []) := by
  decide

/-- C10 (amended): in replay-path mode, for a non-internal fork on a state that
is not seeded whose evaluate call succeeds with answer res: if the replay
position has reached the end of the path, or res is True and the recorded bit
false, or res is False and the recorded bit true, fork stops at a fatal
assertion; a proved result that agrees with the bit is returned as proved,
without a new constraint; and when res is Unknown the bit selects the side and
the condition (or its negation) is added to the state. -/
theorem fork_replay_path (env : Env) (x x1 : Executor) (cur : Nat)
    (st : ExecutionState) (cond cond1 : Expr) (path : List Bool) (res : Validity)
    (hcur : x.heap cur = some st) (hseed : x.seedMap cur = none)
    (hpath : x.replayPath = some path)
    (hq : Executor.forkQuery env x cur cond = Except.ok (some res, cond1, x1)) :
    (path.length ≤ x.replayPosition →
      Executor.fork env x cur cond false =
        Except.error (Fatal.assertion "ran out of branches in replay path mode")) ∧
    (x.replayPosition < path.length → res = Validity.True →
      path.getD x.replayPosition false = false →
      Executor.fork env x cur cond false =
        Except.error (Fatal.assertion "hit invalid branch in replay path mode")) ∧
    (x.replayPosition < path.length → res = Validity.False →
      path.getD x.replayPosition false = true →
      Executor.fork env x cur cond false =
        Except.error (Fatal.assertion "hit invalid branch in replay path mode")) ∧
    (x.replayPosition < path.length → res = Validity.True →
      path.getD x.replayPosition false = true →
      ∃ x2, Executor.fork env x cur cond false = Except.ok ((some cur, none), x2) ∧
        x2.replayPosition = x.replayPosition + 1 ∧
        x2.constraintsOf cur = x1.constraintsOf cur) ∧
    (x.replayPosition < path.length → res = Validity.False →
      path.getD x.replayPosition false = false →
      ∃ x2, Executor.fork env x cur cond false = Except.ok ((none, some cur), x2) ∧
        x2.replayPosition = x.replayPosition + 1 ∧
        x2.constraintsOf cur = x1.constraintsOf cur) ∧
    (x.replayPosition < path.length → res = Validity.Unknown →
      ∃ x2, Executor.fork env x cur cond false =
          Except.ok ((if path.getD x.replayPosition false then (some cur, none)
            else (none, some cur)), x2) ∧
        x2.replayPosition = x.replayPosition + 1 ∧
        x2.constraintsOf cur = some (st.constraints ++
          [if path.getD x.replayPosition false then cond else Expr.createIsZero cond])) := by
  obtain ⟨hp1, hpos1, hs1, -, -, st1, hcur1⟩ :=
    Executor.forkQuery_replay env x x1 cur st cond cond1 _ hcur hq
  have hseed1 : x1.seedMap cur = none := by rw [hs1]; exact hseed
  have hfork := Executor.fork_after_query env x x1 cur st1 cond cond1 false res hseed hq hcur1
  rw [Executor.forkReplay_path env x1 cur st1 cond1 res path (by rw [hp1]; exact hpath),
    hpos1] at hfork
  have proved : ∀ r : Validity, r ≠ Validity.Unknown →
      ∃ x2, Executor.forkTail env { x1 with replayPosition := x.replayPosition + 1 } cur cond1
          false r =
        Except.ok ((if r = Validity.True then (some cur, none) else (none, some cur)), x2) ∧
        x2.replayPosition = x.replayPosition + 1 ∧
        x2.constraintsOf cur = x1.constraintsOf cur := by
    intro r hr
    rw [Executor.forkTail_unseeded env _ cur st1 cond1 false r
      (show ({ x1 with replayPosition := x.replayPosition + 1 } : Executor).heap cur = some st1
        from hcur1)
      (show ({ x1 with replayPosition := x.replayPosition + 1 } : Executor).seedMap cur = none
        from hseed1)]
    cases r with
    | Unknown => exact absurd rfl hr
    | True =>
      refine ⟨_, rfl, ?_, ?_⟩
      · split
        · simp [Executor.modify, hcur1, Executor.setState]
        · rfl
      · split
        · simp [Executor.modify, hcur1, Executor.setState, Executor.constraintsOf]
        · rfl
    | False =>
      refine ⟨_, rfl, ?_, ?_⟩
      · split
        · simp [Executor.modify, hcur1, Executor.setState]
        · rfl
      · split
        · simp [Executor.modify, hcur1, Executor.setState, Executor.constraintsOf]
        · rfl
  refine ⟨?_, ?_, ?_, ?_, ?_, ?_⟩
  · intro hle
    rw [hfork, if_neg (not_lt.2 hle)]
  · intro hlt hr hb
    subst hr
    rw [if_pos hlt] at hfork
    simp only [hb, Bool.false_eq_true, if_false] at hfork
    exact hfork
  · intro hlt hr hb
    subst hr
    rw [if_pos hlt] at hfork
    simp only [hb, Bool.not_true, Bool.false_eq_true, if_false] at hfork
    exact hfork
  · intro hlt hr hb
    subst hr
    rw [if_pos hlt] at hfork
    simp only [hb, if_true] at hfork
    obtain ⟨x2, e2, p2, c2⟩ := proved Validity.True (by simp)
    exact ⟨x2, by rw [hfork, e2]; simp, p2, c2⟩
  · intro hlt hr hb
    subst hr
    rw [if_pos hlt] at hfork
    simp only [hb, Bool.not_false, if_true] at hfork
    obtain ⟨x2, e2, p2, c2⟩ := proved Validity.False (by simp)
    exact ⟨x2, by rw [hfork, e2]; simp, p2, c2⟩
  · intro hlt hr
    subst hr
    obtain ⟨hc, hc1, hh, -⟩ :=
      Executor.forkQuery_frame env x x1 cur st cond cond1 _ hcur hq (Or.inr (Or.inr rfl))
    subst hc1
    have hst1 : st1 = st := by
      rw [hh, hcur] at hcur1
      exact (Option.some.inj hcur1).symm
    subst hst1
    rw [if_pos hlt] at hfork
    simp only [] at hfork
    have key : ∀ c : Expr, c.isConstant = false →
        Executor.addConstraint env { x1 with replayPosition := x.replayPosition + 1 } cur c =
          Except.ok (({ x1 with replayPosition := x.replayPosition + 1 } : Executor).setState
            cur (Executor.stateAddConstraint st1 c)) := fun c hcc =>
      Executor.addConstraint_unseeded env _ cur st1 c hcc hcur1 hseed1
    have tail : ∀ (c : Expr) (r : Validity), r ≠ Validity.Unknown →
        ∃ x2, Executor.forkTail env
            (({ x1 with replayPosition := x.replayPosition + 1 } : Executor).setState
              cur (Executor.stateAddConstraint st1 c)) cur cond1 false r =
          Except.ok ((if r = Validity.True then (some cur, none) else (none, some cur)), x2) ∧
          x2.replayPosition = x.replayPosition + 1 ∧
          x2.constraintsOf cur = some (st1.constraints ++ [c]) := by
      intro c r hr
      have hheap : ((({ x1 with replayPosition := x.replayPosition + 1 } : Executor).setState
          cur (Executor.stateAddConstraint st1 c)).heap cur) =
          some (Executor.stateAddConstraint st1 c) := by
        simp [Executor.setState]
      rw [Executor.forkTail_unseeded env _ cur _ cond1 false r hheap
        (show ((({ x1 with replayPosition := x.replayPosition + 1 } : Executor).setState
          cur (Executor.stateAddConstraint st1 c)).seedMap cur) = none from hseed1)]
      obtain ⟨x2, e2, f2⟩ := Executor.forkFinish_proved env _ cur
        (Executor.stateAddConstraint st1 c) cond1 false r hr
      refine ⟨x2, e2, ?_, ?_⟩
      · cases r with
        | Unknown => exact absurd rfl hr
        | True =>
          simp only [Executor.forkFinish, Except.ok.injEq, Prod.mk.injEq] at e2
          rw [← e2.2]
          split
          · simp [Executor.modify, Executor.setState]
          · rfl
        | False =>
          simp only [Executor.forkFinish, Except.ok.injEq, Prod.mk.injEq] at e2
          rw [← e2.2]
          split
          · simp [Executor.modify, Executor.setState]
          · rfl
      · rw [f2.2.2.2.2.2.2 cur]
        simp [Executor.constraintsOf, Executor.setState, Executor.stateAddConstraint]
    cases hb : path.getD x.replayPosition false
    · simp only [hb, Bool.false_eq_true, if_false] at hfork ⊢
      rw [key _ (Expr.isConstant_createIsZero cond1 hc)] at hfork
      obtain ⟨x2, e2, p2, c2⟩ := tail (Expr.createIsZero cond1) Validity.False (by simp)
      refine ⟨x2, ?_, p2, c2⟩
      rw [hfork]
      simp only [Except.map]
      rw [e2]
      simp
    · simp only [hb, if_true] at hfork ⊢
      rw [key _ hc] at hfork
      obtain ⟨x2, e2, p2, c2⟩ := tail cond1 Validity.True (by simp)
      refine ⟨x2, ?_, p2, c2⟩
      rw [hfork]
      simp only [Except.map]
      rw [e2]
      simp

/-- C10 witness: a non-internal fork in replay-path mode whose recorded bit is
true, on a symbolic bit the solver proves True. -/
theorem fork_replay_path_witness :
    ([true].length ≤ execReplayTrue.replayPosition →
      Executor.fork envTrue execReplayTrue 0 condX false =
        Except.error (Fatal.assertion "ran out of branches in replay path mode")) ∧
    (execReplayTrue.replayPosition < [true].length →
      Validity.True = Validity.True →
      [true].getD execReplayTrue.replayPosition false = false →
      Executor.fork envTrue execReplayTrue 0 condX false =
        Except.error (Fatal.assertion "hit invalid branch in replay path mode")) ∧
    (execReplayTrue.replayPosition < [true].length →
      Validity.True = Validity.False →
      [true].getD execReplayTrue.replayPosition false = true →
      Executor.fork envTrue execReplayTrue 0 condX false =
        Except.error (Fatal.assertion "hit invalid branch in replay path mode")) ∧
    (execReplayTrue.replayPosition < [true].length →
      Validity.True = Validity.True →
      [true].getD execReplayTrue.replayPosition false = true →
      ∃ x2, Executor.fork envTrue execReplayTrue 0 condX false =
          Except.ok ((some 0, none), x2) ∧
        x2.replayPosition = execReplayTrue.replayPosition + 1 ∧
        x2.constraintsOf 0 =
          ({ execReplayTrue with queries := [⟨[], condX⟩] } : Executor).constraintsOf 0) ∧
    (execReplayTrue.replayPosition < [true].length →
      Validity.True = Validity.False →
      [true].getD execReplayTrue.replayPosition false = false →
      ∃ x2, Executor.fork envTrue execReplayTrue 0 condX false =
          Except.ok ((none, some 0), x2) ∧
        x2.replayPosition = execReplayTrue.replayPosition + 1 ∧
        x2.constraintsOf 0 =
          ({ execReplayTrue with queries := [⟨[], condX⟩] } : Executor).constraintsOf 0) ∧
    (execReplayTrue.replayPosition < [true].length →
      Validity.True = Validity.Unknown →
      ∃ x2, Executor.fork envTrue execReplayTrue 0 condX false =
          Except.ok ((if [true].getD execReplayTrue.replayPosition false
            then (some 0, none) else (none, some 0)), x2) ∧
        x2.replayPosition = execReplayTrue.replayPosition + 1 ∧
        x2.constraintsOf 0 = some (initialState.constraints ++
          [if [true].getD execReplayTrue.replayPosition false then condX
            else Expr.createIsZero condX])) :=
  fork_replay_path envTrue execReplayTrue { execReplayTrue with queries := [⟨[], condX⟩] } 0
    initialState condX condX [true] Validity.True rfl rfl rfl rfl

namespace Executor

theorem constraintsOf_eq_none {x : Executor} {j : Nat} :
    x.constraintsOf j = none ↔ x.heap j = none := by
  unfold constraintsOf
  cases x.heap j <;> simp

theorem WellFormed.wf_of_frame {x y : Executor} (hwf : x.WellFormed) (h : SameFrame x y) :
    y.WellFormed := by
  obtain ⟨f1, f2, f3, f4, f5, -, f7⟩ := h
  intro i hi
  rw [f5] at hi
  obtain ⟨w1, w2, w3, w4, w5⟩ := hwf i hi
  refine ⟨?_, ?_, ?_, ?_, ?_⟩
  · rw [← constraintsOf_eq_none, f7 i, constraintsOf_eq_none]; exact w1
  · rw [f4]; exact w2
  · rw [f1]; exact w3
  · rw [f2]; exact w4
  · rw [f3]; exact w5

theorem Grown.grown_of_frame {x y z : Executor} {cs : List Expr} {k : Nat}
    (g : Grown x y cs k) (h : SameFrame y z) : Grown x z cs k := by
  obtain ⟨a1, a2, a3, a4, a5, a6, a7⟩ := g
  obtain ⟨f1, f2, f3, f4, f5, f6, f7⟩ := h
  refine ⟨by rw [f5, a1], by rw [f1, a2], by rw [f3, a3], by rw [f4, a4], by rw [f6, a5],
    fun j => by rw [f2, a6 j], fun j => by rw [f7 j, a7 j]⟩

theorem cloneState_spec (x : Executor) (es : ExecutionState) (hwf : x.WellFormed) :
    (cloneState x es).1 = x.nextState ∧ Grown x (cloneState x es).2 es.constraints 1 ∧
      (cloneState x es).2.WellFormed := by
  refine ⟨rfl, ⟨rfl, rfl, rfl, rfl, rfl, ?_, ?_⟩, ?_⟩
  · intro j
    simp only [cloneState, branchState, Finset.mem_insert]
    constructor
    · rintro (hj | hj)
      · right; omega
      · left; exact hj
    · rintro (hj | hj)
      · right; exact hj
      · left; omega
  · intro j
    by_cases hj : j = x.nextState
    · subst hj
      simp [cloneState, constraintsOf, branchState]
    · have : ¬ (x.nextState ≤ j ∧ j < x.nextState + 1) := by omega
      simp [cloneState, constraintsOf, branchState, Function.update, hj, this]
  · intro i hi
    simp only [cloneState, branchState] at hi
    obtain ⟨w1, w2, w3, w4, w5⟩ := hwf i (by omega)
    have hne : i ≠ x.nextState := by omega
    refine ⟨?_, w2, w3, ?_, w5⟩
    · simp [cloneState, branchState, Function.update, hne, w1]
    · simp only [cloneState, branchState, Finset.mem_insert]
      rintro (hj | hj)
      · omega
      · exact w4 hj

theorem branchLink_sameFrame (x : Executor) (es : ExecutionState) (ns state : Nat) :
    SameFrame x (branchLink x es ns state) := by
  unfold branchLink
  have h0 : ∀ p : PTree, SameFrame x { x with processTree := p } :=
    fun p => ⟨rfl, rfl, rfl, rfl, rfl, rfl, fun _ => rfl⟩
  exact ((h0 _).frame_modify _ _ (by intro s; rfl)).frame_modify _ _ (by intro s; rfl)

theorem branchStep_spec (x : Executor) (state : Nat) (cs : List Expr)
    (h : x.constraintsOf state = some cs) (hwf : x.WellFormed) :
    ∃ x1, branchStep x state = Except.ok (x.nextState, x1) ∧ Grown x x1 cs 1 ∧
      x1.WellFormed := by
  obtain ⟨es, hes, hcs⟩ := constraintsOf_some h
  obtain ⟨c1, c2, c3⟩ := cloneState_spec x es hwf
  have hf := branchLink_sameFrame (cloneState x es).2 es (cloneState x es).1 state
  refine ⟨branchLink (cloneState x es).2 es (cloneState x es).1 state, ?_, ?_, c3.wf_of_frame hf⟩
  · unfold branchStep
    simp only [hes]
    rfl
  · rw [hcs] at c2
    exact c2.grown_of_frame hf

theorem branchLoop_spec (state : Nat) (cs : List Expr) (k : Nat) :
    ∀ x : Executor, x.constraintsOf state = some cs → x.WellFormed →
    ∃ x1, branchLoop x state k =
        Except.ok ((List.range k).map (fun i => x.nextState + i), x1) ∧
      Grown x x1 cs k ∧ x1.WellFormed := by
  induction k with
  | zero =>
    intro x _ hwf
    refine ⟨x, rfl, ⟨rfl, rfl, rfl, rfl, rfl, fun j => ?_, fun j => ?_⟩, hwf⟩
    · constructor
      · intro hj; left; exact hj
      · rintro (hj | hj)
        · exact hj
        · omega
    · have : ¬ (x.nextState ≤ j ∧ j < x.nextState + 0) := by omega
      rw [if_neg this]
  | succ k ih =>
    intro x h hwf
    obtain ⟨x1, e1, g1, wf1⟩ := branchStep_spec x state cs h hwf
    obtain ⟨a1, a2, a3, a4, a5, a6, a7⟩ := g1
    have hlt : state < x.nextState := by
      by_contra hge
      have := (hwf state (by omega)).1
      rw [← constraintsOf_eq_none, h] at this
      cases this
    have h1 : x1.constraintsOf state = some cs := by
      rw [a7 state]
      have : ¬ (x.nextState ≤ state ∧ state < x.nextState + 1) := by omega
      simp [this, h]
    obtain ⟨x2, e2, g2, wf2⟩ := ih x1 h1 wf1
    obtain ⟨b1, b2, b3, b4, b5, b6, b7⟩ := g2
    refine ⟨x2, ?_, ⟨?_, ?_, ?_, ?_, ?_, ?_, ?_⟩, wf2⟩
    · simp only [branchLoop, e1, e2, a1]
      have hl : (List.range (k + 1)).map (fun i => x.nextState + i) =
          x.nextState :: (List.range k).map (fun i => x.nextState + 1 + i) := by
        rw [List.range_succ_eq_map, List.map_cons, List.map_map]
        congr 1
        apply List.map_congr_left
        intro i _
        simp only [Function.comp, Nat.succ_eq_add_one]
        omega
      rw [hl]
    · rw [b1, a1]; omega
    · rw [b2, a2]
    · rw [b3, a3]
    · rw [b4, a4]
    · rw [b5, a5]
    · intro j
      rw [b6 j, a6 j, a1]
      constructor
      · rintro ((hj | hj) | hj)
        · left; exact hj
        · right; omega
        · right; omega
      · rintro (hj | hj)
        · left; left; exact hj
        · by_cases hjj : j = x.nextState
          · left; right; omega
          · right; omega
    · intro j
      rw [b7 j, a7 j, a1]
      by_cases hj1 : x.nextState + 1 ≤ j ∧ j < x.nextState + 1 + k
      · have : x.nextState ≤ j ∧ j < x.nextState + (k + 1) := by omega
        simp [hj1, this]
      · by_cases hj2 : x.nextState ≤ j ∧ j < x.nextState + 1
        · have : x.nextState ≤ j ∧ j < x.nextState + (k + 1) := by omega
          simp [hj1, hj2, this]
        · have : ¬ (x.nextState ≤ j ∧ j < x.nextState + (k + 1)) := by omega
          simp [hj1, hj2, this]

end Executor

namespace Executor

theorem addConstraint_general (env : Env) (x : Executor) (s : Nat) (cs : List Expr)
    (c : Expr) (h : x.constraintsOf s = some cs) (hs : x.seedMap s = none)
    (hok : c.isConstant = true → c.isTrue = true) :
    ∃ x1, addConstraint env x s c = Except.ok x1 ∧
      x1.constraintsOf s = some (constraintsAfter cs c) ∧
      (∀ j, j ≠ s → x1.constraintsOf j = x.constraintsOf j) ∧
      x1.states = x.states ∧ x1.addedStates = x.addedStates ∧
      x1.removedStates = x.removedStates ∧ x1.seedMap = x.seedMap ∧
      x1.nextState = x.nextState ∧ x1.queries = x.queries := by
  cases hc : c.isConstant
  · obtain ⟨x1, e1, r⟩ := addConstraint_spec env x s cs c hc h hs
    refine ⟨x1, e1, ?_, r.2⟩
    rw [r.1]
    simp [constraintsAfter, hc]
  · refine ⟨x, ?_, ?_, fun _ _ => rfl, rfl, rfl, rfl, rfl, rfl, rfl⟩
    · simp [addConstraint, hc, hok hc]
    · rw [h]
      simp [constraintsAfter, hc]

theorem branchConstrain_spec (env : Env) (base : List Expr) :
    ∀ (rs : List Nat) (conds : List Expr) (x : Executor),
      rs.length = conds.length → rs.Nodup →
      (∀ s ∈ rs, x.constraintsOf s = some base ∧ x.seedMap s = none) →
      (∀ c ∈ conds, c.isConstant = true → c.isTrue = true) →
      ∃ x2, branchConstrain env x (rs.map some) conds = Except.ok x2 ∧
        (∀ (i : Nat) (s : Nat) (c : Expr), rs[i]? = some s → conds[i]? = some c →
          x2.constraintsOf s = some (constraintsAfter base c)) ∧
        (∀ j, j ∉ rs → x2.constraintsOf j = x.constraintsOf j) ∧
        x2.states = x.states ∧ x2.addedStates = x.addedStates ∧
        x2.removedStates = x.removedStates ∧ x2.seedMap = x.seedMap ∧
        x2.nextState = x.nextState ∧ x2.queries = x.queries := by
  intro rs
  induction rs with
  | nil =>
    intro conds x _ _ _ _
    refine ⟨x, ?_, ?_, fun _ _ => rfl, rfl, rfl, rfl, rfl, rfl, rfl⟩
    · simp [branchConstrain]
    · intro i s c hi
      simp at hi
  | cons s rest ih =>
    intro conds x hlen hnd hall hok
    cases conds with
    | nil => simp at hlen
    | cons c cs =>
      have hnd' := List.nodup_cons.1 hnd
      obtain ⟨hcs, hss⟩ := hall s (List.mem_cons_self _ _)
      obtain ⟨x1, e1, k1, o1, s1, a1, r1, m1, n1, q1⟩ :=
        addConstraint_general env x s base c hcs hss (hok c (List.mem_cons_self _ _))
      obtain ⟨x2, e2, k2, o2, s2, a2, r2, m2, n2, q2⟩ := ih cs x1
        (by simpa using hlen) hnd'.2
        (fun t ht => by
          have hts : t ≠ s := fun e => hnd'.1 (e ▸ ht)
          rw [o1 t hts, m1]
          exact hall t (List.mem_cons_of_mem _ ht))
        (fun d hd => hok d (List.mem_cons_of_mem _ hd))
      refine ⟨x2, ?_, ?_, ?_, by rw [s2, s1], by rw [a2, a1], by rw [r2, r1], by rw [m2, m1],
        by rw [n2, n1], by rw [q2, q1]⟩
      · simp only [List.map_cons, branchConstrain, e1]
        exact e2
      · intro i t d hi hd
        cases i with
        | zero =>
          simp only [List.getElem?_cons_zero, Option.some.injEq] at hi hd
          subst hi
          subst hd
          rw [o2 s hnd'.1]
          exact k1
        | succ i =>
          simp only [List.getElem?_cons_succ] at hi hd
          exact k2 i t d hi hd
      · intro j hj
        have hj1 : j ≠ s := fun e => hj (e ▸ List.mem_cons_self _ _)
        have hj2 : j ∉ rest := fun e => hj (List.mem_cons_of_mem _ e)
        rw [o2 j hj2, o1 j hj1]

end Executor

/-- C6 counterexample: a list of conditions that contains the false constant
makes branch stop at the assertion of addConstraint instead of returning a
result vector. -/
theorem branch_counterexample :
    execOne.seedMap 0 = none ∧
      fatalOf (Executor.branch envUnknown execOne 0 [condX, Expr.Constant 1 0]) =
        some (Fatal.assertion "attempt to add invalid constraint") ∧
      branchOutcome (Executor.branch envUnknown execOne 0 [condX, Expr.Constant 1 0]) =
        none := by
  decide

/-- C6 (amended): for a state with no seeds and a non-empty list of N conditions
none of which is a false constant, branch returns N non-null states: the input
state first, then N-1 pairwise distinct new states in creation order, each
inserted into addedStates; the state of index i ends with the parent
constraints extended by conditions[i] alone (by nothing when conditions[i] is
the true constant). -/
theorem branch_children (env : Env) (x : Executor) (state : Nat) (st : ExecutionState)
    (conditions : List Expr)
    (hwf : x.WellFormed) (hcur : x.heap state = some st) (hseed : x.seedMap state = none)
    (hne : conditions ≠ [])
    (hok : ∀ c ∈ conditions, c.isConstant = true → c.isTrue = true) :
    ∃ x2, Executor.branch env x state conditions =
        Except.ok ((state :: (List.range (conditions.length - 1)).map
          (fun k => x.nextState + k)).map some, x2) ∧
      (state :: (List.range (conditions.length - 1)).map
        (fun k => x.nextState + k)).length = conditions.length ∧
      (state :: (List.range (conditions.length - 1)).map
        (fun k => x.nextState + k)).Nodup ∧
      (∀ k, k < conditions.length - 1 →
        x.heap (x.nextState + k) = none ∧ x.nextState + k ∉ x.addedStates ∧
          x.nextState + k ∈ x2.addedStates) ∧
      (∀ j, j ∈ x2.addedStates ↔
        j ∈ x.addedStates ∨ (x.nextState ≤ j ∧ j < x.nextState + (conditions.length - 1))) ∧
      (∀ (i : Nat) (s : Nat) (c : Expr),
        (state :: (List.range (conditions.length - 1)).map
          (fun k => x.nextState + k))[i]? = some s →
        conditions[i]? = some c →
        x2.constraintsOf s = some (Executor.constraintsAfter st.constraints c)) := by
  have hlen : conditions.length ≠ 0 := by
    intro h
    exact hne (List.length_eq_zero.1 h)
  have hlt : state < x.nextState := by
    by_contra hge
    have := (hwf state (by omega)).1
    rw [hcur] at this
    cases this
  have hf0 : Executor.SameFrame x
      { x with forks := x.forks + (conditions.length - 1),
               forksMult := x.forksMult + (conditions.length - 1) * st.multiplicity } :=
    ⟨rfl, rfl, rfl, rfl, rfl, rfl, fun _ => rfl⟩
  have hc0 : x.constraintsOf state = some st.constraints := by
    simp [Executor.constraintsOf, hcur]
  obtain ⟨x1, e1, g1, wf1⟩ := Executor.branchLoop_spec state st.constraints
    (conditions.length - 1) _ (by rw [hf0.2.2.2.2.2.2 state]; exact hc0) (hwf.wf_of_frame hf0)
  obtain ⟨a1, a2, a3, a4, a5, a6, a7⟩ := g1
  simp only [] at e1 a6 a7
  have hnodup : (state :: (List.range (conditions.length - 1)).map
      (fun k => x.nextState + k)).Nodup := by
    refine List.nodup_cons.2 ⟨?_, ?_⟩
    · intro hm
      obtain ⟨k, -, hk⟩ := List.mem_map.1 hm
      omega
    · exact List.Nodup.map (fun a b hab => by simpa using hab) (List.nodup_range _)
  have hall : ∀ s ∈ (state :: (List.range (conditions.length - 1)).map
      (fun k => x.nextState + k)),
      x1.constraintsOf s = some st.constraints ∧ x1.seedMap s = none := by
    intro s hs
    rw [a4]
    rcases List.mem_cons.1 hs with hs | hs
    · subst hs
      refine ⟨?_, hseed⟩
      rw [a7 s]
      have : ¬ (x.nextState ≤ s ∧ s < x.nextState + (conditions.length - 1)) := by omega
      rw [if_neg this]
      exact hc0
    · obtain ⟨k, hk, hks⟩ := List.mem_map.1 hs
      have hk' := List.mem_range.1 hk
      refine ⟨?_, (hwf s (by omega)).2.1⟩
      rw [a7 s]
      have : x.nextState ≤ s ∧ s < x.nextState + (conditions.length - 1) := by omega
      rw [if_pos this]
  obtain ⟨x2, e2, k2, o2, s2, d2, r2, m2, n2, q2⟩ :=
    Executor.branchConstrain_spec env st.constraints _ conditions x1
      (by simp; omega) hnodup hall hok
  refine ⟨x2, ?_, by simp; omega, hnodup, ?_, ?_, k2⟩
  · unfold Executor.branch
    rw [if_neg hlen]
    simp only [hcur, e1]
    have hs1 : x1.seedMap state = none := by rw [a4]; exact hseed
    simp only [Executor.branchSeeded, hs1]
    rw [← List.map_cons, e2]
  · intro k hk
    refine ⟨(hwf _ (by omega)).1, (hwf _ (by omega)).2.2.2.1, ?_⟩
    rw [d2, a6]
    right
    omega
  · intro j
    rw [d2, a6 j]

/-- C6 witness: a three-way branch of the single initial state on two symbolic
bits and the true constant. -/
theorem branch_children_witness :
    ∃ x2, Executor.branch envUnknown execOne 0 [condX, Expr.Read 1 1, Expr.Constant 1 1] =
        Except.ok ((0 :: (List.range
          ([condX, Expr.Read 1 1, Expr.Constant 1 1].length - 1)).map
          (fun k => execOne.nextState + k)).map some, x2) ∧
      (0 :: (List.range ([condX, Expr.Read 1 1, Expr.Constant 1 1].length - 1)).map
        (fun k => execOne.nextState + k)).length =
          [condX, Expr.Read 1 1, Expr.Constant 1 1].length ∧
      (0 :: (List.range ([condX, Expr.Read 1 1, Expr.Constant 1 1].length - 1)).map
        (fun k => execOne.nextState + k)).Nodup ∧
      (∀ k, k < [condX, Expr.Read 1 1, Expr.Constant 1 1].length - 1 →
        execOne.heap (execOne.nextState + k) = none ∧
          execOne.nextState + k ∉ execOne.addedStates ∧
          execOne.nextState + k ∈ x2.addedStates) ∧
      (∀ j, j ∈ x2.addedStates ↔
        j ∈ execOne.addedStates ∨ (execOne.nextState ≤ j ∧
          j < execOne.nextState + ([condX, Expr.Read 1 1, Expr.Constant 1 1].length - 1))) ∧
      (∀ (i : Nat) (s : Nat) (c : Expr),
        (0 :: (List.range ([condX, Expr.Read 1 1, Expr.Constant 1 1].length - 1)).map
          (fun k => execOne.nextState + k))[i]? = some s →
        [condX, Expr.Read 1 1, Expr.Constant 1 1][i]? = some c →
        x2.constraintsOf s = some (Executor.constraintsAfter initialState.constraints c)) :=
  branch_children envUnknown execOne 0 initialState [condX, Expr.Read 1 1, Expr.Constant 1 1]
    execOne_wellFormed rfl rfl (by decide) (by decide)

namespace Executor

end Executor

namespace Executor

end Executor

namespace ObjectState

theorem getD_set_ne {α : Type} (l : List α) (i j : Nat) (a d : α) (h : j ≠ i) :
    (l.set i a).getD j d = l.getD j d := by
  simp [List.getD_eq_getElem?_getD, List.getElem?_set, h.symm]

theorem getD_set_eq {α : Type} (l : List α) (i : Nat) (a d : α) (h : i < l.length) :
    (l.set i a).getD i d = a := by
  simp [List.getD_eq_getElem?_getD, List.getElem?_set, h]

theorem writeConcrete_frame (n : Nat) :
    ∀ (os : ObjectState) (offset v j : Nat), j < offset →
      (writeConcrete os offset n v).concreteStore.getD j 0 = os.concreteStore.getD j 0 ∧
      (writeConcrete os offset n v).concreteMask.getD j false =
        os.concreteMask.getD j false ∧
      (writeConcrete os offset n v).concreteStore.length = os.concreteStore.length ∧
      (writeConcrete os offset n v).concreteMask.length = os.concreteMask.length := by
  induction n with
  | zero =>
    intro os offset v j _
    exact ⟨rfl, rfl, rfl, rfl⟩
  | succ n ih =>
    intro os offset v j hj
    obtain ⟨h1, h2, h3, h4⟩ := ih (write8 os offset v) (offset + 1) (v / 256) j (by omega)
    simp only [writeConcrete]
    rw [h1, h2, h3, h4]
    have hne : j ≠ offset := by omega
    refine ⟨getD_set_ne _ _ _ _ _ hne, getD_set_ne _ _ _ _ _ hne, ?_, ?_⟩ <;>
      simp [write8]

theorem writeConcrete_read (n : Nat) :
    ∀ (os : ObjectState) (offset v : Nat),
      offset + n ≤ os.concreteStore.length → offset + n ≤ os.concreteMask.length →
      allConcrete (writeConcrete os offset n v) offset n = true ∧
      concreteValue (writeConcrete os offset n v) offset n = v % 256 ^ n := by
  induction n with
  | zero =>
    intro os offset v _ _
    simp [allConcrete, concreteValue, Nat.mod_one]
  | succ n ih =>
    intro os offset v hs hm
    have hlen1 : (write8 os offset v).concreteStore.length = os.concreteStore.length := by
      simp [write8]
    have hlen2 : (write8 os offset v).concreteMask.length = os.concreteMask.length := by
      simp [write8]
    obtain ⟨a1, a2⟩ := ih (write8 os offset v) (offset + 1) (v / 256)
      (by rw [hlen1]; omega) (by rw [hlen2]; omega)
    obtain ⟨f1, f2, -, -⟩ :=
      writeConcrete_frame n (write8 os offset v) (offset + 1) (v / 256) offset (by omega)
    simp only [writeConcrete, allConcrete, concreteValue, isByteConcrete]
    rw [a1, a2, f1, f2]
    refine ⟨?_, ?_⟩
    · simp only [Bool.and_true]
      exact getD_set_eq _ _ _ _ (by omega)
    · have hb : (write8 os offset v).concreteStore.getD offset 0 = v % 256 :=
        getD_set_eq _ _ _ _ (by omega)
      rw [hb, pow_succ', Nat.mod_mul]

end ObjectState

/-- C8: for an object state whose buffer and mask have the size of the object,
a concrete offset and a constant whose bytes fit inside the object, writing
the constant at the offset and reading the same offset with the same width
returns the constant of that width with the written value. -/
theorem objectState_write_read (os : ObjectState) (offset w v : Nat)
    (hstore : os.concreteStore.length = os.size) (hmask : os.concreteMask.length = os.size)
    (hfit : offset + Expr.getMinBytesForWidth w ≤ os.size) :
    (os.write offset (Expr.Constant w v)).read offset w = Expr.Constant w (v % 2 ^ w) ∧
      ∀ σ, Expr.eval σ ((os.write offset (Expr.Constant w v)).read offset w) =
        Expr.eval σ (Expr.Constant w v) := by
  obtain ⟨h1, h2⟩ := ObjectState.writeConcrete_read (Expr.getMinBytesForWidth w) os offset
    (v % 2 ^ w) (by rw [hstore]; exact hfit) (by rw [hmask]; exact hfit)
  have hread : (os.write offset (Expr.Constant w v)).read offset w =
      Expr.Constant w (v % 2 ^ w) := by
    simp only [ObjectState.write, ObjectState.read, h1, if_true, h2]
    have hle : 2 ^ w ≤ 256 ^ Expr.getMinBytesForWidth w := by
      have : (256 : Nat) = 2 ^ 8 := by norm_num
      rw [this, ← pow_mul]
      apply Nat.pow_le_pow_right (by norm_num)
      unfold Expr.getMinBytesForWidth
      omega
    have hlt : v % 2 ^ w < 256 ^ Expr.getMinBytesForWidth w :=
      lt_of_lt_of_le (Nat.mod_lt _ (by positivity)) hle
    rw [Nat.mod_eq_of_lt hlt, Nat.mod_mod]
  refine ⟨hread, fun σ => ?_⟩
  rw [hread]
  simp [Expr.eval]

/-- C8 witness: a two-byte constant written at offset 1 of a four-byte object
and read back. -/
theorem objectState_write_read_witness :
    (fourZeroBytes.write 1 (Expr.Constant 16 513)).read 1 16 =
        Expr.Constant 16 (513 % 2 ^ 16) ∧
      ∀ σ, Expr.eval σ ((fourZeroBytes.write 1 (Expr.Constant 16 513)).read 1 16) =
        Expr.eval σ (Expr.Constant 16 513) :=
  objectState_write_read fourZeroBytes 1 16 513 rfl rfl (by decide)

namespace AddressSpace

theorem findObject_mem (a : AddressSpace) (mo q : Nat) (h : a.findObject mo = some q) :
    ∃ e ∈ a.objects, e.2 = q := by
  unfold findObject at h
  cases hf : a.objects.find? (fun e => e.1 == mo) with
  | none => simp [hf] at h
  | some e =>
    simp only [hf, Option.map_some', Option.some.injEq] at h
    exact ⟨e, List.mem_of_find?_eq_some hf, h⟩

end AddressSpace

/-- C12 (counterexample): on the true constant `getRange` hands a query to the
wrapped solver, so not every entry point fast-paths constants; and on the
constant 2 of width 8 `mustBeTrue` answers false while `mayBeTrue` answers
true, and `mustBeFalse` answers false while `mayBeFalse` answers true, so the
two members of each pair do not both give one truth value of that constant. -/
theorem timingSolver_constant_counterexample :
    (TimingSolver.getRange envUnknown [] initialState (Expr.Constant 1 1)).2 =
        [⟨[], Expr.Constant 1 1⟩] ∧
      (TimingSolver.mustBeTrue envUnknown [] initialState (Expr.Constant 8 2)).1 = some false ∧
      (TimingSolver.mayBeTrue envUnknown [] initialState (Expr.Constant 8 2)).1 = some true ∧
      (TimingSolver.mustBeFalse envUnknown [] initialState (Expr.Constant 8 2)).1 = some false ∧
      (TimingSolver.mayBeFalse envUnknown [] initialState (Expr.Constant 8 2)).1 = some true := by
  decide

/-- C12 (amended): on a constant expression `evaluate`, `mustBeTrue`,
`mustBeFalse`, `mayBeTrue`, `mayBeFalse` and `getValue` answer without a query
to the wrapped solver: `evaluate` gives True for a true constant and False
otherwise, `mustBeTrue` gives the truth value, `mayBeFalse` its negation,
`getValue` the constant itself, `mustBeFalse` whether the value is zero and
`mayBeTrue` whether it is not, which for a constant of Bool width are the
negation of the truth value and the truth value; `getInitialValues` skips the
wrapped solver exactly when it is given no array, and `getRange` always hands
its query to the wrapped solver. -/
theorem timingSolver_constant_fast_paths (env : Env) (queries : List Query)
    (state : ExecutionState) (e : Expr) (h : e.isConstant = true) :
    TimingSolver.evaluate env queries state e =
        (some (if e.isTrue then Validity.True else Validity.False), queries) ∧
      TimingSolver.mustBeTrue env queries state e = (some e.isTrue, queries) ∧
      TimingSolver.mayBeFalse env queries state e = (some (!e.isTrue), queries) ∧
      TimingSolver.getValue env queries state e = (some e, queries) ∧
      TimingSolver.mustBeFalse env queries state e =
        (some (decide (e.getZExtValue = 0)), queries) ∧
      TimingSolver.mayBeTrue env queries state e =
        (some (decide (e.getZExtValue ≠ 0)), queries) ∧
      (e.getWidth = 1 →
        TimingSolver.mustBeFalse env queries state e = (some (!e.isTrue), queries) ∧
        TimingSolver.mayBeTrue env queries state e = (some e.isTrue, queries)) ∧
      TimingSolver.getInitialValues env queries state [] = (some [], queries) ∧
      (∀ a rest, (TimingSolver.getInitialValues env queries state (a :: rest)).2 =
        queries ++ [⟨state.constraints, Expr.Constant 1 0⟩]) ∧
      (TimingSolver.getRange env queries state e).2 =
        queries ++ [⟨state.constraints, e⟩] := by
  cases e with
  | Constant w v =>
    have hz : TimingSolver.mustBeFalse env queries state (Expr.Constant w v) =
        (some (decide ((Expr.Constant w v).getZExtValue = 0)), queries) := by
      simp only [TimingSolver.mustBeFalse, TimingSolver.mustBeTrue, Expr.createIsZero,
        Expr.EqExpr_create, Expr.getWidth, Expr.isConstant, Expr.isTrue, Expr.getZExtValue,
        if_true]
      by_cases hv : v % 2 ^ w = 0
      · simp [hv]
      · have : ¬ (0 = v % 2 ^ w) := fun h0 => hv h0.symm
        simp [hv, this]
    have hm : TimingSolver.mayBeTrue env queries state (Expr.Constant w v) =
        (some (decide ((Expr.Constant w v).getZExtValue ≠ 0)), queries) := by
      simp only [TimingSolver.mayBeTrue, hz]
      simp
    refine ⟨by simp [TimingSolver.evaluate, Expr.isConstant],
      by simp [TimingSolver.mustBeTrue, Expr.isConstant],
      by simp [TimingSolver.mayBeFalse, TimingSolver.mustBeTrue, Expr.isConstant],
      by simp [TimingSolver.getValue, Expr.isConstant], hz, hm, ?_,
      by simp [TimingSolver.getInitialValues],
      by intro a rest; simp [TimingSolver.getInitialValues],
      by simp [TimingSolver.getRange]⟩
    intro hw
    simp only [Expr.getWidth] at hw
    subst hw
    rw [hz, hm]
    simp only [Expr.getZExtValue, Expr.isTrue]
    rcases Nat.mod_two_eq_zero_or_one v with h0 | h1
    · simp [h0]
    · simp [h1]
  | _ => simp [Expr.isConstant] at h

/-- C12 (witness): the fast paths at the true constant. -/
theorem timingSolver_constant_fast_paths_witness :
    (Expr.Constant 1 1).isConstant = true ∧
      TimingSolver.mustBeFalse envUnknown [] initialState (Expr.Constant 1 1) =
        (some false, []) :=
  ⟨rfl, by
    have h := (timingSolver_constant_fast_paths envUnknown [] initialState
      (Expr.Constant 1 1) rfl).2.2.2.2.1
    simpa [Expr.getZExtValue] using h⟩

/-- C18: for a live state and an expression `e`, `toUnique` always returns; it
changes nothing of the executor but the log of solver queries, so no state
gains a constraint; a constant `e` is returned as it is without a query; and
the result differs from `e` only when `e` is not constant, the solver returned
the result, a constant, as a value of `e`, and `mustBeTrue` proved that `e`
equals it; when both solver calls succeed in that way the result is that
constant. -/
theorem toUnique_sound (env : Env) (x : Executor) (state : Nat) (st : ExecutionState)
    (e : Expr) (hst : x.heap state = some st) :
    ∃ r q, Executor.toUnique env x state e = Except.ok (r, { x with queries := q }) ∧
      (∀ j, ({ x with queries := q } : Executor).constraintsOf j = x.constraintsOf j) ∧
      (e.isConstant = true → r = e ∧ q = x.queries) ∧
      (r = e ∨
        (e.isConstant = false ∧ r.isConstant = true ∧
          (TimingSolver.getValue env x.queries st e).1 = some r ∧
          TimingSolver.mustBeTrue env (TimingSolver.getValue env x.queries st e).2 st
            (Expr.EqExpr_create e r) = (some true, q))) ∧
      (∀ c, (TimingSolver.getValue env x.queries st e).1 = some c →
        (TimingSolver.mustBeTrue env (TimingSolver.getValue env x.queries st e).2 st
          (Expr.EqExpr_create e c)).1 = some true → e.isConstant = false → r = c) := by
  unfold Executor.toUnique
  rw [hst]
  by_cases hc : e.isConstant = true
  · refine ⟨e, x.queries, ?_, fun _ => rfl, fun _ => ⟨rfl, rfl⟩, Or.inl rfl, ?_⟩
    · simp [hc]
    · intro c _ _ h; rw [hc] at h; cases h
  · have hc2 : e.isConstant = false := by simpa using hc
    simp only [hc2, Bool.not_false, if_true]
    rcases hg : TimingSolver.getValue env x.queries st e with ⟨ov, q⟩
    cases ov with
    | none =>
      refine ⟨e, q, rfl, fun _ => rfl, (fun h => nomatch h), Or.inl rfl, ?_⟩
      intro c h; cases h
    | some value =>
      have hvc : value.isConstant = true := by
        unfold TimingSolver.getValue at hg
        rw [hc2] at hg
        simp only [Bool.false_eq_true, if_false, Prod.mk.injEq, Option.map_eq_some'] at hg
        obtain ⟨⟨c, _, hcv⟩, _⟩ := hg
        rw [← hcv]; rfl
      dsimp only
      rcases hm : TimingSolver.mustBeTrue env q st (Expr.EqExpr_create e value) with ⟨ob, q1⟩
      cases ob with
      | none =>
        refine ⟨e, q1, rfl, fun _ => rfl, (fun h => nomatch h), Or.inl rfl, ?_⟩
        intro c h1 h2; simp only [Option.some.injEq] at h1; subst h1
        rw [hm] at h2; cases h2
      | some b =>
        cases b with
        | false =>
          refine ⟨e, q1, rfl, fun _ => rfl, (fun h => nomatch h), Or.inl rfl, ?_⟩
          intro c h1 h2; simp only [Option.some.injEq] at h1; subst h1
          rw [hm] at h2; cases h2
        | true =>
          refine ⟨value, q1, rfl, fun _ => rfl, (fun h => nomatch h),
            Or.inr ⟨trivial, hvc, rfl, hm⟩, ?_⟩
          intro c h1 _ _; simp only [Option.some.injEq] at h1; exact h1

/-- C18 (witness): on the single-state executor, with a solver that returns
the value one for the symbolic condition and proves the equality, `toUnique`
returns that constant. -/
theorem toUnique_sound_witness :
    execOne.heap 0 = some initialState ∧
      exprOutcome (Executor.toUnique envUnique execOne 0 condX) = some (Expr.Constant 1 1) ∧
      ∃ r q, Executor.toUnique envUnique execOne 0 condX =
          Except.ok (r, { execOne with queries := q }) ∧
        (∀ j, ({ execOne with queries := q } : Executor).constraintsOf j =
          execOne.constraintsOf j) :=
  ⟨by decide, by decide,
    (toUnique_sound envUnique execOne 0 initialState condX (by decide)).imp
      (fun _ h => h.imp (fun _ h2 => ⟨h2.1, h2.2.1⟩))⟩

namespace Executor

theorem terminateState_emittedErrors (x x2 : Executor) (s : Nat) (silenced : Bool)
    (h : x.terminateState s silenced = Except.ok x2) :
    x2.emittedErrors = x.emittedErrors := by
  unfold terminateState at h
  cases hs : x.heap s with
  | none => rw [hs] at h; cases h
  | some st =>
    rw [hs] at h
    dsimp only at h
    split_ifs at h <;> cases h <;> rfl

theorem terminateStateOnError_spec (env : Env) (x : Executor) (s : Nat) (st : ExecutionState)
    (message suffix info : String) (h : x.heap s = some st)
    (ht : st.hasCurrentThread = true) :
    ∃ x2, terminateStateOnError env x s message suffix info = Except.ok x2 ∧
      Terminated x2 s ∧ (∀ i, i ≠ s → x2.heap i = x.heap i) ∧
      (∀ i, i ∈ x.removedStates → i ∈ x2.removedStates) ∧
      (∀ i, i ≠ s → x2.heap i = none → x.heap i = none) ∧
      x2.emittedErrors =
        (if env.opts.EmitAllErrors then x.emittedErrors
         else insert (env.instOf st.prevPC, message) x.emittedErrors) ∧
      x2.testCases = x.testCases ++
        (if env.opts.EmitAllErrors = true ∨ (env.instOf st.prevPC, message) ∉ x.emittedErrors
         then [errorTestCase env s st message suffix info] else []) := by
  have key : ∀ (y : Executor), y.heap = x.heap → y.removedStates = x.removedStates →
      ∃ x2, y.terminateState s false = Except.ok x2 ∧ x2.emittedErrors = y.emittedErrors ∧
        x2.testCases = y.testCases ∧ Terminated x2 s ∧ (∀ i, i ≠ s → x2.heap i = x.heap i) ∧
        (∀ i, i ∈ x.removedStates → i ∈ x2.removedStates) := by
    intro y hy hr
    obtain ⟨x2, h2, -, -, -, -, htc, hheap, hrem, hadd⟩ :=
      terminateState_spec y s st false (by rw [hy]; exact h)
    refine ⟨x2, h2, terminateState_emittedErrors _ _ _ _ h2, htc, ?_, ?_, ?_⟩
    · by_cases hm : s ∈ y.addedStates
      · exact Or.inr (hadd hm).2.1
      · exact Or.inl (by rw [(hrem hm).1]; exact Finset.mem_insert_self _ _)
    · intro i hi; rw [hheap i hi, hy]
    · intro i hi
      by_cases hm : s ∈ y.addedStates
      · rw [(hadd hm).1, hr]; exact hi
      · rw [(hrem hm).1, hr]; exact Finset.mem_insert_of_mem hi
  have key2 : ∃ x2, x.terminateState s true = Except.ok x2 ∧
        x2.emittedErrors = x.emittedErrors ∧
        x2.testCases = x.testCases ∧ Terminated x2 s ∧ (∀ i, i ≠ s → x2.heap i = x.heap i) ∧
        (∀ i, i ∈ x.removedStates → i ∈ x2.removedStates) := by
    obtain ⟨x2, h2, -, -, -, -, htc, hheap, hrem, hadd⟩ := terminateState_spec x s st true h
    refine ⟨x2, h2, terminateState_emittedErrors _ _ _ _ h2, htc, ?_, hheap, ?_⟩
    · by_cases hm : s ∈ x.addedStates
      · exact Or.inr (hadd hm).2.1
      · exact Or.inl (by rw [(hrem hm).1]; exact Finset.mem_insert_self _ _)
    · intro i hi
      by_cases hm : s ∈ x.addedStates
      · rw [(hadd hm).1]; exact hi
      · rw [(hrem hm).1]; exact Finset.mem_insert_of_mem hi
  unfold terminateStateOnError
  rw [h]
  simp only [ht, Bool.not_true, Bool.false_eq_true, if_false]
  by_cases he : env.opts.EmitAllErrors = true
  · simp only [he, if_true, true_or]
    obtain ⟨x2, h2, hee, htc, hterm, hheap, hrem⟩ :=
      key { x with testCases := x.testCases ++
        [errorTestCase env s st message suffix info] } rfl rfl
    exact ⟨x2, h2, hterm, hheap, hrem, fun i hi hn => by rw [← hheap i hi]; exact hn,
      hee, htc⟩
  · simp only [he, Bool.false_eq_true, if_false, false_or]
    by_cases hk : (env.instOf st.prevPC, message) ∈ x.emittedErrors
    · simp only [hk, not_true_eq_false, if_false]
      obtain ⟨x2, h2, hee, htc, hterm, hheap, hrem⟩ := key2
      refine ⟨x2, h2, hterm, hheap, hrem, fun i hi hn => by rw [← hheap i hi]; exact hn,
        ?_, by simpa using htc⟩
      rw [hee, Finset.insert_eq_of_mem hk]
    · simp only [hk, not_false_eq_true, if_true]
      obtain ⟨x2, h2, hee, htc, hterm, hheap, hrem⟩ :=
        key { x with emittedErrors := insert (env.instOf st.prevPC, message) x.emittedErrors,
                     testCases := x.testCases ++
                       [errorTestCase env s st message suffix info] } rfl rfl
      exact ⟨x2, h2, hterm, hheap, hrem, fun i hi hn => by rw [← hheap i hi]; exact hn,
        hee, htc⟩

theorem errorKey_congr (env : Env) (x y : Executor) (r : ErrorReport)
    (h : y.heap r.state = x.heap r.state) : errorKey env y r = errorKey env x r := by
  unfold errorKey; rw [h]

theorem reportErrors_spec (env : Env) (reports : List ErrorReport) :
    ∀ x : Executor,
      (∀ r ∈ reports, ∃ st, x.heap r.state = some st ∧ st.hasCurrentThread = true) →
      (reports.map (fun r => r.state)).Nodup →
      ∃ x2 new, reportErrors env x reports = Except.ok x2 ∧
        x2.testCases = x.testCases ++ new ∧
        (∀ tc ∈ new, tc.state ∈ reports.map (fun r => r.state)) ∧
        (new.map (fun tc => tc.state)).Nodup ∧
        (∀ i, i ∉ reports.map (fun r => r.state) → x2.heap i = x.heap i) ∧
        (∀ i, i ∈ x.removedStates → i ∈ x2.removedStates) ∧
        (∀ i, x.heap i = none → x2.heap i = none) ∧
        (∀ r ∈ reports, Terminated x2 r.state) ∧
        ∀ pre r post, reports = pre ++ r :: post →
          ((∃ tc ∈ new, tc.state = r.state) ↔
            (env.opts.EmitAllErrors = true ∨
              (errorKey env x r ∉ x.emittedErrors ∧
                ∀ r2 ∈ pre, errorKey env x r2 ≠ errorKey env x r))) := by
  induction reports with
  | nil =>
    intro x _ _
    refine ⟨x, [], rfl, by simp, by simp, by simp, fun _ _ => rfl, fun _ h => h,
      fun _ h => h, by simp, ?_⟩
    intro pre r post h
    cases pre <;> cases h
  | cons a rest ih =>
    intro x hlive hnodup
    obtain ⟨st, hst, hthread⟩ := hlive a (List.mem_cons_self _ _)
    obtain ⟨x1, h1, hterm1, hheap1, hrem1, hnone1, hee1, htc1⟩ :=
      terminateStateOnError_spec env x a.state st a.message a.suffix a.info hst hthread
    rw [List.map_cons, List.nodup_cons] at hnodup
    have hne : ∀ r ∈ rest, r.state ≠ a.state := by
      intro r hr he
      exact hnodup.1 (he ▸ List.mem_map_of_mem (fun r => r.state) hr)
    have hlive1 : ∀ r ∈ rest, ∃ st, x1.heap r.state = some st ∧ st.hasCurrentThread = true := by
      intro r hr
      rw [hheap1 _ (hne r hr)]
      exact hlive r (List.mem_cons_of_mem _ hr)
    obtain ⟨x2, new, h2, htc2, hsub2, hnd2, hheap2, hrem2, hnone2, hterm2, hsplit2⟩ :=
      ih x1 hlive1 hnodup.2
    have hkey : ∀ r ∈ rest, errorKey env x1 r = errorKey env x r :=
      fun r hr => errorKey_congr env x x1 r (hheap1 _ (hne r hr))
    have hka : errorKey env x a = (env.instOf st.prevPC, a.message) := by
      simp [errorKey, hst]
    refine ⟨x2, (if env.opts.EmitAllErrors = true ∨
        (env.instOf st.prevPC, a.message) ∉ x.emittedErrors
        then [errorTestCase env a.state st a.message a.suffix a.info] else []) ++ new,
      ?_, ?_, ?_, ?_, ?_, ?_, ?_, ?_, ?_⟩
    · simp only [reportErrors, h1]; exact h2
    · rw [htc2, htc1, List.append_assoc]
    · intro tc htc
      rw [List.mem_append] at htc
      rcases htc with htc | htc
      · split_ifs at htc
        · simp only [List.mem_singleton] at htc
          subst htc
          simp [errorTestCase]
        · cases htc
      · exact List.mem_cons_of_mem _ (hsub2 tc htc)
    · rw [List.map_append, List.nodup_append]
      refine ⟨by split_ifs <;> simp, hnd2, ?_⟩
      intro s hs1 hs2
      split_ifs at hs1
      · simp only [List.map_cons, List.map_nil, List.mem_singleton, errorTestCase] at hs1
        subst hs1
        obtain ⟨tc, htc, he⟩ := List.mem_map.1 hs2
        exact hnodup.1 (he ▸ hsub2 tc htc)
      · cases hs1
    · intro i hi
      simp only [List.map_cons, List.mem_cons, not_or] at hi
      rw [hheap2 i hi.2, hheap1 i hi.1]
    · exact fun i hi => hrem2 i (hrem1 i hi)
    · intro i hi
      apply hnone2
      by_cases hia : i = a.state
      · subst hia; rw [hst] at hi; cases hi
      · rw [hheap1 i hia]; exact hi
    · intro r hr
      rcases List.mem_cons.1 hr with hr | hr
      · subst hr
        rcases hterm1 with h | h
        · exact Or.inl (hrem2 _ h)
        · exact Or.inr (hnone2 _ h)
      · exact hterm2 r hr
    · intro pre r post hdec
      cases pre with
      | nil =>
        simp only [List.nil_append, List.cons.injEq] at hdec
        obtain ⟨rfl, rfl⟩ := hdec
        simp only [List.not_mem_nil, false_imp_iff, implies_true, and_true, hka]
        constructor
        · rintro ⟨tc, htc, he⟩
          rw [List.mem_append] at htc
          rcases htc with htc | htc
          · by_contra hcon
            rw [if_neg hcon] at htc
            cases htc
          · exact absurd (he ▸ hsub2 tc htc) hnodup.1
        · intro hc
          refine ⟨errorTestCase env a.state st a.message a.suffix a.info, ?_, rfl⟩
          rw [if_pos hc]
          simp
      | cons p pre2 =>
        simp only [List.cons_append, List.cons.injEq] at hdec
        obtain ⟨rfl, hrest⟩ := hdec
        have hr : r ∈ rest := by rw [hrest]; simp
        have hpre : ∀ r2 ∈ pre2, r2 ∈ rest := by
          intro r2 h2; rw [hrest]; simp [h2]
        have hiff := hsplit2 pre2 r post hrest
        have hleft : (∃ tc ∈ (if env.opts.EmitAllErrors = true ∨
            (env.instOf st.prevPC, a.message) ∉ x.emittedErrors
            then [errorTestCase env a.state st a.message a.suffix a.info] else []) ++ new,
              tc.state = r.state) ↔ ∃ tc ∈ new, tc.state = r.state := by
          constructor
          · rintro ⟨tc, htc, he⟩
            rw [List.mem_append] at htc
            rcases htc with htc | htc
            · split_ifs at htc
              · simp only [List.mem_singleton] at htc
                subst htc
                exact absurd he.symm (hne r hr)
              · cases htc
            · exact ⟨tc, htc, he⟩
          · rintro ⟨tc, htc, he⟩
            exact ⟨tc, List.mem_append_right _ htc, he⟩
        rw [hleft, hiff, hkey r hr]
        by_cases hall : env.opts.EmitAllErrors = true
        · simp [hall]
        · simp only [hall, false_or]
          rw [hee1]
          simp only [hall, Bool.false_eq_true, if_false, Finset.mem_insert, not_or,
            List.mem_cons, forall_eq_or_imp, hka, false_or]
          constructor
          · rintro ⟨⟨h1, h2⟩, h3⟩
            refine ⟨h2, fun h => h1 h.symm, ?_⟩
            intro r2 hr2
            rw [← hkey r2 (hpre r2 hr2)]
            exact h3 r2 hr2
          · rintro ⟨h2, h1, h3⟩
            refine ⟨⟨fun h => h1 h.symm, h2⟩, ?_⟩
            intro r2 hr2
            rw [hkey r2 (hpre r2 hr2)]
            exact h3 r2 hr2

end Executor

/-- C15: in a run of error reports on distinct live states, with
emit-all-errors off the test case of a report is emitted exactly when its
(instruction, message) pair was not recorded before the run and no earlier
report of the run has the same pair, so the first state reporting a pair gets
a test case and no later one does; with emit-all-errors on every report gets
one; no state gets two test cases; and in both settings every reported state
is terminated. -/
theorem terminateStateOnError_first_per_site (env : Env) (x : Executor)
    (pre post : List Executor.ErrorReport) (r : Executor.ErrorReport)
    (hlive : ∀ r2 ∈ pre ++ r :: post,
      ∃ st, x.heap r2.state = some st ∧ st.hasCurrentThread = true)
    (hnodup : ((pre ++ r :: post).map (fun r2 => r2.state)).Nodup) :
    ∃ x2 new, Executor.reportErrors env x (pre ++ r :: post) = Except.ok x2 ∧
      x2.testCases = x.testCases ++ new ∧
      (new.map (fun tc => tc.state)).Nodup ∧
      ((∃ tc ∈ new, tc.state = r.state) ↔
        (env.opts.EmitAllErrors = true ∨
          (Executor.errorKey env x r ∉ x.emittedErrors ∧
            ∀ r2 ∈ pre, Executor.errorKey env x r2 ≠ Executor.errorKey env x r))) ∧
      ∀ r2 ∈ pre ++ r :: post, Executor.Terminated x2 r2.state := by
  obtain ⟨x2, new, h2, htc, -, hnd, -, -, -, hterm, hsplit⟩ :=
    Executor.reportErrors_spec env (pre ++ r :: post) x hlive hnodup
  exact ⟨x2, new, h2, htc, hnd, hsplit pre r post rfl, hterm⟩

/-- C15 (witness): two states report the same message at the same instruction
with emit-all-errors off; only the first gets a test case and both are
terminated. -/
theorem terminateStateOnError_first_per_site_witness :
    testCaseOutcome (Executor.reportErrors envUnknown execTwo
        [{ state := 0, message := "e" }, { state := 1, message := "e" }]) =
      some ([0], [0, 1]) ∧
    ∃ x2 new, Executor.reportErrors envUnknown execTwo
        ([{ state := 0, message := "e" }] ++ { state := 1, message := "e" } :: []) =
          Except.ok x2 ∧
      x2.testCases = execTwo.testCases ++ new ∧
      (new.map (fun tc => tc.state)).Nodup ∧
      ((∃ tc ∈ new, tc.state = 1) ↔
        (envUnknown.opts.EmitAllErrors = true ∨
          (Executor.errorKey envUnknown execTwo { state := 1, message := "e" } ∉
              execTwo.emittedErrors ∧
            ∀ r2 ∈ [({ state := 0, message := "e" } : Executor.ErrorReport)],
              Executor.errorKey envUnknown execTwo r2 ≠
                Executor.errorKey envUnknown execTwo { state := 1, message := "e" }))) ∧
      ∀ r2 ∈ [({ state := 0, message := "e" } : Executor.ErrorReport)] ++
          { state := 1, message := "e" } :: [],
        Executor.Terminated x2 r2.state :=
  ⟨by decide,
    terminateStateOnError_first_per_site envUnknown execTwo
      [{ state := 0, message := "e" }] [] { state := 1, message := "e" }
      (by
        intro r2 h
        simp only [List.cons_append, List.nil_append, List.mem_cons, List.mem_singleton,
          List.not_mem_nil, or_false] at h
        rcases h with rfl | rfl
        · exact ⟨initialState, by decide, rfl⟩
        · exact ⟨initialState, by decide, rfl⟩)
      (by decide)⟩

namespace Executor

theorem bindObjectInState_spec (x : Executor) (state : Nat) (st : ExecutionState)
    (mo : MemoryObject) (isLocal : Bool) (array : Option Nat) (h : x.heap state = some st) :
    ∃ os x1 st1, bindObjectInState x state mo isLocal array = Except.ok (os, x1) ∧
      x1.heap state = some st1 ∧ st1.hasCurrentThread = st.hasCurrentThread ∧
      st1.prevPC = st.prevPC ∧ st1.constraints = st.constraints ∧
      (∀ i, i ≠ state → x1.heap i = x.heap i) ∧
      x1.replayPosition = x.replayPosition ∧ x1.replayOut = x.replayOut ∧
      x1.removedStates = x.removedStates ∧ x1.addedStates = x.addedStates ∧
      x1.states = x.states ∧ x1.nextState = x.nextState ∧
      x1.emittedErrors = x.emittedErrors ∧ x1.testCases = x.testCases := by
  unfold bindObjectInState
  rw [h]
  cases array <;>
  · simp only [AddressSpace.bindObject, Function.update_same, ObjectState.create,
      ObjectState.createSymbolic, if_true]
    refine ⟨_, _, { st with
        addressSpace := st.addressSpace.replace mo.id x.store.next,
        allocas := if isLocal then st.allocas ++ [mo.id] else st.allocas },
      rfl, ?_, rfl, rfl, rfl, ?_, rfl, rfl, rfl, rfl, rfl, rfl, rfl, rfl⟩
    · simp [setState]
    · intro i hi
      simp [setState, Function.update_noteq hi]

theorem terminateState_frame (x x2 : Executor) (s : Nat) (silenced : Bool)
    (h : x.terminateState s silenced = Except.ok x2) :
    x2.replayPosition = x.replayPosition ∧ x2.replayOut = x.replayOut ∧
      x2.store = x.store ∧ x2.memory = x.memory ∧ x2.nextState = x.nextState ∧
      x2.states = x.states ∧ x2.queries = x.queries ∧ x2.testCases = x.testCases ∧
      x2.emittedErrors = x.emittedErrors ∧ x2.addedStates ⊆ x.addedStates ∧
      x.removedStates ⊆ x2.removedStates := by
  unfold terminateState at h
  cases hs : x.heap s with
  | none => rw [hs] at h; cases h
  | some st =>
    rw [hs] at h
    dsimp only at h
    split_ifs at h <;> cases h <;>
      simp [Finset.erase_subset, Finset.subset_insert]

theorem terminateStateOnError_frame (env : Env) (x x2 : Executor) (s : Nat)
    (message suffix info : String)
    (h : terminateStateOnError env x s message suffix info = Except.ok x2) :
    x2.replayPosition = x.replayPosition ∧ x2.replayOut = x.replayOut ∧
      x2.store = x.store ∧ x2.memory = x.memory ∧ x2.nextState = x.nextState ∧
      x2.states = x.states ∧ x2.queries = x.queries ∧ x2.addedStates ⊆ x.addedStates ∧
      x.removedStates ⊆ x2.removedStates := by
  unfold terminateStateOnError at h
  cases hs : x.heap s with
  | none => rw [hs] at h; cases h
  | some st =>
    rw [hs] at h
    dsimp only at h
    split_ifs at h
    all_goals first
      | cases h
      | (obtain ⟨h1, h2, h3, h4, h5, h6, h7, -, -, h8, h9⟩ := terminateState_frame _ _ _ _ h
         exact ⟨h1, h2, h3, h4, h5, h6, h7, h8, h9⟩)

end Executor

/-- C11 (counterexample): in replay-buffer mode with an empty buffer, making
an object symbolic is not a fatal error: `executeMakeSymbolic` returns, a test
case is emitted for the state and the state awaits removal. -/
theorem makeSymbolic_replay_counterexample :
    execReplayEmpty.replayOut = some { objects := [] } ∧
      fatalOf (Executor.executeMakeSymbolic envUnknown execReplayEmpty 0 moOne false) = none ∧
      testCaseOutcome (Executor.executeMakeSymbolic envUnknown execReplayEmpty 0 moOne false) =
        some ([0], [0]) := by
  decide

/-- C11 (amended): in replay-buffer mode, making an object symbolic in a live
state when every recorded input object has been consumed is an error of that
state only: `executeMakeSymbolic` returns, the state is terminated through
`terminateStateOnError` with the message "replay count mismatch", which emits
a test case for it unless the (instruction, message) pair is deduplicated, the
replay position is unchanged and every other state is untouched. -/
theorem makeSymbolic_replay_exhausted (env : Env) (x : Executor) (state : Nat)
    (st : ExecutionState) (mo : MemoryObject) (shared : Bool) (out : KTest)
    (hout : x.replayOut = some out) (hst : x.heap state = some st)
    (hthread : st.hasCurrentThread = true) (hpos : out.numObjects ≤ x.replayPosition) :
    ∃ x2 tcs, Executor.executeMakeSymbolic env x state mo shared = Except.ok x2 ∧
      Executor.Terminated x2 state ∧ x2.replayPosition = x.replayPosition ∧
      (∀ i, i ≠ state → x2.heap i = x.heap i) ∧
      (∀ i, i ∈ x.removedStates → i ∈ x2.removedStates) ∧
      x2.testCases = x.testCases ++ tcs ∧
      (∀ tc ∈ tcs, tc.state = state ∧ tc.suffix = some "user.err" ∧
        tc.constraints = st.constraints) ∧
      (tcs ≠ [] ↔ (env.opts.EmitAllErrors = true ∨
        (env.instOf st.prevPC, "replay count mismatch") ∉ x.emittedErrors)) := by
  obtain ⟨os, x1, st1, hb, hst1, hth1, hpc1, hcs1, hheap1, hpos1, -, hrem1, -, -, -, hee1, htc1⟩ :=
    Executor.bindObjectInState_spec x state st mo false none hst
  obtain ⟨x2, h2, hterm, hheap2, hrem2, -, -, htc2⟩ :=
    Executor.terminateStateOnError_spec env x1 state st1 "replay count mismatch" "user.err" ""
      hst1 (hth1.trans hthread)
  have hrp : x2.replayPosition = x1.replayPosition :=
    (Executor.terminateStateOnError_frame env x1 x2 state _ _ _ h2).1
  refine ⟨x2, (if env.opts.EmitAllErrors = true ∨
      (env.instOf st1.prevPC, "replay count mismatch") ∉ x1.emittedErrors then
        [Executor.errorTestCase env state st1 "replay count mismatch" "user.err" ""]
      else []), ?_, hterm, hrp.trans hpos1, ?_, ?_, ?_, ?_, ?_⟩
  · unfold Executor.executeMakeSymbolic
    rw [hout]
    simp only [Executor.makeSymbolicReplay, hb]
    rw [if_pos (by rw [hpos1]; exact hpos)]
    exact h2
  · intro i hi; rw [hheap2 i hi, hheap1 i hi]
  · intro i hi; exact hrem2 i (by rw [hrem1]; exact hi)
  · rw [htc2, htc1]
  · intro tc htc
    split_ifs at htc
    · simp only [List.mem_singleton] at htc
      subst htc
      exact ⟨rfl, rfl, hcs1⟩
    · cases htc
  · rw [hpc1, hee1]
    split_ifs with hc
    · simp [hc]
    · simp [hc]

/-- C11 (witness): the empty replay buffer on the single-state executor. -/
theorem makeSymbolic_replay_exhausted_witness :
    execReplayEmpty.replayOut = some { objects := [] } ∧
      execReplayEmpty.heap 0 = some initialState ∧
      initialState.hasCurrentThread = true ∧
      (KTest.numObjects { objects := [] }) ≤ execReplayEmpty.replayPosition ∧
      ∃ x2 tcs, Executor.executeMakeSymbolic envUnknown execReplayEmpty 0 moOne false =
          Except.ok x2 ∧
        Executor.Terminated x2 0 ∧ x2.replayPosition = execReplayEmpty.replayPosition ∧
        (∀ i, i ≠ 0 → x2.heap i = execReplayEmpty.heap i) ∧
        (∀ i, i ∈ execReplayEmpty.removedStates → i ∈ x2.removedStates) ∧
        x2.testCases = execReplayEmpty.testCases ++ tcs ∧
        (∀ tc ∈ tcs, tc.state = 0 ∧ tc.suffix = some "user.err" ∧
          tc.constraints = initialState.constraints) ∧
        (tcs ≠ [] ↔ (envUnknown.opts.EmitAllErrors = true ∨
          (envUnknown.instOf initialState.prevPC, "replay count mismatch") ∉
            execReplayEmpty.emittedErrors)) :=
  ⟨by decide, by decide, by decide, by decide,
    makeSymbolic_replay_exhausted envUnknown execReplayEmpty 0 initialState moOne false
      { objects := [] } (by decide) (by decide) (by decide) (by decide)⟩

/-- C13 (the code at the failing inputs): with a wrapped solver whose
`getValue` and `mustBeTrue` fail, `toConstant`, the feasibility query of the
Switch instruction, the size concretization of `executeAlloc` and the seed
checks of `addConstraint` and `branch` all stop at the assertion "FIXME:
Unhandled solver failure", a process-level failure, while `fork` under a
failing `evaluate` returns and terminates the state only. -/
theorem solver_failure_asserts :
    fatalOf (Executor.toConstant envUnknown execOne 0 valueX "concretize") =
        some (Fatal.assertion "FIXME: Unhandled solver failure") ∧
      fatalOf (Executor.executeSwitch envUnknown execOne 0 valueX 0
          [(1, Expr.Constant 8 1)]) =
        some (Fatal.assertion "FIXME: Unhandled solver failure") ∧
      fatalOf (Executor.executeAlloc envUnknown execOne 0 valueX false 0 true none) =
        some (Fatal.assertion "FIXME: Unhandled solver failure") ∧
      fatalOf (Executor.addConstraint envUnknown execSeeded 0 condX) =
        some (Fatal.assertion "FIXME: Unhandled solver failure") ∧
      fatalOf (Executor.branch envUnknown execSeeded 0 [condX, Expr.createIsZero condX]) =
        some (Fatal.assertion "FIXME: Unhandled solver failure") ∧
      forkOutcome (Executor.fork envFail execOne 0 condX false) =
        some ((none, none), some []) ∧
      testCaseOutcome ((Executor.fork envFail execOne 0 condX false).map Prod.snd) =
        some ([0], [0]) := by
  decide

/-- C17 (counterexample): an allocation of 10*1024*1024 + 1 bytes fails in the
memory manager, and the state is not terminated: it stays out of
`removedStates`, no test case is emitted, and its destination register holds
the null pointer. -/
theorem executeAlloc_failure_counterexample :
    (execOne.memory.allocate initialState 10485761 false false 0).1 = none ∧
      allocOutcome (Executor.executeAlloc envUnknown execOne 0 (Expr.Constant 64 10485761)
        false 5 true none) = some ([], 0, some [(5, Expr.Constant 64 0)]) := by
  decide

/-- C17 (amended): when the memory manager fails an allocation of constant
size for a live state, `executeAlloc` returns and terminates no state: the
three state sets and the test cases are unchanged, no object state is created
or written, every other state is untouched, and the offending state goes on
with the null pointer bound to the destination register, its address space,
constraints and program counter as they were. -/
theorem executeAlloc_failure_binds_null (env : Env) (x : Executor) (state : Nat)
    (st : ExecutionState) (w v : Nat) (isLocal : Bool) (target : Nat) (zeroMemory : Bool)
    (reallocFrom : Option Nat) (hst : x.heap state = some st)
    (hfail : (x.memory.allocate st (v % 2 ^ w) isLocal false (env.instOf st.prevPC)).1 =
      none) :
    ∃ x2 st2, Executor.executeAlloc env x state (Expr.Constant w v) isLocal target zeroMemory
          reallocFrom = Except.ok x2 ∧
      x2.states = x.states ∧ x2.addedStates = x.addedStates ∧
      x2.removedStates = x.removedStates ∧ x2.testCases = x.testCases ∧
      x2.store = x.store ∧ x2.nextState = x.nextState ∧
      (∀ i, i ≠ state → x2.heap i = x.heap i) ∧
      x2.heap state = some st2 ∧
      st2.locals = (target, Expr.Constant env.pointerWidth 0) ::
        st.locals.filter (fun c => decide (c.1 ≠ target)) ∧
      st2.addressSpace = st.addressSpace ∧ st2.constraints = st.constraints ∧
      st2.pc = st.pc := by
  have hu : Executor.toUnique env x state (Expr.Constant w v) =
      Except.ok (Expr.Constant w v, x) := by
    simp [Executor.toUnique, hst, Expr.isConstant]
  unfold Executor.executeAlloc
  rw [hu]
  simp only [Expr.isConstant, if_true, Expr.getZExtValue]
  unfold Executor.executeAllocConcrete
  rw [hst]
  dsimp only
  rcases hall : x.memory.allocate st (v % 2 ^ w) isLocal false (env.instOf st.prevPC) with
    ⟨o, mm, st1⟩
  rw [hall] at hfail
  simp only at hfail
  subst hfail
  have hst1 : st1.locals = st.locals ∧ st1.addressSpace = st.addressSpace ∧
      st1.constraints = st.constraints ∧ st1.pc = st.pc := by
    simp only [MemoryManager.allocate] at hall
    split_ifs at hall
    · simp only [Prod.mk.injEq, true_and] at hall
      obtain ⟨-, rfl⟩ := hall
      exact ⟨rfl, rfl, rfl, rfl⟩
    · simp only [Prod.mk.injEq, true_and] at hall
      obtain ⟨-, rfl⟩ := hall
      exact ⟨rfl, rfl, rfl, rfl⟩
    · simp at hall
  dsimp only
  let newLocals : List (Nat × Expr) := (target, Expr.Constant env.pointerWidth 0) ::
    st1.locals.filter (fun c => decide (c.1 ≠ target))
  refine ⟨_, { st1 with locals := newLocals }, rfl, ?_, ?_, ?_, ?_, ?_, ?_, ?_, ?_, ?_,
    hst1.2.1, hst1.2.2.1, hst1.2.2.2⟩
  all_goals
    simp only [Executor.bindLocal, Executor.modify, Executor.setState, Function.update_same]
  · intro i hi
    simp [Function.update_noteq hi]
  · simp [newLocals, hst1.1]

/-- C17 (witness): the allocation of 10*1024*1024 + 1 bytes on the single-state
executor. -/
theorem executeAlloc_failure_binds_null_witness :
    execOne.heap 0 = some initialState ∧
      (execOne.memory.allocate initialState (10485761 % 2 ^ 64) false false
        (envUnknown.instOf initialState.prevPC)).1 = none ∧
      ∃ x2 st2, Executor.executeAlloc envUnknown execOne 0 (Expr.Constant 64 10485761) false 5
            true none = Except.ok x2 ∧
        x2.states = execOne.states ∧ x2.addedStates = execOne.addedStates ∧
        x2.removedStates = execOne.removedStates ∧ x2.testCases = execOne.testCases ∧
        x2.store = execOne.store ∧ x2.nextState = execOne.nextState ∧
        (∀ i, i ≠ 0 → x2.heap i = execOne.heap i) ∧
        x2.heap 0 = some st2 ∧
        st2.locals = (5, Expr.Constant envUnknown.pointerWidth 0) ::
          initialState.locals.filter (fun c => decide (c.1 ≠ 5)) ∧
        st2.addressSpace = initialState.addressSpace ∧
        st2.constraints = initialState.constraints ∧ st2.pc = initialState.pc :=
  ⟨by decide, by decide,
    executeAlloc_failure_binds_null envUnknown execOne 0 initialState 64 10485761 false 5 true
      none (by decide) (by decide)⟩

namespace Executor

theorem terminateStateOnError_heap (env : Env) (x x2 : Executor) (s : Nat)
    (st : ExecutionState) (message suffix info : String) (hst : x.heap s = some st)
    (h : terminateStateOnError env x s message suffix info = Except.ok x2) :
    x2.heap s = none ∨ x2.heap s = some { st with pc := st.prevPC } := by
  have key : ∀ (y : Executor) (b : Bool), y.heap = x.heap →
      y.terminateState s b = Except.ok x2 →
      x2.heap s = none ∨ x2.heap s = some { st with pc := st.prevPC } := by
    intro y b hy hy2
    obtain ⟨x3, h3, -, -, -, -, -, -, hrem, hadd⟩ :=
      terminateState_spec y s st b (by rw [hy]; exact hst)
    rw [hy2] at h3
    cases h3
    by_cases hm : s ∈ y.addedStates
    · exact Or.inl (hadd hm).2.1
    · exact Or.inr (hrem hm).2.1
  unfold terminateStateOnError at h
  rw [hst] at h
  dsimp only at h
  split_ifs at h
  all_goals first
    | cases h
    | (refine key _ _ ?_ h; rfl)

theorem terminateState_removed (x x2 : Executor) (s : Nat) (silenced : Bool)
    (h : x.terminateState s silenced = Except.ok x2) :
    x2.removedStates ⊆ insert s x.removedStates := by
  unfold terminateState at h
  cases hs : x.heap s with
  | none => rw [hs] at h; cases h
  | some st =>
    rw [hs] at h
    dsimp only at h
    split_ifs at h <;> cases h <;> simp [Finset.subset_insert]

theorem terminateStateOnError_removed (env : Env) (x x2 : Executor) (s : Nat)
    (message suffix info : String)
    (h : terminateStateOnError env x s message suffix info = Except.ok x2) :
    x2.removedStates ⊆ insert s x.removedStates := by
  unfold terminateStateOnError at h
  cases hs : x.heap s with
  | none => rw [hs] at h; cases h
  | some st =>
    rw [hs] at h
    dsimp only at h
    split_ifs at h
    all_goals first
      | cases h
      | (have h3 := terminateState_removed _ _ _ _ h
         exact h3)

end Executor

/-- C14: for a load or a store at a constant address that lies in no bound
memory object (the concrete lookup `resolveOne` finds nothing, so `resolve`
gives the empty, complete list), on a live state with a current thread,
`executeMemoryOperation` returns and is the call of `terminateStateOnError` on
that state with the message "memory error: out of bound pointer": the state is
terminated, no object state is written and no register is bound, no state is
created, no solver query is made and every other state is untouched. The call
is made on the executor in which `getAddressInfo` has built its temporary
object: the objects of the memory manager are the same and the id counter has
advanced. -/
theorem memoryOperation_out_of_bound (env : Env) (x : Executor) (state : Nat)
    (st : ExecutionState) (isWrite : Bool) (w a : Nat) (value : Expr) (target readWidth : Nat)
    (hst : x.heap state = some st) (hthread : st.hasCurrentThread = true)
    (hres : st.addressSpace.resolveOne x.memory.objects (a % 2 ^ w) = none) :
    (Executor.resolveExpr env x st (Expr.Constant w a) = ([], false)) ∧
    ∃ x2, Executor.executeMemoryOperation env x state isWrite (Expr.Constant w a) value target
          readWidth = Except.ok x2 ∧
      Executor.terminateStateOnError env x.hackObject state
          "memory error: out of bound pointer"
          "ptr.err" (env.addressInfo st (Expr.Constant w a) (a % 2 ^ w)) = Except.ok x2 ∧
      Executor.Terminated x2 state ∧
      x2.store = x.store ∧ x2.memory.objects = x.memory.objects ∧
      x2.memory.allocations = x.memory.allocations ∧
      x.memory.counter < x2.memory.counter ∧ x2.queries = x.queries ∧
      x2.nextState = x.nextState ∧ x2.addedStates ⊆ x.addedStates ∧
      x2.removedStates ⊆ insert state x.removedStates ∧
      (x2.heap state = none ∨ x2.heap state = some { st with pc := st.prevPC }) ∧
      (∀ i, i ≠ state → x2.heap i = x.heap i) := by
  have hr : Executor.resolveExpr env x st (Expr.Constant w a) = ([], false) := by
    simp [Executor.resolveExpr, Expr.isConstant, Expr.getZExtValue, hres]
  have hst1 : x.hackObject.heap state = some st := hst
  obtain ⟨x2, h2, hterm, hheap, -, -, -, -⟩ :=
    Executor.terminateStateOnError_spec env x.hackObject state st
      "memory error: out of bound pointer"
      "ptr.err" (env.addressInfo st (Expr.Constant w a) (a % 2 ^ w)) hst1 hthread
  obtain ⟨-, -, hstore, hmem, hnext, -, hq, hadd, -⟩ :=
    Executor.terminateStateOnError_frame env x.hackObject x2 state _ _ _ h2
  refine ⟨hr, x2, ?_, h2, hterm, hstore, by rw [hmem]; rfl, by rw [hmem]; rfl,
    by rw [hmem]; exact Nat.lt_succ_self _, hq, hnext, hadd,
    Executor.terminateStateOnError_removed env x.hackObject x2 state _ _ _ h2,
    Executor.terminateStateOnError_heap env x.hackObject x2 state st _ _ _ hst1 h2, hheap⟩
  have herr : ∀ v2, Executor.memoryErrorPath env x state isWrite (Expr.Constant w a) v2 target
      (if isWrite = true then value.getWidth else readWidth)
      (Expr.getMinBytesForWidth (if isWrite = true then value.getWidth else readWidth)) =
      Except.ok x2 := by
    intro v2
    unfold Executor.memoryErrorPath
    rw [hst]
    simp only [hr, Executor.memoryResolveLoop, Executor.getAddressInfo, hst, Expr.isConstant,
      if_true, Expr.getZExtValue, Bool.false_eq_true, if_false]
    exact h2
  unfold Executor.executeMemoryOperation
  rw [hst]
  simp only [Expr.isConstant, Bool.not_true, Bool.and_false, Bool.false_eq_true, if_false,
    Executor.resolveOneExpr, if_true, Expr.getZExtValue, hres]
  exact herr _

/-- C14 (witness): with one object of four bytes at address 4096, a one-byte
load at 4096 binds the byte read to the destination register, and a one-byte
load at 4100 terminates the state with a test case and binds nothing. -/
theorem memoryOperation_out_of_bound_witness :
    allocOutcome (Executor.executeMemoryOperation envUnknown execMem 0 false
        (Expr.Constant 64 4096) (Expr.Constant 8 0) 5 8) =
      some ([], 0, some [(5, Expr.Constant 8 0)]) ∧
    allocOutcome (Executor.executeMemoryOperation envUnknown execMem 0 false
        (Expr.Constant 64 4100) (Expr.Constant 8 0) 5 8) = some ([0], 1, some []) ∧
    execMem.heap 0 = some stateMem ∧ stateMem.hasCurrentThread = true ∧
    stateMem.addressSpace.resolveOne execMem.memory.objects (4100 % 2 ^ 64) = none ∧
    ∃ x2, Executor.executeMemoryOperation envUnknown execMem 0 false (Expr.Constant 64 4100)
          (Expr.Constant 8 0) 5 8 = Except.ok x2 ∧
      Executor.Terminated x2 0 ∧ x2.store = execMem.store ∧
      x2.memory.objects = execMem.memory.objects ∧
      execMem.memory.counter < x2.memory.counter ∧
      x2.nextState = execMem.nextState ∧ x2.addedStates ⊆ execMem.addedStates :=
  ⟨by decide, by decide, by decide, by decide, by decide,
    (memoryOperation_out_of_bound envUnknown execMem 0 stateMem false 64 4100
      (Expr.Constant 8 0) 5 8 (by decide) (by decide) (by decide)).2.imp
      (fun _ h => ⟨h.1, h.2.2.1, h.2.2.2.1, h.2.2.2.2.1, h.2.2.2.2.2.2.1,
        h.2.2.2.2.2.2.2.2.1, h.2.2.2.2.2.2.2.2.2.1⟩)⟩

namespace Executor

theorem live_lt_of_fresh (x : Executor) (hf : ∀ i, x.nextState ≤ i → x.heap i = none)
    (i : Nat) (st : ExecutionState) (h : x.heap i = some st) : i < x.nextState := by
  by_contra hn
  rw [hf i (not_lt.1 hn)] at h
  cases h

theorem addDuplicates_spec (x : Executor) (main other : Nat) (ost mst : ExecutionState)
    (ho : x.heap other = some ost) (hm : x.heap main = some mst)
    (hd : ost.isDuplicate = false) (hf : ∀ i, x.nextState ≤ i → x.heap i = none) :
    ∃ x2 mst2, addDuplicates x main other = Except.ok x2 ∧
      x2.addedStates = x.addedStates ∧ x2.states = x.states ∧
      x2.mergesSuccess = x.mergesSuccess ∧ x2.mergesFail = x.mergesFail ∧
      x.processTree.next ≤ x2.processTree.next ∧
      (∀ n, n < x.processTree.next → x2.processTree.nodes n = x.processTree.nodes n) ∧
      x2.heap main = some mst2 ∧ mst2.ptreeNode = mst.ptreeNode ∧
      (∀ i, i ≠ main → i < x.nextState → x2.heap i = x.heap i) ∧
      (∀ i, x2.nextState ≤ i → x2.heap i = none) := by
  have hmlt := live_lt_of_fresh x hf main mst hm
  unfold addDuplicates
  rw [ho]
  simp only [hd, Bool.false_eq_true, if_false]
  by_cases he : ost.duplicates.isEmpty = true
  · simp only [he, if_true]
    have hne : main ≠ x.nextState := Nat.ne_of_lt hmlt
    refine ⟨_, { mst with duplicates := (mst.duplicates ++ [x.nextState]).dedup }, rfl, ?a, ?b,
      ?c, ?d, ?e, ?f, ?g, rfl, ?h, ?i⟩
    case a => simp [modify, branchState, setState, hne, hm]
    case b => simp [modify, branchState, setState, hne, hm]
    case c => simp [modify, branchState, setState, hne, hm]
    case d => simp [modify, branchState, setState, hne, hm]
    case e =>
      simp only [modify, branchState, setState, Function.update_same,
        Function.update_noteq hne, hm, PTree.duplicate, PTree.deactivate]
      exact Nat.le_succ _
    case f =>
      intro n hn
      simp only [modify, branchState, setState, Function.update_same,
        Function.update_noteq hne, hm, PTree.duplicate, PTree.deactivate]
      rw [Function.update_noteq (Nat.ne_of_lt hn), Function.update_noteq (Nat.ne_of_lt hn)]
    case g =>
      simp only [modify, branchState, setState, Function.update_same,
        Function.update_noteq hne, hm]
    case h =>
      intro i hi hlt
      simp only [modify, branchState, setState, Function.update_same,
        Function.update_noteq hne, hm]
      rw [Function.update_noteq hi, Function.update_noteq (Nat.ne_of_lt hlt),
        Function.update_noteq (Nat.ne_of_lt hlt)]
    case i =>
      intro i hi
      simp only [modify, branchState, setState, Function.update_same,
        Function.update_noteq hne, hm] at hi ⊢
      have h1 : i ≠ main := by omega
      have h2 : i ≠ x.nextState := by omega
      rw [Function.update_noteq h1, Function.update_noteq h2, Function.update_noteq h2]
      exact hf i (by omega)
  · simp only [he, Bool.false_eq_true, if_false]
    refine ⟨_, { mst with duplicates := (mst.duplicates ++ ost.duplicates).dedup }, rfl, ?a2, ?b2,
      ?c2, ?d2, ?e2, ?f2, ?g2, rfl, ?h2, ?i2⟩
    case a2 => simp [modify, setState, hm]
    case b2 => simp [modify, setState, hm]
    case c2 => simp [modify, setState, hm]
    case d2 => simp [modify, setState, hm]
    case e2 => simp [modify, setState, hm]
    case f2 => intro n _; simp [modify, setState, hm]
    case g2 => simp [modify, setState, hm]
    case h2 =>
      intro i hi _
      simp only [modify, setState, hm]
      rw [Function.update_noteq hi]
    case i2 =>
      intro i hi
      simp only [modify, setState, hm] at hi ⊢
      have h1 : i ≠ main := by omega
      rw [Function.update_noteq h1]
      exact hf i hi

theorem mergeKeep_spec (x : Executor) (current other : Nat) (cst ost m : ExecutionState)
    (hc : x.heap current = some cst) (ho : x.heap other = some ost)
    (hf : ∀ i, x.nextState ≤ i → x.heap i = none)
    (hdc : cst.isDuplicate = false) (hdo : ost.isDuplicate = false) :
    ∃ x2 mst, mergeKeep x current other cst ost m = Except.ok (x.nextState, x2) ∧
      x2.addedStates = insert x.nextState x.addedStates ∧ x2.states = x.states ∧
      x2.mergesSuccess = x.mergesSuccess ∧ x2.mergesFail = x.mergesFail ∧
      x2.heap x.nextState = some mst ∧ mst.ptreeNode = x.processTree.next ∧
      (x2.processTree.nodes x.processTree.next).mergedFrom =
        some (cst.ptreeNode, ost.ptreeNode) ∧
      (x2.processTree.nodes x.processTree.next).data = some x.nextState := by
  have hclt := live_lt_of_fresh x hf current cst hc
  have holt := live_lt_of_fresh x hf other ost ho
  have hfp : x.heap x.nextState = none := hf _ (le_refl _)
  -- the executor after the merged state is stored and linked
  obtain ⟨x2, hx2⟩ : ∃ x2 : Executor, x2 =
      { (cloneState x m).2 with processTree :=
          (((cloneState x m).2.processTree.clearData cst.ptreeNode).clearData
            ost.ptreeNode).mergeCopy cst.ptreeNode ost.ptreeNode (cloneState x m).1 |>.2 }.modify
        (cloneState x m).1 (fun s => { s with ptreeNode :=
          ((((cloneState x m).2.processTree.clearData cst.ptreeNode).clearData
            ost.ptreeNode).mergeCopy cst.ptreeNode ost.ptreeNode (cloneState x m).1).1 }) :=
    ⟨_, rfl⟩
  have hp : x2.heap x.nextState = some { m with ptreeNode := x.processTree.next } := by
    rw [hx2]
    simp [modify, cloneState, branchState, setState, PTree.mergeCopy, PTree.clearData]
  have hheap : ∀ i, i ≠ x.nextState → x2.heap i = x.heap i := by
    intro i hi
    rw [hx2]
    simp [modify, cloneState, branchState, setState, Function.update_noteq hi]
  have hnext : x2.nextState = x.nextState + 1 := by
    rw [hx2]; simp [modify, cloneState, branchState, setState]
  have hadded : x2.addedStates = insert x.nextState x.addedStates := by
    rw [hx2]; simp [modify, cloneState, branchState, setState]
  have hstates : x2.states = x.states := by
    rw [hx2]; simp [modify, cloneState, branchState, setState]
  have hms : x2.mergesSuccess = x.mergesSuccess ∧ x2.mergesFail = x.mergesFail := by
    rw [hx2]; simp [modify, cloneState, branchState, setState]
  have htree : x2.processTree.next = x.processTree.next + 1 ∧
      (x2.processTree.nodes x.processTree.next).mergedFrom =
        some (cst.ptreeNode, ost.ptreeNode) ∧
      (x2.processTree.nodes x.processTree.next).data = some x.nextState := by
    rw [hx2]
    simp [modify, cloneState, branchState, setState, PTree.mergeCopy, PTree.clearData]
  have hf2 : ∀ i, x2.nextState ≤ i → x2.heap i = none := by
    intro i hi
    rw [hnext] at hi
    rw [hheap i (by omega)]
    exact hf i (by omega)
  obtain ⟨x3, mst3, h3, hadd3, hst3, hs3, hfl3, hle3, hnodes3, hmain3, hpt3, hheap3, hf3⟩ :=
    addDuplicates_spec x2 x.nextState current cst _
      (by rw [hheap current (Nat.ne_of_lt hclt)]; exact hc) hp hdc hf2
  have ho3 : x3.heap other = some ost := by
    rw [hheap3 other (Nat.ne_of_lt holt) (by rw [hnext]; omega),
      hheap other (Nat.ne_of_lt holt)]
    exact ho
  obtain ⟨x4, mst4, h4, hadd4, hst4, hs4, hfl4, hle4, hnodes4, hmain4, hpt4, -, -⟩ :=
    addDuplicates_spec x3 x.nextState other ost mst3 ho3 hmain3 hdo hf3
  have hn : x4.processTree.nodes x.processTree.next =
      x2.processTree.nodes x.processTree.next := by
    rw [hnodes4 _ (by omega), hnodes3 _ (by omega)]
  refine ⟨x4, mst4, ?_, ?_, ?_, ?_, ?_, hmain4, ?_, ?_, ?_⟩
  · have hk : mergeKeep x current other cst ost m =
        (match addDuplicates x2 x.nextState current with
         | Except.error e => Except.error e
         | Except.ok x3 =>
           match addDuplicates x3 x.nextState other with
           | Except.error e => Except.error e
           | Except.ok x4 => Except.ok (x.nextState, x4)) := by
      rw [hx2]; rfl
    rw [hk, h3]
    dsimp only
    rw [h4]
  · rw [hadd4, hadd3, hadded]
  · rw [hst4, hst3, hstates]
  · rw [hs4, hs3, hms.1]
  · rw [hfl4, hfl3, hms.2]
  · rw [hpt4, hpt3]
  · rw [hn]; exact htree.2.1
  · rw [hn]; exact htree.2.2

end Executor

/-- C16: for two live states of a well-formed executor, neither a duplicate
when merged duplicates are kept: if the state-level merge reports that no
merge is possible, `merge` returns null, changes nothing but the count of
failed merges, which grows by one (so `addedStates`, the process tree and both
states are as before); if it succeeds, `merge` returns the merged state and
the count of successful merges grows by one, the count of failures staying;
with `KeepMergedDuplicates` on the merged state is a new state, inserted into
`addedStates`, whose process-tree node is a new node that records the nodes of
the two original states; with it off the merged state is the current state
and `addedStates` is unchanged. -/
theorem merge_graceful (env : Env) (x : Executor) (current other : Nat)
    (cst ost : ExecutionState) (hc : x.heap current = some cst)
    (ho : x.heap other = some ost) (hwf : x.WellFormed)
    (hdup : env.opts.KeepMergedDuplicates = true →
      cst.isDuplicate = false ∧ ost.isDuplicate = false) :
    (cst.mergeWith env ost = none →
      Executor.merge env x current other =
        Except.ok (none, { x with mergesFail := x.mergesFail + 1 })) ∧
    (∀ m, cst.mergeWith env ost = some m →
      ∃ merged x2, Executor.merge env x current other = Except.ok (some merged, x2) ∧
        x2.mergesSuccess = x.mergesSuccess + 1 ∧ x2.mergesFail = x.mergesFail ∧
        x2.states = x.states ∧
        (env.opts.KeepMergedDuplicates = true →
          x.heap merged = none ∧ merged ∉ x.states ∧ merged ∉ x.addedStates ∧
          x2.addedStates = insert merged x.addedStates ∧
          ∃ mst, x2.heap merged = some mst ∧ x.processTree.next ≤ mst.ptreeNode ∧
            (x2.processTree.nodes mst.ptreeNode).mergedFrom =
              some (cst.ptreeNode, ost.ptreeNode) ∧
            (x2.processTree.nodes mst.ptreeNode).data = some merged) ∧
        (env.opts.KeepMergedDuplicates = false →
          merged = current ∧ x2.addedStates = x.addedStates ∧ x2.heap current = some m)) := by
  constructor
  · intro hm
    simp [Executor.merge, hc, ho, hm]
  · intro m hm
    by_cases hk : env.opts.KeepMergedDuplicates = true
    · obtain ⟨hdc, hdo⟩ := hdup hk
      obtain ⟨x2, mst, h2, hadd, hst, hs, hfl, hheap, hpt, hfrom, hdata⟩ :=
        Executor.mergeKeep_spec x current other cst ost m hc ho
          (fun i hi => (hwf i hi).1) hdc hdo
      refine ⟨x.nextState, { x2 with mergesSuccess := x2.mergesSuccess + 1 }, ?_, ?_, hfl, hst,
        ?_, ?_⟩
      · simp [Executor.merge, hc, ho, hm, hk, h2]
      · simp [hs]
      · intro _
        have hw := hwf x.nextState (le_refl _)
        refine ⟨hw.1, hw.2.2.1, hw.2.2.2.1, hadd, mst, hheap, ?_, ?_, ?_⟩
        · rw [hpt]
        · rw [hpt]; exact hfrom
        · rw [hpt]; exact hdata
      · intro h; rw [hk] at h; cases h
    · have hk2 : env.opts.KeepMergedDuplicates = false := by simpa using hk
      refine ⟨current, _,
        (by simp only [Executor.merge, hc, ho, hm, hk2, Bool.false_eq_true, if_false]; rfl),
        ?_, ?_, ?_, ?_, ?_⟩
      · simp [Executor.setState]
      · simp [Executor.setState]
      · simp [Executor.setState]
      · intro h; rw [hk2] at h; cases h
      · intro _
        exact ⟨rfl, by simp [Executor.setState], by simp [Executor.setState]⟩

/-- C16 (witness): with merged duplicates kept, two states at the same program
counter merge into the new state 2, which is added and whose node records the
nodes of both; two states at different program counters do not merge, which
counts one failure and adds nothing. -/
theorem merge_graceful_witness :
    mergeOutcome (Executor.merge envKeep execTwo 0 1) =
        some ⟨some 2, 1, 0, [2], some (0, 0)⟩ ∧
      mergeOutcome (Executor.merge envKeep execTwoApart 0 1) = some ⟨none, 0, 1, [], none⟩ ∧
      mergeOutcome (Executor.merge envUnknown execTwo 0 1) =
        some ⟨some 0, 1, 0, [], some (0, 0)⟩ ∧
      execTwoApart.heap 0 = some initialState ∧
      execTwoApart.heap 1 = some { initialState with pc := 5 } ∧
      Executor.merge envKeep execTwoApart 0 1 =
        Except.ok (none, { execTwoApart with mergesFail := execTwoApart.mergesFail + 1 }) :=
  ⟨by decide, by decide, by decide, by decide, by decide,
    (merge_graceful envKeep execTwoApart 0 1 initialState { initialState with pc := 5 }
      (by decide) (by decide)
      (by
        intro i hi
        have h2 : (2 : Nat) ≤ i := hi
        have hi0 : i ≠ 0 := by omega
        have hi1 : i ≠ 1 := by omega
        refine ⟨?_, rfl, ?_, ?_, ?_⟩
        · simp [execTwoApart, Function.update_noteq hi0, Function.update_noteq hi1]
        · simp [execTwoApart, hi0, hi1]
        · simp [execTwoApart]
        · simp [execTwoApart])
      (fun _ => ⟨rfl, rfl⟩)).1 (by decide)⟩

namespace Executor

theorem Quiet.quiet_refl (x : Executor) : Quiet x x := ⟨rfl, rfl, rfl, fun _ h => h⟩

theorem Quiet.quiet_trans {x y z : Executor} (h1 : Quiet x y) (h2 : Quiet y z) : Quiet x z :=
  ⟨h2.1.trans h1.1, h2.2.1.trans h1.2.1, h2.2.2.1.trans h1.2.2.1,
    fun i hi => h2.2.2.2 i (h1.2.2.2 i hi)⟩

theorem Quiet.quiet_of_heap {x y : Executor} (h1 : y.nextState = x.nextState)
    (h2 : y.addedStates = x.addedStates) (h3 : y.removedStates = x.removedStates)
    (h4 : y.heap = x.heap) : Quiet x y :=
  ⟨h1, h2, h3, fun i hi => by rw [h4]; exact hi⟩

theorem modify_quiet (x : Executor) (id : Nat) (f : ExecutionState → ExecutionState) :
    Quiet x (x.modify id f) := by
  unfold modify
  cases h : x.heap id with
  | none => exact Quiet.quiet_refl x
  | some st =>
    refine ⟨rfl, rfl, rfl, ?_⟩
    intro i hi
    have hne : i ≠ id := by
      intro he; rw [he, h] at hi; cases hi
    simp [setState, Function.update_noteq hne, hi]

theorem setState_quiet (x : Executor) (id : Nat) (st st2 : ExecutionState)
    (h : x.heap id = some st) : Quiet x (x.setState id st2) := by
  refine ⟨rfl, rfl, rfl, ?_⟩
  intro i hi
  have hne : i ≠ id := by
    intro he; rw [he, h] at hi; cases hi
  simp [setState, Function.update_noteq hne, hi]

theorem addConstraint_quiet (env : Env) (x y : Executor) (s : Nat) (c : Expr)
    (h : addConstraint env x s c = Except.ok y) : Quiet x y := by
  unfold addConstraint at h
  simp only [ivcEnabled, Bool.false_eq_true, if_false] at h
  by_cases h1 : c.isConstant = true
  · rw [if_pos h1] at h
    by_cases h2 : c.isTrue = true
    · rw [if_pos h2] at h; cases h; exact Quiet.quiet_refl x
    · rw [if_neg h2] at h; cases h
  · rw [if_neg h1] at h
    cases hs : x.heap s with
    | none => rw [hs] at h; cases h
    | some st =>
      rw [hs] at h
      dsimp only at h
      cases hm : x.seedMap s with
      | none =>
        rw [hm] at h
        cases h
        exact setState_quiet x s st _ hs
      | some seeds =>
        rw [hm] at h
        dsimp only at h
        cases hseeds : addConstraintSeeds env st c seeds x.queries with
        | error e => rw [hseeds] at h; cases h
        | ok r =>
          rw [hseeds] at h
          cases h
          exact setState_quiet _ s st _ hs

theorem Quiet.quiet_field {x y : Executor} (h1 : y.nextState = x.nextState)
    (h2 : y.addedStates = x.addedStates) (h3 : y.removedStates = x.removedStates)
    (h4 : ∀ i, y.heap i = x.heap i) : Quiet x y :=
  ⟨h1, h2, h3, fun i hi => by rw [h4]; exact hi⟩

theorem forkStaticLimit_quiet (env : Env) (x y : Executor) (current : Nat)
    (st : ExecutionState) (c r : Expr) (b : Bool)
    (h : forkStaticLimit env x current st c b = Except.ok (r, y)) : Quiet x y := by
  unfold forkStaticLimit at h
  split_ifs at h
  · split at h
    · cases h
    · rename_i value q hq
      split at h
      · cases h
      · rename_i x1 h1
        cases h
        have h2 := addConstraint_quiet env _ _ _ _ h1
        exact (Quiet.quiet_field rfl rfl rfl (fun _ => rfl)).quiet_trans h2
  · cases h; exact Quiet.quiet_refl x
  · cases h; exact Quiet.quiet_refl x

theorem forkQuery_quiet (env : Env) (x y : Executor) (current : Nat) (c c1 : Expr)
    (r : Option Validity) (h : forkQuery env x current c = Except.ok (r, c1, y)) :
    Quiet x y := by
  unfold forkQuery at h
  split at h
  · cases h
  · split at h
    · cases h
    · rename_i cond1 x1 h1
      split at h
      · cases h
      · cases h
        have h2 := forkStaticLimit_quiet env _ _ _ _ _ _ _ h1
        exact h2.quiet_trans (Quiet.quiet_field rfl rfl rfl (fun _ => rfl))

theorem getBool_quiet (env : Env) (x : Executor) : Quiet x (getBool env x).2 :=
  Quiet.quiet_field rfl rfl rfl (fun _ => rfl)

theorem forkReplay_quiet (env : Env) (x y : Executor) (current : Nat) (st : ExecutionState)
    (c : Expr) (isInternal : Bool) (res r : Validity)
    (h : forkReplay env x current st c isInternal res = Except.ok (r, y)) : Quiet x y := by
  have key : ∀ (z : Executor) (cond : Expr) (v : Validity),
      (addConstraint env z current cond).map (fun x2 => (v, x2)) = Except.ok (r, y) →
      Quiet x z → Quiet x y := by
    intro z cond v hm hz
    cases ha : addConstraint env z current cond with
    | error e => rw [ha] at hm; cases hm
    | ok x2 =>
      rw [ha] at hm
      cases hm
      exact hz.quiet_trans (addConstraint_quiet env _ _ _ _ ha)
  cases res <;>
  · simp only [forkReplay] at h
    split_ifs at h
    all_goals first
      | (cases h; done)
      | (cases h; exact Quiet.quiet_field rfl rfl rfl (fun _ => rfl))
      | (refine key _ _ _ h ?_
         exact Quiet.quiet_field rfl rfl rfl (fun _ => rfl))

theorem except_map_ok {ε α β : Type} (f : α → β) (e : Except ε α) (b : β)
    (h : e.map f = Except.ok b) : ∃ a, e = Except.ok a ∧ f a = b := by
  cases e with
  | error err => cases h
  | ok a => exact ⟨a, rfl, by cases h; rfl⟩

theorem forkSeedFix_quiet (env : Env) (x y : Executor) (current : Nat)
    (st : ExecutionState) (c : Expr) (res r : Validity)
    (h : forkSeedFix env x current st c res = Except.ok (r, y)) : Quiet x y := by
  unfold forkSeedFix at h
  split at h
  · cases h; exact Quiet.quiet_refl x
  · split_ifs at h
    · split at h
      · cases h
      · dsimp only at h
        split_ifs at h
        all_goals first
          | (cases h; done)
          | (cases h; exact Quiet.quiet_field rfl rfl rfl (fun _ => rfl))
          | (obtain ⟨x2, ha, hb⟩ := except_map_ok _ _ _ h
             cases hb
             have h2 := addConstraint_quiet env _ _ _ _ ha
             exact (Quiet.quiet_field rfl rfl rfl (fun _ => rfl)).quiet_trans h2)
    · cases h; exact Quiet.quiet_refl x

theorem forkSeeds_quiet (env : Env) (x y : Executor) (current : Nat) (st : ExecutionState)
    (c : Expr) (t f : Nat) (h : forkSeeds env x current st c t f = Except.ok y) :
    Quiet x y := by
  have key : ∀ (z : Executor),
      (match x.heap t, x.heap f with
        | some tst, some fst =>
          Except.ok ((z.setState t { tst with coveredNew := fst.coveredNew }).setState
            f { fst with coveredNew := tst.coveredNew })
        | _, _ => Except.error Fatal.invalidPointer) = Except.ok y →
      Quiet x z → z.heap = x.heap → Quiet x y := by
    intro z hm hz hzh
    split at hm
    · rename_i tst fst ht hf
      rw [← hzh] at ht hf
      cases hm
      have h2 := setState_quiet z t tst { tst with coveredNew := fst.coveredNew } ht
      refine (hz.quiet_trans h2).quiet_trans ?_
      by_cases htf : f = t
      · subst htf
        exact setState_quiet _ f { tst with coveredNew := fst.coveredNew } _
          (by simp [setState])
      · exact setState_quiet _ f fst _
          (by simp only [setState, Function.update_noteq htf]; exact hf)
    · cases hm
  unfold forkSeeds at h
  split at h
  · cases h; exact Quiet.quiet_refl x
  · split at h
    · cases h
    · dsimp only at h
      split_ifs at h
      all_goals first
        | (cases h; done)
        | (cases h; exact Quiet.quiet_field rfl rfl rfl (fun _ => rfl))
        | (refine key _ h ?_ ?_
           · exact Quiet.quiet_field rfl rfl rfl (fun _ => rfl)
           · rfl)

theorem forkLink_quiet (x : Executor) (st : ExecutionState) (t f : Nat) :
    Quiet x (forkLink x st t f) := by
  unfold forkLink
  dsimp only
  refine Quiet.quiet_trans ?_ (modify_quiet _ _ _)
  refine Quiet.quiet_trans ?_ (modify_quiet _ _ _)
  exact Quiet.quiet_field rfl rfl rfl (fun _ => rfl)

theorem forkPathStreams_quiet (x : Executor) (current t f : Nat) (isInternal : Bool) :
    Quiet x (forkPathStreams x current t f isInternal) := by
  have h1 : ∀ z : Executor, Quiet z (forkPathOS z current t f) := by
    intro z
    unfold forkPathOS
    refine Quiet.quiet_trans ?_ (modify_quiet _ _ _)
    refine Quiet.quiet_trans ?_ (modify_quiet _ _ _)
    exact modify_quiet _ _ _
  have h2 : ∀ z : Executor, Quiet z (forkSymPathOS z current t f) := by
    intro z
    unfold forkSymPathOS
    refine Quiet.quiet_trans ?_ (modify_quiet _ _ _)
    refine Quiet.quiet_trans ?_ (modify_quiet _ _ _)
    exact modify_quiet _ _ _
  unfold forkPathStreams
  by_cases hi : isInternal = true
  · rw [if_pos hi]; exact Quiet.quiet_refl x
  · rw [if_neg hi]
    dsimp only
    by_cases hp : x.pathWriter = true
    · rw [if_pos hp]
      split_ifs
      · exact (h1 x).quiet_trans (h2 _)
      · exact h1 x
    · rw [if_neg hp]
      split_ifs
      · exact h2 x
      · exact Quiet.quiet_refl x

theorem Quiet.setsInv {x y : Executor} (h : Quiet x y) (hi : x.SetsInv) : y.SetsInv := by
  obtain ⟨h1, h2, h3, h4⟩ := h
  refine ⟨?_, ?_⟩
  · intro i hle
    rw [h1] at hle
    obtain ⟨a, b, c⟩ := hi.1 i hle
    exact ⟨h4 i a, by rw [h2]; exact b, by rw [h3]; exact c⟩
  · rw [h2, h3]; exact hi.2

theorem Quiet.preserves {x y : Executor} (h : Quiet x y) (hi : x.SetsInv) :
    Preserves x y :=
  ⟨h.setsInv hi, le_of_eq h.1.symm, fun i him => Or.inl (by rw [← h.2.1]; exact him)⟩

theorem Preserves.pres_refl {x : Executor} (hi : x.SetsInv) : Preserves x x :=
  ⟨hi, le_refl _, fun _ h => Or.inl h⟩

theorem Preserves.pres_trans {x y z : Executor} (hx : x.SetsInv) (h1 : Preserves x y)
    (h2 : Preserves y z) : Preserves x z := by
  refine ⟨h2.1, le_trans h1.2.1 h2.2.1, ?_⟩
  intro i hi
  rcases h2.2.2 i hi with h | ⟨hle, -⟩
  · exact h1.2.2 i h
  · have hle2 : x.nextState ≤ i := le_trans h1.2.1 hle
    exact Or.inr ⟨hle2, (hx.1 i hle2).1⟩

end Executor

namespace Executor

theorem terminateState_preserves (x y : Executor) (s : Nat) (silenced : Bool)
    (hi : x.SetsInv) (h : x.terminateState s silenced = Except.ok y) : Preserves x y := by
  unfold terminateState at h
  cases hs : x.heap s with
  | none => rw [hs] at h; cases h
  | some st =>
    rw [hs] at h
    dsimp only at h
    have hlt : s < x.nextState := by
      by_contra hn
      rw [(hi.1 s (not_lt.1 hn)).1] at hs
      cases hs
    have mainA : ∀ y : Executor, s ∉ x.addedStates →
        (∀ i, i ≠ s → y.heap i = x.heap i) → y.nextState = x.nextState →
        y.addedStates = x.addedStates → y.removedStates = insert s x.removedStates →
        Preserves x y := by
      intro y hns hyh hyn hya hyr
      refine ⟨⟨?_, ?_⟩, le_of_eq hyn.symm, ?_⟩
      · intro i hle
        rw [hyn] at hle
        have hne : i ≠ s := by omega
        obtain ⟨a, b, c⟩ := hi.1 i hle
        refine ⟨by rw [hyh i hne]; exact a, by rw [hya]; exact b, ?_⟩
        rw [hyr, Finset.mem_insert, not_or]; exact ⟨hne, c⟩
      · rw [hya, hyr, Finset.disjoint_insert_right]
        exact ⟨hns, hi.2⟩
      · intro i him
        rw [hya] at him
        exact Or.inl him
    have mainB : ∀ y : Executor,
        (∀ i, i ≠ s → y.heap i = x.heap i) → y.nextState = x.nextState →
        y.addedStates = x.addedStates.erase s → y.removedStates = x.removedStates →
        Preserves x y := by
      intro y hyh hyn hya hyr
      refine ⟨⟨?_, ?_⟩, le_of_eq hyn.symm, ?_⟩
      · intro i hle
        rw [hyn] at hle
        have hne : i ≠ s := by omega
        obtain ⟨a, b, c⟩ := hi.1 i hle
        refine ⟨by rw [hyh i hne]; exact a, ?_, by rw [hyr]; exact c⟩
        rw [hya, Finset.mem_erase, not_and]; exact fun _ => b
      · rw [hya, hyr]
        exact Finset.disjoint_of_subset_left (Finset.erase_subset _ _) hi.2
      · intro i him
        rw [hya, Finset.mem_erase] at him
        exact Or.inl him.2
    have hupd : ∀ (v : Option ExecutionState) (i : Nat), i ≠ s →
        Function.update x.heap s v i = x.heap i :=
      fun v i hne => Function.update_noteq hne _ _
    split_ifs at h with h1 h2 h3
    all_goals
      cases h
      first
        | exact mainB _ (hupd _) rfl rfl rfl
        | exact mainA _ (by assumption) (hupd _) rfl rfl rfl

theorem SetsInv.inv_field {x y : Executor} (hi : x.SetsInv) (h1 : y.nextState = x.nextState)
    (h2 : y.addedStates = x.addedStates) (h3 : y.removedStates = x.removedStates)
    (h4 : ∀ i, y.heap i = x.heap i) : y.SetsInv :=
  (Quiet.quiet_field h1 h2 h3 h4).setsInv hi

theorem terminateStateEarly_preserves (env : Env) (x y : Executor) (s : Nat) (message : String)
    (hi : x.SetsInv) (h : terminateStateEarly env x s message = Except.ok y) :
    Preserves x y := by
  have key : ∀ (z : Executor) (b : Bool), z.terminateState s b = Except.ok y →
      Quiet x z → Preserves x y := by
    intro z b hz hq
    have h2 := terminateState_preserves _ _ _ _ (hq.setsInv hi) hz
    exact Preserves.pres_trans hi (hq.preserves hi) h2
  unfold terminateStateEarly at h
  split at h
  · cases h
  · split_ifs at h
    all_goals
      refine key _ _ h ?_
      exact Quiet.quiet_field rfl rfl rfl (fun _ => rfl)

theorem terminateStateOnError_preserves (env : Env) (x y : Executor) (s : Nat)
    (message suffix info : String) (hi : x.SetsInv)
    (h : terminateStateOnError env x s message suffix info = Except.ok y) :
    Preserves x y := by
  have key : ∀ (z : Executor) (b : Bool), z.terminateState s b = Except.ok y →
      Quiet x z → Preserves x y := by
    intro z b hz hq
    have h2 := terminateState_preserves _ _ _ _ (hq.setsInv hi) hz
    exact Preserves.pres_trans hi (hq.preserves hi) h2
  unfold terminateStateOnError at h
  split at h
  · cases h
  · split_ifs at h
    all_goals first
      | cases h
      | (refine key _ _ h ?_
         exact Quiet.quiet_field rfl rfl rfl (fun _ => rfl))

theorem cloneState_preserves (x : Executor) (st : ExecutionState) (hi : x.SetsInv) :
    Preserves x (cloneState x st).2 := by
  refine ⟨⟨?_, ?_⟩, Nat.le_succ _, ?_⟩
  · intro i hle
    have hle2 : x.nextState + 1 ≤ i := hle
    have hne : i ≠ x.nextState := by omega
    obtain ⟨a, b, c⟩ := hi.1 i (by omega)
    refine ⟨?_, ?_, c⟩
    · simp only [cloneState, branchState, Function.update_noteq hne]; exact a
    · simp only [cloneState, branchState, Finset.mem_insert, not_or]; exact ⟨hne, b⟩
  · simp only [cloneState, branchState]
    rw [Finset.disjoint_insert_left]
    exact ⟨(hi.1 _ (le_refl _)).2.2, hi.2⟩
  · intro i him
    simp only [cloneState, branchState, Finset.mem_insert] at him
    rcases him with rfl | him
    · exact Or.inr ⟨le_refl _, (hi.1 _ (le_refl _)).1⟩
    · exact Or.inl him

theorem forkNewState_preserves (env : Env) (x : Executor) (current : Nat)
    (st : ExecutionState) (hi : x.SetsInv) :
    Preserves x (forkNewState env x current st).2 := by
  have hq : Quiet x { x with forks := x.forks + 1, forksMult := x.forksMult + st.multiplicity } :=
    Quiet.quiet_field rfl rfl rfl (fun _ => rfl)
  have hc := cloneState_preserves _ st (hq.setsInv hi)
  have h1 := Preserves.pres_trans hi (hq.preserves hi) hc
  unfold forkNewState
  dsimp only
  split_ifs
  · exact Preserves.pres_trans hi h1 ((getBool_quiet env _).preserves h1.1)
  · exact h1

theorem forkMaxDepth_preserves (env : Env) (x y : Executor) (t f : Nat) (r : StatePair)
    (hi : x.SetsInv) (h : forkMaxDepth env x t f = Except.ok (r, y)) : Preserves x y := by
  unfold forkMaxDepth at h
  split at h
  · cases h
  · split_ifs at h
    · split at h
      · cases h
      · rename_i x1 h1
        split at h
        · cases h
        · rename_i x2 h2
          cases h
          have p1 := terminateStateEarly_preserves env _ _ _ _ hi h1
          have p2 := terminateStateEarly_preserves env _ _ _ _ p1.1 h2
          exact Preserves.pres_trans hi p1 p2
    · cases h; exact Preserves.pres_refl hi

theorem forkSplit_preserves (env : Env) (x y : Executor) (current : Nat)
    (st : ExecutionState) (c : Expr) (isInternal : Bool) (r : StatePair) (hi : x.SetsInv)
    (h : forkSplit env x current st c isInternal = Except.ok (r, y)) : Preserves x y := by
  unfold forkSplit at h
  dsimp only at h
  have p0 := forkNewState_preserves env x current st hi
  split at h
  · cases h
  · rename_i x3 h3
    have q3 := forkSeeds_quiet env _ _ _ _ _ _ _ h3
    have p3 := Preserves.pres_trans hi p0 (q3.preserves p0.1)
    split at h
    · cases h
    · rename_i x6 h6
      have q6 := addConstraint_quiet env _ _ _ _ h6
      have q5 := ((forkLink_quiet x3 st _ _).quiet_trans
        (forkPathStreams_quiet _ current _ _ isInternal)).quiet_trans q6
      have p6 := Preserves.pres_trans hi p3 (q5.preserves p3.1)
      split at h
      · cases h
      · rename_i x7 h7
        have q7 := addConstraint_quiet env _ _ _ _ h7
        have p7 := Preserves.pres_trans hi p6 (q7.preserves p6.1)
        have p8 := forkMaxDepth_preserves env _ _ _ _ _ p7.1 h
        exact Preserves.pres_trans hi p7 p8

theorem forkFinish_preserves (env : Env) (x y : Executor) (current : Nat)
    (st : ExecutionState) (c : Expr) (isInternal : Bool) (res : Validity) (r : StatePair)
    (hi : x.SetsInv) (h : forkFinish env x current st c isInternal res = Except.ok (r, y)) :
    Preserves x y := by
  cases res with
  | Unknown => exact forkSplit_preserves env x y current st c isInternal r hi h
  | True =>
    simp only [forkFinish] at h
    cases h
    split_ifs
    · exact (modify_quiet _ _ _).preserves hi
    · exact Preserves.pres_refl hi
  | False =>
    simp only [forkFinish] at h
    cases h
    split_ifs
    · exact (modify_quiet _ _ _).preserves hi
    · exact Preserves.pres_refl hi

theorem forkTail_preserves (env : Env) (x y : Executor) (current : Nat) (c : Expr)
    (isInternal : Bool) (res : Validity) (r : StatePair) (hi : x.SetsInv)
    (h : forkTail env x current c isInternal res = Except.ok (r, y)) : Preserves x y := by
  unfold forkTail at h
  split at h
  · cases h
  · split at h
    · cases h
    · rename_i res2 x3 h3
      have q3 := forkSeedFix_quiet env _ _ _ _ _ _ _ h3
      split at h
      · cases h
      · have p := forkFinish_preserves env _ _ _ _ _ _ _ _ (q3.setsInv hi) h
        exact Preserves.pres_trans hi (q3.preserves hi) p

theorem fork_preserves (env : Env) (x y : Executor) (current : Nat) (c : Expr)
    (isInternal : Bool) (r : StatePair) (hi : x.SetsInv)
    (h : fork env x current c isInternal = Except.ok (r, y)) : Preserves x y := by
  unfold fork at h
  dsimp only at h
  split at h
  · cases h
  · rename_i c1 x1 h1
    have q1 := forkQuery_quiet env _ _ _ _ _ _ h1
    split at h
    · cases h
    · rename_i x2 h2
      cases h
      have key : ∀ z : Executor,
          terminateStateEarly env z current "query timed out" = Except.ok y →
          Quiet x z → Preserves x y := by
        intro z hz hq
        have p := terminateStateEarly_preserves env _ _ _ _ (hq.setsInv hi) hz
        exact Preserves.pres_trans hi (hq.preserves hi) p
      refine key _ h2 ?_
      exact q1.quiet_trans (modify_quiet _ _ _)
  · rename_i res c1 x1 h1
    have q1 := forkQuery_quiet env _ _ _ _ _ _ h1
    split at h
    · cases h
    · rename_i st hst
      split at h
      · cases h
      · rename_i res1 x2 h2
        have q2 : Quiet x1 x2 := by
          split_ifs at h2
          · exact forkReplay_quiet env _ _ _ _ _ _ _ _ h2
          · cases h2; exact Quiet.quiet_refl _
        have q := q1.quiet_trans q2
        have p := forkTail_preserves env _ _ _ _ _ _ _ (q.setsInv hi) h
        exact Preserves.pres_trans hi (q.preserves hi) p

end Executor

namespace Executor

theorem branchLink_quiet (x : Executor) (es : ExecutionState) (ns state : Nat) :
    Quiet x (branchLink x es ns state) := by
  unfold branchLink
  dsimp only
  refine Quiet.quiet_trans ?_ (modify_quiet _ _ _)
  refine Quiet.quiet_trans ?_ (modify_quiet _ _ _)
  exact Quiet.quiet_field rfl rfl rfl (fun _ => rfl)

theorem branchStep_preserves (x y : Executor) (state ns : Nat) (hi : x.SetsInv)
    (h : branchStep x state = Except.ok (ns, y)) : Preserves x y := by
  unfold branchStep at h
  split at h
  · cases h
  · rename_i es hes
    cases h
    have p := cloneState_preserves x es hi
    exact Preserves.pres_trans hi p ((branchLink_quiet _ es _ state).preserves p.1)

theorem branchLoop_preserves (state : Nat) (k : Nat) :
    ∀ (x y : Executor) (news : List Nat), x.SetsInv →
      branchLoop x state k = Except.ok (news, y) → Preserves x y := by
  induction k with
  | zero =>
    intro x y news hi h
    simp only [branchLoop] at h
    cases h
    exact Preserves.pres_refl hi
  | succ k ih =>
    intro x y news hi h
    simp only [branchLoop] at h
    split at h
    · cases h
    · rename_i ns x1 h1
      have p1 := branchStep_preserves _ _ _ _ hi h1
      split at h
      · cases h
      · rename_i rest x2 h2
        cases h
        exact Preserves.pres_trans hi p1 (ih _ _ _ p1.1 h2)

theorem branchSeeds_quiet (env : Env) (st : ExecutionState) (conditions : List Expr)
    (result : List (Option Nat)) (seeds : List SeedInfo) :
    ∀ (x y : Executor), branchSeeds env st conditions result x seeds = Except.ok y →
      Quiet x y := by
  induction seeds with
  | nil =>
    intro x y h
    simp only [branchSeeds] at h
    cases h
    exact Quiet.quiet_refl x
  | cons seed rest ih =>
    intro x y h
    simp only [branchSeeds] at h
    split at h
    · cases h
    · split at h
      · cases h
      · have q := ih _ _ h
        exact (Quiet.quiet_field rfl rfl rfl (fun _ => rfl)).quiet_trans q

theorem branchPrune_preserves (result : List (Option Nat)) :
    ∀ (x y : Executor) (out : List (Option Nat)), x.SetsInv →
      branchPrune x result = Except.ok (out, y) → Preserves x y := by
  induction result with
  | nil =>
    intro x y out hi h
    simp only [branchPrune] at h
    cases h
    exact Preserves.pres_refl hi
  | cons r rest ih =>
    intro x y out hi h
    cases r with
    | none =>
      simp only [branchPrune] at h
      split at h
      · cases h
      · rename_i rest1 x1 h1
        cases h
        exact ih _ _ _ hi h1
    | some s =>
      simp only [branchPrune] at h
      split_ifs at h
      · split at h
        · cases h
        · rename_i rest1 x1 h1
          cases h
          exact ih _ _ _ hi h1
      · split at h
        · cases h
        · rename_i x0 h0
          have p0 := terminateState_preserves _ _ _ _ hi h0
          split at h
          · cases h
          · rename_i rest1 x1 h1
            cases h
            exact Preserves.pres_trans hi p0 (ih _ _ _ p0.1 h1)

theorem branchConstrain_quiet (env : Env) (result : List (Option Nat)) :
    ∀ (conditions : List Expr) (x y : Executor),
      branchConstrain env x result conditions = Except.ok y → Quiet x y := by
  induction result with
  | nil =>
    intro conditions x y h
    simp only [branchConstrain] at h
    cases h
    exact Quiet.quiet_refl x
  | cons r rest ih =>
    intro conditions x y h
    cases conditions with
    | nil =>
      cases r <;>
      · simp only [branchConstrain] at h
        cases h
        exact Quiet.quiet_refl x
    | cons c cs =>
      cases r with
      | none =>
        simp only [branchConstrain] at h
        exact ih _ _ _ h
      | some s =>
        simp only [branchConstrain] at h
        split at h
        · cases h
        · rename_i x1 h1
          exact (addConstraint_quiet env _ _ _ _ h1).quiet_trans (ih _ _ _ h)

theorem branchSeeded_preserves (env : Env) (x y : Executor) (state : Nat)
    (conditions : List Expr) (result out : List (Option Nat)) (hi : x.SetsInv)
    (h : branchSeeded env x state conditions result = Except.ok (out, y)) :
    Preserves x y := by
  unfold branchSeeded at h
  split at h
  · cases h; exact Preserves.pres_refl hi
  · split at h
    · cases h
    · split at h
      · cases h
      · rename_i x1 h1
        have q := (Quiet.quiet_field rfl rfl rfl (fun _ => rfl)).quiet_trans
          (branchSeeds_quiet env _ _ _ _ _ _ h1)
        split_ifs at h
        · have p := branchPrune_preserves _ _ _ _ (q.setsInv hi) h
          exact Preserves.pres_trans hi (q.preserves hi) p
        · cases h
          exact q.preserves hi

theorem branch_preserves (env : Env) (x y : Executor) (state : Nat)
    (conditions : List Expr) (out : List (Option Nat)) (hi : x.SetsInv)
    (h : branch env x state conditions = Except.ok (out, y)) : Preserves x y := by
  unfold branch at h
  by_cases hc : conditions.length = 0
  · rw [if_pos hc] at h; cases h
  · rw [if_neg hc] at h
    split at h
    · cases h
    · dsimp only at h
      split at h
      · cases h
      · rename_i news x1 h1
        have key : ∀ z : Executor,
            branchLoop z state (conditions.length - 1) = Except.ok (news, x1) →
            Quiet x z → Preserves x x1 := by
          intro z hz hq
          have p1 := branchLoop_preserves _ _ _ _ _ (hq.setsInv hi) hz
          exact Preserves.pres_trans hi (hq.preserves hi) p1
        have p01 : Preserves x x1 := by
          refine key _ h1 ?_
          exact Quiet.quiet_field rfl rfl rfl (fun _ => rfl)
        split at h
        · cases h
        · rename_i result x2 h2
          have p2 := branchSeeded_preserves env _ _ _ _ _ _ p01.1 h2
          have p02 := Preserves.pres_trans hi p01 p2
          split at h
          · cases h
          · rename_i x3 h3
            cases h
            have q3 := branchConstrain_quiet env _ _ _ _ h3
            exact Preserves.pres_trans hi p02 (q3.preserves p02.1)

theorem forkReason_preserves (x y : Executor) (current : Nat) (r : StatePair)
    (hi : x.SetsInv) (h : forkReason x current = Except.ok (r, y)) : Preserves x y := by
  unfold forkReason at h
  split at h
  · cases h
  · rename_i st hst
    dsimp only at h
    cases h
    have p := cloneState_preserves x st hi
    refine Preserves.pres_trans hi p (Quiet.preserves ?_ p.1)
    refine Quiet.quiet_trans ?_ (modify_quiet _ _ _)
    refine Quiet.quiet_trans ?_ (modify_quiet _ _ _)
    exact Quiet.quiet_field rfl rfl rfl (fun _ => rfl)

theorem runOp_preserves (env : Env) (x y : Executor) (op : InstrOp) (hi : x.SetsInv)
    (h : runOp env x op = Except.ok y) : Preserves x y := by
  cases op with
  | fork current condition isInternal =>
    obtain ⟨r, hr, hy⟩ := except_map_ok _ _ _ h
    subst hy
    exact fork_preserves env _ _ _ _ _ r.1 hi hr
  | forkReason current =>
    obtain ⟨r, hr, hy⟩ := except_map_ok _ _ _ h
    subst hy
    exact forkReason_preserves _ _ _ r.1 hi hr
  | branch state conditions =>
    obtain ⟨r, hr, hy⟩ := except_map_ok _ _ _ h
    subst hy
    exact branch_preserves env _ _ _ _ r.1 hi hr
  | terminate state silenced =>
    simp only [runOp] at h
    exact terminateState_preserves _ _ _ _ hi h
  | terminateEarly state message =>
    simp only [runOp] at h
    exact terminateStateEarly_preserves env _ _ _ _ hi h
  | terminateOnError state message suffix info =>
    simp only [runOp] at h
    exact terminateStateOnError_preserves env _ _ _ _ _ _ hi h

theorem runInstr_preserves (env : Env) (ops : List InstrOp) :
    ∀ (x y : Executor), x.SetsInv → runInstr env x ops = Except.ok y → Preserves x y := by
  induction ops with
  | nil =>
    intro x y hi h
    simp only [runInstr] at h
    cases h
    exact Preserves.pres_refl hi
  | cons op rest ih =>
    intro x y hi h
    simp only [runInstr] at h
    split at h
    · cases h
    · rename_i x1 h1
      have p1 := runOp_preserves env _ _ _ hi h1
      exact Preserves.pres_trans hi p1 (ih _ _ p1.1 h)

end Executor

/-- C20: from an executor in which unallocated pointers are unused and
`addedStates` and `removedStates` are disjoint, as at the start of an
instruction step where `addedStates` is empty, the two sets are disjoint after
every prefix of the calls an instruction makes to `fork`, `branch` and the
functions that terminate a state; `fork` and `branch` put into `addedStates`
only pointers that were already in it or were not allocated before the call,
and `terminateState` on a member of `addedStates` erases it from `addedStates`,
deletes it and leaves `removedStates` as it is. -/
theorem added_removed_disjoint (env : Env) (x : Executor) (hfresh : x.Fresh)
    (hdis : Disjoint x.addedStates x.removedStates) :
    (∀ (ops : List Executor.InstrOp) (k : Nat) (y : Executor),
      Executor.runInstr env x (ops.take k) = Except.ok y →
        Disjoint y.addedStates y.removedStates) ∧
    (∀ current c isInternal r y, Executor.fork env x current c isInternal = Except.ok (r, y) →
      ∀ i, i ∈ y.addedStates → i ∈ x.addedStates ∨ (x.nextState ≤ i ∧ x.heap i = none)) ∧
    (∀ state conditions r y, Executor.branch env x state conditions = Except.ok (r, y) →
      ∀ i, i ∈ y.addedStates → i ∈ x.addedStates ∨ (x.nextState ≤ i ∧ x.heap i = none)) ∧
    (∀ s silenced y, s ∈ x.addedStates → x.terminateState s silenced = Except.ok y →
      y.addedStates = x.addedStates.erase s ∧ y.heap s = none ∧
        y.removedStates = x.removedStates) := by
  have hi : x.SetsInv := ⟨hfresh, hdis⟩
  refine ⟨?_, ?_, ?_, ?_⟩
  · intro ops k y h
    exact (Executor.runInstr_preserves env _ _ _ hi h).1.2
  · intro current c isInternal r y h
    exact (Executor.fork_preserves env _ _ _ _ _ _ hi h).2.2
  · intro state conditions r y h
    exact (Executor.branch_preserves env _ _ _ _ _ hi h).2.2
  · intro s silenced y hs h
    cases hst : x.heap s with
    | none => simp [Executor.terminateState, hst] at h
    | some st =>
      obtain ⟨x2, h2, -, -, hadd, -, -, -, -, hin⟩ :=
        Executor.terminateState_spec x s st silenced hst
      rw [h] at h2
      cases h2
      exact ⟨hadd, (hin hs).2.1, (hin hs).1⟩

/-- C20 (witness): the only state forks on a symbolic condition, the new state
1 is terminated, then the old state 0: after the fork state 1 is added, after
its termination nothing is added or removed, and at the end state 0 awaits
removal. -/
theorem added_removed_disjoint_witness :
    execOne.Fresh ∧ Disjoint execOne.addedStates execOne.removedStates ∧
      setsOutcome (Executor.runInstr envUnknown execOne (forkThenTerminate.take 1)) =
        some ([1], []) ∧
      setsOutcome (Executor.runInstr envUnknown execOne (forkThenTerminate.take 2)) =
        some ([], []) ∧
      setsOutcome (Executor.runInstr envUnknown execOne (forkThenTerminate.take 3)) =
        some ([], [0]) ∧
      ∀ (k : Nat) (y : Executor),
        Executor.runInstr envUnknown execOne (forkThenTerminate.take k) = Except.ok y →
          Disjoint y.addedStates y.removedStates :=
  ⟨fun i hle => ⟨(execOne_wellFormed i hle).1, (execOne_wellFormed i hle).2.2.2.1,
      (execOne_wellFormed i hle).2.2.2.2⟩,
    by decide, by decide, by decide, by decide,
    (added_removed_disjoint envUnknown execOne
      (fun i hle => ⟨(execOne_wellFormed i hle).1, (execOne_wellFormed i hle).2.2.2.1,
        (execOne_wellFormed i hle).2.2.2.2⟩)
      (by decide)).1 forkThenTerminate⟩

/-- C21: the invariant "addedStates is a subset of states" of Executor.h 126-135
does not hold during an instruction step.  From the single live state 0, a fork
on a symbolic condition, and likewise a two-way branch, leaves the new state 1
in `addedStates` while `states` is still the set with state 0 alone; state 1
enters `states` only in `updateStates`, which empties `addedStates`.  A state
terminated in between, here state 0, is a member of `states` when
`terminateState` inserts it into `removedStates`. -/
theorem added_states_outside_states :
    liveSetsOutcome (Except.ok execOne) = some ([0], [], []) ∧
      liveSetsOutcome (Executor.runInstr envUnknown execOne
        [Executor.InstrOp.fork 0 condX false]) = some ([0], [1], []) ∧
      liveSetsOutcome (Executor.runInstr envUnknown execOne
        [Executor.InstrOp.branch 0 [condX, Expr.Read 1 1]]) = some ([0], [1], []) ∧
      liveSetsOutcome (Executor.runInstr envUnknown execOne
        [Executor.InstrOp.fork 0 condX false, Executor.InstrOp.terminate 0 false]) =
          some ([0], [1], [0]) ∧
      liveSetsOutcome ((Executor.runInstr envUnknown execOne
        [Executor.InstrOp.fork 0 condX false]).bind Executor.updateStates) =
          some ([0, 1], [], []) := by
  decide

/-- C23: for every outcome r of the comparison, each unordered predicate is
true when r is unordered and otherwise has the result of the ordered predicate
of the same relation, UNO being true exactly when r is unordered; every
ordered predicate, ORD included, is false on the unordered outcome; FCMP_FALSE
is false and FCMP_TRUE is true on every outcome. -/
theorem fcmp_ordered_unordered (r : CmpResult) :
    (fcmpResult FCmpPredicate.FCMP_OEQ CmpResult.cmpUnordered = false ∧
      fcmpResult FCmpPredicate.FCMP_OGT CmpResult.cmpUnordered = false ∧
      fcmpResult FCmpPredicate.FCMP_OGE CmpResult.cmpUnordered = false ∧
      fcmpResult FCmpPredicate.FCMP_OLT CmpResult.cmpUnordered = false ∧
      fcmpResult FCmpPredicate.FCMP_OLE CmpResult.cmpUnordered = false ∧
      fcmpResult FCmpPredicate.FCMP_ONE CmpResult.cmpUnordered = false ∧
      fcmpResult FCmpPredicate.FCMP_ORD CmpResult.cmpUnordered = false) ∧
    (fcmpResult FCmpPredicate.FCMP_UEQ r =
        (decide (r = CmpResult.cmpUnordered) || fcmpResult FCmpPredicate.FCMP_OEQ r) ∧
      fcmpResult FCmpPredicate.FCMP_UGT r =
        (decide (r = CmpResult.cmpUnordered) || fcmpResult FCmpPredicate.FCMP_OGT r) ∧
      fcmpResult FCmpPredicate.FCMP_UGE r =
        (decide (r = CmpResult.cmpUnordered) || fcmpResult FCmpPredicate.FCMP_OGE r) ∧
      fcmpResult FCmpPredicate.FCMP_ULT r =
        (decide (r = CmpResult.cmpUnordered) || fcmpResult FCmpPredicate.FCMP_OLT r) ∧
      fcmpResult FCmpPredicate.FCMP_ULE r =
        (decide (r = CmpResult.cmpUnordered) || fcmpResult FCmpPredicate.FCMP_OLE r) ∧
      fcmpResult FCmpPredicate.FCMP_UNE r =
        (decide (r = CmpResult.cmpUnordered) || fcmpResult FCmpPredicate.FCMP_ONE r) ∧
      fcmpResult FCmpPredicate.FCMP_UNO r = decide (r = CmpResult.cmpUnordered)) ∧
    fcmpResult FCmpPredicate.FCMP_ORD r = !decide (r = CmpResult.cmpUnordered) ∧
    fcmpResult FCmpPredicate.FCMP_FALSE r = false ∧
    fcmpResult FCmpPredicate.FCMP_TRUE r = true := by
  cases r <;> decide

/-- C25: the resolution loop of a call through a symbolic function pointer
raises "invalid function pointer" on the state that executes the call, not on
the state of the iteration.  The pointer of state 0 is 100, a legal function,
or 200, which is none.  The first iteration constrains state 0 to 100 and
state 0 enters the function (function 7, stack depth 2); the second iteration
resolves the new state 1 to 200, and the error terminates state 0: state 0
awaits removal with the test case of suffix exec.err, and state 1, whose
pointer is not 100, stays added, in the calling frame, without a report. -/
theorem indirect_call_terminates_caller :
    callOutcome (Executor.callIndirect envPointer noDeclaration 0 pointerV [] 3
        execPointer 0 false) =
      some { removed := [0], added := [1],
             reported := [(0, some "exec.err",
               some "Error: invalid function pointer\nStack: \n")],
             entered := [some (7, 2, some (Expr.Eq pointerV (Expr.Constant 64 100))),
               some (0, 1, some (Expr.Eq (Expr.Constant 1 0)
                 (Expr.Eq pointerV (Expr.Constant 64 100))))] } := by
  decide

/-- C28: the copy assignment of `ref<T>` decrements before it increments, so
assigning a handle to itself when it is the only reference deletes the object.
After `new` and the construction of handle 0 from the pointer the count of
object 0 is 1, equal to the number of handles; `dec` then deletes the object
although handle 0 still points to it, and the `inc` that follows in the
assignment uses the deleted object.  Assigning from another handle of the
same object, with count 2, keeps the count. -/
theorem ref_self_assignment_deletes :
    runRefOps {} [RefOp.newObject, RefOp.fromPointer (some 0)] =
        Except.ok { objects := [some 1], refs := [some (some 0)] } ∧
      RefStore.handleCount { objects := [some 1], refs := [some (some 0)] } 0 = 1 ∧
      RefStore.dec { objects := [some 1], refs := [some (some 0)] } (some 0) =
        Except.ok { objects := [none], refs := [some (some 0)] } ∧
      runRefOps {} [RefOp.newObject, RefOp.fromPointer (some 0), RefOp.assign 0 0] =
        Except.error Fatal.invalidPointer ∧
      runRefOps {} [RefOp.newObject, RefOp.fromPointer (some 0), RefOp.copy 0,
          RefOp.assign 0 1] =
        Except.ok { objects := [some 2], refs := [some (some 0), some (some 0)] } :=
  ⟨rfl, rfl, rfl, rfl, rfl⟩

/-- C24: for a memory object of base address b and size s (an `unsigned`) with
b + s at most 2^W, W being the pointer width 32 or 64, a concrete W-bit
pointer p and an access of n ≥ 1 bytes, `getBoundsCheckPointer(p, n)` is a
Boolean constant, the true one exactly when n ≤ s, b ≤ p and p - b ≤ s - n;
it is false for every p below b and whenever n > s. -/
theorem boundsCheckPointer_concrete (W : Nat) (mo : MemoryObject) (p n : Nat)
    (hW : W = 32 ∨ W = 64) (hs : mo.size < 2 ^ 32) (hfit : mo.address + mo.size ≤ 2 ^ W)
    (hp : p < 2 ^ W) (hn : 1 ≤ n) :
    mo.getBoundsCheckPointer W (Expr.Constant W p) n =
        Expr.Constant 1
          (if n ≤ mo.size ∧ mo.address ≤ p ∧ p - mo.address ≤ mo.size - n then 1 else 0) ∧
      (mo.getBoundsCheckPointer W (Expr.Constant W p) n = Expr.Constant 1 1 ↔
        n ≤ mo.size ∧ mo.address ≤ p ∧ p - mo.address ≤ mo.size - n) ∧
      (p < mo.address → mo.getBoundsCheckPointer W (Expr.Constant W p) n = Expr.Constant 1 0) ∧
      (mo.size < n → mo.getBoundsCheckPointer W (Expr.Constant W p) n = Expr.Constant 1 0) := by
  have key : mo.getBoundsCheckPointer W (Expr.Constant W p) n =
      Expr.Constant 1
        (if n ≤ mo.size ∧ mo.address ≤ p ∧ p - mo.address ≤ mo.size - n then 1 else 0) := by
    unfold MemoryObject.getBoundsCheckPointer MemoryObject.getBoundsCheckOffset
      MemoryObject.getOffsetExpr MemoryObject.getBaseExpr Expr.SubExpr_create
    have h0 : (mo.size - n + 1) % 2 ^ 32 = mo.size - n + 1 :=
      Nat.mod_eq_of_lt (by omega)
    rw [h0]
    by_cases hle : n ≤ mo.size
    · simp only [hle, if_true, Expr.UltExpr_create, true_and]
      congr 1
      rcases hW with rfl | rfl
      · norm_num at hfit hp hs ⊢
        have h1 : p % 4294967296 = p := Nat.mod_eq_of_lt hp
        by_cases hb : mo.address < 4294967296
        · have h2 : mo.address % 4294967296 = mo.address := Nat.mod_eq_of_lt hb
          have h3 : (mo.size - n + 1) % 4294967296 = mo.size - n + 1 :=
            Nat.mod_eq_of_lt (by omega)
          rw [h1, h2, h3]
          by_cases hbp : mo.address ≤ p
          · have h4 : (p + 4294967296 - mo.address) % 4294967296 = p - mo.address := by
              omega
            rw [h4]
            split_ifs <;> omega
          · have h4 : (p + 4294967296 - mo.address) % 4294967296 =
                p + 4294967296 - mo.address := Nat.mod_eq_of_lt (by omega)
            rw [h4]
            split_ifs <;> omega
        · omega
      · norm_num at hfit hp hs ⊢
        have h1 : p % 18446744073709551616 = p := Nat.mod_eq_of_lt hp
        by_cases hb : mo.address < 18446744073709551616
        · have h2 : mo.address % 18446744073709551616 = mo.address := Nat.mod_eq_of_lt hb
          have h3 : (mo.size - n + 1) % 18446744073709551616 = mo.size - n + 1 :=
            Nat.mod_eq_of_lt (by omega)
          rw [h1, h2, h3]
          by_cases hbp : mo.address ≤ p
          · have h4 : (p + 18446744073709551616 - mo.address) % 18446744073709551616 =
                p - mo.address := by omega
            rw [h4]
            split_ifs <;> omega
          · have h4 : (p + 18446744073709551616 - mo.address) % 18446744073709551616 =
                p + 18446744073709551616 - mo.address := Nat.mod_eq_of_lt (by omega)
            rw [h4]
            split_ifs <;> omega
        · omega
    · simp only [hle, if_false, false_and]
  refine ⟨key, ?_, ?_, ?_⟩
  · rw [key]
    by_cases hc : n ≤ mo.size ∧ mo.address ≤ p ∧ p - mo.address ≤ mo.size - n
    · simp [hc]
    · simp [hc]
  · intro hlt
    rw [key, if_neg (fun h => by omega)]
  · intro hlt
    rw [key, if_neg (fun h => by omega)]

/-- C24 (witness): the object of four bytes at address 4096 with a 64-bit
pointer: a two-byte access at 4098 is inside, at 4099 it is not, and neither
is any access below the base. -/
theorem boundsCheckPointer_concrete_witness :
    ((({ address := 4096, size := 4 } : MemoryObject).getBoundsCheckPointer 64
        (Expr.Constant 64 4098) 2 = Expr.Constant 1 1) ∧
      (({ address := 4096, size := 4 } : MemoryObject).getBoundsCheckPointer 64
        (Expr.Constant 64 4099) 2 = Expr.Constant 1 0) ∧
      (({ address := 4096, size := 4 } : MemoryObject).getBoundsCheckPointer 64
        (Expr.Constant 64 4095) 1 = Expr.Constant 1 0)) ∧
    (({ address := 4096, size := 4 } : MemoryObject).getBoundsCheckPointer 64
        (Expr.Constant 64 4098) 2 = Expr.Constant 1 1 ↔
      2 ≤ ({ address := 4096, size := 4 } : MemoryObject).size ∧
        ({ address := 4096, size := 4 } : MemoryObject).address ≤ 4098 ∧
        4098 - ({ address := 4096, size := 4 } : MemoryObject).address ≤
          ({ address := 4096, size := 4 } : MemoryObject).size - 2) :=
  ⟨by decide,
    (boundsCheckPointer_concrete 64 { address := 4096, size := 4 } 4098 2 (Or.inr rfl)
      (by decide) (by decide) (by decide) (by decide)).2.1⟩

namespace Expr

theorem eval_ExtractExpr_create (σ : Nat → Nat) (e : Expr) (o w : Nat) :
    eval σ (ExtractExpr_create e o w) = eval σ e / 2 ^ o % 2 ^ w := by
  cases e <;> simp [ExtractExpr_create, eval]

theorem getWidth_ExtractExpr_create (e : Expr) (o w : Nat) :
    getWidth (ExtractExpr_create e o w) = w := by
  cases e <;> simp [ExtractExpr_create, getWidth]

theorem eval_ConcatExpr_create (σ : Nat → Nat) (l r : Expr) :
    eval σ (ConcatExpr_create l r) = eval σ l * 2 ^ getWidth r + eval σ r := by
  cases l <;> cases r <;> simp only [ConcatExpr_create, eval, getWidth]
  rename_i w v w2 v2
  apply Nat.mod_eq_of_lt
  have h1 : v % 2 ^ w < 2 ^ w := Nat.mod_lt _ (Nat.two_pow_pos w)
  have h2 : v2 % 2 ^ w2 < 2 ^ w2 := Nat.mod_lt _ (Nat.two_pow_pos w2)
  calc v % 2 ^ w * 2 ^ w2 + v2 % 2 ^ w2 < v % 2 ^ w * 2 ^ w2 + 2 ^ w2 := by omega
    _ = (v % 2 ^ w + 1) * 2 ^ w2 := by ring
    _ ≤ 2 ^ w * 2 ^ w2 := Nat.mul_le_mul_right _ h1
    _ = 2 ^ (w + w2) := by rw [Nat.pow_add]

theorem getWidth_ConcatExpr_create (l r : Expr) :
    getWidth (ConcatExpr_create l r) = getWidth l + getWidth r := by
  cases l <;> cases r <;> simp [ConcatExpr_create, getWidth]

end Expr

namespace Executor

theorem eval_insertValue (σ : Nat → Nat) (agg val : Expr) (o : Nat)
    (hfit : 8 * o + val.getWidth ≤ agg.getWidth) (hW : agg.getWidth < 2 ^ 32) :
    Expr.eval σ (insertValue agg val o) =
      2 ^ (8 * o) * (2 ^ val.getWidth *
          (Expr.eval σ agg / 2 ^ (8 * o + val.getWidth) %
            2 ^ (agg.getWidth - (8 * o + val.getWidth))) + Expr.eval σ val) +
        Expr.eval σ agg % 2 ^ (8 * o) ∧
      (insertValue agg val o).getWidth = agg.getWidth := by
  have h1 : o * 8 % 2 ^ 32 = 8 * o := by
    rw [Nat.mod_eq_of_lt (by omega)]
    omega
  have h2 : (o * 8 + val.getWidth) % 2 ^ 32 = 8 * o + val.getWidth := by
    rw [Nat.mod_eq_of_lt (by omega)]
    omega
  unfold insertValue
  simp only [h1, h2]
  by_cases hl : 0 < 8 * o
  · by_cases hr : 8 * o + val.getWidth < agg.getWidth
    · simp only [hl, hr, if_true]
      refine ⟨?_, ?_⟩
      · simp only [Expr.eval_ConcatExpr_create, Expr.eval_ExtractExpr_create,
          Expr.getWidth_ConcatExpr_create, Expr.getWidth_ExtractExpr_create, Nat.pow_zero,
          Nat.div_one, Nat.pow_add]
        ring
      · simp only [Expr.getWidth_ConcatExpr_create, Expr.getWidth_ExtractExpr_create]
        omega
    · have he : agg.getWidth - (8 * o + val.getWidth) = 0 := by omega
      simp only [hl, hr, if_true, if_false, he]
      refine ⟨?_, ?_⟩
      · simp only [Expr.eval_ConcatExpr_create, Expr.eval_ExtractExpr_create,
          Expr.getWidth_ExtractExpr_create, Nat.pow_zero, Nat.div_one, Nat.mod_one]
        ring
      · simp only [Expr.getWidth_ConcatExpr_create, Expr.getWidth_ExtractExpr_create]
        omega
  · have ho : o = 0 := by omega
    subst ho
    by_cases hr : 8 * 0 + val.getWidth < agg.getWidth
    · simp only [hr, if_true, Nat.lt_irrefl, if_false, Nat.mul_zero]
      refine ⟨?_, ?_⟩
      · simp only [Expr.eval_ConcatExpr_create, Expr.eval_ExtractExpr_create,
          Nat.pow_zero, Nat.mod_one, Nat.zero_add, Nat.mul_zero]
        ring
      · simp only [Expr.getWidth_ConcatExpr_create, Expr.getWidth_ExtractExpr_create]
        omega
    · have he : agg.getWidth - (8 * 0 + val.getWidth) = 0 := by omega
      simp only [hr, if_false, Nat.lt_irrefl, Nat.mul_zero, he]
      refine ⟨?_, ?_⟩
      · simp only [Nat.pow_zero, Nat.mod_one]
        ring
      · omega

theorem testBit_insertValue (σ : Nat → Nat) (agg val : Expr) (o : Nat)
    (hfit : 8 * o + val.getWidth ≤ agg.getWidth) (hW : agg.getWidth < 2 ^ 32)
    (hval : Expr.eval σ val < 2 ^ val.getWidth) (i : Nat) :
    (Expr.eval σ (insertValue agg val o)).testBit i =
      if 8 * o ≤ i ∧ i < 8 * o + val.getWidth then (Expr.eval σ val).testBit (i - 8 * o)
      else (decide (i < agg.getWidth) && (Expr.eval σ agg).testBit i) := by
  rw [(eval_insertValue σ agg val o hfit hW).1]
  rw [Nat.testBit_mul_pow_two_add _ (Nat.mod_lt _ (Nat.two_pow_pos _))]
  by_cases h1 : i < 8 * o
  · rw [if_pos h1, if_neg (by omega), Nat.testBit_mod_two_pow]
    have : i < agg.getWidth := by omega
    simp [h1, this]
  · rw [if_neg h1, Nat.testBit_mul_pow_two_add _ hval]
    by_cases h2 : i - 8 * o < val.getWidth
    · rw [if_pos h2, if_pos (by omega)]
    · rw [if_neg h2, if_neg (by omega), Nat.testBit_mod_two_pow, ← Nat.shiftRight_eq_div_pow,
        Nat.testBit_shiftRight]
      have e : 8 * o + val.getWidth + (i - 8 * o - val.getWidth) = i := by omega
      rw [e]
      by_cases h3 : i < agg.getWidth
      · have : i - 8 * o - val.getWidth < agg.getWidth - (8 * o + val.getWidth) := by omega
        simp [h3, this]
      · have : ¬ i - 8 * o - val.getWidth < agg.getWidth - (8 * o + val.getWidth) := by omega
        simp [h3, this]

theorem testBit_extractValue (σ : Nat → Nat) (e : Expr) (o w : Nat) (ho : 8 * o < 2 ^ 32)
    (i : Nat) :
    (Expr.eval σ (extractValue e o w)).testBit i =
      (decide (i < w) && (Expr.eval σ e).testBit (8 * o + i)) := by
  have h1 : o * 8 % 2 ^ 32 = 8 * o := by
    rw [Nat.mod_eq_of_lt (by omega)]
    omega
  unfold extractValue
  rw [h1, Expr.eval_ExtractExpr_create, Nat.testBit_mod_two_pow, ← Nat.shiftRight_eq_div_pow,
    Nat.testBit_shiftRight]

end Executor

/-- C26: for an aggregate of width W below 2^32, a value of width w whose
value fits its width, and a byte offset o with 8*o + w ≤ W, the value built by
InsertValue has width W; its bits [8*o, 8*o + w) are the bits of the value and
every other bit below W is the bit of the aggregate; ExtractValue at offset o
and width w of the result gives the value, and ExtractValue at any range
inside the aggregate that is disjoint from the inserted one gives what it
gives on the aggregate. -/
theorem insertValue_extractValue (σ : Nat → Nat) (agg val : Expr) (o : Nat)
    (hfit : 8 * o + val.getWidth ≤ agg.getWidth) (hW : agg.getWidth < 2 ^ 32)
    (hval : Expr.eval σ val < 2 ^ val.getWidth) :
    (Executor.insertValue agg val o).getWidth = agg.getWidth ∧
      (∀ i, (Expr.eval σ (Executor.insertValue agg val o)).testBit i =
        if 8 * o ≤ i ∧ i < 8 * o + val.getWidth then (Expr.eval σ val).testBit (i - 8 * o)
        else (decide (i < agg.getWidth) && (Expr.eval σ agg).testBit i)) ∧
      Expr.eval σ (Executor.extractValue (Executor.insertValue agg val o) o val.getWidth) =
        Expr.eval σ val ∧
      (∀ o2 w2, 8 * o2 + w2 ≤ agg.getWidth →
        (8 * o2 + w2 ≤ 8 * o ∨ 8 * o + val.getWidth ≤ 8 * o2) →
        Expr.eval σ (Executor.extractValue (Executor.insertValue agg val o) o2 w2) =
          Expr.eval σ (Executor.extractValue agg o2 w2)) := by
  refine ⟨(Executor.eval_insertValue σ agg val o hfit hW).2,
    Executor.testBit_insertValue σ agg val o hfit hW hval, ?_, ?_⟩
  · apply Nat.eq_of_testBit_eq
    intro i
    rw [Executor.testBit_extractValue σ _ o _ (by omega),
      Executor.testBit_insertValue σ agg val o hfit hW hval]
    by_cases h : i < val.getWidth
    · rw [if_pos (by omega)]
      have e : 8 * o + i - 8 * o = i := by omega
      simp [h, e]
    · have : (Expr.eval σ val).testBit i = false :=
        Nat.testBit_lt_two_pow (Nat.lt_of_lt_of_le hval
          (Nat.pow_le_pow_right (by decide) (by omega)))
      simp [h, this]
  · intro o2 w2 hin hdis
    apply Nat.eq_of_testBit_eq
    intro i
    rw [Executor.testBit_extractValue σ _ o2 _ (by omega),
      Executor.testBit_extractValue σ _ o2 _ (by omega),
      Executor.testBit_insertValue σ agg val o hfit hW hval]
    by_cases h : i < w2
    · rw [if_neg (by omega)]
      have : 8 * o2 + i < agg.getWidth := by omega
      simp [h, this]
    · simp [h]

/-- C26 (witness): the byte 0xAB inserted at byte offset 1 of the 24-bit
constant 0x112233 gives 0x11AB33. -/
theorem insertValue_extractValue_witness :
    Executor.insertValue (Expr.Constant 24 0x112233) (Expr.Constant 8 0xAB) 1 =
        Expr.Constant 24 0x11AB33 ∧
      Expr.eval (fun _ => 0) (Executor.extractValue
        (Executor.insertValue (Expr.Constant 24 0x112233) (Expr.Constant 8 0xAB) 1) 1
        (Expr.Constant 8 0xAB).getWidth) = Expr.eval (fun _ => 0) (Expr.Constant 8 0xAB) :=
  ⟨by decide,
    (insertValue_extractValue (fun _ => 0) (Expr.Constant 24 0x112233) (Expr.Constant 8 0xAB) 1
      (by decide) (by decide) (by decide)).2.2.1⟩

theorem varargsSize_sum (W : Nat) (l : List Expr) :
    ∀ acc, acc + (l.map (varargsSlot W)).sum < 2 ^ 32 →
      varargsSize W l acc = acc + (l.map (varargsSlot W)).sum := by
  induction l with
  | nil => intro acc _; simp [varargsSize]
  | cons a rest ih =>
    intro acc h
    simp only [List.map_cons, List.sum_cons] at h ⊢
    simp only [varargsSize]
    rw [Nat.mod_eq_of_lt (by omega), ih _ (by omega)]
    omega

theorem varargsWrite_offsets (W : Nat) (hW : W = 32 ∨ W = 64) (l : List Expr) :
    ∀ (os : ObjectState) (off : Nat), off + (l.map (varargsSlot W)).sum < 2 ^ 32 →
      varargsWrite W os off l =
        Except.ok (List.foldl (fun o p => ObjectState.write o p.1 p.2) os
          (List.zip ((List.range l.length).map
            (fun i => off + ((l.take i).map (varargsSlot W)).sum)) l)) := by
  induction l with
  | nil => intro os off _; simp [varargsWrite]
  | cons a rest ih =>
    intro os off h
    simp only [List.map_cons, List.sum_cons] at h
    have hstep : varargsWrite W os off (a :: rest) =
        varargsWrite W (os.write off a) ((off + varargsSlot W a) % 2 ^ 32) rest := by
      rcases hW with rfl | rfl <;> simp [varargsWrite]
    rw [hstep, Nat.mod_eq_of_lt (by omega), ih _ _ (by omega)]
    simp only [List.length_cons, List.range_succ_eq_map, List.map_cons, List.take_zero,
      List.map_nil, List.sum_nil, Nat.add_zero, List.zip_cons_cons, List.foldl_cons,
      List.map_map]
    congr 3
    apply List.map_congr_left
    intro i _
    simp only [Function.comp, List.take_succ_cons, List.map_cons, List.sum_cons]
    omega

theorem varargsSlot_minBytes (W : Nat) (hW : W = 32 ∨ W = 64) (a : Expr) :
    Expr.getMinBytesForWidth a.getWidth ≤ varargsSlot W a := by
  rcases hW with rfl | rfl
  · simp [varargsSlot]
  · simp only [varargsSlot, RoundUpToAlignment, Expr.getMinBytesForWidth]
    norm_num
    omega

theorem varargs_prefix_le (W : Nat) (hW : W = 32 ∨ W = 64) (l : List Expr) (i : Nat)
    (h : i < l.length) :
    ((l.take i).map (varargsSlot W)).sum + Expr.getMinBytesForWidth (l[i]).getWidth ≤
      (l.map (varargsSlot W)).sum := by
  have h1 := List.sum_take_add_sum_drop (l.map (varargsSlot W)) i
  rw [← List.map_take, ← List.map_drop, List.drop_eq_getElem_cons h] at h1
  simp only [List.map_cons, List.sum_cons] at h1
  have h2 := varargsSlot_minBytes W hW l[i]
  omega

theorem bindObjectInState_cell (x : Executor) (state : Nat) (st : ExecutionState)
    (mo : MemoryObject) (isLocal : Bool) (h : x.heap state = some st) :
    ∃ x1, Executor.bindObjectInState x state mo isLocal none = Except.ok (x.store.next, x1) ∧
      x1.store.cells x.store.next =
        some { (ObjectState.create mo) with copyOnWriteOwner := st.addressSpace.cowKey } := by
  unfold Executor.bindObjectInState
  rw [h]
  simp only [AddressSpace.bindObject, Function.update_same, ObjectState.create, if_true]
  refine ⟨_, rfl, ?_⟩
  simp [Executor.setState]

theorem callVarargs_ok (env : Env) (x1 : Executor) (state : Nat) (st1 st2 : ExecutionState)
    (extras : List Expr) (mo : MemoryObject) (mm : MemoryManager)
    (h : x1.heap state = some st1)
    (hW : env.pointerWidth = 32 ∨ env.pointerWidth = 64)
    (hsum : (extras.map (varargsSlot env.pointerWidth)).sum < 2 ^ 32)
    (halloc : x1.memory.allocate st1 (extras.map (varargsSlot env.pointerWidth)).sum true false
      (env.instOf st1.prevPC) = (some mo, mm, st2)) :
    ∃ x2, Executor.bindObjectInState
          ({ x1 with memory := mm }.setState state { st2 with varargs := some mo })
          state mo true none = Except.ok (x1.store.next, x2) ∧
      x2.store.cells x1.store.next =
        some { (ObjectState.create mo) with copyOnWriteOwner := st2.addressSpace.cowKey } ∧
      Executor.callVarargs env x1 state extras =
        Except.ok (true, x2.modifyObject x1.store.next (fun _ =>
          List.foldl (fun o1 p => ObjectState.write o1 p.1 p.2)
            { (ObjectState.create mo) with copyOnWriteOwner := st2.addressSpace.cowKey }
            (List.zip ((List.range extras.length).map
              (fun i => ((extras.take i).map (varargsSlot env.pointerWidth)).sum)) extras))) := by
  have hsize := varargsSize_sum env.pointerWidth extras 0 (by omega)
  rw [Nat.zero_add] at hsize
  have hw := varargsWrite_offsets env.pointerWidth hW extras
    { (ObjectState.create mo) with copyOnWriteOwner := st2.addressSpace.cowKey } 0 (by omega)
  simp only [Nat.zero_add] at hw
  obtain ⟨x2, hb, hcell⟩ := bindObjectInState_cell
    ({ x1 with memory := mm }.setState state { st2 with varargs := some mo }) state
    { st2 with varargs := some mo } mo true (by simp [Executor.setState])
  refine ⟨x2, hb, hcell, ?_⟩
  unfold Executor.callVarargs
  rw [h]
  simp only [hsize]
  rw [halloc]
  simp only []
  have hb2 : Executor.bindObjectInState
      ({ x1 with memory := mm }.setState state { st2 with varargs := some mo })
      state mo true none = Except.ok (x1.store.next, x2) := hb
  rw [hb2]
  simp only []
  have hcell2 : x2.store.cells x1.store.next =
      some { (ObjectState.create mo) with copyOnWriteOwner := st2.addressSpace.cowKey } := hcell
  rw [hcell2]
  simp only []
  rw [hw]

/-- C27: a live state calls a variadic function with a body, with at least as
many arguments as the function has formal parameters, on a 32-bit or 64-bit
target; the slot sizes of the extra arguments add up to less than 2^32, the
range of the accumulator.  Then the size computed for the varargs object is
the sum of the slot sizes; when the allocation returns an object its size is
that sum, every extra argument together with the bytes of its width lies
below the size at the offset that is the sum of the slots before it, and
`executeCall` ends with the object bound, each extra argument written at that
offset into the new object state, and the formal parameters bound. -/
theorem varargs_layout (env : Env)
    (callDeclaration : Executor → Nat → KFunction → List Expr → Except Fatal Executor)
    (x : Executor) (state : Nat) (st st2 : ExecutionState) (f : KFunction)
    (arguments : List Expr) (mo : MemoryObject) (mm : MemoryManager)
    (hst : x.heap state = some st) (hbody : f.isDeclaration = false)
    (hvar : f.isVarArg = true) (hargs : f.numArgs ≤ arguments.length)
    (hW : env.pointerWidth = 32 ∨ env.pointerWidth = 64)
    (hsum : ((arguments.drop f.numArgs).map (varargsSlot env.pointerWidth)).sum < 2 ^ 32)
    (halloc : x.memory.allocate
        { (st.pushFrame st.prevPC f.function) with pc := f.instructions }
        ((arguments.drop f.numArgs).map (varargsSlot env.pointerWidth)).sum true false
        (env.instOf st.prevPC) = (some mo, mm, st2)) :
    varargsSize env.pointerWidth (arguments.drop f.numArgs) 0 =
        ((arguments.drop f.numArgs).map (varargsSlot env.pointerWidth)).sum ∧
      mo.size = ((arguments.drop f.numArgs).map (varargsSlot env.pointerWidth)).sum ∧
      (∀ (i : Nat) (h : i < (arguments.drop f.numArgs).length),
        (((arguments.drop f.numArgs).take i).map (varargsSlot env.pointerWidth)).sum +
          Expr.getMinBytesForWidth ((arguments.drop f.numArgs)[i]).getWidth ≤ mo.size) ∧
      ∃ (x2 : Executor) (o : ObjectState),
        x2.store.cells x.store.next = some o ∧ o.size = mo.size ∧
        o.concreteStore.length = mo.size ∧
        Executor.executeCall env callDeclaration x state f arguments =
          Except.ok ((x2.modifyObject x.store.next (fun _ =>
            List.foldl (fun o1 p => ObjectState.write o1 p.1 p.2) o
              (List.zip ((List.range (arguments.drop f.numArgs).length).map
                (fun i => (((arguments.drop f.numArgs).take i).map
                  (varargsSlot env.pointerWidth)).sum))
                (arguments.drop f.numArgs)))).bindArguments state f.numArgs arguments) := by
  have hsize := varargsSize_sum env.pointerWidth (arguments.drop f.numArgs) 0 (by omega)
  rw [Nat.zero_add] at hsize
  have hmo : mo.size = ((arguments.drop f.numArgs).map (varargsSlot env.pointerWidth)).sum := by
    simp only [MemoryManager.allocate] at halloc
    split_ifs at halloc
    all_goals first
      | (cases halloc; rfl)
      | cases halloc
  refine ⟨hsize, hmo, ?_, ?_⟩
  · intro i h
    rw [hmo]
    exact varargs_prefix_le env.pointerWidth hW _ i h
  · obtain ⟨x2, -, hcell, hcall⟩ := callVarargs_ok env
      (x.setState state { (st.pushFrame st.prevPC f.function) with pc := f.instructions })
      state _ st2 (arguments.drop f.numArgs) mo mm
      (by simp only [Executor.setState, Function.update_same]) hW hsum halloc
    refine ⟨x2, _, hcell, rfl, by simp [ObjectState.create], ?_⟩
    unfold Executor.executeCall
    have hlt : ¬ arguments.length < f.numArgs := by omega
    simp only [hbody, hvar, hst, hlt, Bool.false_eq_true, if_false, Bool.not_true]
    rw [hcall]
    rfl

/-- C27 (witness): the single state calls a variadic function of one formal
parameter with a 32-bit and a 64-bit extra argument on a 64-bit target: the
object has two slots of eight bytes, the extra arguments are written at the
offsets 0 and 8, and the formal parameter is bound. -/
theorem varargs_layout_witness :
    varargsOutcome (Executor.executeCall envUnknown noDeclaration execOne 0 variadicF
        variadicArgs) =
      some { varargs := some variadicObject, locals := [(0, Expr.Constant 32 7)],
             bytes := some [1, 0, 0, 0, 0, 0, 0, 0, 2, 0, 0, 0, 0, 0, 0, 0] } ∧
    (varargsSize envUnknown.pointerWidth (variadicArgs.drop variadicF.numArgs) 0 =
        ((variadicArgs.drop variadicF.numArgs).map
          (varargsSlot envUnknown.pointerWidth)).sum ∧
      variadicObject.size =
        ((variadicArgs.drop variadicF.numArgs).map
          (varargsSlot envUnknown.pointerWidth)).sum ∧
      ∀ (i : Nat) (h : i < (variadicArgs.drop variadicF.numArgs).length),
        (((variadicArgs.drop variadicF.numArgs).take i).map
            (varargsSlot envUnknown.pointerWidth)).sum +
          Expr.getMinBytesForWidth ((variadicArgs.drop variadicF.numArgs)[i]).getWidth ≤
            variadicObject.size) :=
  ⟨by decide,
    (varargs_layout envUnknown noDeclaration execOne 0 initialState
      { ({ (initialState.pushFrame initialState.prevPC variadicF.function) with
            pc := variadicF.instructions } : ExecutionState) with
        addressPool := { next := 4112 } }
      variadicF variadicArgs variadicObject
      { objects := [variadicObject], counter := 1, allocations := 1 }
      rfl rfl rfl (by decide) (Or.inr rfl) (by decide) (by decide)).1,
    (varargs_layout envUnknown noDeclaration execOne 0 initialState
      { ({ (initialState.pushFrame initialState.prevPC variadicF.function) with
            pc := variadicF.instructions } : ExecutionState) with
        addressPool := { next := 4112 } }
      variadicF variadicArgs variadicObject
      { objects := [variadicObject], counter := 1, allocations := 1 }
      rfl rfl rfl (by decide) (Or.inr rfl) (by decide) (by decide)).2.1,
    (varargs_layout envUnknown noDeclaration execOne 0 initialState
      { ({ (initialState.pushFrame initialState.prevPC variadicF.function) with
            pc := variadicF.instructions } : ExecutionState) with
        addressPool := { next := 4112 } }
      variadicF variadicArgs variadicObject
      { objects := [variadicObject], counter := 1, allocations := 1 }
      rfl rfl rfl (by decide) (Or.inr rfl) (by decide) (by decide)).2.2.1⟩

namespace Expr

theorem EqExpr_create_left (l r : Expr) (h : l.isConstant = false) :
    EqExpr_create l r = Eq l r := by
  cases l <;> simp_all [EqExpr_create, isConstant]

theorem AndExpr_create_right (l r : Expr) (h : r.isConstant = false) :
    AndExpr_create l r = And l r := by
  cases l <;> cases r <;> simp_all [AndExpr_create, isConstant]

theorem OrExpr_create_left (l r : Expr) (h : l.isConstant = false) :
    OrExpr_create l r = Or l r := by
  cases l <;> simp_all [OrExpr_create, isConstant]

theorem OrExpr_create_right (l r : Expr) (h : r.isConstant = false) :
    OrExpr_create l r = Or l r := by
  cases l <;> cases r <;> simp_all [OrExpr_create, isConstant]

theorem lor_eq_zero (a b : Nat) : Nat.lor a b = 0 ↔ a = 0 ∧ b = 0 := by
  constructor
  · intro h
    have h0 : a ||| b = 0 := h
    have hb : ∀ i, (a.testBit i || b.testBit i) = false := by
      intro i
      rw [← Nat.testBit_or, h0]
      simp
    constructor
    · apply Nat.eq_of_testBit_eq
      intro i
      have := hb i
      simp only [Bool.or_eq_false_iff] at this
      simp [this.1]
    · apply Nat.eq_of_testBit_eq
      intro i
      have := hb i
      simp only [Bool.or_eq_false_iff] at this
      simp [this.2]
  · rintro ⟨rfl, rfl⟩
    rfl

theorem holds_Or (σ : Nat → Nat) (a b : Expr) :
    holds σ (Or a b) ↔ holds σ a ∨ holds σ b := by
  unfold holds
  simp only [eval, ne_eq, lor_eq_zero]
  tauto

theorem holds_Eq (σ : Nat → Nat) (a b : Expr) :
    holds σ (Eq a b) ↔ eval σ a = eval σ b := by
  unfold holds
  simp only [eval]
  by_cases h : eval σ a = eval σ b <;> simp [h]

end Expr

namespace Executor

theorem addTarget_keys (t : List (Nat × Expr)) (b : Nat) (e : Expr) :
    (addTarget t b e).map Prod.fst =
      if b ∈ t.map Prod.fst then t.map Prod.fst else t.map Prod.fst ++ [b] := by
  induction t with
  | nil => simp [addTarget]
  | cons p rest ih =>
    obtain ⟨s, old⟩ := p
    by_cases hs : s = b
    · subst hs
      simp [addTarget]
    · have hne : ¬ b = s := fun h => hs h.symm
      simp only [addTarget, hs, if_false, List.map_cons, ih, List.mem_cons, hne, false_or]
      by_cases hm : b ∈ rest.map Prod.fst
      · simp [hm]
      · simp [hm]

theorem addTarget_holds (σ : Nat → Nat) (t : List (Nat × Expr)) (b : Nat) (e : Expr)
    (hor : ∀ k old, (k, old) ∈ t →
      (Expr.holds σ (Expr.OrExpr_create e old) ↔ Expr.holds σ e ∨ Expr.holds σ old))
    (k : Nat) :
    (∃ e0, (k, e0) ∈ addTarget t b e ∧ Expr.holds σ e0) ↔
      (∃ e0, (k, e0) ∈ t ∧ Expr.holds σ e0) ∨ (k = b ∧ Expr.holds σ e) := by
  induction t with
  | nil =>
    simp only [addTarget, List.mem_singleton, Prod.mk.injEq, List.not_mem_nil, false_and,
      exists_false, false_or]
    constructor
    · rintro ⟨e0, ⟨rfl, rfl⟩, h⟩
      exact ⟨rfl, h⟩
    · rintro ⟨rfl, h⟩
      exact ⟨e, ⟨rfl, rfl⟩, h⟩
  | cons p rest ih =>
    obtain ⟨s, old⟩ := p
    have ih1 := ih (fun k0 o ho => hor k0 o (List.mem_cons_of_mem _ ho))
    by_cases hs : s = b
    · subst hs
      have h1 := hor s old (List.mem_cons_self _ _)
      simp only [addTarget, if_true, List.mem_cons, Prod.mk.injEq]
      constructor
      · rintro ⟨e0, (⟨rfl, rfl⟩ | hm), h⟩
        · rcases h1.1 h with h | h
          · exact Or.inr ⟨rfl, h⟩
          · exact Or.inl ⟨old, Or.inl ⟨rfl, rfl⟩, h⟩
        · exact Or.inl ⟨e0, Or.inr hm, h⟩
      · rintro (⟨e0, (⟨rfl, rfl⟩ | hm), h⟩ | ⟨rfl, h⟩)
        · exact ⟨_, Or.inl ⟨rfl, rfl⟩, h1.2 (Or.inr h)⟩
        · exact ⟨e0, Or.inr hm, h⟩
        · exact ⟨_, Or.inl ⟨rfl, rfl⟩, h1.2 (Or.inl h)⟩
    · simp only [addTarget, hs, if_false, List.mem_cons, Prod.mk.injEq]
      constructor
      · rintro ⟨e0, (⟨rfl, rfl⟩ | hm), h⟩
        · exact Or.inl ⟨_, Or.inl ⟨rfl, rfl⟩, h⟩
        · rcases ih1.1 ⟨e0, hm, h⟩ with ⟨e1, hm1, h1⟩ | h1
          · exact Or.inl ⟨e1, Or.inr hm1, h1⟩
          · exact Or.inr h1
      · rintro (⟨e0, (⟨rfl, rfl⟩ | hm), h⟩ | hb)
        · exact ⟨_, Or.inl ⟨rfl, rfl⟩, h⟩
        · obtain ⟨e1, hm1, h1⟩ := ih1.2 (Or.inl ⟨e0, hm, h⟩)
          exact ⟨e1, Or.inr hm1, h1⟩
        · obtain ⟨e1, hm1, h1⟩ := ih1.2 (Or.inr hb)
          exact ⟨e1, Or.inr hm1, h1⟩

theorem addTarget_nonconstant (t : List (Nat × Expr)) (b : Nat) (e : Expr)
    (he : e.isConstant = false) (ht : ∀ p ∈ t, p.2.isConstant = false) :
    ∀ p ∈ addTarget t b e, p.2.isConstant = false := by
  induction t with
  | nil =>
    intro p hp
    simp only [addTarget, List.mem_singleton] at hp
    subst hp
    exact he
  | cons q rest ih =>
    obtain ⟨s, old⟩ := q
    intro p hp
    by_cases hs : s = b
    · simp only [addTarget, hs, if_true, List.mem_cons] at hp
      rcases hp with rfl | hp
      · rw [Expr.OrExpr_create_left _ _ he]
        rfl
      · exact ht p (List.mem_cons_of_mem _ hp)
    · simp only [addTarget, hs, if_false, List.mem_cons] at hp
      rcases hp with rfl | hp
      · exact ht _ (List.mem_cons_self _ _)
      · exact ih (fun p hp => ht p (List.mem_cons_of_mem _ hp)) p hp

theorem switchCases_fold (env : Env) (st : ExecutionState) (cond : Expr)
    (feas : Nat × Expr → Bool) (cases : List (Nat × Expr)) :
    (∀ q, ∀ c ∈ cases,
      (TimingSolver.mayBeTrue env q st (Expr.EqExpr_create cond c.2)).1 = some (feas c)) →
    ∀ d t q, ∃ q1, switchCases env st cond cases d t q =
      Except.ok
        (cases.foldl (fun acc c => Expr.AndExpr_create acc
            (Expr.createIsZero (Expr.EqExpr_create cond c.2))) d,
          cases.foldl (fun ts c =>
            if feas c then addTarget ts c.1 (Expr.EqExpr_create cond c.2) else ts) t,
          q1) := by
  induction cases with
  | nil =>
    intro _ d t q
    exact ⟨q, rfl⟩
  | cons c rest ih =>
    intro hfeas d t q
    obtain ⟨succ, value⟩ := c
    have h1 := hfeas q (succ, value) (List.mem_cons_self _ _)
    rcases hm : TimingSolver.mayBeTrue env q st (Expr.EqExpr_create cond value) with ⟨r, q1⟩
    rw [hm] at h1
    simp only at h1
    subst h1
    obtain ⟨q2, h2⟩ := ih (fun q c hc => hfeas q c (List.mem_cons_of_mem _ hc))
      (Expr.AndExpr_create d (Expr.createIsZero (Expr.EqExpr_create cond value)))
      (if feas (succ, value) then addTarget t succ (Expr.EqExpr_create cond value) else t) q1
    refine ⟨q2, ?_⟩
    simp only [switchCases, hm, List.foldl_cons]
    exact h2

theorem targets_fold_inv (cond : Expr) (hnc : cond.isConstant = false)
    (feas : Nat × Expr → Bool) (cases : List (Nat × Expr)) :
    ∀ t : List (Nat × Expr), (t.map Prod.fst).Nodup → (∀ p ∈ t, p.2.isConstant = false) →
      ((cases.foldl (fun ts c =>
          if feas c then addTarget ts c.1 (Expr.EqExpr_create cond c.2) else ts) t).map
            Prod.fst).Nodup ∧
      (∀ p ∈ cases.foldl (fun ts c =>
          if feas c then addTarget ts c.1 (Expr.EqExpr_create cond c.2) else ts) t,
        p.2.isConstant = false) ∧
      (∀ k, k ∈ (cases.foldl (fun ts c =>
          if feas c then addTarget ts c.1 (Expr.EqExpr_create cond c.2) else ts) t).map
            Prod.fst ↔
        k ∈ t.map Prod.fst ∨ ∃ c ∈ cases, feas c = true ∧ c.1 = k) ∧
      (∀ σ k, (∃ e0, (k, e0) ∈ cases.foldl (fun ts c =>
          if feas c then addTarget ts c.1 (Expr.EqExpr_create cond c.2) else ts) t ∧
            Expr.holds σ e0) ↔
        (∃ e0, (k, e0) ∈ t ∧ Expr.holds σ e0) ∨
          ∃ c ∈ cases, feas c = true ∧ c.1 = k ∧ Expr.eval σ cond = Expr.eval σ c.2) := by
  induction cases with
  | nil =>
    intro t hnd hcon
    exact ⟨hnd, hcon, fun k => by simp, fun σ k => by simp⟩
  | cons c rest ih =>
    intro t hnd hcon
    simp only [List.foldl_cons]
    have hm : Expr.EqExpr_create cond c.2 = Expr.Eq cond c.2 :=
      Expr.EqExpr_create_left _ _ hnc
    by_cases hf : feas c = true
    · simp only [hf, if_true]
      have hnd1 : ((addTarget t c.1 (Expr.EqExpr_create cond c.2)).map Prod.fst).Nodup := by
        rw [addTarget_keys]
        by_cases hin : c.1 ∈ t.map Prod.fst
        · rw [if_pos hin]
          exact hnd
        · rw [if_neg hin]
          exact List.Nodup.append hnd (List.nodup_singleton _)
            (by
              intro a ha hb
              rw [List.mem_singleton] at hb
              subst hb
              exact hin ha)
      have hcon1 := addTarget_nonconstant t c.1 (Expr.EqExpr_create cond c.2)
        (by rw [hm]; rfl) hcon
      obtain ⟨a1, a2, a3, a4⟩ := ih _ hnd1 hcon1
      refine ⟨a1, a2, ?_, ?_⟩
      · intro k
        rw [a3 k, addTarget_keys]
        by_cases hin : c.1 ∈ t.map Prod.fst
        · rw [if_pos hin]
          constructor
          · rintro (h | ⟨d, hd, h1, h2⟩)
            · exact Or.inl h
            · exact Or.inr ⟨d, List.mem_cons_of_mem _ hd, h1, h2⟩
          · rintro (h | ⟨d, hd, h1, h2⟩)
            · exact Or.inl h
            · rcases List.mem_cons.1 hd with rfl | hd
              · exact Or.inl (h2 ▸ hin)
              · exact Or.inr ⟨d, hd, h1, h2⟩
        · rw [if_neg hin]
          simp only [List.mem_append, List.mem_singleton]
          constructor
          · rintro ((h | h) | ⟨d, hd, h1, h2⟩)
            · exact Or.inl h
            · exact Or.inr ⟨c, List.mem_cons_self _ _, hf, h.symm⟩
            · exact Or.inr ⟨d, List.mem_cons_of_mem _ hd, h1, h2⟩
          · rintro (h | ⟨d, hd, h1, h2⟩)
            · exact Or.inl (Or.inl h)
            · rcases List.mem_cons.1 hd with rfl | hd
              · exact Or.inl (Or.inr h2.symm)
              · exact Or.inr ⟨d, hd, h1, h2⟩
      · intro σ k
        rw [a4 σ k, addTarget_holds σ t c.1 _ (fun k0 old _ => by
          rw [hm, Expr.OrExpr_create_left (Expr.Eq cond c.2) old rfl]
          exact Expr.holds_Or σ _ _) k, hm, Expr.holds_Eq]
        constructor
        · rintro ((h | ⟨h1, h2⟩) | ⟨d, hd, h1, h2, h3⟩)
          · exact Or.inl h
          · exact Or.inr ⟨c, List.mem_cons_self _ _, hf, h1.symm, h2⟩
          · exact Or.inr ⟨d, List.mem_cons_of_mem _ hd, h1, h2, h3⟩
        · rintro (h | ⟨d, hd, h1, h2, h3⟩)
          · exact Or.inl (Or.inl h)
          · rcases List.mem_cons.1 hd with rfl | hd
            · exact Or.inl (Or.inr ⟨h2.symm, h3⟩)
            · exact Or.inr ⟨d, hd, h1, h2, h3⟩
    · simp only [hf, Bool.false_eq_true, if_false]
      obtain ⟨a1, a2, a3, a4⟩ := ih _ hnd hcon
      refine ⟨a1, a2, ?_, ?_⟩
      · intro k
        rw [a3 k]
        constructor
        · rintro (h | ⟨d, hd, h1, h2⟩)
          · exact Or.inl h
          · exact Or.inr ⟨d, List.mem_cons_of_mem _ hd, h1, h2⟩
        · rintro (h | ⟨d, hd, h1, h2⟩)
          · exact Or.inl h
          · rcases List.mem_cons.1 hd with rfl | hd
            · exact absurd h1 hf
            · exact Or.inr ⟨d, hd, h1, h2⟩
      · intro σ k
        rw [a4 σ k]
        constructor
        · rintro (h | ⟨d, hd, h1, h2, h3⟩)
          · exact Or.inl h
          · exact Or.inr ⟨d, List.mem_cons_of_mem _ hd, h1, h2, h3⟩
        · rintro (h | ⟨d, hd, h1, h2, h3⟩)
          · exact Or.inl h
          · rcases List.mem_cons.1 hd with rfl | hd
            · exact absurd h1 hf
            · exact Or.inr ⟨d, hd, h1, h2, h3⟩

theorem default_fold_eval (σ : Nat → Nat) (cond : Expr) (hnc : cond.isConstant = false)
    (cases : List (Nat × Expr)) :
    ∀ d : Expr, (Expr.eval σ d = 0 ∨ Expr.eval σ d = 1) →
      Expr.eval σ (cases.foldl (fun acc c => Expr.AndExpr_create acc
          (Expr.createIsZero (Expr.EqExpr_create cond c.2))) d) =
        if Expr.eval σ d = 1 ∧ ∀ c ∈ cases, Expr.eval σ cond ≠ Expr.eval σ c.2 then 1
        else 0 := by
  induction cases with
  | nil =>
    intro d hd
    rcases hd with hd | hd <;> simp [hd]
  | cons c rest ih =>
    intro d hd
    have hm : Expr.EqExpr_create cond c.2 = Expr.Eq cond c.2 :=
      Expr.EqExpr_create_left _ _ hnc
    have hz : (Expr.createIsZero (Expr.Eq cond c.2)).isConstant = false :=
      Expr.isConstant_createIsZero _ rfl
    have hstep : Expr.eval σ (Expr.AndExpr_create d (Expr.createIsZero (Expr.Eq cond c.2))) =
        if Expr.eval σ d = 1 ∧ Expr.eval σ cond ≠ Expr.eval σ c.2 then 1 else 0 := by
      rw [Expr.AndExpr_create_right _ _ hz]
      simp only [Expr.eval, Expr.createIsZero, Expr.EqExpr_create, Expr.getWidth]
      by_cases he : Expr.eval σ cond = Expr.eval σ c.2
      · rcases hd with hd | hd <;> simp [hd, he] <;> decide
      · rcases hd with hd | hd <;> simp [hd, he] <;> decide
    simp only [List.foldl_cons, hm]
    rw [ih _ (by rw [hstep]; split_ifs <;> simp), hstep]
    by_cases hall : Expr.eval σ d = 1 ∧ ∀ c1 ∈ c :: rest, Expr.eval σ cond ≠ Expr.eval σ c1.2
    · rw [if_pos hall, if_pos]
      refine ⟨?_, fun c1 hc1 => hall.2 c1 (List.mem_cons_of_mem _ hc1)⟩
      rw [if_pos ⟨hall.1, hall.2 c (List.mem_cons_self _ _)⟩]
    · rw [if_neg hall, if_neg]
      rintro ⟨h1, h2⟩
      apply hall
      by_cases h3 : Expr.eval σ d = 1 ∧ Expr.eval σ cond ≠ Expr.eval σ c.2
      · refine ⟨h3.1, fun c1 hc1 => ?_⟩
        rcases List.mem_cons.1 hc1 with rfl | h
        · exact h3.2
        · exact h2 _ h
      · rw [if_neg h3] at h1
        cases h1

theorem modify_heap (x : Executor) (id : Nat) (f : ExecutionState → ExecutionState) (j : Nat) :
    (x.modify id f).heap j = if j = id then (x.heap id).map f else x.heap j := by
  unfold modify
  cases h : x.heap id with
  | none =>
    by_cases hj : j = id
    · subst hj
      simp [h]
    · simp [hj]
  | some st =>
    by_cases hj : j = id
    · subst hj
      simp [setState]
    · simp [setState, hj, Function.update_noteq hj]

theorem transferAll_frame (env : Env) :
    ∀ (targets : List (Nat × Expr)) (branches : List (Option Nat)) (x : Executor) (j : Nat),
      some j ∉ branches → (transferAll env x targets branches).heap j = x.heap j := by
  intro targets
  induction targets with
  | nil =>
    intro branches x j _
    simp [transferAll]
  | cons t ts ih =>
    intro branches x j hj
    cases branches with
    | nil => simp [transferAll]
    | cons b bs =>
      cases b with
      | none =>
        simp only [transferAll]
        exact ih bs x j (fun h => hj (List.mem_cons_of_mem _ h))
      | some s =>
        obtain ⟨dst, e⟩ := t
        simp only [transferAll]
        rw [ih bs _ j (fun h => hj (List.mem_cons_of_mem _ h))]
        have hne : j ≠ s := fun h => hj (h ▸ List.mem_cons_self _ _)
        simp [transferToBasicBlock, modify_heap, hne]

theorem transferAll_heap (env : Env) :
    ∀ (targets : List (Nat × Expr)) (branches : List (Option Nat)) (x : Executor),
      (∀ (i j es : Nat), branches[i]? = some (some es) → branches[j]? = some (some es) →
        i = j) →
      ∀ (i : Nat) (es : Nat) (t : Nat × Expr),
        branches[i]? = some (some es) → targets[i]? = some t →
        (transferAll env x targets branches).heap es =
          (x.heap es).map (fun s => { s with pc := env.blockEntry t.1 }) := by
  intro targets
  induction targets with
  | nil =>
    intro branches x _ i es t _ ht
    simp at ht
  | cons t0 ts ih =>
    intro branches x hd i es t hb ht
    cases branches with
    | nil => simp at hb
    | cons b bs =>
      have hd1 : ∀ (i j es : Nat), bs[i]? = some (some es) → bs[j]? = some (some es) →
          i = j := by
        intro i j es hi hj
        have := hd (i + 1) (j + 1) es (by simpa using hi) (by simpa using hj)
        omega
      cases i with
      | zero =>
        simp only [List.getElem?_cons_zero, Option.some.injEq] at hb ht
        subst hb
        subst ht
        obtain ⟨dst, e⟩ := t0
        simp only [transferAll]
        have hnot : some es ∉ bs := by
          intro hm
          obtain ⟨k, hk⟩ := List.getElem?_of_mem hm
          have := hd 0 (k + 1) es (by simp) (by simpa using hk)
          omega
        rw [transferAll_frame env ts bs _ es hnot]
        simp [transferToBasicBlock, modify_heap]
      | succ k =>
        simp only [List.getElem?_cons_succ] at hb ht
        cases b with
        | none =>
          simp only [transferAll]
          exact ih bs x hd1 k es t hb ht
        | some s =>
          obtain ⟨dst, e⟩ := t0
          simp only [transferAll]
          rw [ih bs _ hd1 k es t hb ht]
          have hne : es ≠ s := by
            intro h
            have := hd 0 (k + 1) es (by simp [h]) (by simpa using hb)
            omega
          simp [transferToBasicBlock, modify_heap, hne]

theorem branchPrune_entries :
    ∀ (l : List (Option Nat)) (x : Executor) (l1 : List (Option Nat)) (x1 : Executor),
      branchPrune x l = Except.ok (l1, x1) →
      ∀ (i r : Nat), l1[i]? = some (some r) → l[i]? = some (some r) := by
  intro l
  induction l with
  | nil =>
    intro x l1 x1 h i r hi
    simp only [branchPrune] at h
    cases h
    simp at hi
  | cons a rest ih =>
    intro x l1 x1 h i r hi
    cases a with
    | none =>
      simp only [branchPrune] at h
      split at h
      · cases h
      · rename_i r1 x2 h2
        cases h
        cases i with
        | zero => simp at hi
        | succ k =>
          simp only [List.getElem?_cons_succ] at hi ⊢
          exact ih _ _ _ h2 k r hi
    | some s =>
      simp only [branchPrune] at h
      split_ifs at h
      · split at h
        · cases h
        · rename_i r1 x2 h2
          cases h
          cases i with
          | zero => simpa using hi
          | succ k =>
            simp only [List.getElem?_cons_succ] at hi ⊢
            exact ih _ _ _ h2 k r hi
      · split at h
        · cases h
        · rename_i x0 h0
          split at h
          · cases h
          · rename_i r1 x2 h2
            cases h
            cases i with
            | zero => simp at hi
            | succ k =>
              simp only [List.getElem?_cons_succ] at hi ⊢
              exact ih _ _ _ h2 k r hi

theorem toUnique_queries (env : Env) (x x1 : Executor) (state : Nat) (e e1 : Expr)
    (h : toUnique env x state e = Except.ok (e1, x1)) :
    ∃ q, x1 = { x with queries := q } := by
  unfold toUnique at h
  split at h
  · cases h
  · split_ifs at h
    · split at h
      · cases h
        exact ⟨_, rfl⟩
      · split at h
        · cases h
          exact ⟨_, rfl⟩
        · cases h
          exact ⟨_, rfl⟩
    · cases h
      exact ⟨x.queries, rfl⟩

theorem nodup_getElem?_inj {α : Type} (l : List α) (h : l.Nodup) (i j : Nat) (a : α)
    (hi : l[i]? = some a) (hj : l[j]? = some a) : i = j := by
  obtain ⟨h1, e1⟩ := List.getElem?_eq_some_iff.1 hi
  obtain ⟨h2, e2⟩ := List.getElem?_eq_some_iff.1 hj
  exact (List.Nodup.getElem_inj_iff h).1 (e1.trans e2.symm)

theorem branchSeeded_entries (env : Env) (x x2 : Executor) (state : Nat)
    (conditions : List Expr) (result0 result : List (Option Nat))
    (h : branchSeeded env x state conditions result0 = Except.ok (result, x2)) :
    ∀ (i r : Nat), result[i]? = some (some r) → result0[i]? = some (some r) := by
  unfold branchSeeded at h
  split at h
  · cases h
    exact fun _ _ hi => hi
  · split at h
    · cases h
    · split at h
      · cases h
      · split_ifs at h
        · exact branchPrune_entries _ _ _ _ h
        · cases h
          exact fun _ _ hi => hi

theorem branch_result_distinct (env : Env) (x x2 : Executor) (state : Nat)
    (conditions : List Expr) (result : List (Option Nat)) (hwf : x.WellFormed)
    (h : branch env x state conditions = Except.ok (result, x2)) :
    ∀ (i j es : Nat), result[i]? = some (some es) → result[j]? = some (some es) → i = j := by
  unfold branch at h
  by_cases hl : conditions.length = 0
  · rw [if_pos hl] at h
    cases h
  · rw [if_neg hl] at h
    cases hcur : x.heap state with
    | none =>
      rw [hcur] at h
      cases h
    | some st =>
      rw [hcur] at h
      simp only at h
      have hlt : state < x.nextState := by
        by_contra hge
        have := (hwf state (by omega)).1
        rw [hcur] at this
        cases this
      have hf0 : SameFrame x
          { x with forks := x.forks + (conditions.length - 1),
                   forksMult := x.forksMult + (conditions.length - 1) * st.multiplicity } :=
        ⟨rfl, rfl, rfl, rfl, rfl, rfl, fun _ => rfl⟩
      have hc0 : x.constraintsOf state = some st.constraints := by
        simp [constraintsOf, hcur]
      obtain ⟨x1, e1, -, -⟩ := branchLoop_spec state st.constraints
        (conditions.length - 1) _ (by rw [hf0.2.2.2.2.2.2 state]; exact hc0)
        (hwf.wf_of_frame hf0)
      simp only [] at e1
      rw [e1] at h
      simp only at h
      have hnodup : (state :: (List.range (conditions.length - 1)).map
          (fun k => x.nextState + k)).Nodup := by
        refine List.nodup_cons.2 ⟨?_, ?_⟩
        · intro hm
          obtain ⟨k, -, hk⟩ := List.mem_map.1 hm
          omega
        · exact List.Nodup.map (fun a b hab => by simpa using hab) (List.nodup_range _)
      split at h
      · cases h
      · rename_i r1 x3 hbs
        split at h
        · cases h
        · cases h
          have hent := branchSeeded_entries env _ _ _ _ _ _ hbs
          intro i j es hi hj
          have hi0 := hent i es hi
          have hj0 := hent j es hj
          rw [← List.map_cons, List.getElem?_map] at hi0 hj0
          have hi1 : (state :: (List.range (conditions.length - 1)).map
              (fun k => x.nextState + k))[i]? = some es := by
            cases hq : (state :: (List.range (conditions.length - 1)).map
              (fun k => x.nextState + k))[i]? with
            | none => rw [hq] at hi0; cases hi0
            | some v => rw [hq] at hi0; simpa using hi0
          have hj1 : (state :: (List.range (conditions.length - 1)).map
              (fun k => x.nextState + k))[j]? = some es := by
            cases hq : (state :: (List.range (conditions.length - 1)).map
              (fun k => x.nextState + k))[j]? with
            | none => rw [hq] at hj0; cases hj0
            | some v => rw [hq] at hj0; simpa using hj0
          exact nodup_getElem?_inj _ hnodup i j es hi1 hj1

theorem nodup_fst_unique (t : List (Nat × Expr)) (h : (t.map Prod.fst).Nodup) (b : Nat)
    (e e0 : Expr) (h1 : (b, e) ∈ t) (h2 : (b, e0) ∈ t) : e = e0 := by
  induction t with
  | nil => simp at h1
  | cons p rest ih =>
    simp only [List.map_cons, List.nodup_cons] at h
    rcases List.mem_cons.1 h1 with e1 | m1
    · rcases List.mem_cons.1 h2 with e2 | m2
      · rw [← e1] at e2
        exact (Prod.mk.inj e2).2.symm
      · have := List.mem_map_of_mem Prod.fst m2
        rw [← e1] at h
        exact (h.1 this).elim
    · rcases List.mem_cons.1 h2 with e2 | m2
      · have := List.mem_map_of_mem Prod.fst m1
        rw [← e2] at h
        exact (h.1 this).elim
      · exact ih h.2 m1 m2

end Executor

/-- C22: a Switch instruction executed by a live state of a well-formed
executor whose condition `toUnique` leaves non-constant, with a solver that
says of each case whether it may be true (`feas`) and of the default condition
whether it may be true (`defFeas`).  The default condition is the conjunction
of the negated matches of all cases.  The list of targets then has pairwise
distinct successor blocks, a block being listed exactly when it is the
successor of a feasible case or the default successor with a feasible default;
the condition of a block holds under an assignment exactly when the match
`cond == caseValue` of one of its feasible cases holds or, for the default
successor with a feasible default, no case matches; `branch` receives the
conditions of the targets in order; and every state `branch` returns at an index
is moved to the entry of the block at the same index. -/
theorem switch_arms (env : Env) (x x1 : Executor) (state : Nat) (st : ExecutionState)
    (cond cond1 : Expr) (defaultSucc : Nat) (cases : List (Nat × Expr))
    (feas : Nat × Expr → Bool) (defFeas : Bool)
    (hwf : x.WellFormed) (hst : x.heap state = some st)
    (hu : Executor.toUnique env x state cond = Except.ok (cond1, x1))
    (hnc : cond1.isConstant = false)
    (hfeas : ∀ q, ∀ c ∈ cases,
      (TimingSolver.mayBeTrue env q st (Expr.EqExpr_create cond1 c.2)).1 = some (feas c))
    (hdef : ∀ q, (TimingSolver.mayBeTrue env q st
      (cases.foldl (fun acc c => Expr.AndExpr_create acc
        (Expr.createIsZero (Expr.EqExpr_create cond1 c.2))) (Expr.Constant 1 1))).1 =
          some defFeas) :
    ∃ (targets : List (Nat × Expr)) (q : List Query),
      (targets.map Prod.fst).Nodup ∧
      (∀ b, b ∈ targets.map Prod.fst ↔
        (∃ c ∈ cases, feas c = true ∧ c.1 = b) ∨ (defFeas = true ∧ b = defaultSucc)) ∧
      (∀ b e, (b, e) ∈ targets → ∀ σ, Expr.holds σ e ↔
        (∃ c ∈ cases, feas c = true ∧ c.1 = b ∧ Expr.eval σ cond1 = Expr.eval σ c.2) ∨
          (defFeas = true ∧ b = defaultSucc ∧
            ∀ c ∈ cases, Expr.eval σ cond1 ≠ Expr.eval σ c.2)) ∧
      Executor.executeSwitch env x state cond defaultSucc cases =
        (match Executor.branch env { x1 with queries := q } state
            (targets.map Prod.snd) with
          | Except.error e => Except.error e
          | Except.ok (branches, x2) =>
            Except.ok (Executor.transferAll env x2 targets branches)) ∧
      ∀ (branches : List (Option Nat)) (x2 : Executor),
        Executor.branch env { x1 with queries := q } state (targets.map Prod.snd) =
          Except.ok (branches, x2) →
        ∀ (i es : Nat) (t : Nat × Expr), branches[i]? = some (some es) →
          targets[i]? = some t →
          (Executor.transferAll env x2 targets branches).heap es =
            (x2.heap es).map (fun s => { s with pc := env.blockEntry t.1 }) := by
  obtain ⟨q0, rfl⟩ := Executor.toUnique_queries env x x1 state cond cond1 hu
  obtain ⟨q1, hsw⟩ := Executor.switchCases_fold env st cond1 feas cases hfeas
    (Expr.Constant 1 1) [] q0
  rcases hmd : TimingSolver.mayBeTrue env q1 st
    (cases.foldl (fun acc c => Expr.AndExpr_create acc
      (Expr.createIsZero (Expr.EqExpr_create cond1 c.2))) (Expr.Constant 1 1)) with ⟨r, q2⟩
  have hr := hdef q1
  rw [hmd] at hr
  simp only at hr
  subst hr
  obtain ⟨a1, a2, a3, a4⟩ := Executor.targets_fold_inv cond1 hnc feas cases []
    List.nodup_nil (fun p hp => absurd hp (List.not_mem_nil _))
  have hdsem : ∀ σ, Expr.holds σ (cases.foldl (fun acc c => Expr.AndExpr_create acc
      (Expr.createIsZero (Expr.EqExpr_create cond1 c.2))) (Expr.Constant 1 1)) ↔
      ∀ c ∈ cases, Expr.eval σ cond1 ≠ Expr.eval σ c.2 := by
    intro σ
    unfold Expr.holds
    rw [Executor.default_fold_eval σ cond1 hnc cases (Expr.Constant 1 1) (Or.inr rfl)]
    by_cases hall : ∀ c ∈ cases, Expr.eval σ cond1 ≠ Expr.eval σ c.2
    · simp [hall, Expr.eval]
    · simp [hall, Expr.eval]
  refine ⟨if defFeas then Executor.addTarget
      (cases.foldl (fun ts c =>
        if feas c then Executor.addTarget ts c.1 (Expr.EqExpr_create cond1 c.2) else ts) [])
      defaultSucc (cases.foldl (fun acc c => Expr.AndExpr_create acc
        (Expr.createIsZero (Expr.EqExpr_create cond1 c.2))) (Expr.Constant 1 1))
    else cases.foldl (fun ts c =>
        if feas c then Executor.addTarget ts c.1 (Expr.EqExpr_create cond1 c.2) else ts) [],
    q2, ?_, ?_, ?_, ?_, ?_⟩
  · cases defFeas
    · simpa using a1
    · simp only [if_true]
      rw [Executor.addTarget_keys]
      split_ifs with hin
      · exact a1
      · exact List.Nodup.append a1 (List.nodup_singleton _)
          (by
            intro a ha hb
            rw [List.mem_singleton] at hb
            subst hb
            exact hin ha)
  · intro b
    cases defFeas
    · simp only [Bool.false_eq_true, if_false, false_and, or_false]
      rw [a3 b]
      simp
    · simp only [if_true, true_and]
      rw [Executor.addTarget_keys]
      split_ifs with hin
      · rw [a3 b]
        simp only [List.map_nil, List.not_mem_nil, false_or]
        constructor
        · intro h
          exact Or.inl h
        · rintro (h | rfl)
          · exact h
          · have := (a3 b).1 hin
            simpa using this
      · simp only [List.mem_append, List.mem_singleton]
        rw [a3 b]
        simp
  · intro b e hbe σ
    cases defFeas
    · simp only [Bool.false_eq_true, if_false, false_and, or_false] at hbe ⊢
      have h4 := a4 σ b
      simp only [List.not_mem_nil, false_and, exists_false, false_or] at h4
      rw [← h4]
      constructor
      · intro h
        exact ⟨e, hbe, h⟩
      · rintro ⟨e0, he0, h⟩
        rw [Executor.nodup_fst_unique _ a1 b e e0 hbe he0]
        exact h
    · simp only [if_true, true_and] at hbe ⊢
      have hnd : ((Executor.addTarget
          (cases.foldl (fun ts c =>
            if feas c then Executor.addTarget ts c.1 (Expr.EqExpr_create cond1 c.2) else ts) [])
          defaultSucc (cases.foldl (fun acc c => Expr.AndExpr_create acc
            (Expr.createIsZero (Expr.EqExpr_create cond1 c.2))) (Expr.Constant 1 1))).map
              Prod.fst).Nodup := by
        rw [Executor.addTarget_keys]
        split_ifs with hin
        · exact a1
        · exact List.Nodup.append a1 (List.nodup_singleton _)
            (by
              intro a ha hb
              rw [List.mem_singleton] at hb
              subst hb
              exact hin ha)
      have hex := Executor.addTarget_holds σ
        (cases.foldl (fun ts c =>
          if feas c then Executor.addTarget ts c.1 (Expr.EqExpr_create cond1 c.2) else ts) [])
        defaultSucc (cases.foldl (fun acc c => Expr.AndExpr_create acc
          (Expr.createIsZero (Expr.EqExpr_create cond1 c.2))) (Expr.Constant 1 1))
        (fun k0 old hold => by
          rw [Expr.OrExpr_create_right _ _ (a2 (k0, old) hold)]
          exact Expr.holds_Or σ _ _) b
      have h4 := a4 σ b
      simp only [List.not_mem_nil, false_and, exists_false, false_or] at h4
      rw [h4, hdsem σ] at hex
      rw [← hex]
      constructor
      · intro h
        exact ⟨e, hbe, h⟩
      · rintro ⟨e0, he0, h⟩
        rw [Executor.nodup_fst_unique _ hnd b e e0 hbe he0]
        exact h
  · unfold Executor.executeSwitch
    rw [hu]
    simp only [hnc, Bool.false_eq_true, if_false]
    have hst1 : ({ x with queries := q0 } : Executor).heap state = some st := hst
    rw [hst1]
    simp only []
    rw [hsw]
    simp only []
    rw [hmd]
    try rfl
  · intro branches x2 hb i es t hi ht
    have hwf2 : ({ x with queries := q2 } : Executor).WellFormed := fun i hi => hwf i hi
    exact Executor.transferAll_heap env _ _ _
      (Executor.branch_result_distinct env _ _ _ _ _ hwf2 hb) i es t hi ht

/-- C22 (witness): the single state switches on the symbolic byte `valueX`
with the values 1 and 3 leading to block 1 and the value 2, which the solver
excludes, to block 2; the default successor is block 0.  State 0 goes to
block 1 under `x == 3 or x == 1`, the new state 1 goes to block 0 under the
conjunction of the three negated matches, and no state goes to block 2. -/
theorem switch_arms_witness :
    switchOutcome (Executor.executeSwitch envSwitch execOne 0 valueX 0 switchTable) =
      some { added := [1],
             arms := [some (11, some (Expr.Or (Expr.Eq valueX (Expr.Constant 8 3))
                 (Expr.Eq valueX (Expr.Constant 8 1)))),
               some (10, some (Expr.And (Expr.And (Expr.And (Expr.Constant 1 1)
                 (Expr.Eq (Expr.Constant 1 0) (Expr.Eq valueX (Expr.Constant 8 1))))
                 (Expr.Eq (Expr.Constant 1 0) (Expr.Eq valueX (Expr.Constant 8 2))))
                 (Expr.Eq (Expr.Constant 1 0) (Expr.Eq valueX (Expr.Constant 8 3)))))] } ∧
    ∃ (targets : List (Nat × Expr)) (q : List Query),
      (targets.map Prod.fst).Nodup ∧
      (∀ b, b ∈ targets.map Prod.fst ↔
        (∃ c ∈ switchTable, switchFeasible c = true ∧ c.1 = b) ∨ (true = true ∧ b = 0)) ∧
      (∀ b e, (b, e) ∈ targets → ∀ σ, Expr.holds σ e ↔
        (∃ c ∈ switchTable, switchFeasible c = true ∧ c.1 = b ∧
            Expr.eval σ valueX = Expr.eval σ c.2) ∨
          (true = true ∧ b = 0 ∧ ∀ c ∈ switchTable, Expr.eval σ valueX ≠ Expr.eval σ c.2)) ∧
      Executor.executeSwitch envSwitch execOne 0 valueX 0 switchTable =
        (match Executor.branch envSwitch
            { ({ execOne with queries := [⟨[], valueX⟩] } : Executor) with queries := q } 0
            (targets.map Prod.snd) with
          | Except.error e => Except.error e
          | Except.ok (branches, x2) =>
            Except.ok (Executor.transferAll envSwitch x2 targets branches)) ∧
      ∀ (branches : List (Option Nat)) (x2 : Executor),
        Executor.branch envSwitch
            { ({ execOne with queries := [⟨[], valueX⟩] } : Executor) with queries := q } 0
            (targets.map Prod.snd) = Except.ok (branches, x2) →
        ∀ (i es : Nat) (t : Nat × Expr), branches[i]? = some (some es) →
          targets[i]? = some t →
          (Executor.transferAll envSwitch x2 targets branches).heap es =
            (x2.heap es).map (fun s => { s with pc := envSwitch.blockEntry t.1 }) :=
  ⟨by decide,
    switch_arms envSwitch execOne { execOne with queries := [⟨[], valueX⟩] } 0 initialState
      valueX valueX 0 switchTable switchFeasible true execOne_wellFormed rfl rfl rfl
      (by
        intro q c hc
        simp only [switchTable, List.mem_cons, List.mem_singleton, List.not_mem_nil,
          or_false] at hc
        rcases hc with rfl | rfl | rfl <;> rfl)
      (by
        intro q
        rfl)⟩

namespace Executor

end Executor

namespace ObjectState

end ObjectState

namespace ObjectState

end ObjectState

theorem getElem?_set_some {α : Type} (l : List α) (i p : Nat) (x z : α)
    (h : (l.set i x)[p]? = some z) :
    (p = i ∧ z = x ∧ l[i]? ≠ none) ∨ (p ≠ i ∧ l[p]? = some z) := by
  by_cases hp : i = p
  · subst hp
    rw [List.getElem?_set_self'] at h
    cases hl : l[i]? with
    | none => rw [hl] at h; cases h
    | some y =>
      rw [hl] at h
      simp at h
      exact Or.inl ⟨rfl, h.symm, by simp⟩
  · rw [List.getElem?_set_ne hp] at h
    exact Or.inr ⟨fun e => hp e.symm, h⟩


namespace AddressSpace

end AddressSpace

namespace AddressSpace

end AddressSpace


namespace Family

theorem Inv.update (f : Family) (K i : Nat) (a a1 : AddressSpace) (m1 : Memory)
    (hinv : f.Inv K) (hi : f.spaces[i]? = some a)
    (hnext : f.store.next ≤ m1.next)
    (hkey : a1.cowKey = a.cowKey)
    (hnew : ∀ e ∈ a1.objects, e.2 < m1.next ∧
      ∃ o, m1.cells e.2 = some o ∧ o.copyOnWriteOwner ≤ a1.cowKey)
    (hold : ∀ e ∈ a1.objects, f.store.next ≤ e.2 ∨ ∃ e0 ∈ a.objects, e0.2 = e.2)
    (hsingle : ∀ e ∈ a1.objects, ∀ e2 ∈ a1.objects, e.2 = e2.2 → e.1 = e2.1)
    (hframe : ∀ (j : Nat) (b : AddressSpace), j ≠ i → f.spaces[j]? = some b →
      ∀ e ∈ b.objects, m1.cells e.2 = f.store.cells e.2) :
    Inv { spaces := f.spaces.set i a1, store := m1 } K ∧
    ∀ j, j ≠ i → ∀ mo offset width,
      read { spaces := f.spaces.set i a1, store := m1 } j mo offset width =
        f.read j mo offset width := by
  refine ⟨⟨?_, ?_, ?_, ?_⟩, ?_⟩
  · intro p c hp e he
    rcases getElem?_set_some _ _ _ _ _ hp with ⟨-, hc, -⟩ | ⟨hne, hp1⟩
    · subst hc
      exact hnew e he
    · obtain ⟨hlt, o, ho, hle⟩ := hinv.bound p c hp1 e he
      exact ⟨lt_of_lt_of_le hlt hnext, o, by rw [hframe p c hne hp1 e he]; exact ho, hle⟩
  · intro p c hp
    rcases getElem?_set_some _ _ _ _ _ hp with ⟨-, hc, -⟩ | ⟨hne, hp1⟩
    · subst hc
      rw [hkey]
      exact hinv.keys i a hi
    · exact hinv.keys p c hp1
  · intro p q c d hpq hp hq e he e2 he2 heq o ho
    rcases getElem?_set_some _ _ _ _ _ hp with ⟨hpi, hc, -⟩ | ⟨hne, hp1⟩
    · subst hc
      rcases getElem?_set_some _ _ _ _ _ hq with ⟨hqi, -, -⟩ | ⟨hnq, hq1⟩
      · exact absurd (hpi.trans hqi.symm) hpq
      · have hlt := (hinv.bound q d hq1 e2 he2).1
        rcases hold e he with hge | ⟨e0, he0, h0⟩
        · omega
        · rw [hkey]
          refine hinv.sole i q a d (fun h => hnq h.symm) hi hq1 e0 he0 e2 he2
            (h0.trans heq) o ?_
          rw [h0, heq, ← hframe q d hnq hq1 e2 he2, ← heq]
          exact ho
    · rcases getElem?_set_some _ _ _ _ _ hq with ⟨hqi, hd, -⟩ | ⟨hnq, hq1⟩
      · subst hd
        have hlt := (hinv.bound p c hp1 e he).1
        rcases hold e2 he2 with hge | ⟨e0, he0, h0⟩
        · omega
        · refine hinv.sole p i c a hne hp1 hi e he e0 he0 (heq.trans h0.symm) o ?_
          rw [← hframe p c hne hp1 e he]
          exact ho
      · refine hinv.sole p q c d hpq hp1 hq1 e he e2 he2 heq o ?_
        rw [← hframe p c hne hp1 e he]
        exact ho
  · intro p c hp
    rcases getElem?_set_some _ _ _ _ _ hp with ⟨-, hc, -⟩ | ⟨-, hp1⟩
    · subst hc
      exact hsingle
    · exact hinv.single p c hp1
  · intro j hj mo offset width
    unfold read
    simp only [List.getElem?_set_ne (fun h => hj h.symm)]
    cases hb : f.spaces[j]? with
    | none => rfl
    | some b =>
      simp only [AddressSpace.readAt]
      cases hf : b.findObject mo with
      | none => rfl
      | some q =>
        obtain ⟨e, he, heq⟩ := AddressSpace.findObject_mem b mo q hf
        simp only []
        rw [← heq, hframe j b hj hb e he]

end Family



namespace AddressSpace

end AddressSpace


namespace Family

end Family


namespace Family

end Family

namespace Family

end Family



namespace Family

end Family

end Klee
